import Mathlib

/-!
# FAConverter: OBJ mesh model, STL writer and geometry kernel

A shallow embedding of `src/include/details/*.hpp`.

* The source's `float` is a type parameter `F` of the definitions, which use only the
  operations the source uses (`+`, `-`, `*`, `/`, unary minus, `<`, `!=`, `std::max`,
  the literals).  They are run in two ways: on `F32`, an executable model of IEEE 754
  binary32 (round to nearest, ties to even, one rounding per operation and no fused
  multiply-add, gradual underflow, overflow to infinity, signed zeros, a single
  not-a-number), and on ordered fields such as `ℚ`, where the results are the exact values
  that the binary32 results are compared with.  `std::sqrt` on `F32` is the correctly
  rounded square root; `std::sin`, `std::cos`, the constant `pi` and the in-memory byte
  image of a `float` are parameters (`sin`, `cos`, `floatBytes`, ...).
* Statements about integer coordinates of magnitude at most 32 (`Vertex.IsGrid`) are
  statements about binary32 values: in that range the sums and products of the ray test
  are exact and only its three quotients are rounded.
* `std::vector` is modelled by `List`; `operator[]` outside the range is undefined
  behaviour in the source and is modelled by `none`.
* `int` is a 32-bit two's complement integer, `size_t` a 64-bit unsigned integer,
  `uint32_t` a 32-bit unsigned integer; conversions between them are explicit.
-/

set_option autoImplicit false

namespace FAConverter

/-! ## Machine integers -/

/-- Conversion of a (mathematical) integer to `size_t`: reduction modulo `2^64`. -/
def toSizeT (i : Int) : Nat := (i % 2 ^ 64).toNat

/-- Conversion of a (mathematical) integer to `int`: reduction to `[-2^31, 2^31)`. -/
def toInt32 (i : Int) : Int := (i + 2 ^ 31) % 2 ^ 32 - 2 ^ 31

/-- Conversion of an unsigned value to `uint32_t`. -/
def toUInt32 (n : Nat) : Nat := n % 2 ^ 32

/-- The `size_t` subtraction `size - k` where `size` is the size of a vector (a value
below `2^64`) and `k` a small constant: it wraps around modulo `2^64` when `size < k`. -/
def sizeSub (size k : Nat) : Nat := if k ≤ size then size - k else size + 2 ^ 64 - k

/-- Little-endian image of an unsigned integer on `width` bytes. -/
def leBytes (width : Nat) (v : Nat) : List Nat :=
  (List.range width).map (fun j => v / 256 ^ j % 256)

/-! ## IEEE 754 binary32: the source's `float`

Finite values are kept as a sign and an exact rational magnitude; every operation computes
the exact result and rounds it once to the binary32 grid (round to nearest, ties to even),
with gradual underflow, overflow to infinity, signed zeros and a single not-a-number. -/

/-- The values of the type `float`: not-a-number, the two infinities, and the finite
values `± mag` with `mag ≥ 0` on the binary32 grid (a zero carries its sign). -/
inductive F32 where
  | nan : F32
  | inf (neg : Bool) : F32
  | fin (neg : Bool) (mag : ℚ) : F32
deriving DecidableEq, Repr

namespace F32

/-- The power `2^e` as a rational. -/
def pow2 (e : Int) : ℚ :=
  if 0 ≤ e then ((2 ^ e.toNat : Nat) : ℚ) else 1 / ((2 ^ (-e).toNat : Nat) : ℚ)

/-- Binary search for the exponent of `q`: the largest `e` with `lo ≤ e < lo + 2^bits` and
`2^e ≤ q`, given `2^lo ≤ q`. -/
def ilog2Aux (q : ℚ) : Nat → Int → Int
  | 0, lo => lo
  | b + 1, lo =>
    if pow2 (lo + (2 ^ b : Nat)) ≤ q then ilog2Aux q b (lo + (2 ^ b : Nat))
    else ilog2Aux q b lo

/-- The exponent `e` with `2^e ≤ q < 2^(e+1)`, searched in `-1024 ≤ e < 1024`. -/
def ilog2 (q : ℚ) : Int := ilog2Aux q 11 (-1024)

/-- The spacing of the binary32 grid at the magnitude `q`: `2^(e - 23)` where `e` is the
exponent of `q`, not below the exponent `-126` of the subnormal range. -/
def ulp (q : ℚ) : ℚ := pow2 (max (ilog2 q) (-126) - 23)

/-- Rounding of a non-negative rational to the nearest integer, ties to even. -/
def roundHalfEven (x : ℚ) : Int :=
  let f := x.floor
  let r := x - f
  if r < 1 / 2 then f else if 1 / 2 < r then f + 1 else if f % 2 = 0 then f else f + 1

/-- Rounding of a magnitude to the binary32 grid, the exponent not yet bounded above. -/
def rnd (q : ℚ) : ℚ := roundHalfEven (q / ulp q) * ulp q

/-- The same natural number, reached through a case distinction; it makes evaluation
compute the number before going on (`forceNat n k = k n`). -/
def forceNat {α : Type} (n : Nat) (k : Nat → α) : α :=
  match n with
  | 0 => k 0
  | m + 1 => k (m + 1)

/-- The same non-negative rational, rebuilt from its computed numerator and denominator
(`canon q k = k q` for `q ≥ 0`). -/
def canon {α : Type} (q : ℚ) (k : ℚ → α) : α :=
  forceNat q.num.toNat (fun n => forceNat q.den (fun d => k (mkRat n d)))

/-- The binary32 value of sign `neg` nearest to the magnitude `q`: beyond the largest
finite value the result is an infinity. -/
def round (neg : Bool) (q : ℚ) : F32 :=
  canon (rnd q) (fun r => if r < pow2 128 then fin neg r else inf neg)

/-- The rational value of a finite binary32 value (`0` for the others). -/
def toRat : F32 → ℚ
  | fin neg mag => if neg then -mag else mag
  | _ => 0

/-- The binary32 value nearest to the rational `q`; an exact zero takes the sign
`zeroNeg`. -/
def ofRat (q : ℚ) (zeroNeg : Bool) : F32 :=
  if q = 0 then fin zeroNeg 0 else round (decide (q < 0)) (if q < 0 then -q else q)

/-- Unary minus: the sign is flipped. -/
def neg : F32 → F32
  | nan => nan
  | inf s => inf (!s)
  | fin s a => fin (!s) a

/-- Addition. An exact zero sum is `-0` only when both operands are negative (zeros). -/
def add : F32 → F32 → F32
  | nan, _ => nan
  | _, nan => nan
  | inf s, inf t => if s = t then inf s else nan
  | inf s, fin _ _ => inf s
  | fin _ _, inf t => inf t
  | fin s a, fin t b => ofRat (toRat (fin s a) + toRat (fin t b)) (s && t)

/-- Subtraction: `x - y = x + (-y)`. -/
def sub (x y : F32) : F32 := add x (neg y)

/-- Multiplication. -/
def mul : F32 → F32 → F32
  | nan, _ => nan
  | _, nan => nan
  | inf s, inf t => inf (xor s t)
  | inf s, fin t b => if b = 0 then nan else inf (xor s t)
  | fin s a, inf t => if a = 0 then nan else inf (xor s t)
  | fin s a, fin t b => round (xor s t) (a * b)

/-- Division. -/
def div : F32 → F32 → F32
  | nan, _ => nan
  | _, nan => nan
  | inf _, inf _ => nan
  | inf s, fin t _ => inf (xor s t)
  | fin s _, inf t => fin (xor s t) 0
  | fin s a, fin t b =>
    if b = 0 then (if a = 0 then nan else inf (xor s t)) else round (xor s t) (a / b)

/-- Bitwise search of an integer square root: with `acc = 0` and `bits` bits, the largest
`s < 2^bits` with `s * s ≤ x`. -/
def isqrtAux (x : Nat) : Nat → Nat → Nat
  | 0, acc => acc
  | b + 1, acc =>
    if (acc + 2 ^ b) * (acc + 2 ^ b) ≤ x then isqrtAux x b (acc + 2 ^ b) else isqrtAux x b acc

/-- The square root of a positive binary32 magnitude, rounded to 24 significant bits
(nearest, ties to even): with `u` the spacing of the grid at the root, the root of
`a / u^2` is rounded to an integer. -/
def sqrtMag (a : ℚ) : ℚ :=
  let u := pow2 (ilog2 a / 2 - 23)
  let x := a / (u * u)
  let s := isqrtAux x.floor.toNat 25 0
  let h := ((s : ℚ) + 1 / 2) * ((s : ℚ) + 1 / 2)
  if x < h then s * u else if h < x then ((s : ℚ) + 1) * u
  else if s % 2 = 0 then s * u else ((s : ℚ) + 1) * u

/-- The function `std::sqrt` on `float`. -/
def sqrt : F32 → F32
  | nan => nan
  | inf s => if s then nan else inf false
  | fin s a => if a = 0 then fin s 0 else if s then nan else round false (sqrtMag a)

/-- The comparison `x < y`: false when an operand is not-a-number; the zeros are equal. -/
def lt : F32 → F32 → Bool
  | nan, _ => false
  | _, nan => false
  | inf s, inf t => s && !t
  | inf s, fin _ _ => s
  | fin _ _, inf t => !t
  | fin s a, fin t b => decide (toRat (fin s a) < toRat (fin t b))

/-- The comparison `x == y`: false when an operand is not-a-number; the zeros are equal. -/
def feq : F32 → F32 → Bool
  | nan, _ => false
  | _, nan => false
  | inf s, inf t => s == t
  | inf _, fin _ _ => false
  | fin _ _, inf _ => false
  | fin s a, fin t b => decide (toRat (fin s a) = toRat (fin t b))

/-- Repeated multiplication, used for constants such as `2^23`. -/
def npow (x : F32) : Nat → F32
  | 0 => fin false 1
  | n + 1 => mul (npow x n) x

/-- The value of a decimal literal `n / 10^k` with sign `neg`, such as `0.45f`. -/
def lit (neg : Bool) (n k : Nat) : F32 := round neg ((n : ℚ) / ((10 ^ k : Nat) : ℚ))

/-- The value is a finite binary32 value: its magnitude lies on the binary32 grid below
`2^128`. -/
def IsFinite : F32 → Prop
  | fin _ a => 0 ≤ a ∧ rnd a = a ∧ a < pow2 128
  | _ => False

instance : Zero F32 := ⟨fin false 0⟩

instance : One F32 := ⟨fin false 1⟩

instance : NatCast F32 := ⟨fun n => round false n⟩

instance : Neg F32 := ⟨neg⟩

instance : Add F32 := ⟨add⟩

instance : Sub F32 := ⟨sub⟩

instance : Mul F32 := ⟨mul⟩

instance : Div F32 := ⟨div⟩

instance : Pow F32 Nat := ⟨npow⟩

instance : LT F32 := ⟨fun x y => lt x y = true⟩

instance : DecidableRel (fun x y : F32 => x < y) := fun x y =>
  inferInstanceAs (Decidable (lt x y = true))

instance : BEq F32 := ⟨feq⟩

/-- The function `std::max` on two values: `(a < b) ? b : a`. -/
instance : Max F32 := ⟨fun x y => if x < y then y else x⟩

instance (x : F32) : Decidable (IsFinite x) := by
  cases x <;> unfold IsFinite <;> infer_instance

end F32

/-! ## BaseStructures.hpp -/

/-- `struct Vertex` (the default `w = 1.0f` is applied where a `Vertex` is
default-constructed by the source). -/
structure Vertex (F : Type) where
  x : F
  y : F
  z : F
  w : F
deriving DecidableEq, Repr

/-- `struct TextureVertex`. -/
structure TextureVertex (F : Type) where
  u : F
  v : F
  w : F
deriving DecidableEq, Repr

/-- `struct VertexNormal`. -/
structure VertexNormal (F : Type) where
  i : F
  j : F
  k : F
deriving DecidableEq, Repr

/-- `struct FaceVertexIndex`: three `int` indices. -/
structure FaceVertexIndex where
  vertexIndex : Int
  textureVertexIndex : Int
  normalIndex : Int
deriving DecidableEq, Repr

/-- `struct Face`. -/
structure Face where
  vertices : List FaceVertexIndex
deriving DecidableEq, Repr

section Scalars

variable {F : Type} [Add F] [Sub F] [Mul F] [Div F] [Neg F] [Zero F] [One F] [NatCast F]
  [Pow F ℕ] [LT F] [DecidableRel (fun a b : F => a < b)] [Max F] [BEq F]

/-- `Vertex::operator-`. -/
def Vertex.sub (a b : Vertex F) : Vertex F :=
  ⟨a.x - b.x, a.y - b.y, a.z - b.z, a.w - b.w⟩

/-- `Vertex::crossProduct`: the brace initialiser gives three fields, `w` takes its
default member initialiser `1.0f`. -/
def Vertex.crossProduct (a v : Vertex F) : Vertex F :=
  ⟨a.y * v.z - a.z * v.y, a.z * v.x - a.x * v.z, a.x * v.y - a.y * v.x, 1⟩

/-- `Vertex::dotProduct`. -/
def Vertex.dotProduct (a v : Vertex F) : F :=
  a.x * v.x + a.y * v.y + a.z * v.z

/-! ## GeometryUtils.hpp -/

/-- `calculateNormal`, with the list of the divisions it performs, each as the pair
(dividend, divisor): the three statements `normal[i] /= length` run under the guard
`length != 0`, and no division runs when the guard fails. -/
def calculateNormalTraced (sqrt : F → F) (v0 v1 v2 : Vertex F) :
    (F × F × F) × List (F × F) :=
  let u0 := v1.x - v0.x
  let u1 := v1.y - v0.y
  let u2 := v1.z - v0.z
  let w0 := v2.x - v0.x
  let w1 := v2.y - v0.y
  let w2 := v2.z - v0.z
  let n0 := u1 * w2 - u2 * w1
  let n1 := u2 * w0 - u0 * w2
  let n2 := u0 * w1 - u1 * w0
  let length := sqrt (n0 * n0 + n1 * n1 + n2 * n2)
  if length != 0 then
    ((n0 / length, n1 / length, n2 / length), [(n0, length), (n1, length), (n2, length)])
  else ((n0, n1, n2), [])

/-- `calculateNormal`: the result `std::array<float, 3>` is a triple. -/
def calculateNormal (sqrt : F → F) (v0 v1 v2 : Vertex F) : F × F × F :=
  (calculateNormalTraced sqrt v0 v1 v2).1

/-- `normalize`. -/
def normalize (sqrt : F → F) (v : Vertex F) : Vertex F :=
  let length := sqrt (v.x * v.x + v.y * v.y + v.z * v.z)
  ⟨v.x / length, v.y / length, v.z / length, 1⟩

/-- `std::numeric_limits<float>::epsilon()`, i.e. `2^-23`. -/
def epsilon : F := 1 / 2 ^ 23

/-- `rayIntersectsTriangle` (Möller–Trumbore). -/
def rayIntersectsTriangle (ray_origin ray_vector a b c : Vertex F) : Bool :=
  let edge1 := b.sub a
  let edge2 := c.sub a
  let h := ray_vector.crossProduct edge2
  let det := edge1.dotProduct h
  if -epsilon < det ∧ det < epsilon then false
  else
    let inv_det := 1 / det
    let s := ray_origin.sub a
    let u := inv_det * s.dotProduct h
    if u < 0 ∨ 1 < u then false
    else
      let q := s.crossProduct edge1
      let v := inv_det * ray_vector.dotProduct q
      if v < 0 ∨ 1 < u + v then false
      else
        let t := inv_det * edge2.dotProduct q
        decide (epsilon < t)

/-- `triangleArea`. -/
def triangleArea (sqrt : F → F) (v0 v1 v2 : Vertex F) : F :=
  let edge1 := v1.sub v0
  let edge2 := v2.sub v0
  let crossProduct := edge1.crossProduct edge2
  (1 / 2) * sqrt (crossProduct.dotProduct crossProduct)

/-- `tetrahedronVolume`. -/
def tetrahedronVolume (v0 v1 v2 : Vertex F) : F :=
  v0.dotProduct (v1.crossProduct v2) / 6

/-! ## Matrix4x4.hpp -/

/-- `class Matrix4x4`: the private member `_m`, a 4 by 4 array of `float`. -/
structure Matrix4x4 (F : Type) where
  m : Fin 4 → Fin 4 → F

/-- The assignment `matrix._m[i][j] = v`. -/
def Matrix4x4.set (a : Matrix4x4 F) (i j : Fin 4) (v : F) : Matrix4x4 F :=
  ⟨fun r c => if r = i ∧ c = j then v else a.m r c⟩

/-- The default constructor `Matrix4x4()`: every row filled with `0.0f`, then
`_m[3][3] = 1.0f`. -/
def Matrix4x4.ctor : Matrix4x4 F :=
  (Matrix4x4.mk (fun _ _ => (0 : F))).set 3 3 1

/-- `Matrix4x4::identity`. -/
def Matrix4x4.identity : Matrix4x4 F :=
  [(0 : Fin 4), 1, 2, 3].foldl (fun a i => a.set i i 1) Matrix4x4.ctor

/-- `Matrix4x4::translation`. -/
def Matrix4x4.translation (tx ty tz : F) : Matrix4x4 F :=
  (((Matrix4x4.identity.set 0 3 tx).set 1 3 ty).set 2 3 tz)

/-- `Matrix4x4::scaling`. -/
def Matrix4x4.scaling (sx sy sz : F) : Matrix4x4 F :=
  (((Matrix4x4.identity.set 0 0 sx).set 1 1 sy).set 2 2 sz)

/-- `Matrix4x4::rotationX`; `pi`, `cos`, `sin` stand for `M_PI`, `std::cos`, `std::sin`. -/
def Matrix4x4.rotationX (pi : F) (cos sin : F → F) (angle : F) : Matrix4x4 F :=
  let rad := angle * pi / 180
  ((((Matrix4x4.identity.set 1 1 (cos rad)).set 1 2 (-sin rad)).set 2 1 (sin rad)).set 2 2
    (cos rad))

/-- `Matrix4x4::rotationY`. -/
def Matrix4x4.rotationY (pi : F) (cos sin : F → F) (angle : F) : Matrix4x4 F :=
  let rad := angle * pi / 180
  ((((Matrix4x4.identity.set 0 0 (cos rad)).set 0 2 (sin rad)).set 2 0 (-sin rad)).set 2 2
    (cos rad))

/-- `Matrix4x4::rotationZ`. -/
def Matrix4x4.rotationZ (pi : F) (cos sin : F → F) (angle : F) : Matrix4x4 F :=
  let rad := angle * pi / 180
  ((((Matrix4x4.identity.set 0 0 (cos rad)).set 0 1 (-sin rad)).set 1 0 (sin rad)).set 1 1
    (cos rad))

/-- `Matrix4x4::operator*(const Matrix4x4&)`: `result._m[i][j]` starts at `0.0f` and
accumulates `_m[i][k] * other._m[k][j]` for `k = 0, 1, 2, 3`. -/
def Matrix4x4.mul (a other : Matrix4x4 F) : Matrix4x4 F :=
  ⟨fun i j => [(0 : Fin 4), 1, 2, 3].foldl (fun acc k => acc + a.m i k * other.m k j) 0⟩

/-- `Matrix4x4::operator*(const Vertex&)`. -/
def Matrix4x4.mulVertex (a : Matrix4x4 F) (vertex : Vertex F) : Vertex F :=
  { x := a.m 0 0 * vertex.x + a.m 0 1 * vertex.y + a.m 0 2 * vertex.z + a.m 0 3 * vertex.w
    y := a.m 1 0 * vertex.x + a.m 1 1 * vertex.y + a.m 1 2 * vertex.z + a.m 1 3 * vertex.w
    z := a.m 2 0 * vertex.x + a.m 2 1 * vertex.y + a.m 2 2 * vertex.z + a.m 2 3 * vertex.w
    w := a.m 3 0 * vertex.x + a.m 3 1 * vertex.y + a.m 3 2 * vertex.z + a.m 3 3 * vertex.w }

/-! ## ModelOBJ.hpp -/

/-- `class Model<FileType::OBJ>`: its four private vectors. -/
structure Model (F : Type) where
  vertices : List (Vertex F)
  textureVertices : List (TextureVertex F)
  vertexNormals : List (VertexNormal F)
  faces : List Face

/-- The default-constructed (empty) model. -/
def Model.empty : Model F := ⟨[], [], [], []⟩

/-- The lookup `vertices[idx - 1]` for an `int` index `idx`: the `int` difference is
converted to `size_t`; outside the vector the source has undefined behaviour. -/
def Model.vertexAt (m : Model F) (idx : Int) : Option (Vertex F) :=
  m.vertices[toSizeT (idx - 1)]?

/-- The lookup `vertexNormals[idx - 1]`. -/
def Model.normalAt (m : Model F) (idx : Int) : Option (VertexNormal F) :=
  m.vertexNormals[toSizeT (idx - 1)]?

/-- The three `const Vertex&` bindings `v0`, `v1`, `v2` that open the body of every
fan loop (`write`, `isPointInside`, `calculateSurfaceArea`) at loop index `i`. -/
def fanCorners (m : Model F) (face : Face) (i : Nat) :
    Option (Vertex F × Vertex F × Vertex F) := do
  let c0 ← face.vertices[0]?
  let v0 ← m.vertexAt c0.vertexIndex
  let c1 ← face.vertices[i]?
  let v1 ← m.vertexAt c1.vertexIndex
  let c2 ← face.vertices[i + 1]?
  let v2 ← m.vertexAt c2.vertexIndex
  pure (v0, v1, v2)

/-- Number of iterations of `for (size_t i = 1; i < face.vertices.size() - 1; ++i)`:
the bound is computed in `size_t`. -/
def fanTrips (face : Face) : Nat := sizeSub face.vertices.length 1 - 1

/-- The first loop of `write<STL>`: `numTriangles += face.vertices.size() - 2` with a
`uint32_t` accumulator and a `size_t` right-hand side. -/
def numTriangles (m : Model F) : Nat :=
  m.faces.foldl
    (fun acc face => toUInt32 ((acc + sizeSub face.vertices.length 2) % 2 ^ 64)) 0

/-- The bytes of `sizeof(float) * 3` starting at `&v.x`: the fields `x`, `y`, `z`. -/
def vertexBytes (floatBytes : F → List Nat) (v : Vertex F) : List Nat :=
  floatBytes v.x ++ floatBytes v.y ++ floatBytes v.z

/-- The bytes written for one triangle by the body of the inner loop of `write<STL>`. -/
def triangleRecord (floatBytes : F → List Nat) (normal : F × F × F) (v0 v1 v2 : Vertex F) :
    List Nat :=
  (floatBytes normal.1 ++ floatBytes normal.2.1 ++ floatBytes normal.2.2)
    ++ vertexBytes floatBytes v0 ++ vertexBytes floatBytes v1 ++ vertexBytes floatBytes v2
    ++ leBytes 2 0

/-- The inner loop of `write<STL>` for one face: `trips` iterations remain, the loop
index is `i`. -/
def writeTriangles (floatBytes : F → List Nat) (sqrt : F → F) (m : Model F) (face : Face) :
    Nat → Nat → Option (List Nat)
  | 0, _ => some []
  | trips + 1, i => do
    let (v0, v1, v2) ← fanCorners m face i
    let c0 ← face.vertices[0]?
    let normal ←
      if 0 < c0.normalIndex then
        (m.normalAt c0.normalIndex).map (fun vn => (vn.i, vn.j, vn.k))
      else some (calculateNormal sqrt v0 v1 v2)
    let rest ← writeTriangles floatBytes sqrt m face trips (i + 1)
    pure (triangleRecord floatBytes normal v0 v1 v2 ++ rest)

/-- The outer loop `for (const auto& face : faces)` of `write<STL>`. -/
def writeFaces (floatBytes : F → List Nat) (sqrt : F → F) (m : Model F) :
    List Face → Option (List Nat)
  | [] => some []
  | face :: rest => do
    let a ← writeTriangles floatBytes sqrt m face (fanTrips face) 1
    let b ← writeFaces floatBytes sqrt m rest
    pure (a ++ b)

/-- `Model<FileType::OBJ>::write<FileType::STL>`: the bytes written to the (successfully
opened) file; `none` when the source runs into undefined behaviour. -/
def writeSTL (floatBytes : F → List Nat) (sqrt : F → F) (m : Model F) : Option (List Nat) := do
  let body ← writeFaces floatBytes sqrt m m.faces
  pure (List.replicate 80 0 ++ leBytes 4 (numTriangles m) ++ body)

/-- `Model<FileType::OBJ>::applyTransform`. -/
def applyTransform (m : Model F) (transform : Matrix4x4 F) : Model F :=
  { m with vertices := m.vertices.map transform.mulVertex }

/-- The `ray_vector` of `isPointInside`. -/
def rayVector : Vertex F := ⟨1, 0, 0, 0⟩

/-- The inner loop of `isPointInside` for one face: the final value of
`faceIntersected`. -/
def faceIntersected (m : Model F) (point : Vertex F) (face : Face) :
    Nat → Nat → Option Bool
  | 0, _ => some false
  | trips + 1, i => do
    let (v0, v1, v2) ← fanCorners m face i
    let maxX := max (max v0.x v1.x) v2.x
    if maxX < point.x then faceIntersected m point face trips (i + 1)
    else if rayIntersectsTriangle point rayVector v0 v1 v2 then some true
    else faceIntersected m point face trips (i + 1)

/-- The outer loop of `isPointInside`: the `int` counter `intersections` (overflowing it
is undefined behaviour). -/
def countIntersections (m : Model F) (point : Vertex F) : List Face → Int → Option Int
  | [], intersections => some intersections
  | face :: rest, intersections => do
    let hit ← faceIntersected m point face (fanTrips face) 1
    if hit then
      if intersections + 1 < 2 ^ 31 then countIntersections m point rest (intersections + 1)
      else none
    else countIntersections m point rest intersections

/-- `Model<FileType::OBJ>::isPointInside`. -/
def isPointInside (m : Model F) (point : Vertex F) : Option Bool :=
  (countIntersections m point m.faces 0).map (fun intersections => intersections % 2 == 1)

/-- The inner loop of `calculateSurfaceArea` for one face, threading `totalArea`. -/
def areaTriangles (sqrt : F → F) (m : Model F) (face : Face) : Nat → Nat → F → Option F
  | 0, _, totalArea => some totalArea
  | trips + 1, i, totalArea => do
    let (v0, v1, v2) ← fanCorners m face i
    areaTriangles sqrt m face trips (i + 1) (totalArea + triangleArea sqrt v0 v1 v2)

/-- The outer loop of `calculateSurfaceArea`. -/
def areaFaces (sqrt : F → F) (m : Model F) : List Face → F → Option F
  | [], totalArea => some totalArea
  | face :: rest, totalArea => do
    let a ← areaTriangles sqrt m face (fanTrips face) 1 totalArea
    areaFaces sqrt m rest a

/-- `Model<FileType::OBJ>::calculateSurfaceArea`. -/
def calculateSurfaceArea (sqrt : F → F) (m : Model F) : Option F :=
  areaFaces sqrt m m.faces 0

/-- `Model<FileType::OBJ>::calculateVolume`. -/
def calculateVolume (_m : Model F) : F := 0

/-! ### `Model<FileType::OBJ>::read` -/

/-- `std::isspace` in the "C" locale. -/
def isSpace (c : Char) : Bool :=
  c = ' ' || c = '\t' || c = '\n' || c = '\x0b' || c = '\x0c' || c = '\r'

/-- Decimal digits. -/
def isDigit (c : Char) : Bool := decide ('0' ≤ c) && decide (c ≤ '9')

/-- An input string stream: the characters not yet consumed and the fail bit. -/
structure IStream where
  rest : List Char
  fail : Bool
deriving DecidableEq, Repr

/-- `operator>>(std::string&)`: `none` when the sentry fails (the target is left
untouched), else the next whitespace-delimited word. -/
def extractString (s : IStream) : Option (List Char) × IStream :=
  if s.fail then (none, s)
  else
    match s.rest.dropWhile isSpace with
    | [] => (none, ⟨[], true⟩)
    | c :: cs =>
      (some ((c :: cs).takeWhile (fun d => !isSpace d)),
        ⟨(c :: cs).dropWhile (fun d => !isSpace d), false⟩)

/-- `operator>>(int&)`: `none` when the sentry fails (the target is left untouched);
otherwise the value stored: the parsed number, `0` when no digit is found and the
nearest `int` when the number is out of range (both set the fail bit). -/
def extractInt (s : IStream) : Option Int × IStream :=
  if s.fail then (none, s)
  else
    match s.rest.dropWhile isSpace with
    | [] => (none, ⟨[], true⟩)
    | c :: cs =>
      let body := if c = '-' ∨ c = '+' then cs else c :: cs
      let digits := body.takeWhile isDigit
      let rest := body.dropWhile isDigit
      if digits = [] then (some 0, ⟨rest, true⟩)
      else
        let magnitude : Nat := digits.foldl (fun acc d => 10 * acc + (d.toNat - 48)) 0
        let value : Int := if c = '-' then -(magnitude : Int) else (magnitude : Int)
        if value < -2 ^ (31 : Nat) then (some (-2 ^ (31 : Nat)), ⟨rest, true⟩)
        else if 2 ^ (31 : Nat) - 1 < value then (some (2 ^ (31 : Nat) - 1), ⟨rest, true⟩)
        else (some value, ⟨rest, false⟩)

/-- `operator>>(float&)`: `none` when the sentry fails (the target is left untouched).
The conversion itself is the library's and is the parameter `parseFloat`: applied to the
input at the first non-blank character it gives the value stored and, when the conversion
succeeds, the input left (no input left stands for a set fail bit). -/
def extractFloat (parseFloat : List Char → F × Option (List Char)) (s : IStream) :
    Option F × IStream :=
  if s.fail then (none, s)
  else
    match s.rest.dropWhile isSpace with
    | [] => (none, ⟨[], true⟩)
    | c :: cs =>
      match parseFloat (c :: cs) with
      | (value, some rest) => (some value, ⟨rest, false⟩)
      | (value, none) => (some value, ⟨[], true⟩)

/-- The words that the loop `while (iss >> vertex)` extracts from the characters left in
the stream; `cur` is the word being read. -/
def wordsAux : List Char → List Char → List (List Char)
  | [], cur => if cur = [] then [] else [cur]
  | c :: cs, cur =>
    if isSpace c then (if cur = [] then wordsAux cs [] else cur :: wordsAux cs [])
    else wordsAux cs (cur ++ [c])

/-- The words left in a stream (none when the fail bit is set). -/
def streamWords (s : IStream) : List (List Char) :=
  if s.fail then [] else wordsAux s.rest []

/-- The negative-index branch of `read`:
`index = count - index` with `count` a `size_t` and `index` an `int`. -/
def resolveIndex (count : Nat) (index : Int) : Int :=
  if index < 0 then toInt32 (toSizeT ((count : Int) - (toSizeT index : Int))) else index

/-- The body of `while (iss >> vertex)` in the `f` branch of `read`, for one word:
`none` when the uninitialised `vertexIndex` is read. -/
def readFaceVertex (m : Model F) (word : List Char) : Option FaceVertexIndex :=
  let viss : IStream := ⟨word.map (fun c => if c = '/' then ' ' else c), false⟩
  let r1 := extractInt viss
  let r2 := extractInt r1.2
  let r3 := extractInt r2.2
  match r1.1 with
  | none => none
  | some vertexIndex =>
    some
      { vertexIndex := resolveIndex m.vertices.length vertexIndex
        textureVertexIndex := resolveIndex m.textureVertices.length (r2.1.getD 0)
        normalIndex := resolveIndex m.vertexNormals.length (r3.1.getD 0) }

/-- The words of an `f` line turned into face corners, in order. -/
def readFaceVertices (m : Model F) : List (List Char) → Option (List FaceVertexIndex)
  | [] => some []
  | word :: rest => do
    let faceVertex ← readFaceVertex m word
    let others ← readFaceVertices m rest
    pure (faceVertex :: others)

/-- The body of `while (std::getline(file, line))` in `read`: `none` when a field that
was never written is used (undefined behaviour). -/
def readLine (parseFloat : List Char → F × Option (List Char)) (m : Model F)
    (line : List Char) : Option (Model F) :=
  let p := extractString ⟨line, false⟩
  let iss := p.2
  let linePrefix := p.1.getD []
  if linePrefix = ['v'] then
    let rx := extractFloat parseFloat iss
    let ry := extractFloat parseFloat rx.2
    let rz := extractFloat parseFloat ry.2
    let rw := extractFloat parseFloat rz.2
    match rx.1, ry.1, rz.1 with
    | some x, some y, some z =>
      some { m with vertices := m.vertices ++ [⟨x, y, z, rw.1.getD 1⟩] }
    | _, _, _ => none
  else if linePrefix = ['v', 't'] then
    let ru := extractFloat parseFloat iss
    let rv := extractFloat parseFloat ru.2
    let rw := extractFloat parseFloat rv.2
    match ru.1, rv.1 with
    | some u, some v =>
      some { m with textureVertices := m.textureVertices ++ [⟨u, v, rw.1.getD 0⟩] }
    | _, _ => none
  else if linePrefix = ['v', 'n'] then
    let ri := extractFloat parseFloat iss
    let rj := extractFloat parseFloat ri.2
    let rk := extractFloat parseFloat rj.2
    match ri.1, rj.1, rk.1 with
    | some i, some j, some k =>
      some { m with vertexNormals := m.vertexNormals ++ [⟨i, j, k⟩] }
    | _, _, _ => none
  else if linePrefix = ['f'] then
    (readFaceVertices m (streamWords iss)).map
      (fun corners => { m with faces := m.faces ++ [⟨corners⟩] })
  else some m

/-- The lines that successive calls of `std::getline` deliver; `cur` is the line being
read. -/
def getLinesAux : List Char → List Char → List (List Char)
  | [], cur => if cur = [] then [] else [cur]
  | c :: cs, cur => if c = '\n' then cur :: getLinesAux cs [] else getLinesAux cs (cur ++ [c])

/-- The loop of `read` over a list of lines. -/
def readLines (parseFloat : List Char → F × Option (List Char)) :
    Model F → List (List Char) → Option (Model F)
  | m, [] => some m
  | m, line :: rest => do
    let m1 ← readLine parseFloat m line
    readLines parseFloat m1 rest

/-- `Model<FileType::OBJ>::read` on the content of a (successfully opened) file. -/
def read (parseFloat : List Char → F × Option (List Char)) (m : Model F)
    (content : List Char) : Option (Model F) :=
  readLines parseFloat m (getLinesAux content [])

/-! ## Specification-side definitions -/

/-- Fan decomposition in the words of the specification: the triangles
`(c0, c_i, c_(i+1))` for `i = 1 .. m - 2`, in increasing `i`. -/
def fanSpec {α : Type} : List α → List (α × α × α)
  | [] => []
  | c0 :: rest => (rest.zip rest.tail).map (fun p => (c0, p.1, p.2))

/-- The fan triangles of all faces, faces taken in file order. -/
def meshTriangles (m : Model F) :
    List (FaceVertexIndex × FaceVertexIndex × FaceVertexIndex) :=
  m.faces.flatMap (fun face => fanSpec face.vertices)

/-- Sum over the faces of `corner_count - 2`. -/
def triangleTotal (m : Model F) : Nat :=
  (m.faces.map (fun face => face.vertices.length - 2)).sum

/-- The positions of the three corners of a triangle. -/
def resolveTriangle (m : Model F) (t : FaceVertexIndex × FaceVertexIndex × FaceVertexIndex) :
    Option (Vertex F × Vertex F × Vertex F) := do
  let v0 ← m.vertexAt t.1.vertexIndex
  let v1 ← m.vertexAt t.2.1.vertexIndex
  let v2 ← m.vertexAt t.2.2.vertexIndex
  pure (v0, v1, v2)

/-- The normal written for a triangle: the stored normal named by the first corner when
its normal index is positive, else the normal computed from the three positions. -/
def triangleNormal (sqrt : F → F) (m : Model F)
    (t : FaceVertexIndex × FaceVertexIndex × FaceVertexIndex)
    (v : Vertex F × Vertex F × Vertex F) : Option (F × F × F) :=
  if 0 < t.1.normalIndex then (m.normalAt t.1.normalIndex).map (fun vn => (vn.i, vn.j, vn.k))
  else some (calculateNormal sqrt v.1 v.2.1 v.2.2)

/-- The 50-byte record of one triangle. -/
def emitTriangle (floatBytes : F → List Nat) (sqrt : F → F) (m : Model F)
    (t : FaceVertexIndex × FaceVertexIndex × FaceVertexIndex) : Option (List Nat) := do
  let v ← resolveTriangle m t
  let normal ← triangleNormal sqrt m t v
  pure (triangleRecord floatBytes normal v.1 v.2.1 v.2.2)

/-- Sequencing of partial results: all of them, in order, or `none`. -/
def allSome {α β : Type} (g : α → Option β) : List α → Option (List β)
  | [] => some []
  | a :: rest => do
    let b ← g a
    let bs ← allSome g rest
    pure (b :: bs)

/-- A mesh whose faces have at least 3 corners and whose corner indices are valid. -/
def ValidMesh (m : Model F) : Prop :=
  ∀ face ∈ m.faces, 3 ≤ face.vertices.length ∧
    ∀ c ∈ face.vertices, (0 < c.vertexIndex ∧ c.vertexIndex ≤ m.vertices.length) ∧
      c.normalIndex ≤ m.vertexNormals.length

/-- Area accumulation over a list of triangles, in order, threading the running total. -/
def sumAreas (sqrt : F → F) (m : Model F) :
    List (FaceVertexIndex × FaceVertexIndex × FaceVertexIndex) → F → Option F
  | [], total => some total
  | t :: rest, total => do
    let v ← resolveTriangle m t
    sumAreas sqrt m rest (total + triangleArea sqrt v.1 v.2.1 v.2.2)

/-- Re-reading a little-endian unsigned integer. -/
def decodeLE (bytes : List Nat) : Nat := bytes.foldr (fun b acc => b + 256 * acc) 0

/-! ### Cube meshes -/

/-- The position `(x, y, z)` of a vertex. -/
def Vertex.xyz (v : Vertex F) : F × F × F := (v.x, v.y, v.z)

/-- The 8 corners of the axis-aligned cube with least corner `o` and side `s`. -/
def cubeCorners (o : F × F × F) (s : F) : List (F × F × F) :=
  [(o.1, o.2.1, o.2.2), (o.1 + s, o.2.1, o.2.2),
   (o.1, o.2.1 + s, o.2.2), (o.1 + s, o.2.1 + s, o.2.2),
   (o.1, o.2.1, o.2.2 + s), (o.1 + s, o.2.1, o.2.2 + s),
   (o.1, o.2.1 + s, o.2.2 + s), (o.1 + s, o.2.1 + s, o.2.2 + s)]

/-- The 6 faces of that cube, each as its 4 corners in one cyclic order: the faces
`x = o.x`, `x = o.x + s`, `y = o.y`, `y = o.y + s`, `z = o.z`, `z = o.z + s`. -/
def cubeFace (o : F × F × F) (s : F) : Fin 6 → List (F × F × F)
  | 0 => [(o.1, o.2.1, o.2.2), (o.1, o.2.1 + s, o.2.2),
          (o.1, o.2.1 + s, o.2.2 + s), (o.1, o.2.1, o.2.2 + s)]
  | 1 => [(o.1 + s, o.2.1, o.2.2), (o.1 + s, o.2.1 + s, o.2.2),
          (o.1 + s, o.2.1 + s, o.2.2 + s), (o.1 + s, o.2.1, o.2.2 + s)]
  | 2 => [(o.1, o.2.1, o.2.2), (o.1 + s, o.2.1, o.2.2),
          (o.1 + s, o.2.1, o.2.2 + s), (o.1, o.2.1, o.2.2 + s)]
  | 3 => [(o.1, o.2.1 + s, o.2.2), (o.1 + s, o.2.1 + s, o.2.2),
          (o.1 + s, o.2.1 + s, o.2.2 + s), (o.1, o.2.1 + s, o.2.2 + s)]
  | 4 => [(o.1, o.2.1, o.2.2), (o.1 + s, o.2.1, o.2.2),
          (o.1 + s, o.2.1 + s, o.2.2), (o.1, o.2.1 + s, o.2.2)]
  | 5 => [(o.1, o.2.1, o.2.2 + s), (o.1 + s, o.2.1, o.2.2 + s),
          (o.1 + s, o.2.1 + s, o.2.2 + s), (o.1, o.2.1 + s, o.2.2 + s)]

/-- A list that names the elements of `ref` in cyclic order: from any starting point, in
either direction. -/
def IsCyclicListing {α : Type} (l ref : List α) : Prop :=
  ∃ k : Nat, l = ref.rotate k ∨ l = ref.reverse.rotate k

/-- The positions of the corners of a face, in the order of the face. -/
def facePositions (m : Model F) (face : Face) : Option (List (F × F × F)) :=
  allSome (fun c => (m.vertexAt c.vertexIndex).map Vertex.xyz) face.vertices

/-- The face lists, in cyclic order, the 4 corners of face `j` of the cube. -/
def IsCubeFace (m : Model F) (o : F × F × F) (s : F) (j : Fin 6) (face : Face) : Prop :=
  ∃ ps, facePositions m face = some ps ∧ IsCyclicListing ps (cubeFace o s j)

/-- A cube mesh as an OBJ file would give it: the 8 corners of the cube with least corner
`o` and side `s` and its 6 quad faces, wound counter-clockwise seen from outside. -/
def standardCube (o : F × F × F) (s : F) : Model F :=
  { vertices := (cubeCorners o s).map (fun q => ⟨q.1, q.2.1, q.2.2, 1⟩)
    textureVertices := []
    vertexNormals := []
    faces :=
      [⟨[⟨1, 0, 0⟩, ⟨3, 0, 0⟩, ⟨4, 0, 0⟩, ⟨2, 0, 0⟩]⟩,
       ⟨[⟨5, 0, 0⟩, ⟨6, 0, 0⟩, ⟨8, 0, 0⟩, ⟨7, 0, 0⟩]⟩,
       ⟨[⟨1, 0, 0⟩, ⟨2, 0, 0⟩, ⟨6, 0, 0⟩, ⟨5, 0, 0⟩]⟩,
       ⟨[⟨3, 0, 0⟩, ⟨7, 0, 0⟩, ⟨8, 0, 0⟩, ⟨4, 0, 0⟩]⟩,
       ⟨[⟨1, 0, 0⟩, ⟨5, 0, 0⟩, ⟨7, 0, 0⟩, ⟨3, 0, 0⟩]⟩,
       ⟨[⟨2, 0, 0⟩, ⟨4, 0, 0⟩, ⟨8, 0, 0⟩, ⟨6, 0, 0⟩]⟩] }

/-- An axis-aligned cube of side `s` given as 8 vertices and 6 quad faces, each face
listing its 4 corners in cyclic order (vertices and faces in any order). -/
def IsCubeMesh (m : Model F) (o : F × F × F) (s : F) : Prop :=
  (m.vertices.map Vertex.xyz).Perm (cubeCorners o s) ∧
  ∃ order : List (Fin 6), order.Perm (List.finRange 6) ∧
    List.Forall₂ (fun face j => IsCubeFace m o s j face) m.faces order

/-- `triangleArea` as a function of the three positions. -/
def areaXYZ (sqrt : F → F) (a b c : F × F × F) : F :=
  (1 / 2) * sqrt
    (((b.2.1 - a.2.1) * (c.2.2 - a.2.2) - (b.2.2 - a.2.2) * (c.2.1 - a.2.1)) *
        ((b.2.1 - a.2.1) * (c.2.2 - a.2.2) - (b.2.2 - a.2.2) * (c.2.1 - a.2.1)) +
      ((b.2.2 - a.2.2) * (c.1 - a.1) - (b.1 - a.1) * (c.2.2 - a.2.2)) *
        ((b.2.2 - a.2.2) * (c.1 - a.1) - (b.1 - a.1) * (c.2.2 - a.2.2)) +
      ((b.1 - a.1) * (c.2.1 - a.2.1) - (b.2.1 - a.2.1) * (c.1 - a.1)) *
        ((b.1 - a.1) * (c.2.1 - a.2.1) - (b.2.1 - a.2.1) * (c.1 - a.1)))

/-! ### The quantities of the ray test -/

/-- The determinant `det` computed by `rayIntersectsTriangle`. -/
def mtDet (ray_vector a b c : Vertex F) : F :=
  (b.sub a).dotProduct (ray_vector.crossProduct (c.sub a))

/-- The barycentric coordinate `u` computed by `rayIntersectsTriangle`. -/
def mtU (ray_origin ray_vector a b c : Vertex F) : F :=
  1 / mtDet ray_vector a b c * (ray_origin.sub a).dotProduct (ray_vector.crossProduct (c.sub a))

/-- The barycentric coordinate `v` computed by `rayIntersectsTriangle`. -/
def mtV (ray_origin ray_vector a b c : Vertex F) : F :=
  1 / mtDet ray_vector a b c * ray_vector.dotProduct ((ray_origin.sub a).crossProduct (b.sub a))

/-- The ray parameter `t` computed by `rayIntersectsTriangle`. -/
def mtT (ray_origin ray_vector a b c : Vertex F) : F :=
  1 / mtDet ray_vector a b c * (c.sub a).dotProduct ((ray_origin.sub a).crossProduct (b.sub a))

/-- The 12 faces of a pair of cubes: the flag says which cube (`false` the first, `true`
the second), the index which of its 6 faces. -/
def twoCubeFaces : List (Bool × Fin 6) :=
  (List.finRange 6).map (fun j => (false, j)) ++ (List.finRange 6).map (fun j => (true, j))

/-- A mesh made of two axis-aligned cubes, each given as 8 vertices and 6 quad faces that
list their 4 corners in cyclic order (vertices and faces in any order). -/
def IsTwoCubeMesh (m : Model F) (o1 : F × F × F) (s1 : F) (o2 : F × F × F) (s2 : F) : Prop :=
  (m.vertices.map Vertex.xyz).Perm (cubeCorners o1 s1 ++ cubeCorners o2 s2) ∧
  ∃ order : List (Bool × Fin 6), order.Perm twoCubeFaces ∧
    List.Forall₂
      (fun face bj => IsCubeFace m (if bj.1 then o2 else o1) (if bj.1 then s2 else s1) bj.2 face)
      m.faces order

/-- Two cubes in one OBJ-like mesh: the vertices and faces of `standardCube o1 s1`
followed by those of `standardCube o2 s2`, the indices of the latter shifted by 8. -/
def nestedCubes (o1 : F × F × F) (s1 : F) (o2 : F × F × F) (s2 : F) : Model F :=
  { vertices := (standardCube o1 s1).vertices ++ (standardCube o2 s2).vertices
    textureVertices := []
    vertexNormals := []
    faces := (standardCube o1 s1).faces ++
      (standardCube o2 s2).faces.map (fun face =>
        ⟨face.vertices.map (fun c => { c with vertexIndex := c.vertexIndex + 8 })⟩) }

/-! ### The volume as a sum over fan triangles -/

/-- Signed-volume accumulation over a list of triangles, in order: the loop that is
commented out in `calculateVolume`, `totalVolume += tetrahedronVolume(v0, v1, v2)`. -/
def sumVolumes (m : Model F) :
    List (FaceVertexIndex × FaceVertexIndex × FaceVertexIndex) → F → Option F
  | [], total => some total
  | t :: rest, total => do
    let v ← resolveTriangle m t
    sumVolumes m rest (total + tetrahedronVolume v.1 v.2.1 v.2.2)

/-- The volume in the words of the specification: the absolute value of the sum of
`tetrahedronVolume` over every fan triangle of every face. -/
def volumeSpec {F : Type} [LinearOrderedField F] (m : Model F) : Option F :=
  (sumVolumes m (meshTriangles m) 0).map (fun total => |total|)

/-! ### Words, numerals and fields of a line -/

/-- An `f` line whose three corners carry a vertex and a normal index and no texture
index. -/
def slashSlashText : List Char := "f 1//7 2//8 3//9".toList

/-- A non-empty run of decimal digits. -/
def IsNumeral (ds : List Char) : Prop := ds ≠ [] ∧ ∀ c ∈ ds, isDigit c = true

/-- The value of a run of decimal digits. -/
def numeralValue (ds : List Char) : Nat :=
  ds.foldl (fun acc d => 10 * acc + (d.toNat - 48)) 0

/-- A run of whitespace characters (possibly empty). -/
def IsBlank (l : List Char) : Prop := ∀ c ∈ l, isSpace c = true

/-- A separator between two fields of a line: a non-empty run of whitespace. -/
def IsGap (l : List Char) : Prop := l ≠ [] ∧ IsBlank l

/-- The first whitespace-delimited token of a line; empty when the line has none. -/
def firstToken (line : List Char) : List Char :=
  (line.dropWhile isSpace).takeWhile (fun c => !isSpace c)

/-- The line starts with one of the four tokens `v`, `vt`, `vn`, `f`. -/
def isGeometryLine (line : List Char) : Bool :=
  decide (firstToken line = ['v']) || decide (firstToken line = ['v', 't']) ||
    decide (firstToken line = ['v', 'n']) || decide (firstToken line = ['f'])

instance (l : List Char) : Decidable (IsBlank l) := by
  unfold IsBlank; infer_instance

instance (l : List Char) : Decidable (IsGap l) := by
  unfold IsGap; infer_instance

instance (ds : List Char) : Decidable (IsNumeral ds) := by
  unfold IsNumeral; infer_instance

/-- The characters `field` are a numeric field with value `value` for the library's
conversion `parseFloat`: a non-empty word without whitespace that the conversion reads
entirely, storing `value`, whenever the word ends the line or is followed by whitespace. -/
def ParsesField (parseFloat : List Char → F × Option (List Char)) (field : List Char)
    (value : F) : Prop :=
  field ≠ [] ∧ (∀ c ∈ field, isSpace c = false) ∧
    ∀ rest : List Char, (∀ c ∈ rest.head?, isSpace c = true) →
      parseFloat (field ++ rest) = (value, some rest)

/-! ### Degenerate triangles and points of a ray -/

/-- The three points lie on one line (or coincide): the steps from `a` to `b` and from `a`
to `c` are multiples of one common direction. -/
def Collinear {F : Type} [LinearOrderedField F] (a b c : Vertex F) : Prop :=
  ∃ dx dy dz s t : F,
    b.x - a.x = s * dx ∧ b.y - a.y = s * dy ∧ b.z - a.z = s * dz ∧
    c.x - a.x = t * dx ∧ c.y - a.y = t * dy ∧ c.z - a.z = t * dz

/-- The point of the ray at parameter `t` is the point of the triangle's plane with
coordinates `u`, `v`: `origin + t * direction = a + u * (b - a) + v * (c - a)` in `x`, `y`
and `z`. -/
def MeetsAt {F : Type} [LinearOrderedField F] (origin direction a b c : Vertex F)
    (t u v : F) : Prop :=
  origin.x + t * direction.x = a.x + u * (b.x - a.x) + v * (c.x - a.x) ∧
  origin.y + t * direction.y = a.y + u * (b.y - a.y) + v * (c.y - a.y) ∧
  origin.z + t * direction.z = a.z + u * (b.z - a.z) + v * (c.z - a.z)

/-- The ray lies in the plane of the triangle: each of its points is a point of the plane. -/
def RayInPlane {F : Type} [LinearOrderedField F] (origin direction a b c : Vertex F) :
    Prop :=
  ∀ t : F, 0 ≤ t → ∃ u v : F, MeetsAt origin direction a b c t u v

/-! ### The point query without the max-X skip -/

/-- The inner loop of `isPointInside` for one face with the max-X test taken out: every
fan triangle is given to `rayIntersectsTriangle` until one is hit. -/
def faceIntersectedNoSkip (m : Model F) (point : Vertex F) (face : Face) :
    Nat → Nat → Option Bool
  | 0, _ => some false
  | trips + 1, i => do
    let (v0, v1, v2) ← fanCorners m face i
    if rayIntersectsTriangle point rayVector v0 v1 v2 then some true
    else faceIntersectedNoSkip m point face trips (i + 1)

/-- The outer loop of `isPointInside` over the faces, without the max-X test. -/
def countIntersectionsNoSkip (m : Model F) (point : Vertex F) : List Face → Int → Option Int
  | [], intersections => some intersections
  | face :: rest, intersections => do
    let hit ← faceIntersectedNoSkip m point face (fanTrips face) 1
    if hit then
      if intersections + 1 < 2 ^ 31 then
        countIntersectionsNoSkip m point rest (intersections + 1)
      else none
    else countIntersectionsNoSkip m point rest intersections

/-- The procedure of `isPointInside` without the max-X skip. -/
def isPointInsideNoSkip (m : Model F) (point : Vertex F) : Option Bool :=
  (countIntersectionsNoSkip m point m.faces 0).map
    (fun intersections => intersections % 2 == 1)

/-! ### Valid indices -/

/-- Every face has at least 3 corners and every corner's vertex index is a valid 1-based
index into the vertex sequence. -/
def ValidVertexIndices (m : Model F) : Prop :=
  ∀ face ∈ m.faces, 3 ≤ face.vertices.length ∧
    ∀ c ∈ face.vertices, 0 < c.vertexIndex ∧ c.vertexIndex ≤ m.vertices.length

/-- The normal index of the first corner of every face, where it is positive, is a valid
1-based index into the normal sequence. -/
def ValidFirstNormals (m : Model F) : Prop :=
  ∀ face ∈ m.faces, ∀ c0 ∈ face.vertices.head?, c0.normalIndex ≤ m.vertexNormals.length

/-- Three `v` lines and an `f` line whose corners name the normal 1, in a text without
any `vn` line. -/
def missingNormalText : List Char := "v 0 0 0\nv 1 0 0\nv 0 1 0\nf 1/1/1 2/1/1 3/1/1".toList

/-- The vertex named by corner number `k` (0-based) of a face: the lookup
`vertices[face.vertices[k].vertexIndex - 1]`. -/
def cornerAt (m : Model F) (face : Face) (k : Nat) : Option (Vertex F) :=
  (face.vertices[k]?).bind (fun c => m.vertexAt c.vertexIndex)

/-- The fan triangle `(c0, c_i, c_(i+1))` of a face is counted for the point: it is not
skipped (its largest `x` is not below the point's `x`) and `rayIntersectsTriangle` accepts
it for the `+X` ray from the point. -/
def fanCounted (m : Model F) (point : Vertex F) (face : Face) (i : Nat) : Bool :=
  match cornerAt m face 0, cornerAt m face i, cornerAt m face (i + 1) with
  | some a, some b, some c =>
    !decide (max (max a.x b.x) c.x < point.x) && rayIntersectsTriangle point rayVector a b c
  | _, _, _ => false

/-- The face is counted for the point: one of its fan triangles `(c0, c_i, c_(i+1))`,
`i = 1..n-2`, is counted. -/
def faceCounted (m : Model F) (point : Vertex F) (face : Face) : Bool :=
  (List.range' 1 (face.vertices.length - 2)).any (fanCounted m point face)

/-- The fan triangle `(c0, c_i, c_(i+1))` is skipped by the max-X test although
`rayIntersectsTriangle` accepts it for the `+X` ray from the point. -/
def fanSkippedHit (m : Model F) (point : Vertex F) (face : Face) (i : Nat) : Bool :=
  match cornerAt m face 0, cornerAt m face i, cornerAt m face (i + 1) with
  | some a, some b, some c =>
    decide (max (max a.x b.x) c.x < point.x) && rayIntersectsTriangle point rayVector a b c
  | _, _, _ => false

instance (m : Model F) : Decidable (ValidVertexIndices m) := by
  unfold ValidVertexIndices; infer_instance

instance (m : Model F) : Decidable (ValidMesh m) := by
  unfold ValidMesh; infer_instance

/-- A fan triangle, given by its three corners, resolved to a normal and three vertex
positions: the positions are the vertices the corners name, the normal is the stored
normal named by the first corner when its normal index is positive and the computed
normal otherwise. -/
def ResolvesTo (sqrt : F → F) (m : Model F)
    (t : FaceVertexIndex × FaceVertexIndex × FaceVertexIndex)
    (r : (F × F × F) × Vertex F × Vertex F × Vertex F) : Prop :=
  m.vertices[toSizeT (t.1.vertexIndex - 1)]? = some r.2.1 ∧
  m.vertices[toSizeT (t.2.1.vertexIndex - 1)]? = some r.2.2.1 ∧
  m.vertices[toSizeT (t.2.2.vertexIndex - 1)]? = some r.2.2.2 ∧
  (0 < t.1.normalIndex →
    ∃ vn, m.vertexNormals[toSizeT (t.1.normalIndex - 1)]? = some vn ∧
      r.1 = (vn.i, vn.j, vn.k)) ∧
  (¬ 0 < t.1.normalIndex → r.1 = calculateNormal sqrt r.2.1 r.2.2.1 r.2.2.2)

end Scalars

/-! ## Concrete inputs -/

/-- A one-triangle mesh over the rationals. -/
def triMesh : Model ℚ :=
  ⟨[⟨0, 0, 0, 1⟩, ⟨1, 0, 0, 1⟩, ⟨0, 1, 0, 1⟩], [], [], [⟨[⟨1, 0, 0⟩, ⟨2, 0, 0⟩, ⟨3, 0, 0⟩]⟩]⟩

/-- A mesh with one vertex and one face of `corners` corners, all naming that vertex. -/
def fanMesh (corners : Nat) : Model ℚ :=
  ⟨[⟨0, 0, 0, 1⟩], [], [], [⟨List.replicate corners ⟨1, 0, 0⟩⟩]⟩

/-- The mesh `fanMesh` with `2^32 + 2` corners. -/
def bigMesh : Model ℚ := fanMesh (2 ^ 32 + 2)

/-- A byte image for scalars used in examples: four zero bytes. -/
def zeroBytes : ℚ → List Nat := fun _ => [0, 0, 0, 0]

/-- A stand-in for the library's text-to-float conversion on the inputs used in the
examples: an unsigned run of decimal digits is converted to its value, anything else
fails (storing `0`). -/
def parseDigits : List Char → ℚ × Option (List Char) := fun cs =>
  let digits := cs.takeWhile isDigit
  if digits = [] then (0, none)
  else (((digits.foldl (fun acc d => 10 * acc + (d.toNat - 48)) 0 : Nat) : ℚ),
    some (cs.dropWhile isDigit))

/-- Three `v` lines followed by an `f` line that names them by the references -3, -2, -1. -/
def negativeRefsText : List Char := "v 0 0 0\nv 1 0 0\nv 0 1 0\nf -3 -2 -1".toList

/-- The model `read` builds from `negativeRefsText`. -/
def negativeRefsModel : Model ℚ :=
  ⟨[⟨0, 0, 0, 1⟩, ⟨1, 0, 0, 1⟩, ⟨0, 1, 0, 1⟩], [], [],
    [⟨[⟨6, 0, 0⟩, ⟨5, 0, 0⟩, ⟨4, 0, 0⟩]⟩]⟩

/-- A square root on the rationals, exact on squares. -/
def ratSqrt (q : ℚ) : ℚ := Rat.sqrt q

/-- The model `read` builds from `missingNormalText`. -/
def missingNormalModel : Model ℚ :=
  ⟨[⟨0, 0, 0, 1⟩, ⟨1, 0, 0, 1⟩, ⟨0, 1, 0, 1⟩], [], [],
    [⟨[⟨1, 1, 1⟩, ⟨2, 1, 1⟩, ⟨3, 1, 1⟩]⟩]⟩

/-- All four coordinates of the vertex are finite binary32 values. -/
def Vertex.IsFinite (v : Vertex F32) : Prop :=
  v.x.IsFinite ∧ v.y.IsFinite ∧ v.z.IsFinite ∧ v.w.IsFinite

instance (v : Vertex F32) : Decidable v.IsFinite := by
  unfold Vertex.IsFinite; infer_instance

/-- A mesh with the finite vertex `(1, 2^127, 3, 1)` and a vertex with a negative zero. -/
def overflowMesh : Model F32 :=
  ⟨[⟨1, F32.fin false (2 ^ 127), 3, 1⟩, ⟨F32.fin true 0, 1, 1, 1⟩], [], [], []⟩

/-- A one-triangle mesh with binary32 coordinates. -/
def triMesh32 : Model F32 :=
  ⟨[⟨0, 0, 0, 1⟩, ⟨1, 0, 0, 1⟩, ⟨0, 1, 0, 1⟩], [], [], [⟨[⟨1, 0, 0⟩, ⟨2, 0, 0⟩, ⟨3, 0, 0⟩]⟩]⟩

/-- The value `r` is the finite value `v` up to the sign of a zero: the magnitudes are the
same, and the signs are the same unless `v` is the negative zero. -/
def F32.Agrees (r v : F32) : Prop :=
  ∃ s s1 a, v = fin s a ∧ r = fin s1 a ∧ 0 ≤ a ∧ rnd a = a ∧ a < pow2 128 ∧
    (a ≠ 0 → s1 = s) ∧ (s = false → s1 = false)

/-- The rational coordinates of a vertex with finite binary32 coordinates. -/
def Vertex.toRat (v : Vertex F32) : Vertex ℚ := ⟨v.x.toRat, v.y.toRat, v.z.toRat, v.w.toRat⟩

/-- Not-a-number or a zero of either sign. -/
def F32.IsZeroOrNaN (x : F32) : Prop := x = F32.nan ∨ ∃ s, x = F32.fin s 0

/-- Three exactly collinear points with binary32 coordinates: the step from the first to
the third is `-3` times the step from the first to the second. -/
def sliverA : Vertex F32 := ⟨-1, -1, 0, 1⟩

/-- Second point of the collinear triple. -/
def sliverB : Vertex F32 := ⟨16777216, 0, 0, 1⟩

/-- Third point of the collinear triple. -/
def sliverC : Vertex F32 := ⟨-50331652, -4, 0, 1⟩

/-- A triangle with integer coordinates and a point in front of it: the triangle lies
wholly at `x ≤ 1579`, the point at `x = 1580`. -/
def behindA : Vertex F32 := ⟨-4521, -5654, -2900, 1⟩

/-- Second corner of the triangle behind the point. -/
def behindB : Vertex F32 := ⟨-466, -4797, -2440, 1⟩

/-- Third corner of the triangle behind the point. -/
def behindC : Vertex F32 := ⟨1579, 4614, 2605, 1⟩

/-- The point in front of the triangle. -/
def behindP : Vertex F32 := ⟨1580, 4614, 2605, 1⟩

/-- The right triangle with legs 3 in the plane `x = 0`. -/
def legA : Vertex F32 := ⟨0, 0, 0, 1⟩

/-- Second corner of the right triangle. -/
def legB : Vertex F32 := ⟨0, 3, 0, 1⟩

/-- Third corner of the right triangle. -/
def legC : Vertex F32 := ⟨0, 0, 3, 1⟩

/-- A point whose `+X` ray enters the right triangle strictly inside, close to the
hypotenuse. -/
def legP : Vertex F32 :=
  ⟨-1, F32.fin false (6001381 / 2097152), F32.fin false (9282399 / 67108864), 1⟩

/-- The cube of side `0.9f` centred at the origin, in binary32 coordinates. -/
def cube09 : Model F32 :=
  standardCube (F32.lit true 45 2, F32.lit true 45 2, F32.lit true 45 2) (F32.lit false 9 1)

/-- The unit cube centred at the origin, in binary32 coordinates. -/
def unitCube32 : Model F32 :=
  standardCube (F32.fin true (1 / 2), F32.fin true (1 / 2), F32.fin true (1 / 2)) 1

/-- The cube of side `2^-12` centred at the origin, in binary32 coordinates. -/
def tinyCube32 : Model F32 :=
  standardCube (F32.fin true (1 / 2 ^ 13), F32.fin true (1 / 2 ^ 13), F32.fin true (1 / 2 ^ 13))
    (F32.fin false (1 / 2 ^ 12))

/-- The regular octahedron with corners on the axes at distance 1, in binary32
coordinates. -/
def octahedron32 : Model F32 :=
  { vertices := [⟨1, 0, 0, 1⟩, ⟨-1, 0, 0, 1⟩, ⟨0, 1, 0, 1⟩, ⟨0, -1, 0, 1⟩, ⟨0, 0, 1, 1⟩,
      ⟨0, 0, -1, 1⟩]
    textureVertices := []
    vertexNormals := []
    faces :=
      [⟨[⟨1, 0, 0⟩, ⟨3, 0, 0⟩, ⟨5, 0, 0⟩]⟩, ⟨[⟨3, 0, 0⟩, ⟨2, 0, 0⟩, ⟨5, 0, 0⟩]⟩,
       ⟨[⟨2, 0, 0⟩, ⟨4, 0, 0⟩, ⟨5, 0, 0⟩]⟩, ⟨[⟨4, 0, 0⟩, ⟨1, 0, 0⟩, ⟨5, 0, 0⟩]⟩,
       ⟨[⟨3, 0, 0⟩, ⟨1, 0, 0⟩, ⟨6, 0, 0⟩]⟩, ⟨[⟨2, 0, 0⟩, ⟨3, 0, 0⟩, ⟨6, 0, 0⟩]⟩,
       ⟨[⟨4, 0, 0⟩, ⟨2, 0, 0⟩, ⟨6, 0, 0⟩]⟩, ⟨[⟨1, 0, 0⟩, ⟨4, 0, 0⟩, ⟨6, 0, 0⟩]⟩] }

/-- Concentric cubes of sides 1 and `0.6f` about the origin, in binary32 coordinates. -/
def shells32 : Model F32 :=
  nestedCubes (F32.fin true (1 / 2), F32.fin true (1 / 2), F32.fin true (1 / 2)) 1
    (F32.lit true 3 1, F32.lit true 3 1, F32.lit true 3 1) (F32.lit false 6 1)

/-- Concentric cubes of sides 1 and `2^-12` about the origin, in binary32 coordinates. -/
def tinyShells32 : Model F32 :=
  nestedCubes (F32.fin true (1 / 2), F32.fin true (1 / 2), F32.fin true (1 / 2)) 1
    (F32.fin true (1 / 2 ^ 13), F32.fin true (1 / 2 ^ 13), F32.fin true (1 / 2 ^ 13))
    (F32.fin false (1 / 2 ^ 12))

/-- Concentric cubes of sides `2^70` and 1 about the origin, in binary32 coordinates. -/
def hugeShells32 : Model F32 :=
  nestedCubes (F32.fin true (2 ^ 69), F32.fin true (2 ^ 69), F32.fin true (2 ^ 69))
    (F32.fin false (2 ^ 70))
    (F32.fin true (1 / 2), F32.fin true (1 / 2), F32.fin true (1 / 2)) 1

/-- One triangular face on the corners `behindA`, `behindB`, `behindC`. -/
def behindMesh : Model F32 :=
  ⟨[behindA, behindB, behindC], [], [], [⟨[⟨1, 0, 0⟩, ⟨2, 0, 0⟩, ⟨3, 0, 0⟩]⟩]⟩

/-- The value is a finite binary32 value, equal to an integer of magnitude at most
`bound`. -/
def F32.IsIntWithin (x : F32) (bound : ℕ) : Prop :=
  x.IsFinite ∧ x.toRat.den = 1 ∧ |x.toRat| ≤ bound

instance (x : F32) (bound : ℕ) : Decidable (x.IsIntWithin bound) := by
  unfold F32.IsIntWithin; infer_instance

/-- Every entry of the matrix is a finite binary32 value equal to an integer of magnitude
at most `bound`. -/
def Matrix4x4.IsIntWithin (A : Matrix4x4 F32) (bound : ℕ) : Prop :=
  ∀ i j, (A.m i j).IsIntWithin bound

instance (A : Matrix4x4 F32) (bound : ℕ) : Decidable (A.IsIntWithin bound) := by
  unfold Matrix4x4.IsIntWithin; infer_instance

/-- The four coordinates of the vertex are finite binary32 values equal to integers of
magnitude at most `bound`. -/
def Vertex.IsIntWithin (v : Vertex F32) (bound : ℕ) : Prop :=
  v.x.IsIntWithin bound ∧ v.y.IsIntWithin bound ∧ v.z.IsIntWithin bound ∧
    v.w.IsIntWithin bound

instance (v : Vertex F32) (bound : ℕ) : Decidable (v.IsIntWithin bound) := by
  unfold Vertex.IsIntWithin; infer_instance

/-- The two vertices compare equal with the operator `==` of `float` in each of the four
coordinates. -/
def Vertex.NumEq (a b : Vertex F32) : Prop :=
  (a.x == b.x) = true ∧ (a.y == b.y) = true ∧ (a.z == b.z) = true ∧ (a.w == b.w) = true

instance (a b : Vertex F32) : Decidable (a.NumEq b) := by
  unfold Vertex.NumEq; infer_instance

/-- The rational entries of a matrix of finite binary32 values. -/
def Matrix4x4.toRat (A : Matrix4x4 F32) : Matrix (Fin 4) (Fin 4) ℚ :=
  fun i j => (A.m i j).toRat

/-- The rational coordinates of a vertex, as a vector. -/
def Vertex.toVec (v : Vertex F32) : Fin 4 → ℚ :=
  fun i => match i with
    | 0 => v.x.toRat
    | 1 => v.y.toRat
    | 2 => v.z.toRat
    | 3 => v.w.toRat

/-- The scaling by `0.1f` in each direction. -/
def tenthScaling : Matrix4x4 F32 :=
  Matrix4x4.scaling (F32.lit false 1 1) (F32.lit false 1 1) (F32.lit false 1 1)

/-- A mesh with integer coordinates: the corners of a triangle. -/
def gridMesh : Model F32 :=
  ⟨[⟨1, 2, 3, 1⟩, ⟨-4, 0, 7, 1⟩, ⟨10, -20, 30, 1⟩], [], [],
    [⟨[⟨1, 0, 0⟩, ⟨2, 0, 0⟩, ⟨3, 0, 0⟩]⟩]⟩

/-- A quarter turn about the `z` axis: the matrix `rotationZ(90)` when `cos` and `sin`
return the exact values 0 and 1 of the cosine and the sine of a right angle; its entries
are then the integers 0, 1 and -1. -/
def quarterTurnZ : Matrix4x4 F32 :=
  Matrix4x4.rotationZ (F32.lit false 31415927 7) (fun _ => 0) (fun _ => 1) 90

/-- A quarter turn about the `y` axis, with the exact values `cos = 0`, `sin = 1`. -/
def quarterTurnY : Matrix4x4 F32 :=
  Matrix4x4.rotationY (F32.lit false 31415927 7) (fun _ => 0) (fun _ => 1) 90

/-- A quarter turn about the `x` axis, with the exact values `cos = 0`, `sin = 1`. -/
def quarterTurnX : Matrix4x4 F32 :=
  Matrix4x4.rotationX (F32.lit false 31415927 7) (fun _ => 0) (fun _ => 1) 90

/-- A stand-in for the bytes of a binary32 value in a listing: the integer part of its
magnitude. -/
def magnitudeBytes (x : F32) : List Nat := [x.toRat.num.natAbs]

/-- A mesh of two faces: a pentagon on the vertices 1 to 5 and a quad on the vertices 6 to
9, all in the plane `z = 0`. -/
def pentaQuad : Model F32 :=
  { vertices := [⟨0, 0, 0, 1⟩, ⟨4, 0, 0, 1⟩, ⟨6, 2, 0, 1⟩, ⟨4, 4, 0, 1⟩, ⟨0, 4, 0, 1⟩,
      ⟨10, 0, 0, 1⟩, ⟨12, 0, 0, 1⟩, ⟨12, 2, 0, 1⟩, ⟨10, 2, 0, 1⟩]
    textureVertices := []
    vertexNormals := []
    faces := [⟨[⟨1, 0, 0⟩, ⟨2, 0, 0⟩, ⟨3, 0, 0⟩, ⟨4, 0, 0⟩, ⟨5, 0, 0⟩]⟩,
      ⟨[⟨6, 0, 0⟩, ⟨7, 0, 0⟩, ⟨8, 0, 0⟩, ⟨9, 0, 0⟩]⟩] }

/-- A mesh of two faces whose areas add up differently in different orders: a triangle of
area `2^24` followed by a quad of two fan triangles of area 1. -/
def orderMesh : Model F32 :=
  { vertices := [⟨0, 0, 0, 1⟩, ⟨8192, 0, 0, 1⟩, ⟨0, 4096, 0, 1⟩,
      ⟨10, 0, 0, 1⟩, ⟨12, 0, 0, 1⟩, ⟨12, 1, 0, 1⟩, ⟨10, 1, 0, 1⟩]
    textureVertices := []
    vertexNormals := []
    faces := [⟨[⟨1, 0, 0⟩, ⟨2, 0, 0⟩, ⟨3, 0, 0⟩]⟩,
      ⟨[⟨4, 0, 0⟩, ⟨5, 0, 0⟩, ⟨6, 0, 0⟩, ⟨7, 0, 0⟩]⟩] }

/-- The coordinates `x`, `y`, `z` of the vertex are finite binary32 values equal to
integers of magnitude at most `bound`. -/
def Vertex.IsGrid (v : Vertex F32) (bound : ℕ) : Prop :=
  v.x.IsIntWithin bound ∧ v.y.IsIntWithin bound ∧ v.z.IsIntWithin bound

instance (v : Vertex F32) (bound : ℕ) : Decidable (v.IsGrid bound) := by
  unfold Vertex.IsGrid; infer_instance

/-- The binary32 vector `v` has integer coordinates `x`, `y`, `z` of magnitude at most
`bound`, equal to those of the rational vector `r`. -/
def Vertex.Exact (v : Vertex F32) (r : Vertex ℚ) (bound : ℕ) : Prop :=
  v.IsGrid bound ∧ v.x.toRat = r.x ∧ v.y.toRat = r.y ∧ v.z.toRat = r.z

/-- Every coordinate of every vertex of the mesh is an integer of magnitude at most
`bound`. -/
def Model.IsGrid (m : Model F32) (bound : ℕ) : Prop := ∀ v ∈ m.vertices, v.IsGrid bound

instance (m : Model F32) (bound : ℕ) : Decidable (m.IsGrid bound) := by
  unfold Model.IsGrid; infer_instance

/-- A right triangle with legs 4 in the plane `x = 0`, in integer coordinates. -/
def gridTriA : Vertex F32 := ⟨0, 0, 0, 1⟩

/-- Second corner of the right triangle with legs 4. -/
def gridTriB : Vertex F32 := ⟨0, 4, 0, 1⟩

/-- Third corner of the right triangle with legs 4. -/
def gridTriC : Vertex F32 := ⟨0, 0, 4, 1⟩

/-- A point in front of the right triangle with legs 4. -/
def gridTriP : Vertex F32 := ⟨-1, 1, 1, 1⟩

/-- A point behind the right triangle with legs 4. -/
def gridTriQ : Vertex F32 := ⟨1, 1, 1, 1⟩

/-- Three collinear points in integer coordinates. -/
def gridLineA : Vertex F32 := ⟨0, 0, 0, 1⟩

/-- Second point of the collinear triple in integer coordinates. -/
def gridLineB : Vertex F32 := ⟨1, 1, 1, 1⟩

/-- Third point of the collinear triple in integer coordinates. -/
def gridLineC : Vertex F32 := ⟨3, 3, 3, 1⟩

/-- A closed half-space `nx * x + ny * y + nz * z ≤ k` of space, given by its outward
normal `(nx, ny, nz)` and its offset `k`. -/
structure HalfSpace where
  /-- The `x` part of the outward normal. -/
  nx : ℚ
  /-- The `y` part of the outward normal. -/
  ny : ℚ
  /-- The `z` part of the outward normal. -/
  nz : ℚ
  /-- The offset: the value of the normal on the points of the bounding plane. -/
  k : ℚ

/-- The value `nx * x + ny * y + nz * z` of the normal on a position. -/
def HalfSpace.eval (h : HalfSpace) (v : Vertex ℚ) : ℚ := h.nx * v.x + h.ny * v.y + h.nz * v.z

/-- The point of the `+X` ray from `p` at the parameter `t`. -/
def rayPoint (p : Vertex ℚ) (t : ℚ) : Vertex ℚ := ⟨p.x + t, p.y, p.z, 1⟩

/-- The position `x` is the point `a + u * (b - a) + v * (c - a)` of the plane of the
triangle `a`, `b`, `c`. -/
def PointAt (x a b c : Vertex ℚ) (u v : ℚ) : Prop :=
  x.x = a.x + u * (b.x - a.x) + v * (c.x - a.x) ∧
  x.y = a.y + u * (b.y - a.y) + v * (c.y - a.y) ∧
  x.z = a.z + u * (b.z - a.z) + v * (c.z - a.z)

/-- The mesh is a closed convex mesh with planar convex faces, `plane f` being the
supporting half-space of the face `f`: the faces are distinct; some face looks towards
`+X`; every corner of a face lies on the plane of the face and in every half-space (the
mesh is convex, its body the intersection of the half-spaces); and the faces leave no
gap: every point of the plane of a face not parallel to the `X` axis that is strictly
inside all other half-spaces lies in a non-degenerate fan triangle
`(c0, c_i, c_(i+1))` of the face, off the edge `c_i c_(i+1)`. -/
def IsConvexMesh (m : Model F32) (plane : Face → HalfSpace) : Prop :=
  m.faces.Nodup ∧
  (∃ f ∈ m.faces, 0 < (plane f).nx) ∧
  (∀ f ∈ m.faces, ∀ k a, cornerAt m f k = some a →
    (plane f).eval a.toRat = (plane f).k ∧
    ∀ g ∈ m.faces, (plane g).eval a.toRat ≤ (plane g).k) ∧
  (∀ f ∈ m.faces, (plane f).nx ≠ 0 → ∀ x : Vertex ℚ, (plane f).eval x = (plane f).k →
    (∀ g ∈ m.faces, g ≠ f → (plane g).eval x < (plane g).k) →
    ∃ i ∈ List.range' 1 (f.vertices.length - 2), ∃ a b c,
      cornerAt m f 0 = some a ∧ cornerAt m f i = some b ∧ cornerAt m f (i + 1) = some c ∧
      ¬ Collinear a.toRat b.toRat c.toRat ∧
      ∃ u v : ℚ, 0 ≤ u ∧ 0 ≤ v ∧ u + v < 1 ∧ PointAt x a.toRat b.toRat c.toRat u v)

/-- The `+X` ray from `p` is in general position to the mesh: no point of the ray, at a
positive parameter, that belongs to the body (the intersection of the half-spaces) lies
on the plane of a face parallel to the `X` axis or on the planes of two faces. The ray
then passes through no edge and no corner of the mesh and along no face. -/
def RayInGeneralPosition (m : Model F32) (plane : Face → HalfSpace) (p : Vertex ℚ) : Prop :=
  ∀ t : ℚ, 0 < t → (∀ g ∈ m.faces, (plane g).eval (rayPoint p t) ≤ (plane g).k) →
    ∀ f ∈ m.faces, (plane f).eval (rayPoint p t) = (plane f).k →
      (plane f).nx ≠ 0 ∧
      ∀ g ∈ m.faces, g ≠ f → (plane g).eval (rayPoint p t) ≠ (plane g).k

/-- The mesh with the exact rational values of its binary32 coordinates. -/
def Model.toRat (m : Model F32) : Model ℚ :=
  { vertices := m.vertices.map Vertex.toRat
    textureVertices := m.textureVertices.map (fun t => ⟨t.u.toRat, t.v.toRat, t.w.toRat⟩)
    vertexNormals := m.vertexNormals.map (fun n => ⟨n.i.toRat, n.j.toRat, n.k.toRat⟩)
    faces := m.faces }

/-- The supporting half-spaces of the 6 faces of the axis-aligned cube with least corner
`o` and side `s`, in the order of `cubeFace`. -/
def cubeHalfSpace (o : ℚ × ℚ × ℚ) (s : ℚ) : Fin 6 → HalfSpace
  | 0 => ⟨-1, 0, 0, -o.1⟩
  | 1 => ⟨1, 0, 0, o.1 + s⟩
  | 2 => ⟨0, -1, 0, -o.2.1⟩
  | 3 => ⟨0, 1, 0, o.2.1 + s⟩
  | 4 => ⟨0, 0, -1, -o.2.2⟩
  | 5 => ⟨0, 0, 1, o.2.2 + s⟩

/-- The supporting half-space of a face of a cube mesh, read off the positions of the
corners of the face: the face lies in the side of the cube that holds all its corners. -/
def cubeFacePlane (m : Model ℚ) (o : ℚ × ℚ × ℚ) (s : ℚ) (f : Face) : HalfSpace :=
  match facePositions m f with
  | some ps =>
    if ps.all (fun q => decide (q.1 = o.1)) then cubeHalfSpace o s 0
    else if ps.all (fun q => decide (q.1 = o.1 + s)) then cubeHalfSpace o s 1
    else if ps.all (fun q => decide (q.2.1 = o.2.1)) then cubeHalfSpace o s 2
    else if ps.all (fun q => decide (q.2.1 = o.2.1 + s)) then cubeHalfSpace o s 3
    else if ps.all (fun q => decide (q.2.2 = o.2.2)) then cubeHalfSpace o s 4
    else cubeHalfSpace o s 5
  | none => cubeHalfSpace o s 5

/-- The cube with corners `(±2, ±2, ±2)`, in binary32 coordinates. -/
def gridCube : Model F32 := standardCube (-2, -2, -2) 4

/-- The cubes with corners `(±2, ±2, ±2)` and `(±1, ±1, ±1)` in one mesh, in binary32
coordinates. -/
def gridShells : Model F32 := nestedCubes (-2, -2, -2) 4 (-1, -1, -1) 2

/-! # Theorems -/

section

variable {F : Type}

theorem sizeSub_of_le {n k : Nat} (h : k ≤ n) : sizeSub n k = n - k := by
  simp [sizeSub, h]

theorem fanTrips_eq (face : Face) (h : 1 ≤ face.vertices.length) :
    fanTrips face = face.vertices.length - 2 := by
  unfold fanTrips
  rw [sizeSub_of_le h]
  omega

theorem fanSpec_length {α : Type} (cs : List α) : (fanSpec cs).length = cs.length - 2 := by
  cases cs with
  | nil => rfl
  | cons c0 rest =>
    simp [fanSpec]

theorem fanSpec_getElem? {α : Type} (cs : List α) (i : Nat) (h1 : 1 ≤ i) (h2 : i + 1 < cs.length) :
    ∃ a b c, cs[0]? = some a ∧ cs[i]? = some b ∧ cs[i + 1]? = some c ∧
      (fanSpec cs)[i - 1]? = some (a, b, c) := by
  cases cs with
  | nil => simp at h2
  | cons c0 rest =>
    obtain ⟨j, rfl⟩ : ∃ j, i = j + 1 := ⟨i - 1, by omega⟩
    simp at h2
    have hj : j < rest.length := by omega
    have hj1 : j + 1 < rest.length := by omega
    refine ⟨c0, rest[j], rest[j + 1], by simp, by simp [hj], by simp [hj1], ?_⟩
    simp [fanSpec, List.getElem?_zip_eq_some, hj, hj1]

theorem drop_getElem? {α : Type} {cs : List α} {i : Nat} {a : α} {suf : List α}
    (h : cs.drop i = a :: suf) : cs[i]? = some a ∧ cs.drop (i + 1) = suf := by
  have h1 : (cs.drop i)[0]? = some a := by rw [h]; simp
  have h2 : (cs.drop i).drop 1 = suf := by rw [h]; rfl
  rw [List.getElem?_drop] at h1
  rw [List.drop_drop] at h2
  exact ⟨by simpa using h1, by simpa [Nat.add_comm] using h2⟩

theorem fanCorners_eq (m : Model F) (cs : List FaceVertexIndex) (i : Nat)
    (c0 a b : FaceVertexIndex) (h0 : cs[0]? = some c0) (ha : cs[i]? = some a)
    (hb : cs[i + 1]? = some b) :
    fanCorners m ⟨cs⟩ i = resolveTriangle m (c0, a, b) := by
  simp [fanCorners, resolveTriangle, h0, ha, hb]

theorem allSome_append {α β : Type} (g : α → Option β) (xs ys : List α) :
    allSome g (xs ++ ys) = (allSome g xs).bind (fun a => (allSome g ys).map (fun b => a ++ b)) := by
  induction xs with
  | nil => simp [allSome]
  | cons x xs ih =>
    simp only [List.cons_append, allSome]
    rw [show xs.append ys = xs ++ ys from rfl, ih]
    cases g x <;> cases allSome g xs <;> cases allSome g ys <;> simp

theorem toSizeT_lt {i : Int} {n : Nat} (h0 : 0 ≤ i) (h1 : i < n) : toSizeT i < n := by
  unfold toSizeT
  omega

theorem vertexAt_isSome (m : Model F) (idx : Int) (h0 : 0 < idx)
    (h1 : idx ≤ m.vertices.length) : ∃ v, m.vertexAt idx = some v := by
  have h := toSizeT_lt (i := idx - 1) (n := m.vertices.length) (by omega) (by omega)
  exact ⟨m.vertices[toSizeT (idx - 1)], by simp [Model.vertexAt, h]⟩

theorem normalAt_isSome (m : Model F) (idx : Int) (h0 : 0 < idx)
    (h1 : idx ≤ m.vertexNormals.length) : ∃ v, m.normalAt idx = some v := by
  have h := toSizeT_lt (i := idx - 1) (n := m.vertexNormals.length) (by omega) (by omega)
  exact ⟨m.vertexNormals[toSizeT (idx - 1)], by simp [Model.normalAt, h]⟩

theorem mem_fanSpec {α : Type} {cs : List α} {t : α × α × α} (h : t ∈ fanSpec cs) :
    t.1 ∈ cs ∧ t.2.1 ∈ cs ∧ t.2.2 ∈ cs := by
  cases cs with
  | nil => simp [fanSpec] at h
  | cons c0 rest =>
    simp only [fanSpec, List.mem_map] at h
    obtain ⟨p, hp, rfl⟩ := h
    obtain ⟨a, b⟩ := p
    have h1 := (List.of_mem_zip hp).1
    have h2 := List.mem_of_mem_tail (List.of_mem_zip hp).2
    exact ⟨List.mem_cons_self _ _, List.mem_cons_of_mem _ h1, List.mem_cons_of_mem _ h2⟩

theorem mem_meshTriangles {m : Model F} {t : FaceVertexIndex × FaceVertexIndex × FaceVertexIndex}
    (h : t ∈ meshTriangles m) :
    ∃ face ∈ m.faces, t.1 ∈ face.vertices ∧ t.2.1 ∈ face.vertices ∧ t.2.2 ∈ face.vertices := by
  simp only [meshTriangles, List.mem_flatMap] at h
  obtain ⟨face, hf, ht⟩ := h
  exact ⟨face, hf, mem_fanSpec ht⟩

theorem meshTriangles_length (m : Model F) : (meshTriangles m).length = triangleTotal m := by
  unfold meshTriangles triangleTotal
  induction m.faces with
  | nil => rfl
  | cons face rest ih => simp [List.flatMap_cons, fanSpec_length, ih]

theorem resolveTriangle_valid {m : Model F} (hv : ValidMesh m)
    {t : FaceVertexIndex × FaceVertexIndex × FaceVertexIndex} (ht : t ∈ meshTriangles m) :
    ∃ v0 v1 v2, resolveTriangle m t = some (v0, v1, v2) := by
  obtain ⟨face, hf, h1, h2, h3⟩ := mem_meshTriangles ht
  have hc := (hv face hf).2
  obtain ⟨v0, e0⟩ := vertexAt_isSome m _ (hc _ h1).1.1 (hc _ h1).1.2
  obtain ⟨v1, e1⟩ := vertexAt_isSome m _ (hc _ h2).1.1 (hc _ h2).1.2
  obtain ⟨v2, e2⟩ := vertexAt_isSome m _ (hc _ h3).1.1 (hc _ h3).1.2
  exact ⟨v0, v1, v2, by simp [resolveTriangle, e0, e1, e2]⟩

theorem allSome_of_forall {α β : Type} (g : α → Option β) (P : α → β → Prop) (xs : List α)
    (h : ∀ x ∈ xs, ∃ y, g x = some y ∧ P x y) :
    ∃ ys, allSome g xs = some ys ∧ List.Forall₂ P xs ys := by
  induction xs with
  | nil => exact ⟨[], rfl, List.Forall₂.nil⟩
  | cons x xs ih =>
    obtain ⟨y, hy, hp⟩ := h x (List.mem_cons_self _ _)
    obtain ⟨ys, hys, hf⟩ := ih (fun z hz => h z (List.mem_cons_of_mem _ hz))
    exact ⟨y :: ys, by simp [allSome, hy, hys], List.Forall₂.cons hp hf⟩

theorem numTriangles_fold (faces : List Face) (h : ∀ face ∈ faces, 2 ≤ face.vertices.length)
    (acc : Nat) :
    faces.foldl (fun acc face => toUInt32 ((acc + sizeSub face.vertices.length 2) % 2 ^ 64))
        (acc % 2 ^ 32)
      = (acc + (faces.map (fun face => face.vertices.length - 2)).sum) % 2 ^ 32 := by
  induction faces generalizing acc with
  | nil => simp
  | cons face rest ih =>
    have h1 := h face (List.mem_cons_self _ _)
    have h2 := ih (fun f hf => h f (List.mem_cons_of_mem _ hf))
    simp only [List.foldl_cons, List.map_cons, List.sum_cons, sizeSub_of_le h1]
    have e : toUInt32 ((acc % 2 ^ 32 + (face.vertices.length - 2)) % 2 ^ 64)
        = (acc + (face.vertices.length - 2)) % 2 ^ 32 := by
      unfold toUInt32
      omega
    rw [e, h2, Nat.add_assoc]

theorem numTriangles_eq (m : Model F) (h : ∀ face ∈ m.faces, 2 ≤ face.vertices.length) :
    numTriangles m = triangleTotal m % 2 ^ 32 := by
  have := numTriangles_fold m.faces h 0
  simpa [numTriangles, triangleTotal] using this

end

section

variable {F : Type} [Add F] [Sub F] [Mul F] [Div F] [Zero F] [One F] [NatCast F] [BEq F]

omit [One F] [NatCast F] in
theorem writeTriangles_eq (floatBytes : F → List Nat) (sqrt : F → F) (m : Model F)
    (cs : List FaceVertexIndex) (c0 : FaceVertexIndex) (h0 : cs[0]? = some c0) :
    ∀ (trips i : Nat) (a : FaceVertexIndex) (suf : List FaceVertexIndex),
      cs.drop i = a :: suf → suf.length = trips →
      writeTriangles floatBytes sqrt m ⟨cs⟩ trips i =
        (allSome (emitTriangle floatBytes sqrt m)
          (((a :: suf).zip suf).map (fun p => (c0, p.1, p.2)))).map List.flatten := by
  intro trips
  induction trips with
  | zero =>
    intro i a suf _ hlen
    have : suf = [] := List.length_eq_zero.mp hlen
    subst this
    simp [writeTriangles, allSome]
  | succ k ih =>
    intro i a suf hdrop hlen
    cases suf with
    | nil => simp at hlen
    | cons b suf2 =>
      obtain ⟨ha, hd1⟩ := drop_getElem? hdrop
      obtain ⟨hb, _⟩ := drop_getElem? hd1
      have hrec := ih (i + 1) b suf2 hd1 (by simpa using hlen)
      have hR : ((a :: b :: suf2).zip (b :: suf2)).map (fun p => (c0, p.1, p.2))
          = (c0, a, b) :: ((b :: suf2).zip suf2).map (fun p => (c0, p.1, p.2)) := rfl
      rw [hR]
      simp only [writeTriangles, fanCorners_eq m cs i c0 a b h0 ha hb, hrec, h0, allSome]
      generalize allSome (emitTriangle floatBytes sqrt m)
        (List.map (fun p => (c0, p.1, p.2)) ((b :: suf2).zip suf2)) = R
      cases hv : resolveTriangle m (c0, a, b) with
      | none => simp [emitTriangle, hv]
      | some v =>
        by_cases hn : 0 < c0.normalIndex
        · cases hq : m.normalAt c0.normalIndex <;> cases R <;>
            simp [hn, hq, hv, emitTriangle, triangleNormal]
        · cases R <;> simp [hn, hv, emitTriangle, triangleNormal]

omit [Zero F] [BEq F] in
theorem areaTriangles_eq (sqrt : F → F) (m : Model F)
    (cs : List FaceVertexIndex) (c0 : FaceVertexIndex) (h0 : cs[0]? = some c0) :
    ∀ (trips i : Nat) (a : FaceVertexIndex) (suf : List FaceVertexIndex) (total : F),
      cs.drop i = a :: suf → suf.length = trips →
      areaTriangles sqrt m ⟨cs⟩ trips i total =
        sumAreas sqrt m (((a :: suf).zip suf).map (fun p => (c0, p.1, p.2))) total := by
  intro trips
  induction trips with
  | zero =>
    intro i a suf total _ hlen
    have : suf = [] := List.length_eq_zero.mp hlen
    subst this
    simp [areaTriangles, sumAreas]
  | succ k ih =>
    intro i a suf total hdrop hlen
    cases suf with
    | nil => simp at hlen
    | cons b suf2 =>
      obtain ⟨ha, hd1⟩ := drop_getElem? hdrop
      obtain ⟨hb, _⟩ := drop_getElem? hd1
      have hR : ((a :: b :: suf2).zip (b :: suf2)).map (fun p => (c0, p.1, p.2))
          = (c0, a, b) :: ((b :: suf2).zip suf2).map (fun p => (c0, p.1, p.2)) := rfl
      rw [hR]
      simp only [areaTriangles, fanCorners_eq m cs i c0 a b h0 ha hb, sumAreas]
      cases hv : resolveTriangle m (c0, a, b) with
      | none => simp
      | some v =>
        simp only [Option.bind_eq_bind, Option.some_bind]
        exact ih (i + 1) b suf2 _ hd1 (by simpa using hlen)

omit [Zero F] [BEq F] in
theorem sumAreas_append (sqrt : F → F) (m : Model F)
    (xs ys : List (FaceVertexIndex × FaceVertexIndex × FaceVertexIndex)) (total : F) :
    sumAreas sqrt m (xs ++ ys) total = (sumAreas sqrt m xs total).bind (sumAreas sqrt m ys) := by
  induction xs generalizing total with
  | nil => simp [sumAreas]
  | cons x xs ih =>
    simp only [List.cons_append, sumAreas]
    cases resolveTriangle m x with
    | none => simp
    | some v => simpa using ih _

omit [One F] [NatCast F] in
theorem writeFace_eq (floatBytes : F → List Nat) (sqrt : F → F) (m : Model F) (face : Face)
    (h : 1 ≤ face.vertices.length) :
    writeTriangles floatBytes sqrt m face (fanTrips face) 1 =
      (allSome (emitTriangle floatBytes sqrt m) (fanSpec face.vertices)).map List.flatten := by
  rw [fanTrips_eq face h]
  obtain ⟨cs⟩ := face
  cases cs with
  | nil => simp at h
  | cons c0 rest =>
    cases rest with
    | nil => simp [writeTriangles, fanSpec, allSome]
    | cons a suf =>
      exact writeTriangles_eq floatBytes sqrt m (c0 :: a :: suf) c0 rfl _ 1 a suf rfl
        (by simp)

omit [Zero F] [BEq F] in
theorem areaFace_eq (sqrt : F → F) (m : Model F) (face : Face)
    (h : 1 ≤ face.vertices.length) (total : F) :
    areaTriangles sqrt m face (fanTrips face) 1 total =
      sumAreas sqrt m (fanSpec face.vertices) total := by
  rw [fanTrips_eq face h]
  obtain ⟨cs⟩ := face
  cases cs with
  | nil => simp at h
  | cons c0 rest =>
    cases rest with
    | nil => simp [areaTriangles, fanSpec, sumAreas]
    | cons a suf =>
      exact areaTriangles_eq sqrt m (c0 :: a :: suf) c0 rfl _ 1 a suf total rfl (by simp)

omit [One F] [NatCast F] in
theorem writeFaces_eq (floatBytes : F → List Nat) (sqrt : F → F) (m : Model F)
    (faces : List Face) (h : ∀ face ∈ faces, 1 ≤ face.vertices.length) :
    writeFaces floatBytes sqrt m faces =
      (allSome (emitTriangle floatBytes sqrt m)
        (faces.flatMap (fun face => fanSpec face.vertices))).map List.flatten := by
  induction faces with
  | nil => simp [writeFaces, allSome]
  | cons face rest ih =>
    have h1 := h face (List.mem_cons_self _ _)
    have h2 := ih (fun f hf => h f (List.mem_cons_of_mem _ hf))
    simp only [writeFaces, writeFace_eq floatBytes sqrt m face h1, h2, List.flatMap_cons,
      allSome_append]
    cases allSome (emitTriangle floatBytes sqrt m) (fanSpec face.vertices) <;>
      cases allSome (emitTriangle floatBytes sqrt m)
        (rest.flatMap (fun face => fanSpec face.vertices)) <;> simp

omit [Zero F] [BEq F] in
theorem areaFaces_eq (sqrt : F → F) (m : Model F)
    (faces : List Face) (h : ∀ face ∈ faces, 1 ≤ face.vertices.length) (total : F) :
    areaFaces sqrt m faces total =
      sumAreas sqrt m (faces.flatMap (fun face => fanSpec face.vertices)) total := by
  induction faces generalizing total with
  | nil => simp [areaFaces, sumAreas]
  | cons face rest ih =>
    have h1 := h face (List.mem_cons_self _ _)
    have h2 := ih (fun f hf => h f (List.mem_cons_of_mem _ hf))
    simp only [areaFaces, areaFace_eq sqrt m face h1, List.flatMap_cons, sumAreas_append]
    cases sumAreas sqrt m (fanSpec face.vertices) total with
    | none => simp
    | some a => simpa using h2 a

omit [One F] [NatCast F] in
theorem emitTriangle_valid (floatBytes : F → List Nat) (sqrt : F → F) {m : Model F}
    (hv : ValidMesh m) {t : FaceVertexIndex × FaceVertexIndex × FaceVertexIndex}
    (ht : t ∈ meshTriangles m) :
    ∃ n v0 v1 v2, resolveTriangle m t = some (v0, v1, v2) ∧
      triangleNormal sqrt m t (v0, v1, v2) = some n ∧
      emitTriangle floatBytes sqrt m t = some (triangleRecord floatBytes n v0 v1 v2) := by
  obtain ⟨v0, v1, v2, hr⟩ := resolveTriangle_valid hv ht
  obtain ⟨face, hf, h1, _, _⟩ := mem_meshTriangles ht
  have hc := ((hv face hf).2 _ h1).2
  by_cases hn : 0 < t.1.normalIndex
  · obtain ⟨vn, en⟩ := normalAt_isSome m _ hn hc
    exact ⟨(vn.i, vn.j, vn.k), v0, v1, v2, hr, by simp [triangleNormal, hn, en],
      by simp [emitTriangle, triangleNormal, hr, hn, en]⟩
  · exact ⟨calculateNormal sqrt v0 v1 v2, v0, v1, v2, hr, by simp [triangleNormal, hn],
      by simp [emitTriangle, triangleNormal, hr, hn]⟩

omit [One F] [NatCast F] in
theorem writeSTL_eq (floatBytes : F → List Nat) (sqrt : F → F) (m : Model F)
    (h : ∀ face ∈ m.faces, 1 ≤ face.vertices.length) :
    writeSTL floatBytes sqrt m =
      (allSome (emitTriangle floatBytes sqrt m) (meshTriangles m)).map
        (fun records => List.replicate 80 0 ++ leBytes 4 (numTriangles m) ++ records.flatten) := by
  simp only [writeSTL, writeFaces_eq floatBytes sqrt m m.faces h, meshTriangles]
  cases allSome (emitTriangle floatBytes sqrt m)
    (m.faces.flatMap (fun face => fanSpec face.vertices)) <;> simp

omit [One F] [NatCast F] in
theorem writeSTL_valid (floatBytes : F → List Nat) (sqrt : F → F) (m : Model F)
    (hv : ValidMesh m) :
    ∃ records : List (List Nat),
      writeSTL floatBytes sqrt m =
        some (List.replicate 80 0 ++ leBytes 4 (triangleTotal m % 2 ^ 32) ++ records.flatten) ∧
      List.Forall₂ (fun t r => ∃ n v0 v1 v2, resolveTriangle m t = some (v0, v1, v2) ∧
        triangleNormal sqrt m t (v0, v1, v2) = some n ∧
        r = triangleRecord floatBytes n v0 v1 v2) (meshTriangles m) records := by
  obtain ⟨records, hr, hf⟩ := allSome_of_forall (emitTriangle floatBytes sqrt m)
    (fun t r => ∃ n v0 v1 v2, resolveTriangle m t = some (v0, v1, v2) ∧
        triangleNormal sqrt m t (v0, v1, v2) = some n ∧
        r = triangleRecord floatBytes n v0 v1 v2) (meshTriangles m)
    (fun t ht => by
      obtain ⟨n, v0, v1, v2, h1, h2, h3⟩ := emitTriangle_valid floatBytes sqrt hv ht
      exact ⟨_, h3, n, v0, v1, v2, h1, h2, rfl⟩)
  refine ⟨records, ?_, hf⟩
  rw [writeSTL_eq floatBytes sqrt m (fun f hf => by have := (hv f hf).1; omega), hr,
    numTriangles_eq m (fun f hf => by have := (hv f hf).1; omega)]
  rfl

end

/-! ## The binary output: claims C1, C2, C3 -/

theorem validMesh_triMesh : ValidMesh triMesh := by
  simp [ValidMesh, triMesh]

theorem validMesh_fanMesh (n : Nat) (h : 3 ≤ n) : ValidMesh (fanMesh n) := by
  intro face hf
  simp only [fanMesh, List.mem_singleton] at hf
  subst hf
  refine ⟨by simpa using h, ?_⟩
  intro c hc
  rw [List.eq_of_mem_replicate hc]
  simp [fanMesh]

theorem triangleTotal_fanMesh (n : Nat) : triangleTotal (fanMesh n) = n - 2 := by
  simp [triangleTotal, fanMesh]

theorem decodeLE_leBytes4 (n : Nat) : decodeLE (leBytes 4 n) = n % 2 ^ 32 := by
  simp [decodeLE, leBytes, List.range_succ]
  omega

theorem count_field (n : Nat) (body : List Nat) :
    ((List.replicate 80 0 ++ leBytes 4 n ++ body).drop 80).take 4 = leBytes 4 n := by
  have h1 : (List.replicate 80 (0 : Nat)).length = 80 := by simp
  have h2 : (leBytes 4 n).length = 4 := by simp [leBytes]
  rw [List.append_assoc, List.drop_left' h1, List.take_left' h2]

theorem triangleRecord_length {F : Type} (floatBytes : F → List Nat) (h : ∀ x, (floatBytes x).length = 4)
    (n : F × F × F) (v0 v1 v2 : Vertex F) : (triangleRecord floatBytes n v0 v1 v2).length = 50 := by
  simp [triangleRecord, vertexBytes, h, leBytes]

theorem flatten_length_const {α : Type} (k : Nat) (rs : List (List α)) (h : ∀ r ∈ rs, r.length = k) :
    rs.flatten.length = k * rs.length := by
  induction rs with
  | nil => simp
  | cons r rs ih =>
    simp only [List.flatten_cons, List.length_append, List.length_cons]
    rw [h r (List.mem_cons_self _ _), ih (fun x hx => h x (List.mem_cons_of_mem _ hx))]
    ring

theorem forall₂_right_mem {α β : Type} {P : α → β → Prop} {xs : List α} {ys : List β}
    (h : List.Forall₂ P xs ys) : ∀ y ∈ ys, ∃ x ∈ xs, P x y := by
  induction h with
  | nil => simp
  | cons hp _ ih =>
    intro y hy
    rcases List.mem_cons.mp hy with rfl | hy
    · exact ⟨_, List.mem_cons_self _ _, hp⟩
    · obtain ⟨x, hx, hpx⟩ := ih y hy
      exact ⟨x, List.mem_cons_of_mem _ hx, hpx⟩

section

variable {F : Type} [LinearOrderedField F]

theorem writeSTL_length (floatBytes : F → List Nat) (sqrt : F → F) (m : Model F)
    (hv : ValidMesh m) (hfb : ∀ x, (floatBytes x).length = 4) :
    ∃ out, writeSTL floatBytes sqrt m = some out ∧
      decodeLE ((out.drop 80).take 4) = triangleTotal m % 2 ^ 32 ∧
      out.length = 84 + 50 * triangleTotal m := by
  obtain ⟨records, hw, hf⟩ := writeSTL_valid floatBytes sqrt m hv
  refine ⟨_, hw, ?_, ?_⟩
  · rw [count_field, decodeLE_leBytes4, Nat.mod_mod]
  · have hlen : records.flatten.length = 50 * records.length :=
      flatten_length_const 50 records (fun r hr => by
        obtain ⟨t, _, n, v0, v1, v2, _, _, rfl⟩ := forall₂_right_mem hf r hr
        exact triangleRecord_length floatBytes hfb n v0 v1 v2)
    rw [List.length_append, List.length_append, hlen, ← hf.length_eq, meshTriangles_length]
    simp [leBytes]

/-- C1 (amended): for every mesh whose faces have at least 3 corners and whose corner
indices are valid, and whose total `sum over faces of (corner_count - 2)` is below `2^32`,
`write<STL>` puts after the 80-byte header a 4-byte count that re-reads as that sum, and
writes after it exactly that many triangle records. -/
theorem C1_triangle_count (floatBytes : F → List Nat) (sqrt : F → F) (m : Model F)
    (hv : ValidMesh m) (hsmall : triangleTotal m < 2 ^ 32) :
    ∃ (count : List Nat) (records : List (List Nat)),
      writeSTL floatBytes sqrt m = some (List.replicate 80 0 ++ count ++ records.flatten) ∧
      count.length = 4 ∧ decodeLE count = triangleTotal m ∧
      records.length = triangleTotal m ∧
      ∀ r ∈ records, ∃ n v0 v1 v2, r = triangleRecord floatBytes n v0 v1 v2 := by
  obtain ⟨records, hw, hf⟩ := writeSTL_valid floatBytes sqrt m hv
  refine ⟨leBytes 4 (triangleTotal m % 2 ^ 32), records, hw, by simp [leBytes], ?_, ?_, ?_⟩
  · rw [decodeLE_leBytes4, Nat.mod_mod, Nat.mod_eq_of_lt hsmall]
  · rw [← hf.length_eq, meshTriangles_length]
  · intro r hr
    obtain ⟨t, _, n, v0, v1, v2, _, _, rfl⟩ := forall₂_right_mem hf r hr
    exact ⟨n, v0, v1, v2, rfl⟩

/-- C2 (amended): for every valid mesh with fewer than `2^32` fan triangles (and 4-byte
floats), the output of `write<STL>` is 80 zero bytes, the 4-byte little-endian count `N`,
then exactly `N` records, one per fan triangle in order, each of 50 bytes: the normal
(12 bytes), the `x, y, z` of the three corners in order (3 x 12 bytes) and two zero bytes;
the total length is `84 + 50 * N`. -/
theorem C2_stl_layout (floatBytes : F → List Nat) (sqrt : F → F) (m : Model F)
    (hv : ValidMesh m) (hfb : ∀ x, (floatBytes x).length = 4)
    (hsmall : triangleTotal m < 2 ^ 32) :
    ∃ records : List (List Nat),
      writeSTL floatBytes sqrt m =
        some (List.replicate 80 0 ++ leBytes 4 (triangleTotal m) ++ records.flatten) ∧
      (leBytes 4 (triangleTotal m)).length = 4 ∧
      decodeLE (leBytes 4 (triangleTotal m)) = triangleTotal m ∧
      records.length = triangleTotal m ∧
      List.Forall₂ (fun t r => ∃ n v0 v1 v2, resolveTriangle m t = some (v0, v1, v2) ∧
        triangleNormal sqrt m t (v0, v1, v2) = some n ∧
        r = (floatBytes n.1 ++ floatBytes n.2.1 ++ floatBytes n.2.2)
          ++ (floatBytes v0.x ++ floatBytes v0.y ++ floatBytes v0.z)
          ++ (floatBytes v1.x ++ floatBytes v1.y ++ floatBytes v1.z)
          ++ (floatBytes v2.x ++ floatBytes v2.y ++ floatBytes v2.z) ++ [0, 0] ∧
        r.length = 50) (meshTriangles m) records ∧
      (List.replicate 80 0 ++ leBytes 4 (triangleTotal m) ++ records.flatten).length
        = 84 + 50 * triangleTotal m := by
  obtain ⟨records, hw, hf⟩ := writeSTL_valid floatBytes sqrt m hv
  obtain ⟨out, hw2, _, hlen⟩ := writeSTL_length floatBytes sqrt m hv hfb
  rw [Nat.mod_eq_of_lt hsmall] at hw
  rw [hw] at hw2
  refine ⟨records, hw, by simp [leBytes], ?_, ?_, ?_, ?_⟩
  · rw [decodeLE_leBytes4, Nat.mod_eq_of_lt hsmall]
  · rw [← hf.length_eq, meshTriangles_length]
  · refine hf.imp ?_
    rintro t r ⟨n, v0, v1, v2, h1, h2, rfl⟩
    exact ⟨n, v0, v1, v2, h1, h2, by simp [triangleRecord, vertexBytes, leBytes],
      triangleRecord_length floatBytes hfb n v0 v1 v2⟩
  · rw [Option.some.inj hw2]; exact hlen

end

/-- C1 witness: the one-triangle mesh. -/
theorem C1_triangle_count_witness :
    ValidMesh triMesh ∧ triangleTotal triMesh < 2 ^ 32 ∧
    ∃ (count : List Nat) (records : List (List Nat)),
      writeSTL zeroBytes id triMesh = some (List.replicate 80 0 ++ count ++ records.flatten) ∧
      count.length = 4 ∧ decodeLE count = triangleTotal triMesh ∧
      records.length = triangleTotal triMesh ∧
      ∀ r ∈ records, ∃ n v0 v1 v2, r = triangleRecord zeroBytes n v0 v1 v2 :=
  ⟨validMesh_triMesh, by simp [triangleTotal, triMesh],
    C1_triangle_count zeroBytes id triMesh validMesh_triMesh (by simp [triangleTotal, triMesh])⟩

/-- C1 counterexample: a valid mesh with one face of `2^32 + 2` corners: the sum over
faces of `corner_count - 2` is `2^32`, but the count field written after the header
re-reads as `0`. -/
theorem C1_counterexample :
    ValidMesh bigMesh ∧ triangleTotal bigMesh = 2 ^ 32 ∧
    ∃ out, writeSTL zeroBytes id bigMesh = some out ∧
      decodeLE ((out.drop 80).take 4) = 0 := by
  have hv : ValidMesh bigMesh := validMesh_fanMesh _ (by norm_num)
  have ht : triangleTotal bigMesh = 2 ^ 32 := by
    rw [bigMesh, triangleTotal_fanMesh]
    norm_num
  obtain ⟨out, h1, h2, _⟩ := writeSTL_length zeroBytes id bigMesh hv (fun _ => rfl)
  exact ⟨hv, ht, out, h1, by rw [h2, ht]; norm_num⟩

/-- C2 witness: the one-triangle mesh. -/
theorem C2_stl_layout_witness :
    ValidMesh triMesh ∧ (∀ x, (zeroBytes x).length = 4) ∧ triangleTotal triMesh < 2 ^ 32 ∧
    ∃ records : List (List Nat),
      writeSTL zeroBytes id triMesh =
        some (List.replicate 80 0 ++ leBytes 4 (triangleTotal triMesh) ++ records.flatten) ∧
      (leBytes 4 (triangleTotal triMesh)).length = 4 ∧
      decodeLE (leBytes 4 (triangleTotal triMesh)) = triangleTotal triMesh ∧
      records.length = triangleTotal triMesh ∧
      List.Forall₂ (fun t r => ∃ n v0 v1 v2, resolveTriangle triMesh t = some (v0, v1, v2) ∧
        triangleNormal id triMesh t (v0, v1, v2) = some n ∧
        r = (zeroBytes n.1 ++ zeroBytes n.2.1 ++ zeroBytes n.2.2)
          ++ (zeroBytes v0.x ++ zeroBytes v0.y ++ zeroBytes v0.z)
          ++ (zeroBytes v1.x ++ zeroBytes v1.y ++ zeroBytes v1.z)
          ++ (zeroBytes v2.x ++ zeroBytes v2.y ++ zeroBytes v2.z) ++ [0, 0] ∧
        r.length = 50) (meshTriangles triMesh) records ∧
      (List.replicate 80 0 ++ leBytes 4 (triangleTotal triMesh) ++ records.flatten).length
        = 84 + 50 * triangleTotal triMesh :=
  ⟨validMesh_triMesh, fun _ => rfl, by simp [triangleTotal, triMesh],
    C2_stl_layout zeroBytes id triMesh validMesh_triMesh (fun _ => rfl)
      (by simp [triangleTotal, triMesh])⟩

/-- C2 counterexample: for the valid mesh with one face of `2^32 + 2` corners the count
field `N` re-reads as `0`, yet the output is `84 + 50 * 2^32` bytes long: `2^32` records
follow the count, not `N`. -/
theorem C2_counterexample :
    ValidMesh bigMesh ∧ (∀ x, (zeroBytes x).length = 4) ∧
    ∃ out, writeSTL zeroBytes id bigMesh = some out ∧
      decodeLE ((out.drop 80).take 4) = 0 ∧ out.length = 84 + 50 * 2 ^ 32 ∧
      out.length ≠ 84 + 50 * decodeLE ((out.drop 80).take 4) := by
  have hv : ValidMesh bigMesh := validMesh_fanMesh _ (by norm_num)
  have ht : triangleTotal bigMesh = 2 ^ 32 := by
    rw [bigMesh, triangleTotal_fanMesh]
    norm_num
  obtain ⟨out, h1, h2, h3⟩ := writeSTL_length zeroBytes id bigMesh hv (fun _ => rfl)
  have h4 : decodeLE ((out.drop 80).take 4) = 0 := by rw [h2, ht]; norm_num
  refine ⟨hv, fun _ => rfl, out, h1, h4, by rw [h3, ht], ?_⟩
  rw [h4, h3, ht]
  norm_num

/-! ## Index resolution in read: claims C4, C5 -/

theorem resolveIndex_neg (count k : Nat) (h1 : 1 ≤ k) :
    resolveIndex count (-(k : Int)) = toInt32 ((count : Int) + k) := by
  unfold resolveIndex toInt32 toSizeT
  have : (-(k : Int)) < 0 := by omega
  simp only [this, if_true]
  omega

theorem toInt32_small (i : Int) (h0 : -2 ^ 31 ≤ i) (h1 : i < 2 ^ 31) : toInt32 i = i := by
  unfold toInt32
  omega

theorem resolveIndex_nonneg (count : Nat) (index : Int) (h : 0 ≤ index) :
    resolveIndex count index = index := by
  unfold resolveIndex
  have : ¬ index < 0 := by omega
  simp [this]

section

variable {F : Type} [LinearOrderedField F]

theorem readLine_face (parseFloat : List Char → F × Option (List Char)) (m : Model F)
    (line : List Char) (h : (extractString ⟨line, false⟩).1 = some ['f']) :
    readLine parseFloat m line =
      (readFaceVertices m (streamWords (extractString ⟨line, false⟩).2)).map
        (fun corners => { m with faces := m.faces ++ [⟨corners⟩] }) := by
  unfold readLine
  simp only [h, Option.getD_some]
  rw [if_neg (by decide), if_neg (by decide), if_neg (by decide), if_pos trivial]

omit [LinearOrderedField F] in
theorem readFaceVertices_mem (m : Model F) (words : List (List Char))
    (corners : List FaceVertexIndex) (h : readFaceVertices m words = some corners) :
    List.Forall₂ (fun word fv => readFaceVertex m word = some fv) words corners := by
  induction words generalizing corners with
  | nil =>
    simp only [readFaceVertices, Option.some.injEq] at h
    subst h
    exact List.Forall₂.nil
  | cons w ws ih =>
    simp only [readFaceVertices] at h
    cases h1 : readFaceVertex m w with
    | none => simp [h1] at h
    | some fv =>
      cases h2 : readFaceVertices m ws with
      | none => simp [h1, h2] at h
      | some rest =>
        simp [h1, h2] at h
        subst h
        exact List.Forall₂.cons h1 (ih rest h2)

theorem readLine_face_corners (parseFloat : List Char → F × Option (List Char)) (m m1 : Model F)
    (line : List Char) (h : (extractString ⟨line, false⟩).1 = some ['f'])
    (hr : readLine parseFloat m line = some m1) :
    ∃ corners, m1.faces = m.faces ++ [⟨corners⟩] ∧ m1.vertices = m.vertices ∧
      List.Forall₂ (fun word fv => readFaceVertex m word = some fv)
        (streamWords (extractString ⟨line, false⟩).2) corners := by
  rw [readLine_face parseFloat m line h] at hr
  cases hc : readFaceVertices m (streamWords (extractString ⟨line, false⟩).2) with
  | none => simp [hc] at hr
  | some corners =>
    simp only [hc, Option.map_some', Option.some.injEq] at hr
    subst hr
    exact ⟨corners, rfl, rfl, readFaceVertices_mem m _ corners hc⟩

/-- C4 (amended): in the `f` branch of `read`, a corner whose vertex component parses to a
negative value `-k` when `n` vertices have been read is stored with the index `n + k`
reduced to a 32-bit `int`, which is `n + k` itself whenever `n + k < 2^31`; the texture and
normal components follow the same rule with the counts of texture coordinates and normals;
non-negative components are stored unchanged. The corners of the face that an `f` line
appends are those of its words, in order. -/
theorem C4_negative_index_resolution (m : Model F) (word : List Char) (fv : FaceVertexIndex)
    (h : readFaceVertex m word = some fv) :
    let viss : IStream := ⟨word.map (fun c => if c = '/' then ' ' else c), false⟩
    let r1 := extractInt viss
    let r2 := extractInt r1.2
    let r3 := extractInt r2.2
    (∀ k : Nat, 1 ≤ k → r1.1 = some (-(k : Int)) →
      fv.vertexIndex = toInt32 ((m.vertices.length : Int) + k) ∧
      (m.vertices.length + k < 2 ^ 31 → fv.vertexIndex = (m.vertices.length : Int) + k)) ∧
    (∀ k : Nat, 1 ≤ k → r2.1 = some (-(k : Int)) →
      fv.textureVertexIndex = toInt32 ((m.textureVertices.length : Int) + k) ∧
      (m.textureVertices.length + k < 2 ^ 31 →
        fv.textureVertexIndex = (m.textureVertices.length : Int) + k)) ∧
    (∀ k : Nat, 1 ≤ k → r3.1 = some (-(k : Int)) →
      fv.normalIndex = toInt32 ((m.vertexNormals.length : Int) + k) ∧
      (m.vertexNormals.length + k < 2 ^ 31 →
        fv.normalIndex = (m.vertexNormals.length : Int) + k)) ∧
    (∀ v : Int, 0 ≤ v → r1.1 = some v → fv.vertexIndex = v) ∧
    (∀ v : Int, 0 ≤ v → r2.1 = some v → fv.textureVertexIndex = v) ∧
    (∀ v : Int, 0 ≤ v → r3.1 = some v → fv.normalIndex = v) ∧
    (∀ (parseFloat : List Char → F × Option (List Char)) (line : List Char) (m1 : Model F),
      (extractString ⟨line, false⟩).1 = some ['f'] → readLine parseFloat m line = some m1 →
      ∃ corners, m1.faces = m.faces ++ [⟨corners⟩] ∧ m1.vertices = m.vertices ∧
        List.Forall₂ (fun word corner => readFaceVertex m word = some corner)
          (streamWords (extractString ⟨line, false⟩).2) corners) := by
  intro viss r1 r2 r3
  have key : ∀ (count : Nat) (k : Nat), 1 ≤ k →
      resolveIndex count (-(k : Int)) = toInt32 ((count : Int) + k) ∧
      (count + k < 2 ^ 31 → resolveIndex count (-(k : Int)) = (count : Int) + k) := by
    intro count k hk
    refine ⟨resolveIndex_neg count k hk, fun hlt => ?_⟩
    rw [resolveIndex_neg count k hk]
    exact toInt32_small _ (by omega) (by omega)
  unfold readFaceVertex at h
  cases h1 : r1.1 with
  | none =>
    have : (extractInt ⟨word.map (fun c => if c = '/' then ' ' else c), false⟩).1 = none := h1
    simp [this] at h
  | some v1 =>
    have e1 : (extractInt ⟨word.map (fun c => if c = '/' then ' ' else c), false⟩).1 = some v1 :=
      h1
    simp only [e1] at h
    have hfv := (Option.some.inj h).symm
    have hv : fv.vertexIndex = resolveIndex m.vertices.length v1 := by rw [hfv]
    have ht : fv.textureVertexIndex = resolveIndex m.textureVertices.length (r2.1.getD 0) := by
      rw [hfv]
    have hn : fv.normalIndex = resolveIndex m.vertexNormals.length (r3.1.getD 0) := by
      rw [hfv]
    refine ⟨?_, ?_, ?_, ?_, ?_, ?_,
      fun parseFloat line m1 hp hr => readLine_face_corners parseFloat m m1 line hp hr⟩
    · intro k hk hr
      rw [hv, Option.some.inj hr]
      exact key _ k hk
    · intro k hk hr
      rw [ht, hr]
      exact key _ k hk
    · intro k hk hr
      rw [hn, hr]
      exact key _ k hk
    · intro v h0 hr
      rw [hv, Option.some.inj hr]
      exact resolveIndex_nonneg _ v h0
    · intro v h0 hr
      rw [ht, hr]
      exact resolveIndex_nonneg _ v h0
    · intro v h0 hr
      rw [hn, hr]
      exact resolveIndex_nonneg _ v h0

end

/-- C4 witness: a word with the components -1, 2 and -3, read when 3 vertices and no
normal have been read. -/
theorem C4_negative_index_resolution_witness :
    readFaceVertex triMesh "-1/2/-3".toList = some ⟨4, 2, 3⟩ ∧
    (4 : Int) = ((triMesh.vertices.length : Int) + (1 : Nat)) ∧
    (3 : Int) = ((triMesh.vertexNormals.length : Int) + (3 : Nat)) :=
  ⟨rfl,
    ((C4_negative_index_resolution triMesh "-1/2/-3".toList ⟨4, 2, 3⟩ rfl).1 1 (by decide)
      rfl).2 (by decide),
    ((C4_negative_index_resolution triMesh "-1/2/-3".toList ⟨4, 2, 3⟩ rfl).2.2.1 3 (by decide)
      rfl).2 (by decide)⟩

/-- C4 counterexample: the line `f -2147483648` read into the empty model: the vertex
component parses to `-k` with `k = 2^31` when `n = 0` vertices have been read, and the
index stored is `-2147483648`, not `n + k = 2147483648`. -/
theorem C4_counterexample :
    (extractInt ⟨"-2147483648".toList, false⟩).1 = some (-(2147483648 : Int)) ∧
    (Model.empty : Model ℚ).vertices.length = 0 ∧
    (readLine parseDigits (Model.empty : Model ℚ) "f -2147483648".toList).map Model.faces
      = some [⟨[⟨-2147483648, 0, 0⟩]⟩] ∧
    (-2147483648 : Int) ≠ 0 + 2147483648 :=
  ⟨rfl, rfl, rfl, by decide⟩

/-- C5, the code at the failing input: three `v` lines followed by `f -3 -2 -1`. `read`
stores the corner indices 6, 5, 4 (`n + k`), not 1, 2, 3 (the `k`-th vertex above the
line), and `write<STL>` then indexes the vertex vector out of its range. -/
theorem C5_code_at_failing_input :
    read parseDigits Model.empty negativeRefsText = some negativeRefsModel ∧
    negativeRefsModel.vertices.length = 3 ∧
    negativeRefsModel.faces = [⟨[⟨6, 0, 0⟩, ⟨5, 0, 0⟩, ⟨4, 0, 0⟩]⟩] ∧
    negativeRefsModel.vertexAt 6 = none ∧
    writeSTL zeroBytes id negativeRefsModel = none :=
  ⟨rfl, rfl, rfl, rfl, rfl⟩

/-! ## Affine transforms: claims C6, C7, C8 -/

section

variable {F : Type} [LinearOrderedField F]

/-- C7: `applyTransform(M)` replaces the `i`-th vertex `v` by `M * v` for every `i`, keeps
the number and order of the vertices, and leaves the texture coordinates, the normals and
the faces as they were. -/
theorem C7_transform_frame (m : Model F) (M : Matrix4x4 F) :
    (applyTransform m M).vertices.length = m.vertices.length ∧
    (∀ i : Nat, (applyTransform m M).vertices[i]? = (m.vertices[i]?).map M.mulVertex) ∧
    (applyTransform m M).textureVertices = m.textureVertices ∧
    (applyTransform m M).vertexNormals = m.vertexNormals ∧
    (applyTransform m M).faces = m.faces := by
  refine ⟨by simp [applyTransform], ?_, rfl, rfl, rfl⟩
  intro i
  simp [applyTransform]

end

/-! ## Cyclic listings and the standard cube -/

theorem cyclicListing_cases {α : Type} {l : List α} {a b c d : α}
    (h : IsCyclicListing l [a, b, c, d]) :
    l = [a, b, c, d] ∨ l = [b, c, d, a] ∨ l = [c, d, a, b] ∨ l = [d, a, b, c] ∨
    l = [d, c, b, a] ∨ l = [c, b, a, d] ∨ l = [b, a, d, c] ∨ l = [a, d, c, b] := by
  obtain ⟨k, hk⟩ := h
  have hk4 : k % 4 < 4 := Nat.mod_lt _ (by decide)
  rcases hk with hk | hk
  · rw [← List.rotate_mod] at hk
    simp only [List.length_cons, List.length_nil] at hk
    have : k % 4 = 0 ∨ k % 4 = 1 ∨ k % 4 = 2 ∨ k % 4 = 3 := by omega
    rcases this with e | e | e | e <;> rw [e] at hk <;> subst hk
    · exact Or.inl rfl
    · exact Or.inr (Or.inl rfl)
    · exact Or.inr (Or.inr (Or.inl rfl))
    · exact Or.inr (Or.inr (Or.inr (Or.inl rfl)))
  · rw [← List.rotate_mod] at hk
    simp only [List.length_reverse, List.length_cons, List.length_nil] at hk
    have : k % 4 = 0 ∨ k % 4 = 1 ∨ k % 4 = 2 ∨ k % 4 = 3 := by omega
    rcases this with e | e | e | e <;> rw [e] at hk <;> subst hk
    · exact Or.inr (Or.inr (Or.inr (Or.inr (Or.inl rfl))))
    · exact Or.inr (Or.inr (Or.inr (Or.inr (Or.inr (Or.inl rfl)))))
    · exact Or.inr (Or.inr (Or.inr (Or.inr (Or.inr (Or.inr (Or.inl rfl))))))
    · exact Or.inr (Or.inr (Or.inr (Or.inr (Or.inr (Or.inr (Or.inr rfl))))))

theorem allSome_eq_four {α β : Type} (g : α → Option β) (xs : List α) (b0 b1 b2 b3 : β)
    (h : allSome g xs = some [b0, b1, b2, b3]) :
    ∃ a0 a1 a2 a3, xs = [a0, a1, a2, a3] ∧ g a0 = some b0 ∧ g a1 = some b1 ∧
      g a2 = some b2 ∧ g a3 = some b3 := by
  have step : ∀ (ys : List α) (b : β) (bs : List β), allSome g ys = some (b :: bs) →
      ∃ a as, ys = a :: as ∧ g a = some b ∧ allSome g as = some bs := by
    intro ys b bs hy
    cases ys with
    | nil => simp [allSome] at hy
    | cons a as =>
      refine ⟨a, as, rfl, ?_⟩
      simp only [allSome] at hy
      cases ha : g a with
      | none => simp [ha] at hy
      | some b1 =>
        cases has : allSome g as with
        | none => simp [ha, has] at hy
        | some bs1 =>
          simp [ha, has] at hy
          exact ⟨by rw [hy.1], by rw [hy.2]⟩
  obtain ⟨a0, r0, rfl, h0, hr0⟩ := step _ _ _ h
  obtain ⟨a1, r1, rfl, h1, hr1⟩ := step _ _ _ hr0
  obtain ⟨a2, r2, rfl, h2, hr2⟩ := step _ _ _ hr1
  obtain ⟨a3, r3, rfl, h3, hr3⟩ := step _ _ _ hr2
  cases r3 with
  | nil => exact ⟨a0, a1, a2, a3, rfl, h0, h1, h2, h3⟩
  | cons x xs =>
    exfalso
    simp only [allSome] at hr3
    cases hx : g x with
    | none => simp [hx] at hr3
    | some y =>
      cases hxs : allSome g xs with
      | none => simp [hx, hxs] at hr3
      | some ys => simp [hx, hxs] at hr3

section

variable {F : Type} [LinearOrderedField F]

omit [LinearOrderedField F] in
theorem facePositions_four {m : Model F} {face : Face} {q0 q1 q2 q3 : F × F × F}
    (h : facePositions m face = some [q0, q1, q2, q3]) :
    ∃ c0 c1 c2 c3 v0 v1 v2 v3, face.vertices = [c0, c1, c2, c3] ∧
      m.vertexAt c0.vertexIndex = some v0 ∧ m.vertexAt c1.vertexIndex = some v1 ∧
      m.vertexAt c2.vertexIndex = some v2 ∧ m.vertexAt c3.vertexIndex = some v3 ∧
      v0.xyz = q0 ∧ v1.xyz = q1 ∧ v2.xyz = q2 ∧ v3.xyz = q3 := by
  obtain ⟨c0, c1, c2, c3, hf, h0, h1, h2, h3⟩ := allSome_eq_four _ _ _ _ _ _ h
  simp only [Option.map_eq_some'] at h0 h1 h2 h3
  obtain ⟨v0, e0, x0⟩ := h0
  obtain ⟨v1, e1, x1⟩ := h1
  obtain ⟨v2, e2, x2⟩ := h2
  obtain ⟨v3, e3, x3⟩ := h3
  exact ⟨c0, c1, c2, c3, v0, v1, v2, v3, hf, e0, e1, e2, e3, x0, x1, x2, x3⟩

theorem isCubeMesh_standardCube (o : F × F × F) (s : F) : IsCubeMesh (standardCube o s) o s := by
  refine ⟨?_, [4, 5, 2, 3, 0, 1], by decide, ?_⟩
  · simp [standardCube, cubeCorners, Vertex.xyz]
  · refine List.Forall₂.cons ⟨_, rfl, 3, Or.inr rfl⟩ (List.Forall₂.cons ⟨_, rfl, 0, Or.inl rfl⟩
      (List.Forall₂.cons ⟨_, rfl, 0, Or.inl rfl⟩ (List.Forall₂.cons ⟨_, rfl, 3, Or.inr rfl⟩
      (List.Forall₂.cons ⟨_, rfl, 3, Or.inr rfl⟩ (List.Forall₂.cons ⟨_, rfl, 0, Or.inl rfl⟩
      List.Forall₂.nil)))))

end

/-! ## Coordinates of a position -/

section

variable {F : Type} [LinearOrderedField F]

omit [LinearOrderedField F] in
theorem xyz_eq {v : Vertex F} {x y z : F} (h : v.xyz = (x, y, z)) :
    v.x = x ∧ v.y = y ∧ v.z = z := by
  simp only [Vertex.xyz, Prod.mk.injEq] at h
  exact h

end

/-! ## Nested cubes -/

section

variable {F : Type} [LinearOrderedField F]

theorem isTwoCubeMesh_nestedCubes (o1 : F × F × F) (s1 : F) (o2 : F × F × F) (s2 : F) :
    IsTwoCubeMesh (nestedCubes o1 s1 o2 s2) o1 s1 o2 s2 := by
  refine ⟨?_, [(false, 4), (false, 5), (false, 2), (false, 3), (false, 0), (false, 1),
    (true, 4), (true, 5), (true, 2), (true, 3), (true, 0), (true, 1)], by decide, ?_⟩
  · simp [nestedCubes, standardCube, cubeCorners, Vertex.xyz]
  · refine List.Forall₂.cons ⟨_, rfl, 3, Or.inr rfl⟩ (List.Forall₂.cons ⟨_, rfl, 0, Or.inl rfl⟩
      (List.Forall₂.cons ⟨_, rfl, 0, Or.inl rfl⟩ (List.Forall₂.cons ⟨_, rfl, 3, Or.inr rfl⟩
      (List.Forall₂.cons ⟨_, rfl, 3, Or.inr rfl⟩ (List.Forall₂.cons ⟨_, rfl, 0, Or.inl rfl⟩
      (List.Forall₂.cons ⟨_, rfl, 3, Or.inr rfl⟩ (List.Forall₂.cons ⟨_, rfl, 0, Or.inl rfl⟩
      (List.Forall₂.cons ⟨_, rfl, 0, Or.inl rfl⟩ (List.Forall₂.cons ⟨_, rfl, 3, Or.inr rfl⟩
      (List.Forall₂.cons ⟨_, rfl, 3, Or.inr rfl⟩ (List.Forall₂.cons ⟨_, rfl, 0, Or.inl rfl⟩
      List.Forall₂.nil)))))))))))

end

/-! ## Volume and face tokens: claims C12, C13 -/

/-- C12, the code at the failing input: for the unit cube, closed and wound
counter-clockwise seen from outside, the sum of `tetrahedronVolume` over the fan triangles
has absolute value 1, the enclosed volume, but `calculateVolume` returns 0, as it does for
every mesh. -/
theorem C12_code_at_failing_input :
    volumeSpec (standardCube ((0 : ℚ), 0, 0) 1) = some 1 ∧
    calculateVolume (standardCube ((0 : ℚ), 0, 0) 1) = 0 ∧
    (∀ m : Model ℚ, calculateVolume m = 0) :=
  ⟨by decide!, rfl, fun _ => rfl⟩

/-- C13, the code at the failing input: the words `5`, `5/6` and `5/6/7` give the corners
`(5, 0, 0)`, `(5, 6, 0)` and `(5, 6, 7)`, but a word with the vertex index 5, an empty
texture part and the normal index 7 gives `(5, 7, 0)`, not `(5, 0, 7)`: the normal index
lands in the texture slot. So does every corner of the line `f 1//7 2//8 3//9`. -/
theorem C13_code_at_failing_input :
    readFaceVertex (Model.empty : Model ℚ) "5".toList = some ⟨5, 0, 0⟩ ∧
    readFaceVertex (Model.empty : Model ℚ) "5/6".toList = some ⟨5, 6, 0⟩ ∧
    readFaceVertex (Model.empty : Model ℚ) "5/6/7".toList = some ⟨5, 6, 7⟩ ∧
    readFaceVertex (Model.empty : Model ℚ) "5//7".toList = some ⟨5, 7, 0⟩ ∧
    (read parseDigits (Model.empty : Model ℚ) slashSlashText).map Model.faces
      = some [⟨[⟨1, 7, 0⟩, ⟨2, 8, 0⟩, ⟨3, 9, 0⟩]⟩] :=
  ⟨rfl, rfl, rfl, rfl, rfl⟩

/-! ## Numerals in face tokens -/

theorem isDigit_bounds {c : Char} (h : isDigit c = true) : 48 ≤ c.toNat ∧ c.toNat ≤ 57 := by
  simp only [isDigit, Bool.and_eq_true, decide_eq_true_eq] at h
  obtain ⟨h1, h2⟩ := h
  rw [Char.le_def] at h1 h2
  exact ⟨h1, h2⟩

theorem isDigit_not_space {c : Char} (h : isDigit c = true) :
    isSpace c = false ∧ c ≠ '-' ∧ c ≠ '+' ∧ c ≠ '/' := by
  obtain ⟨h1, h2⟩ := isDigit_bounds h
  have ne : ∀ d : Char, d.toNat < 48 → c ≠ d := by
    intro d hd hcd
    rw [hcd] at h1
    omega
  refine ⟨?_, ne '-' (by decide), ne '+' (by decide), ne '/' (by decide)⟩
  simp only [isSpace, Bool.or_eq_false_iff, decide_eq_false_iff_not]
  exact ⟨⟨⟨⟨⟨ne ' ' (by decide), ne '\t' (by decide)⟩, ne '\n' (by decide)⟩,
    ne '\x0b' (by decide)⟩, ne '\x0c' (by decide)⟩, ne '\r' (by decide)⟩

theorem dropWhile_space_append (sp tail : List Char) (hsp : ∀ c ∈ sp, isSpace c = true)
    (ht : ∀ c ∈ tail.head?, isSpace c = false) :
    (sp ++ tail).dropWhile isSpace = tail := by
  induction sp with
  | nil =>
    cases tail with
    | nil => rfl
    | cons c cs =>
      have := ht c (by simp)
      simp [List.dropWhile, this]
  | cons c cs ih =>
    have hc := hsp c (List.mem_cons_self _ _)
    simp only [List.cons_append, List.dropWhile, hc]
    exact ih (fun d hd => hsp d (List.mem_cons_of_mem _ hd))

theorem takeWhile_digit_append (ds rest : List Char) (hd : ∀ c ∈ ds, isDigit c = true)
    (hr : ∀ c ∈ rest.head?, isDigit c = false) :
    (ds ++ rest).takeWhile isDigit = ds ∧ (ds ++ rest).dropWhile isDigit = rest := by
  induction ds with
  | nil =>
    cases rest with
    | nil => exact ⟨rfl, rfl⟩
    | cons c cs =>
      have := hr c (by simp)
      simp [List.takeWhile, List.dropWhile, this]
  | cons c cs ih =>
    have hc := hd c (List.mem_cons_self _ _)
    obtain ⟨i1, i2⟩ := ih (fun d hd2 => hd d (List.mem_cons_of_mem _ hd2))
    simp only [List.cons_append, List.takeWhile, List.dropWhile, hc]
    exact ⟨congrArg (List.cons c) i1, i2⟩

theorem extractInt_numeral (sp ds rest : List Char) (hsp : ∀ c ∈ sp, isSpace c = true)
    (hd : IsNumeral ds) (hr : ∀ c ∈ rest.head?, isDigit c = false)
    (hv : numeralValue ds < 2 ^ 31) :
    extractInt ⟨sp ++ (ds ++ rest), false⟩ = (some (numeralValue ds : Int), ⟨rest, false⟩) := by
  obtain ⟨hne, hdig⟩ := hd
  obtain ⟨d, ds1, rfl⟩ := List.exists_cons_of_ne_nil hne
  have hd0 := hdig d (List.mem_cons_self _ _)
  obtain ⟨hs, hm, hp, _⟩ := isDigit_not_space hd0
  have hdrop : (sp ++ (d :: ds1 ++ rest)).dropWhile isSpace = d :: (ds1 ++ rest) :=
    dropWhile_space_append sp (d :: ds1 ++ rest) hsp (by simp [hs])
  obtain ⟨t1, t2⟩ := takeWhile_digit_append (d :: ds1) rest hdig hr
  have hsign : ¬ (d = '-' ∨ d = '+') := by
    rintro (h | h)
    · exact hm h
    · exact hp h
  have hv1 : ¬ ((numeralValue (d :: ds1) : Int) < -2 ^ 31) := by
    have : (0 : Int) ≤ numeralValue (d :: ds1) := Int.natCast_nonneg _
    omega
  have hv2 : ¬ ((2 : Int) ^ 31 - 1 < (numeralValue (d :: ds1) : Int)) := by
    have : ((numeralValue (d :: ds1) : Nat) : Int) < 2 ^ 31 := by exact_mod_cast hv
    omega
  simp only [extractInt, hdrop, Bool.false_eq_true, if_false, hsign]
  rw [show d :: (ds1 ++ rest) = (d :: ds1) ++ rest from rfl, t1, t2]
  simp only [List.cons_ne_nil, hm, if_false]
  have e : List.foldl (fun acc d => 10 * acc + (d.toNat - 48)) 0 (d :: ds1)
      = numeralValue (d :: ds1) := rfl
  rw [e, if_neg hv1, if_neg hv2]

theorem extractInt_blank (sp : List Char) (hsp : ∀ c ∈ sp, isSpace c = true) :
    extractInt ⟨sp, false⟩ = (none, ⟨[], true⟩) := by
  have h := dropWhile_space_append sp [] hsp (by simp)
  rw [List.append_nil] at h
  simp [extractInt, h]

theorem extractInt_failed (rest : List Char) :
    extractInt ⟨rest, true⟩ = (none, ⟨rest, true⟩) := by
  simp [extractInt]

theorem map_slash_numeral (ds : List Char) (hd : IsNumeral ds) :
    ds.map (fun c => if c = '/' then ' ' else c) = ds := by
  conv_rhs => rw [← List.map_id ds]
  apply List.map_congr_left
  intro c hc
  have := (isDigit_not_space (hd.2 c hc)).2.2.2
  simp [this]

section

variable {F : Type}

/-- The corners that `read` builds from the four shapes of a face word whose parts are
decimal numerals below `2^31`: vertex alone, vertex and texture, all three, and vertex and
normal around an empty texture part. -/
theorem readFaceVertex_forms (m : Model F) (dv dt dn : List Char)
    (hv : IsNumeral dv) (ht : IsNumeral dt) (hn : IsNumeral dn)
    (bv : numeralValue dv < 2 ^ 31) (bt : numeralValue dt < 2 ^ 31)
    (bn : numeralValue dn < 2 ^ 31) :
    readFaceVertex m dv = some ⟨numeralValue dv, 0, 0⟩ ∧
    readFaceVertex m (dv ++ '/' :: dt) = some ⟨numeralValue dv, numeralValue dt, 0⟩ ∧
    readFaceVertex m (dv ++ '/' :: (dt ++ '/' :: dn))
      = some ⟨numeralValue dv, numeralValue dt, numeralValue dn⟩ ∧
    readFaceVertex m (dv ++ '/' :: '/' :: dn)
      = some ⟨numeralValue dv, numeralValue dn, 0⟩ := by
  have sp1 : ∀ c ∈ [' '], isSpace c = true := by simp [isSpace]
  have sp2 : ∀ c ∈ [' ', ' '], isSpace c = true := by simp [isSpace]
  have nd : ∀ (tail : List Char), ∀ c ∈ (' ' :: tail).head?, isDigit c = false := by
    intro tail c hc
    simp only [List.head?_cons, Option.mem_def, Option.some.injEq] at hc
    subst hc
    decide
  have nil0 : ∀ c ∈ ([] : List Char).head?, isDigit c = false := by simp
  have r0 : ∀ count : Nat, resolveIndex count 0 = 0 := fun count =>
    resolveIndex_nonneg count 0 (le_refl 0)
  have rv : ∀ (count : Nat) (ds : List Char), resolveIndex count (numeralValue ds : Int)
      = (numeralValue ds : Int) := fun count ds =>
    resolveIndex_nonneg count _ (Int.natCast_nonneg _)
  refine ⟨?_, ?_, ?_, ?_⟩
  · have e1 := extractInt_numeral [] dv [] (by simp) hv nil0 bv
    simp only [List.nil_append, List.append_nil] at e1
    simp only [readFaceVertex, map_slash_numeral dv hv, e1, extractInt_blank [] (by simp),
      extractInt_failed, Option.getD_none, r0, rv]
  · have e1 := extractInt_numeral [] dv (' ' :: dt) (by simp) hv (nd dt) bv
    have e2 := extractInt_numeral [' '] dt [] sp1 ht nil0 bt
    simp only [List.nil_append, List.append_nil, List.singleton_append] at e1 e2
    simp only [readFaceVertex, List.map_append, List.map_cons, map_slash_numeral dv hv,
      map_slash_numeral dt ht, if_true, e1, e2, extractInt_blank [] (by simp),
      Option.getD_none, Option.getD_some, r0, rv]
  · have e1 := extractInt_numeral [] dv (' ' :: (dt ++ ' ' :: dn)) (by simp) hv (nd _) bv
    have e2 := extractInt_numeral [' '] dt (' ' :: dn) sp1 ht (nd dn) bt
    have e3 := extractInt_numeral [' '] dn [] sp1 hn nil0 bn
    simp only [List.nil_append, List.append_nil, List.singleton_append] at e1 e2 e3
    simp only [readFaceVertex, List.map_append, List.map_cons, map_slash_numeral dv hv,
      map_slash_numeral dt ht, map_slash_numeral dn hn, if_true, e1, e2, e3,
      Option.getD_some, rv]
  · have e1 := extractInt_numeral [] dv (' ' :: ' ' :: dn) (by simp) hv (nd _) bv
    have e2 := extractInt_numeral [' ', ' '] dn [] sp2 hn nil0 bn
    simp only [List.nil_append, List.append_nil, List.cons_append] at e1 e2
    simp only [readFaceVertex, List.map_append, List.map_cons, map_slash_numeral dv hv,
      map_slash_numeral dn hn, if_true, e1, e2, extractInt_blank [] (by simp),
      Option.getD_none, Option.getD_some, r0, rv]

end

/-! ## Face lines: claim C14 -/

theorem wordsAux_words (cs cur : List Char) (hcur : ∀ c ∈ cur, isSpace c = false) :
    ∀ w ∈ wordsAux cs cur, w ≠ [] ∧ ∀ c ∈ w, isSpace c = false := by
  induction cs generalizing cur with
  | nil =>
    intro w hw
    by_cases h : cur = []
    · simp [wordsAux, h] at hw
    · simp only [wordsAux, h, if_false, List.mem_singleton] at hw
      subst hw
      exact ⟨h, hcur⟩
  | cons c cs ih =>
    intro w hw
    by_cases hc : isSpace c = true
    · by_cases h : cur = []
      · simp only [wordsAux, hc, if_true, h] at hw
        exact ih [] (by simp) w hw
      · simp only [wordsAux, hc, if_true, h, if_false, List.mem_cons] at hw
        rcases hw with rfl | hw
        · exact ⟨h, hcur⟩
        · exact ih [] (by simp) w hw
    · simp only [wordsAux, hc, Bool.false_eq_true, if_false] at hw
      refine ih (cur ++ [c]) ?_ w hw
      intro d hd
      rcases List.mem_append.mp hd with hd | hd
      · exact hcur d hd
      · rw [List.mem_singleton.mp hd]
        simpa using hc

theorem streamWords_words (s : IStream) :
    ∀ w ∈ streamWords s, w ≠ [] ∧ ∀ c ∈ w, isSpace c = false := by
  intro w hw
  unfold streamWords at hw
  split_ifs at hw
  · simp at hw
  · exact wordsAux_words s.rest [] (by simp) w hw

theorem dropWhile_ne_nil {α : Type} (p : α → Bool) (l : List α) (x : α) (hx : x ∈ l)
    (hp : p x = false) : l.dropWhile p ≠ [] := by
  induction l with
  | nil => simp at hx
  | cons a as ih =>
    by_cases ha : p a = true
    · simp only [List.dropWhile, ha]
      rcases List.mem_cons.mp hx with rfl | h
      · rw [hp] at ha; exact absurd ha (by simp)
      · exact ih h
    · simp only [Bool.not_eq_true] at ha
      simp [List.dropWhile, ha]

theorem extractInt_isSome (s : IStream) (hf : s.fail = false)
    (h : s.rest.dropWhile isSpace ≠ []) : ∃ v, (extractInt s).1 = some v := by
  obtain ⟨c, cs, hcs⟩ := List.exists_cons_of_ne_nil h
  simp only [extractInt, hf, Bool.false_eq_true, if_false, hcs]
  split_ifs <;> exact ⟨_, rfl⟩

section

variable {F : Type}

theorem readFaceVertex_isSome (m : Model F) (word : List Char)
    (hw : ∀ c ∈ word, isSpace c = false) (hc : ∃ c ∈ word, c ≠ '/') :
    ∃ fv, readFaceVertex m word = some fv := by
  obtain ⟨c, hcw, hne⟩ := hc
  have hmem : c ∈ word.map (fun c => if c = '/' then ' ' else c) := by
    refine List.mem_map.mpr ⟨c, hcw, ?_⟩
    simp [hne]
  obtain ⟨v, hv⟩ := extractInt_isSome ⟨word.map (fun c => if c = '/' then ' ' else c), false⟩
    rfl (dropWhile_ne_nil isSpace _ c hmem (hw c hcw))
  unfold readFaceVertex
  simp only [hv]
  exact ⟨_, rfl⟩

theorem readFaceVertices_isSome (m : Model F) (words : List (List Char))
    (h : ∀ w ∈ words, ∃ fv, readFaceVertex m w = some fv) :
    ∃ corners, readFaceVertices m words = some corners := by
  induction words with
  | nil => exact ⟨[], rfl⟩
  | cons w ws ih =>
    obtain ⟨fv, hfv⟩ := h w (List.mem_cons_self _ _)
    obtain ⟨rest, hrest⟩ := ih (fun x hx => h x (List.mem_cons_of_mem _ hx))
    exact ⟨fv :: rest, by simp [readFaceVertices, hfv, hrest]⟩

end

section

variable {F : Type} [LinearOrderedField F]

/-- C14 (amended): an `f` line appends exactly one Face whatever the number of its index
tokens: the Face has one corner per token, in order, also when the line carries fewer than
3 tokens (or none), and no other sequence changes. `read` is defined on the line as soon as
every token has a character other than the slash. -/
theorem C14_face_line (parseFloat : List Char → F × Option (List Char)) (m : Model F)
    (line : List Char) (h : (extractString ⟨line, false⟩).1 = some ['f']) :
    (∀ m1, readLine parseFloat m line = some m1 →
      ∃ corners, m1.faces = m.faces ++ [⟨corners⟩] ∧
        corners.length = (streamWords (extractString ⟨line, false⟩).2).length ∧
        List.Forall₂ (fun word corner => readFaceVertex m word = some corner)
          (streamWords (extractString ⟨line, false⟩).2) corners ∧
        m1.vertices = m.vertices ∧ m1.textureVertices = m.textureVertices ∧
        m1.vertexNormals = m.vertexNormals) ∧
    ((∀ word ∈ streamWords (extractString ⟨line, false⟩).2, ∃ c ∈ word, c ≠ '/') →
      ∃ m1, readLine parseFloat m line = some m1) := by
  rw [readLine_face parseFloat m line h]
  constructor
  · intro m1 hr
    cases hc : readFaceVertices m (streamWords (extractString ⟨line, false⟩).2) with
    | none => simp [hc] at hr
    | some corners =>
      simp only [hc, Option.map_some', Option.some.injEq] at hr
      subst hr
      have hf := readFaceVertices_mem m _ corners hc
      exact ⟨corners, rfl, hf.length_eq.symm, hf, rfl, rfl, rfl⟩
  · intro hw
    obtain ⟨corners, hc⟩ := readFaceVertices_isSome m
      (streamWords (extractString ⟨line, false⟩).2) (fun w hmem =>
        readFaceVertex_isSome m w (streamWords_words _ w hmem).2 (hw w hmem))
    exact ⟨_, by rw [hc]; rfl⟩

end

/-- C14 witness: the line `f 1 2 3` read into the one-triangle mesh. -/
theorem C14_face_line_witness :
    (extractString ⟨"f 1 2 3".toList, false⟩).1 = some ['f'] ∧
    ∃ m1, readLine parseDigits triMesh "f 1 2 3".toList = some m1 :=
  ⟨rfl, (C14_face_line parseDigits triMesh "f 1 2 3".toList rfl).2 (by decide)⟩

/-- C14 counterexample: `read` on the text of the two lines `f 1 2` and `f` stores a Face
of 2 corners and a Face of no corner. -/
theorem C14_counterexample :
    (read parseDigits (Model.empty : Model ℚ) "f 1 2\nf".toList).map Model.faces
      = some [⟨[⟨1, 0, 0⟩, ⟨2, 0, 0⟩]⟩, ⟨[]⟩] :=
  rfl

/-! ## Vertex lines and ignored lines: claims C15, C16 -/

theorem head_gap_append {gap tail : List Char} (h : IsGap gap) :
    ∀ c ∈ (gap ++ tail).head?, isSpace c = true := by
  obtain ⟨hne, hb⟩ := h
  obtain ⟨g, gs, rfl⟩ := List.exists_cons_of_ne_nil hne
  intro c hc
  simp only [List.cons_append, List.head?_cons, Option.mem_def, Option.some.injEq] at hc
  subst hc
  exact hb _ (List.mem_cons_self _ _)

theorem head_blank {post : List Char} (h : IsBlank post) :
    ∀ c ∈ post.head?, isSpace c = true := by
  intro c hc
  cases post with
  | nil => simp at hc
  | cons a as =>
    simp only [List.head?_cons, Option.mem_def, Option.some.injEq] at hc
    subst hc
    exact h _ (List.mem_cons_self _ _)

theorem span_word (word tail : List Char) (hw : ∀ c ∈ word, isSpace c = false)
    (ht : ∀ c ∈ tail.head?, isSpace c = true) :
    (word ++ tail).takeWhile (fun d => !isSpace d) = word ∧
    (word ++ tail).dropWhile (fun d => !isSpace d) = tail := by
  induction word with
  | nil =>
    cases tail with
    | nil => exact ⟨rfl, rfl⟩
    | cons c cs =>
      have := ht c (by simp)
      simp [List.takeWhile, List.dropWhile, this]
  | cons c cs ih =>
    have hc := hw c (List.mem_cons_self _ _)
    obtain ⟨i1, i2⟩ := ih (fun d hd => hw d (List.mem_cons_of_mem _ hd))
    simp only [List.cons_append, List.takeWhile, List.dropWhile, hc, Bool.not_false]
    exact ⟨congrArg (List.cons c) i1, i2⟩

theorem dropWhile_blank_word (pre word tail : List Char) (hpre : IsBlank pre)
    (hne : word ≠ []) (hw : ∀ c ∈ word, isSpace c = false) :
    (pre ++ (word ++ tail)).dropWhile isSpace = word ++ tail := by
  apply dropWhile_space_append pre (word ++ tail) hpre
  obtain ⟨w, ws, rfl⟩ := List.exists_cons_of_ne_nil hne
  intro c hc
  simp only [List.cons_append, List.head?_cons, Option.mem_def, Option.some.injEq] at hc
  subst hc
  exact hw _ (List.mem_cons_self _ _)

theorem extractString_word (pre word tail : List Char) (hpre : IsBlank pre)
    (hne : word ≠ []) (hw : ∀ c ∈ word, isSpace c = false)
    (ht : ∀ c ∈ tail.head?, isSpace c = true) :
    extractString ⟨pre ++ (word ++ tail), false⟩ = (some word, ⟨tail, false⟩) := by
  have hd := dropWhile_blank_word pre word tail hpre hne hw
  obtain ⟨s1, s2⟩ := span_word word tail hw ht
  obtain ⟨w, ws, rfl⟩ := List.exists_cons_of_ne_nil hne
  simp only [extractString, Bool.false_eq_true, if_false]
  rw [hd]
  show (some (((w :: ws) ++ tail).takeWhile (fun d => !isSpace d)),
    (⟨((w :: ws) ++ tail).dropWhile (fun d => !isSpace d), false⟩ : IStream)) = _
  rw [s1, s2]

section

variable {F : Type} [LinearOrderedField F]

omit [LinearOrderedField F] in
theorem extractFloat_field (parseFloat : List Char → F × Option (List Char))
    (gap field tail : List Char) (value : F) (hgap : IsBlank gap)
    (hf : ParsesField parseFloat field value) (ht : ∀ c ∈ tail.head?, isSpace c = true) :
    extractFloat parseFloat ⟨gap ++ (field ++ tail), false⟩ = (some value, ⟨tail, false⟩) := by
  obtain ⟨hne, hw, hp⟩ := hf
  have hd := dropWhile_blank_word gap field tail hgap hne hw
  have hpf := hp tail ht
  obtain ⟨w, ws, rfl⟩ := List.exists_cons_of_ne_nil hne
  simp only [extractFloat, Bool.false_eq_true, if_false]
  rw [hd]
  show (match parseFloat ((w :: ws) ++ tail) with
      | (value, some rest) => (some value, (⟨rest, false⟩ : IStream))
      | (value, none) => (some value, ⟨[], true⟩)) = _
  rw [hpf]

omit [LinearOrderedField F] in
theorem extractFloat_blank (parseFloat : List Char → F × Option (List Char))
    (post : List Char) (h : IsBlank post) :
    extractFloat parseFloat ⟨post, false⟩ = (none, ⟨[], true⟩) := by
  have hd := dropWhile_space_append post [] h (by simp)
  rw [List.append_nil] at hd
  simp [extractFloat, hd]

omit [LinearOrderedField F] in
theorem extractFloat_failed (parseFloat : List Char → F × Option (List Char))
    (rest : List Char) : extractFloat parseFloat ⟨rest, true⟩ = (none, ⟨rest, true⟩) := by
  simp [extractFloat]

end

section

variable {F : Type} [LinearOrderedField F]

theorem readLine_v3 (parseFloat : List Char → F × Option (List Char)) (m : Model F)
    (pre s1 f1 s2 f2 s3 f3 post : List Char) (x y z : F)
    (hpre : IsBlank pre) (h1 : IsGap s1) (h2 : IsGap s2) (h3 : IsGap s3) (hpost : IsBlank post)
    (hx : ParsesField parseFloat f1 x) (hy : ParsesField parseFloat f2 y)
    (hz : ParsesField parseFloat f3 z) :
    readLine parseFloat m (pre ++ (['v'] ++ (s1 ++ (f1 ++ (s2 ++ (f2 ++ (s3 ++ (f3 ++ post))))))))
      = some { m with vertices := m.vertices ++ [⟨x, y, z, 1⟩] } := by
  have e0 := extractString_word pre ['v'] (s1 ++ (f1 ++ (s2 ++ (f2 ++ (s3 ++ (f3 ++ post))))))
    hpre (by simp) (by decide) (head_gap_append h1)
  have e1 := extractFloat_field parseFloat s1 f1 (s2 ++ (f2 ++ (s3 ++ (f3 ++ post)))) x h1.2 hx
    (head_gap_append h2)
  have e2 := extractFloat_field parseFloat s2 f2 (s3 ++ (f3 ++ post)) y h2.2 hy
    (head_gap_append h3)
  have e3 := extractFloat_field parseFloat s3 f3 post z h3.2 hz (head_blank hpost)
  have e4 := extractFloat_blank parseFloat post hpost
  simp only [readLine, e0, e1, e2, e3, e4, Option.getD_some, Option.getD_none, if_true]

theorem readLine_v4 (parseFloat : List Char → F × Option (List Char)) (m : Model F)
    (pre s1 f1 s2 f2 s3 f3 s4 f4 post : List Char) (x y z w : F)
    (hpre : IsBlank pre) (h1 : IsGap s1) (h2 : IsGap s2) (h3 : IsGap s3) (h4 : IsGap s4)
    (hpost : IsBlank post)
    (hx : ParsesField parseFloat f1 x) (hy : ParsesField parseFloat f2 y)
    (hz : ParsesField parseFloat f3 z) (hw : ParsesField parseFloat f4 w) :
    readLine parseFloat m
        (pre ++ (['v'] ++ (s1 ++ (f1 ++ (s2 ++ (f2 ++ (s3 ++ (f3 ++ (s4 ++ (f4 ++ post))))))))))
      = some { m with vertices := m.vertices ++ [⟨x, y, z, w⟩] } := by
  have e0 := extractString_word pre ['v']
    (s1 ++ (f1 ++ (s2 ++ (f2 ++ (s3 ++ (f3 ++ (s4 ++ (f4 ++ post))))))))
    hpre (by simp) (by decide) (head_gap_append h1)
  have e1 := extractFloat_field parseFloat s1 f1
    (s2 ++ (f2 ++ (s3 ++ (f3 ++ (s4 ++ (f4 ++ post)))))) x h1.2 hx (head_gap_append h2)
  have e2 := extractFloat_field parseFloat s2 f2 (s3 ++ (f3 ++ (s4 ++ (f4 ++ post)))) y h2.2 hy
    (head_gap_append h3)
  have e3 := extractFloat_field parseFloat s3 f3 (s4 ++ (f4 ++ post)) z h3.2 hz
    (head_gap_append h4)
  have e4 := extractFloat_field parseFloat s4 f4 post w h4.2 hw (head_blank hpost)
  simp only [readLine, e0, e1, e2, e3, e4, Option.getD_some, if_true]

theorem readLine_vt2 (parseFloat : List Char → F × Option (List Char)) (m : Model F)
    (pre s1 f1 s2 f2 post : List Char) (u v : F)
    (hpre : IsBlank pre) (h1 : IsGap s1) (h2 : IsGap s2) (hpost : IsBlank post)
    (hu : ParsesField parseFloat f1 u) (hv : ParsesField parseFloat f2 v) :
    readLine parseFloat m (pre ++ (['v', 't'] ++ (s1 ++ (f1 ++ (s2 ++ (f2 ++ post))))))
      = some { m with textureVertices := m.textureVertices ++ [⟨u, v, 0⟩] } := by
  have e0 := extractString_word pre ['v', 't'] (s1 ++ (f1 ++ (s2 ++ (f2 ++ post))))
    hpre (by simp) (by decide) (head_gap_append h1)
  have e1 := extractFloat_field parseFloat s1 f1 (s2 ++ (f2 ++ post)) u h1.2 hu
    (head_gap_append h2)
  have e2 := extractFloat_field parseFloat s2 f2 post v h2.2 hv (head_blank hpost)
  have e3 := extractFloat_blank parseFloat post hpost
  have ne : (['v', 't'] : List Char) ≠ ['v'] := by decide
  simp only [readLine, e0, e1, e2, e3, Option.getD_some, Option.getD_none, if_true, if_neg ne]

/-- Claim C15: a line made of the word `v` and exactly three numeric fields `x y z`
(separated by whitespace, with optional whitespace around) makes `read`'s loop body append
exactly the point `(x, y, z, 1)` at the end of the vertices; with a fourth numeric field `w`
it appends `(x, y, z, w)`; a line made of the word `vt` and two numeric fields `u v`
appends exactly `(u, v, 0)` at the end of the texture coordinates. In each case every
other sequence of the model is unchanged. -/
theorem C15_vertex_lines (parseFloat : List Char → F × Option (List Char)) (m : Model F)
    (pre s1 f1 s2 f2 s3 f3 s4 f4 post : List Char) (x y z w : F)
    (hpre : IsBlank pre) (h1 : IsGap s1) (h2 : IsGap s2) (h3 : IsGap s3) (h4 : IsGap s4)
    (hpost : IsBlank post)
    (hx : ParsesField parseFloat f1 x) (hy : ParsesField parseFloat f2 y)
    (hz : ParsesField parseFloat f3 z) (hw : ParsesField parseFloat f4 w) :
    readLine parseFloat m (pre ++ (['v'] ++ (s1 ++ (f1 ++ (s2 ++ (f2 ++ (s3 ++ (f3 ++ post))))))))
      = some ⟨m.vertices ++ [⟨x, y, z, 1⟩], m.textureVertices, m.vertexNormals, m.faces⟩ ∧
    readLine parseFloat m
        (pre ++ (['v'] ++ (s1 ++ (f1 ++ (s2 ++ (f2 ++ (s3 ++ (f3 ++ (s4 ++ (f4 ++ post))))))))))
      = some ⟨m.vertices ++ [⟨x, y, z, w⟩], m.textureVertices, m.vertexNormals, m.faces⟩ ∧
    readLine parseFloat m (pre ++ (['v', 't'] ++ (s1 ++ (f1 ++ (s2 ++ (f2 ++ post))))))
      = some ⟨m.vertices, m.textureVertices ++ [⟨x, y, 0⟩], m.vertexNormals, m.faces⟩ :=
  ⟨readLine_v3 parseFloat m pre s1 f1 s2 f2 s3 f3 post x y z hpre h1 h2 h3 hpost hx hy hz,
   readLine_v4 parseFloat m pre s1 f1 s2 f2 s3 f3 s4 f4 post x y z w hpre h1 h2 h3 h4 hpost
     hx hy hz hw,
   readLine_vt2 parseFloat m pre s1 f1 s2 f2 post x y hpre h1 h2 hpost hx hy⟩

end

theorem parsesField_parseDigits (ds : List Char) (h : IsNumeral ds) :
    ParsesField parseDigits ds (numeralValue ds : ℚ) := by
  obtain ⟨hne, hd⟩ := h
  refine ⟨hne, fun c hc => (isDigit_not_space (hd c hc)).1, fun rest hr => ?_⟩
  have hr2 : ∀ c ∈ rest.head?, isDigit c = false := by
    intro c hc
    have hs := hr c hc
    cases hdg : isDigit c with
    | false => rfl
    | true => rw [(isDigit_not_space hdg).1] at hs; cases hs
  obtain ⟨t1, t2⟩ := takeWhile_digit_append ds rest hd hr2
  simp only [parseDigits, t1, t2, if_neg hne]
  rfl

/-- Witness for C15: with the digit conversion, the lines `v 1 2 3`, `v 1 2 3 4` and
`vt 1 2` read into the empty model. -/
theorem C15_vertex_lines_witness :
    readLine parseDigits (Model.empty : Model ℚ) "v 1 2 3".toList
      = some ⟨[⟨1, 2, 3, 1⟩], [], [], []⟩ ∧
    readLine parseDigits (Model.empty : Model ℚ) "v 1 2 3 4".toList
      = some ⟨[⟨1, 2, 3, 4⟩], [], [], []⟩ ∧
    readLine parseDigits (Model.empty : Model ℚ) "vt 1 2".toList
      = some ⟨[], [⟨1, 2, 0⟩], [], []⟩ :=
  C15_vertex_lines parseDigits Model.empty [] [' '] ['1'] [' '] ['2'] [' '] ['3'] [' '] ['4'] []
    1 2 3 4 (by decide) (by decide) (by decide) (by decide) (by decide) (by decide)
    (parsesField_parseDigits ['1'] (by decide)) (parsesField_parseDigits ['2'] (by decide))
    (parsesField_parseDigits ['3'] (by decide)) (parsesField_parseDigits ['4'] (by decide))

theorem extractString_firstToken (line : List Char) :
    (extractString ⟨line, false⟩).1.getD [] = firstToken line := by
  simp only [extractString, firstToken, Bool.false_eq_true, if_false]
  cases line.dropWhile isSpace with
  | nil => rfl
  | cons c cs => rfl

section

variable {F : Type} [LinearOrderedField F]

theorem readLine_other (parseFloat : List Char → F × Option (List Char)) (m : Model F)
    (line : List Char) (h : isGeometryLine line = false) : readLine parseFloat m line = some m := by
  simp only [isGeometryLine, Bool.or_eq_false_iff, decide_eq_false_iff_not] at h
  obtain ⟨⟨⟨h1, h2⟩, h3⟩, h4⟩ := h
  have e := extractString_firstToken line
  simp only [readLine, e, if_neg h1, if_neg h2, if_neg h3, if_neg h4]

theorem readLines_filter (parseFloat : List Char → F × Option (List Char)) (m : Model F)
    (lines : List (List Char)) :
    readLines parseFloat m lines = readLines parseFloat m (lines.filter isGeometryLine) := by
  induction lines generalizing m with
  | nil => rfl
  | cons line rest ih =>
    cases hg : isGeometryLine line with
    | false =>
      rw [List.filter_cons_of_neg (by simp [hg]), ← ih m]
      simp only [readLines, readLine_other parseFloat m line hg]
      rfl
    | true =>
      rw [List.filter_cons_of_pos hg]
      simp only [readLines]
      cases readLine parseFloat m line with
      | none => rfl
      | some m1 => exact ih m1

/-- Claim C16: a line whose first whitespace-delimited token is none of `v`, `vt`, `vn`,
`f` (an empty line and a comment line included) leaves the model unchanged, vertices,
texture coordinates, normals and faces alike; so reading a sequence of lines gives the
same result as reading it with all such lines removed. -/
theorem C16_other_lines_ignored (parseFloat : List Char → F × Option (List Char))
    (m : Model F) :
    (∀ line, isGeometryLine line = false → readLine parseFloat m line = some m) ∧
    (∀ lines, readLines parseFloat m lines
      = readLines parseFloat m (lines.filter isGeometryLine)) ∧
    (∀ content, read parseFloat m content
      = readLines parseFloat m ((getLinesAux content []).filter isGeometryLine)) :=
  ⟨readLine_other parseFloat m, readLines_filter parseFloat m,
   fun content => readLines_filter parseFloat m (getLinesAux content [])⟩

end

/-- Witness for C16: a comment line, an empty line and a line of an unknown kind leave the
one-triangle model as it is, and a file with such lines reads like the file without them. -/
theorem C16_other_lines_ignored_witness :
    readLine parseDigits triMesh "# a comment".toList = some triMesh ∧
    readLine parseDigits triMesh [] = some triMesh ∧
    readLine parseDigits triMesh "vp 1 2 3".toList = some triMesh ∧
    read parseDigits (Model.empty : Model ℚ) "# cube\nv 1 2 3\n\ng top\nv 4 5 6\n".toList
      = readLines parseDigits Model.empty ["v 1 2 3".toList, "v 4 5 6".toList] :=
  ⟨(C16_other_lines_ignored parseDigits triMesh).1 _ rfl,
   (C16_other_lines_ignored parseDigits triMesh).1 _ rfl,
   (C16_other_lines_ignored parseDigits triMesh).1 _ rfl,
   (C16_other_lines_ignored parseDigits Model.empty).2.2 _⟩

/-! ## Collinear points and rays in the plane of a triangle -/

section

variable {F : Type} [LinearOrderedField F]

theorem collinear_iff_cross (a b c : Vertex F) :
    Collinear a b c ↔
      (b.y - a.y) * (c.z - a.z) - (b.z - a.z) * (c.y - a.y) = 0 ∧
      (b.z - a.z) * (c.x - a.x) - (b.x - a.x) * (c.z - a.z) = 0 ∧
      (b.x - a.x) * (c.y - a.y) - (b.y - a.y) * (c.x - a.x) = 0 := by
  constructor
  · rintro ⟨dx, dy, dz, s, t, h1, h2, h3, h4, h5, h6⟩
    rw [h1, h2, h3, h4, h5, h6]
    refine ⟨by ring, by ring, by ring⟩
  · rintro ⟨h1, h2, h3⟩
    by_cases hx : b.x - a.x = 0
    · by_cases hy : b.y - a.y = 0
      · by_cases hz : b.z - a.z = 0
        · exact ⟨c.x - a.x, c.y - a.y, c.z - a.z, 0, 1, by rw [hx]; ring, by rw [hy]; ring,
            by rw [hz]; ring, by ring, by ring, by ring⟩
        · refine ⟨b.x - a.x, b.y - a.y, b.z - a.z, 1, (c.z - a.z) / (b.z - a.z),
            by ring, by ring, by ring, ?_, ?_, ?_⟩
          · field_simp; linear_combination h2
          · field_simp; linear_combination -h1
          · field_simp
      · refine ⟨b.x - a.x, b.y - a.y, b.z - a.z, 1, (c.y - a.y) / (b.y - a.y),
          by ring, by ring, by ring, ?_, ?_, ?_⟩
        · field_simp; linear_combination -h3
        · field_simp
        · field_simp; linear_combination h1
    · refine ⟨b.x - a.x, b.y - a.y, b.z - a.z, 1, (c.x - a.x) / (b.x - a.x),
        by ring, by ring, by ring, ?_, ?_, ?_⟩
      · field_simp
      · field_simp; linear_combination h3
      · field_simp; linear_combination -h2

theorem mtDet_eq (d a b c : Vertex F) :
    mtDet d a b c =
      (b.x - a.x) * (d.y * (c.z - a.z) - d.z * (c.y - a.y)) +
      (b.y - a.y) * (d.z * (c.x - a.x) - d.x * (c.z - a.z)) +
      (b.z - a.z) * (d.x * (c.y - a.y) - d.y * (c.x - a.x)) := rfl

theorem mtDet_collinear (d a b c : Vertex F) (h : Collinear a b c) : mtDet d a b c = 0 := by
  obtain ⟨h1, h2, h3⟩ := (collinear_iff_cross a b c).mp h
  rw [mtDet_eq]
  linear_combination (-d.x) * h1 + (-d.y) * h2 + (-d.z) * h3

theorem meetsAt_mt (o d a b c : Vertex F) (h : mtDet d a b c ≠ 0) :
    MeetsAt o d a b c (mtT o d a b c) (mtU o d a b c) (mtV o d a b c) := by
  have hd := mtDet_eq d a b c
  simp only [MeetsAt, mtT, mtU, mtV, Vertex.sub, Vertex.crossProduct, Vertex.dotProduct]
  generalize mtDet d a b c = det at h hd
  refine ⟨?_, ?_, ?_⟩
  · field_simp; rw [hd]; ring
  · field_simp; rw [hd]; ring
  · field_simp; rw [hd]; ring

theorem mt_unique (o d a b c : Vertex F) (t u v : F) (h : mtDet d a b c ≠ 0)
    (hm : MeetsAt o d a b c t u v) :
    mtT o d a b c = t ∧ mtU o d a b c = u ∧ mtV o d a b c = v := by
  have hd := mtDet_eq d a b c
  obtain ⟨hx, hy, hz⟩ := hm
  simp only [mtT, mtU, mtV, Vertex.sub, Vertex.crossProduct, Vertex.dotProduct]
  generalize mtDet d a b c = det at h hd
  refine ⟨?_, ?_, ?_⟩
  · field_simp; rw [hd]
    linear_combination
      ((b.y - a.y) * (c.z - a.z) - (b.z - a.z) * (c.y - a.y)) * hx +
      ((b.z - a.z) * (c.x - a.x) - (b.x - a.x) * (c.z - a.z)) * hy +
      ((b.x - a.x) * (c.y - a.y) - (b.y - a.y) * (c.x - a.x)) * hz
  · field_simp; rw [hd]
    linear_combination
      (d.y * (c.z - a.z) - d.z * (c.y - a.y)) * hx +
      (d.z * (c.x - a.x) - d.x * (c.z - a.z)) * hy +
      (d.x * (c.y - a.y) - d.y * (c.x - a.x)) * hz
  · field_simp; rw [hd]
    linear_combination
      ((b.y - a.y) * d.z - (b.z - a.z) * d.y) * hx +
      ((b.z - a.z) * d.x - (b.x - a.x) * d.z) * hy +
      ((b.x - a.x) * d.y - (b.y - a.y) * d.x) * hz

end

/-! ## Lookups within bounds: claim C22 -/

section

variable {F : Type} [LinearOrderedField F]

omit [LinearOrderedField F] in
theorem fanCorners_isSome (m : Model F) (face : Face)
    (hv : ∀ c ∈ face.vertices, 0 < c.vertexIndex ∧ c.vertexIndex ≤ m.vertices.length)
    (j : Nat) (hj : j + 1 < face.vertices.length) :
    ∃ v, fanCorners m face j = some v := by
  have h0 : 0 < face.vertices.length := by omega
  have h1 : j < face.vertices.length := by omega
  have m0 := hv _ (List.getElem_mem h0)
  have m1 := hv _ (List.getElem_mem h1)
  have m2 := hv _ (List.getElem_mem hj)
  obtain ⟨v0, e0⟩ := vertexAt_isSome m _ m0.1 m0.2
  obtain ⟨v1, e1⟩ := vertexAt_isSome m _ m1.1 m1.2
  obtain ⟨v2, e2⟩ := vertexAt_isSome m _ m2.1 m2.2
  exact ⟨(v0, v1, v2), by
    simp [fanCorners, List.getElem?_eq_getElem h0, List.getElem?_eq_getElem h1,
      List.getElem?_eq_getElem hj, e0, e1, e2]⟩

theorem areaTriangles_isSome (sqrt : F → F) (m : Model F) (face : Face) (trips i : Nat)
    (h : ∀ j, i ≤ j → j < i + trips → ∃ v, fanCorners m face j = some v) (total : F) :
    ∃ a, areaTriangles sqrt m face trips i total = some a := by
  induction trips generalizing i total with
  | zero => exact ⟨total, rfl⟩
  | succ k ih =>
    obtain ⟨⟨v0, v1, v2⟩, hv⟩ := h i (le_refl i) (by omega)
    obtain ⟨a, ha⟩ := ih (i + 1) (fun j h1 h2 => h j (by omega) (by omega))
      (total + triangleArea sqrt v0 v1 v2)
    exact ⟨a, by simp [areaTriangles, hv, ha]⟩

theorem faceIntersected_isSome (m : Model F) (p : Vertex F) (face : Face) (trips i : Nat)
    (h : ∀ j, i ≤ j → j < i + trips → ∃ v, fanCorners m face j = some v) :
    ∃ hit, faceIntersected m p face trips i = some hit := by
  induction trips generalizing i with
  | zero => exact ⟨false, rfl⟩
  | succ k ih =>
    obtain ⟨⟨v0, v1, v2⟩, hv⟩ := h i (le_refl i) (by omega)
    obtain ⟨r, hr⟩ := ih (i + 1) (fun j h1 h2 => h j (by omega) (by omega))
    simp only [faceIntersected, hv, Option.bind_eq_bind, Option.some_bind, hr]
    by_cases hs : max (max v0.x v1.x) v2.x < p.x
    · exact ⟨r, by rw [if_pos hs]⟩
    · cases ht : rayIntersectsTriangle p rayVector v0 v1 v2 with
      | true => exact ⟨true, by rw [if_neg hs]; simp⟩
      | false => exact ⟨r, by rw [if_neg hs]; simp⟩

theorem writeTriangles_isSome (floatBytes : F → List Nat) (sqrt : F → F) (m : Model F)
    (face : Face) (c0 : FaceVertexIndex) (h0 : face.vertices[0]? = some c0)
    (hn : c0.normalIndex ≤ m.vertexNormals.length) (trips i : Nat)
    (h : ∀ j, i ≤ j → j < i + trips → ∃ v, fanCorners m face j = some v) :
    ∃ bytes, writeTriangles floatBytes sqrt m face trips i = some bytes := by
  induction trips generalizing i with
  | zero => exact ⟨[], rfl⟩
  | succ k ih =>
    obtain ⟨⟨v0, v1, v2⟩, hv⟩ := h i (le_refl i) (by omega)
    obtain ⟨r, hr⟩ := ih (i + 1) (fun j h1 h2 => h j (by omega) (by omega))
    by_cases hp : 0 < c0.normalIndex
    · obtain ⟨vn, en⟩ := normalAt_isSome m _ hp hn
      simp [writeTriangles, hv, h0, hp, en, hr]
    · simp [writeTriangles, hv, h0, hp, hr]

omit [LinearOrderedField F] in
theorem fan_range (m : Model F) (face : Face) (h3 : 3 ≤ face.vertices.length)
    (hv : ∀ c ∈ face.vertices, 0 < c.vertexIndex ∧ c.vertexIndex ≤ m.vertices.length) :
    ∀ j, 1 ≤ j → j < 1 + fanTrips face → ∃ v, fanCorners m face j = some v := by
  intro j _ h2
  rw [fanTrips_eq face (by omega)] at h2
  exact fanCorners_isSome m face hv j (by omega)

theorem areaFaces_isSome (sqrt : F → F) (m : Model F) (faces : List Face)
    (h : ∀ face ∈ faces, 3 ≤ face.vertices.length ∧
      ∀ c ∈ face.vertices, 0 < c.vertexIndex ∧ c.vertexIndex ≤ m.vertices.length)
    (total : F) : ∃ a, areaFaces sqrt m faces total = some a := by
  induction faces generalizing total with
  | nil => exact ⟨total, rfl⟩
  | cons face rest ih =>
    obtain ⟨h3, hv⟩ := h face (List.mem_cons_self _ _)
    obtain ⟨a, ha⟩ := areaTriangles_isSome sqrt m face (fanTrips face) 1
      (fan_range m face h3 hv) total
    obtain ⟨b, hb⟩ := ih (fun f hf => h f (List.mem_cons_of_mem _ hf)) a
    exact ⟨b, by simp [areaFaces, ha, hb]⟩

theorem writeFaces_isSome (floatBytes : F → List Nat) (sqrt : F → F) (m : Model F)
    (faces : List Face)
    (h : ∀ face ∈ faces, 3 ≤ face.vertices.length ∧
      ∀ c ∈ face.vertices, 0 < c.vertexIndex ∧ c.vertexIndex ≤ m.vertices.length)
    (hn : ∀ face ∈ faces, ∀ c0 ∈ face.vertices.head?,
      c0.normalIndex ≤ m.vertexNormals.length) :
    ∃ bytes, writeFaces floatBytes sqrt m faces = some bytes := by
  induction faces with
  | nil => exact ⟨[], rfl⟩
  | cons face rest ih =>
    obtain ⟨h3, hv⟩ := h face (List.mem_cons_self _ _)
    have hpos : 0 < face.vertices.length := by omega
    have hc0 : face.vertices[0]? = some face.vertices[0] := List.getElem?_eq_getElem hpos
    have hhead : face.vertices[0] ∈ face.vertices.head? := by
      rw [Option.mem_def, List.head?_eq_getElem?, hc0]
    obtain ⟨a, ha⟩ := writeTriangles_isSome floatBytes sqrt m face _ hc0
      (hn face (List.mem_cons_self _ _) _ hhead) (fanTrips face) 1 (fan_range m face h3 hv)
    obtain ⟨b, hb⟩ := ih (fun f hf => h f (List.mem_cons_of_mem _ hf))
      (fun f hf => hn f (List.mem_cons_of_mem _ hf))
    exact ⟨a ++ b, by simp [writeFaces, ha, hb]⟩

theorem countIntersections_isSome (m : Model F) (p : Vertex F) (faces : List Face)
    (h : ∀ face ∈ faces, ∃ hit, faceIntersected m p face (fanTrips face) 1 = some hit)
    (acc : Int) (hacc : acc + faces.length < 2 ^ 31) :
    ∃ n, countIntersections m p faces acc = some n := by
  induction faces generalizing acc with
  | nil => exact ⟨acc, rfl⟩
  | cons face rest ih =>
    simp only [List.length_cons, Nat.cast_add, Nat.cast_one] at hacc
    obtain ⟨hit, hh⟩ := h face (List.mem_cons_self _ _)
    simp only [countIntersections, hh, Option.bind_eq_bind, Option.some_bind]
    cases hit with
    | false =>
      simp only [Bool.false_eq_true, if_false]
      exact ih (fun f hf => h f (List.mem_cons_of_mem _ hf)) acc (by omega)
    | true =>
      simp only [if_true]
      rw [if_pos (by omega)]
      exact ih (fun f hf => h f (List.mem_cons_of_mem _ hf)) (acc + 1) (by omega)

/-- Claim C22, amended: in a mesh whose faces have at least 3 corners and whose corners all
carry a valid 1-based vertex index, every lookup of `calculateSurfaceArea` and of
`isPointInside` is within bounds (the loops run to their end, `isPointInside` returning a
result when the mesh has fewer than `2^31` faces); every lookup of `write<STL>` is within
bounds when in addition the normal index of the first corner of each face is at most the
number of normals. -/
theorem C22_lookups_in_range (floatBytes : F → List Nat) (sqrt : F → F) (m : Model F)
    (p : Vertex F) (h : ValidVertexIndices m) :
    (ValidFirstNormals m → ∃ bytes, writeSTL floatBytes sqrt m = some bytes) ∧
    (∃ area, calculateSurfaceArea sqrt m = some area) ∧
    (∀ face ∈ m.faces, ∃ hit, faceIntersected m p face (fanTrips face) 1 = some hit) ∧
    (m.faces.length < 2 ^ 31 → ∃ inside, isPointInside m p = some inside) := by
  have hface : ∀ face ∈ m.faces,
      ∃ hit, faceIntersected m p face (fanTrips face) 1 = some hit := fun face hf =>
    faceIntersected_isSome m p face (fanTrips face) 1
      (fan_range m face (h face hf).1 (h face hf).2)
  refine ⟨fun hn => ?_, areaFaces_isSome sqrt m m.faces h 0, hface, fun hlen => ?_⟩
  · obtain ⟨body, hb⟩ := writeFaces_isSome floatBytes sqrt m m.faces h hn
    simp [writeSTL, hb]
  · obtain ⟨n, hn⟩ := countIntersections_isSome m p m.faces hface 0 (by
      have : (m.faces.length : Int) < 2 ^ 31 := by exact_mod_cast hlen
      omega)
    simp [isPointInside, hn]

end

/-- Witness for C22: the one-triangle mesh. -/
theorem C22_lookups_in_range_witness :
    ValidVertexIndices triMesh ∧ ValidFirstNormals triMesh ∧
    (∃ bytes, writeSTL zeroBytes ratSqrt triMesh = some bytes) ∧
    (∃ area, calculateSurfaceArea ratSqrt triMesh = some area) ∧
    (∃ inside, isPointInside triMesh ⟨0, 0, 0, 1⟩ = some inside) :=
  have hv : ValidVertexIndices triMesh := by simp [ValidVertexIndices, triMesh]
  have hn : ValidFirstNormals triMesh := by simp [ValidFirstNormals, triMesh]
  have h := C22_lookups_in_range zeroBytes ratSqrt triMesh ⟨0, 0, 0, 1⟩ hv
  ⟨hv, hn, h.1 hn, h.2.1, h.2.2.2 (by simp [triMesh])⟩

/-- Counterexample to C22 as stated: the text `missingNormalText` reads into a mesh whose
only face has 3 corners with the valid vertex indices 1, 2, 3, and `write<STL>` looks up
`vertexNormals[0]` in an empty normal sequence. -/
theorem C22_counterexample :
    read parseDigits (Model.empty : Model ℚ) missingNormalText = some missingNormalModel ∧
    ValidVertexIndices missingNormalModel ∧
    missingNormalModel.normalAt 1 = none ∧
    writeSTL zeroBytes ratSqrt missingNormalModel = none := by
  refine ⟨rfl, by simp [ValidVertexIndices, missingNormalModel], rfl, rfl⟩

/-! ## Binary32 arithmetic: basic facts -/

theorem F32.forceNat_eq {α : Type} (n : Nat) (k : Nat → α) : forceNat n k = k n := by
  cases n <;> rfl

theorem F32.canon_eq {α : Type} (q : ℚ) (hq : 0 ≤ q) (k : ℚ → α) : canon q k = k q := by
  have hnum : ((q.num.toNat : Nat) : Int) = q.num := Int.toNat_of_nonneg (Rat.num_nonneg.mpr hq)
  simp only [canon, forceNat_eq, hnum, Rat.mkRat_self]

theorem F32.pow2_pos (e : Int) : 0 < pow2 e := by
  unfold pow2
  split <;> positivity

theorem F32.ulp_pos (q : ℚ) : 0 < ulp q := pow2_pos _

theorem F32.roundHalfEven_nonneg (x : ℚ) (hx : 0 ≤ x) : 0 ≤ roundHalfEven x := by
  have hf : 0 ≤ x.floor := by
    have : ((0 : Int) : ℚ) ≤ x := by simpa using hx
    exact Rat.le_floor.mpr this
  unfold roundHalfEven
  simp only []
  split_ifs <;> omega

theorem F32.rnd_nonneg (q : ℚ) (hq : 0 ≤ q) : 0 ≤ rnd q := by
  unfold rnd
  have h1 := roundHalfEven_nonneg (q / ulp q) (div_nonneg hq (le_of_lt (ulp_pos q)))
  have h2 : (0 : ℚ) ≤ (roundHalfEven (q / ulp q) : ℚ) := by exact_mod_cast h1
  exact mul_nonneg h2 (le_of_lt (ulp_pos q))

theorem F32.round_eq (s : Bool) (q : ℚ) (hq : 0 ≤ q) :
    round s q = if rnd q < pow2 128 then fin s (rnd q) else inf s := by
  unfold round
  rw [canon_eq _ (rnd_nonneg q hq)]

theorem F32.round_rep (s : Bool) (a : ℚ) (h0 : 0 ≤ a) (hr : rnd a = a) (hlt : a < pow2 128) :
    round s a = fin s a := by
  rw [round_eq s a h0, hr, if_pos hlt]

theorem F32.roundHalfEven_zero : roundHalfEven 0 = 0 := by decide!

theorem F32.rnd_zero : rnd 0 = 0 := by
  unfold rnd
  rw [zero_div, roundHalfEven_zero]
  simp

theorem F32.round_zero (s : Bool) : round s 0 = fin s 0 :=
  round_rep s 0 le_rfl rnd_zero (pow2_pos 128)

theorem F32.one_def : (1 : F32) = fin false 1 := rfl

theorem F32.zero_def : (0 : F32) = fin false 0 := rfl

theorem F32.mul_def (x y : F32) : x * y = mul x y := rfl

theorem F32.add_def (x y : F32) : x + y = add x y := rfl

theorem F32.sub_def (x y : F32) : x - y = sub x y := rfl

theorem F32.lt_def (x y : F32) : x < y ↔ lt x y = true := Iff.rfl

/-- A finite value: sign, magnitude and the facts that make it a binary32 value. -/
theorem F32.isFinite_iff (x : F32) :
    IsFinite x ↔ ∃ s a, x = fin s a ∧ 0 ≤ a ∧ rnd a = a ∧ a < pow2 128 := by
  cases x with
  | nan => simp [IsFinite]
  | inf s => simp [IsFinite]
  | fin s a =>
    constructor
    · intro h
      exact ⟨s, a, rfl, h⟩
    · rintro ⟨s1, a1, h1, h2⟩
      cases h1
      exact h2

theorem F32.one_mul_fin (s : Bool) (a : ℚ) (h0 : 0 ≤ a) (hr : rnd a = a) (hlt : a < pow2 128) :
    (1 : F32) * fin s a = fin s a := by
  rw [one_def, mul_def]
  simp only [mul, Bool.false_xor, one_mul]
  exact round_rep s a h0 hr hlt

theorem F32.zero_mul_fin (s : Bool) (a : ℚ) : (0 : F32) * fin s a = fin s 0 := by
  rw [zero_def, mul_def]
  simp only [mul, Bool.false_xor, zero_mul]
  exact round_zero s

theorem F32.toRat_fin_zero (s : Bool) : toRat (fin s 0) = 0 := by
  cases s <;> simp [toRat]

theorem F32.ofRat_toRat (s t : Bool) (a : ℚ) (h0 : 0 ≤ a) (hr : rnd a = a) (hlt : a < pow2 128) :
    ofRat (toRat (fin s a)) t = if a = 0 then fin t 0 else fin s a := by
  by_cases ha : a = 0
  · subst ha
    simp [ofRat, toRat_fin_zero]
  · have hpos : 0 < a := lt_of_le_of_ne h0 (Ne.symm ha)
    rw [if_neg ha]
    cases s with
    | false =>
      have hq : toRat (fin false a) = a := by simp [toRat]
      rw [hq, ofRat, if_neg ha, if_neg (not_lt.mpr h0)]
      simp only [not_lt.mpr h0, decide_False]
      exact round_rep false a h0 hr hlt
    | true =>
      have hq : toRat (fin true a) = -a := by simp [toRat]
      have hneg : -a < 0 := by linarith
      rw [hq, ofRat, if_neg (by linarith : ¬ -a = 0), if_pos hneg, neg_neg]
      simp only [hneg, decide_True]
      exact round_rep true a h0 hr hlt

/-- Adding a zero to a finite value. -/
theorem F32.fin_add_zero (s t : Bool) (a : ℚ) (h0 : 0 ≤ a) (hr : rnd a = a) (hlt : a < pow2 128) :
    fin s a + fin t 0 = if a = 0 then fin (s && t) 0 else fin s a := by
  rw [add_def]
  simp only [add, toRat_fin_zero, add_zero]
  exact ofRat_toRat s (s && t) a h0 hr hlt

/-- Adding a finite value to a zero. -/
theorem F32.zero_add_fin (s t : Bool) (a : ℚ) (h0 : 0 ≤ a) (hr : rnd a = a) (hlt : a < pow2 128) :
    fin t 0 + fin s a = if a = 0 then fin (t && s) 0 else fin s a := by
  rw [add_def]
  simp only [add, toRat_fin_zero, zero_add]
  exact ofRat_toRat s (t && s) a h0 hr hlt

theorem F32.feq_fin_self (s t : Bool) (a : ℚ) : feq (fin s 0) (fin t 0) = true ∧
    feq (fin s a) (fin s a) = true := by
  simp [feq, toRat_fin_zero]

/-! ## The identity transform in binary32 arithmetic: claim C6 -/

theorem F32.agrees_one_mul (v : F32) (hv : IsFinite v) : Agrees (1 * v) v := by
  obtain ⟨s, a, rfl, h0, hr, hlt⟩ := (isFinite_iff v).mp hv
  exact ⟨s, s, a, rfl, one_mul_fin s a h0 hr hlt, h0, hr, hlt, fun _ => rfl, fun h => h⟩

theorem F32.agrees_add_zero (r v y : F32) (h : Agrees r v) (hy : IsFinite y) :
    Agrees (r + 0 * y) v := by
  obtain ⟨s, s1, a, rfl, rfl, h0, hr, hlt, h1, h2⟩ := h
  obtain ⟨t, b, rfl, _, _, _⟩ := (isFinite_iff y).mp hy
  rw [zero_mul_fin, fin_add_zero s1 t a h0 hr hlt]
  by_cases ha : a = 0
  · subst ha
    rw [if_pos rfl]
    refine ⟨s, s1 && t, 0, rfl, rfl, h0, hr, hlt, fun h => absurd rfl h, fun hs => ?_⟩
    rw [h2 hs]
    rfl
  · rw [if_neg ha]
    exact ⟨s, s1, a, rfl, rfl, h0, hr, hlt, h1, h2⟩

theorem F32.agrees_zero_add (t : Bool) (v : F32) (hv : IsFinite v) :
    Agrees (fin t 0 + 1 * v) v := by
  obtain ⟨s, a, rfl, h0, hr, hlt⟩ := (isFinite_iff v).mp hv
  rw [one_mul_fin s a h0 hr hlt, zero_add_fin s t a h0 hr hlt]
  by_cases ha : a = 0
  · subst ha
    rw [if_pos rfl]
    refine ⟨s, t && s, 0, rfl, rfl, h0, hr, hlt, fun h => absurd rfl h, fun hs => ?_⟩
    rw [hs]
    simp
  · rw [if_neg ha]
    exact ⟨s, s, a, rfl, rfl, h0, hr, hlt, fun _ => rfl, fun h => h⟩

theorem F32.zero_mul_add (x y : F32) (hx : IsFinite x) (hy : IsFinite y) :
    ∃ t, (0 : F32) * x + 0 * y = fin t 0 := by
  obtain ⟨s, a, rfl, _, _, _⟩ := (isFinite_iff x).mp hx
  obtain ⟨t, b, rfl, _, _, _⟩ := (isFinite_iff y).mp hy
  rw [zero_mul_fin, zero_mul_fin, fin_add_zero s t 0 le_rfl rnd_zero (pow2_pos 128), if_pos rfl]
  exact ⟨_, rfl⟩

theorem F32.zero_mul_add3 (x y z : F32) (hx : IsFinite x) (hy : IsFinite y) (hz : IsFinite z) :
    ∃ t, (0 : F32) * x + 0 * y + 0 * z = fin t 0 := by
  obtain ⟨t, ht⟩ := zero_mul_add x y hx hy
  obtain ⟨u, c, rfl, _, _, _⟩ := (isFinite_iff z).mp hz
  rw [ht, zero_mul_fin, fin_add_zero t u 0 le_rfl rnd_zero (pow2_pos 128), if_pos rfl]
  exact ⟨_, rfl⟩

theorem F32.agrees_spec (r v : F32) (h : Agrees r v) :
    (r == v) = true ∧ (v ≠ fin true 0 → r = v) := by
  obtain ⟨s, s1, a, rfl, rfl, h0, hr, hlt, h1, h2⟩ := h
  by_cases ha : a = 0
  · subst ha
    refine ⟨(feq_fin_self s1 s 0).1, fun hne => ?_⟩
    cases s with
    | false => rw [h2 rfl]
    | true => exact absurd rfl hne
  · rw [h1 ha]
    exact ⟨(feq_fin_self s s a).2, fun _ => rfl⟩

theorem identity_mulVertex_rows (v : Vertex F32) :
    Matrix4x4.identity.mulVertex v =
      ⟨1 * v.x + 0 * v.y + 0 * v.z + 0 * v.w, 0 * v.x + 1 * v.y + 0 * v.z + 0 * v.w,
       0 * v.x + 0 * v.y + 1 * v.z + 0 * v.w, 0 * v.x + 0 * v.y + 0 * v.z + 1 * v.w⟩ := rfl

theorem identity_mulVertex_agrees (v : Vertex F32) (hv : v.IsFinite) :
    F32.Agrees (Matrix4x4.identity.mulVertex v).x v.x ∧
    F32.Agrees (Matrix4x4.identity.mulVertex v).y v.y ∧
    F32.Agrees (Matrix4x4.identity.mulVertex v).z v.z ∧
    F32.Agrees (Matrix4x4.identity.mulVertex v).w v.w := by
  obtain ⟨hx, hy, hz, hw⟩ := hv
  rw [identity_mulVertex_rows]
  refine ⟨?_, ?_, ?_, ?_⟩
  · exact F32.agrees_add_zero _ _ _ (F32.agrees_add_zero _ _ _
      (F32.agrees_add_zero _ _ _ (F32.agrees_one_mul _ hx) hy) hz) hw
  · show F32.Agrees (0 * v.x + 1 * v.y + 0 * v.z + 0 * v.w) v.y
    obtain ⟨s, a, hxe, _, _, _⟩ := (F32.isFinite_iff v.x).mp hx
    rw [hxe, F32.zero_mul_fin]
    exact F32.agrees_add_zero _ _ _ (F32.agrees_add_zero _ _ _
      (F32.agrees_zero_add _ _ hy) hz) hw
  · show F32.Agrees (0 * v.x + 0 * v.y + 1 * v.z + 0 * v.w) v.z
    obtain ⟨t, ht⟩ := F32.zero_mul_add v.x v.y hx hy
    rw [ht]
    exact F32.agrees_add_zero _ _ _ (F32.agrees_zero_add _ _ hz) hw
  · show F32.Agrees (0 * v.x + 0 * v.y + 0 * v.z + 1 * v.w) v.w
    obtain ⟨t, ht⟩ := F32.zero_mul_add3 v.x v.y v.z hx hy hz
    rw [ht]
    exact F32.agrees_zero_add _ _ hw

/-- Claim C6, amended: on a mesh whose vertex coordinates are all finite binary32 values,
`applyTransform(Matrix4x4::identity())` keeps the number and the order of the vertices and
leaves each of the four coordinates of each vertex equal to what it was under `==`; a
coordinate is returned bit for bit unless it is the negative zero, which may come back as
the positive zero. The texture coordinates, normals and faces are untouched. -/
theorem C6_identity_transform (m : Model F32) (h : ∀ v ∈ m.vertices, v.IsFinite) :
    (applyTransform m Matrix4x4.identity).vertices.length = m.vertices.length ∧
    (∀ (i : Nat) (v : Vertex F32), m.vertices[i]? = some v →
      ∃ v1, (applyTransform m Matrix4x4.identity).vertices[i]? = some v1 ∧
        ((v1.x == v.x) = true ∧ (v1.y == v.y) = true ∧ (v1.z == v.z) = true ∧
          (v1.w == v.w) = true) ∧
        (v.x ≠ F32.fin true 0 → v1.x = v.x) ∧ (v.y ≠ F32.fin true 0 → v1.y = v.y) ∧
        (v.z ≠ F32.fin true 0 → v1.z = v.z) ∧ (v.w ≠ F32.fin true 0 → v1.w = v.w)) ∧
    (applyTransform m Matrix4x4.identity).textureVertices = m.textureVertices ∧
    (applyTransform m Matrix4x4.identity).vertexNormals = m.vertexNormals ∧
    (applyTransform m Matrix4x4.identity).faces = m.faces := by
  refine ⟨by simp [applyTransform], ?_, rfl, rfl, rfl⟩
  intro i v hv
  have hmem : v ∈ m.vertices := List.getElem?_mem hv
  obtain ⟨ax, ay, az, aw⟩ := identity_mulVertex_agrees v (h v hmem)
  refine ⟨Matrix4x4.identity.mulVertex v, by simp [applyTransform, hv], ?_, ?_⟩
  · exact ⟨(F32.agrees_spec _ _ ax).1, (F32.agrees_spec _ _ ay).1, (F32.agrees_spec _ _ az).1,
      (F32.agrees_spec _ _ aw).1⟩
  · exact ⟨(F32.agrees_spec _ _ ax).2, (F32.agrees_spec _ _ ay).2, (F32.agrees_spec _ _ az).2,
      (F32.agrees_spec _ _ aw).2⟩

/-- Witness for C6: the one-triangle mesh is returned as it is. -/
theorem C6_identity_transform_witness :
    (∀ v ∈ triMesh32.vertices, v.IsFinite) ∧
    ∃ v1, (applyTransform triMesh32 Matrix4x4.identity).vertices[1]? = some v1 ∧
      v1.x = 1 ∧ v1.y = 0 ∧ v1.z = 0 ∧ v1.w = 1 := by
  have hfin : ∀ v ∈ triMesh32.vertices, v.IsFinite := by decide!
  obtain ⟨v1, h1, _, hx, hy, hz, hw⟩ :=
    (C6_identity_transform triMesh32 hfin).2.1 1 ⟨1, 0, 0, 1⟩ rfl
  exact ⟨hfin, v1, h1, hx (by decide), hy (by decide), hz (by decide), hw (by decide)⟩

/-- Counterexample to C6 as stated. The mesh `overflowMesh` has finite coordinates;
scaling its `y` by 4 overflows the second coordinate of the first vertex to infinity, and
the identity transform then turns `(1, inf, 3, 1)` into `(nan, inf, nan, nan)`. Applied to
`overflowMesh` itself, the identity transform turns the negative zero of the second vertex
into the positive zero. -/
theorem C6_counterexample :
    (∀ v ∈ overflowMesh.vertices, v.IsFinite) ∧
    (applyTransform overflowMesh (Matrix4x4.scaling 1 4 1)).vertices[0]?
      = some ⟨1, F32.inf false, 3, 1⟩ ∧
    (applyTransform (applyTransform overflowMesh (Matrix4x4.scaling 1 4 1))
      Matrix4x4.identity).vertices[0]? = some ⟨F32.nan, F32.inf false, F32.nan, F32.nan⟩ ∧
    overflowMesh.vertices[1]? = some ⟨F32.fin true 0, 1, 1, 1⟩ ∧
    (applyTransform overflowMesh Matrix4x4.identity).vertices[1]?
      = some ⟨F32.fin false 0, 1, 1, 1⟩ := by
  refine ⟨by decide!, by decide!, by decide!, rfl, by decide!⟩

/-! ## The ray test in binary32 arithmetic -/

section

variable {F : Type} [Add F] [Sub F] [Mul F] [Div F] [Neg F] [Zero F] [One F] [NatCast F]
  [Pow F ℕ] [LT F] [DecidableRel (fun a b : F => a < b)] [Max F] [BEq F]

omit [Max F] [BEq F] in
/-- The four tests of `rayIntersectsTriangle`, on the quantities it computes. -/
theorem rayIntersectsTriangle_tests (o d a b c : Vertex F) :
    rayIntersectsTriangle o d a b c = true ↔
      ¬ (-epsilon < mtDet d a b c ∧ mtDet d a b c < epsilon) ∧
      ¬ (mtU o d a b c < 0 ∨ 1 < mtU o d a b c) ∧
      ¬ (mtV o d a b c < 0 ∨ 1 < mtU o d a b c + mtV o d a b c) ∧
      epsilon < mtT o d a b c := by
  unfold rayIntersectsTriangle mtU mtV mtT mtDet
  simp only []
  by_cases hG : -epsilon < (b.sub a).dotProduct (d.crossProduct (c.sub a)) ∧
      (b.sub a).dotProduct (d.crossProduct (c.sub a)) < epsilon
  · simp [hG]
  · rw [if_neg hG]
    by_cases hU : 1 / (b.sub a).dotProduct (d.crossProduct (c.sub a)) *
          (o.sub a).dotProduct (d.crossProduct (c.sub a)) < 0 ∨
        1 < 1 / (b.sub a).dotProduct (d.crossProduct (c.sub a)) *
          (o.sub a).dotProduct (d.crossProduct (c.sub a))
    · simp [hG, hU]
    · rw [if_neg hU]
      by_cases hV : 1 / (b.sub a).dotProduct (d.crossProduct (c.sub a)) *
            d.dotProduct ((o.sub a).crossProduct (b.sub a)) < 0 ∨
          1 < 1 / (b.sub a).dotProduct (d.crossProduct (c.sub a)) *
              (o.sub a).dotProduct (d.crossProduct (c.sub a)) +
            1 / (b.sub a).dotProduct (d.crossProduct (c.sub a)) *
              d.dotProduct ((o.sub a).crossProduct (b.sub a))
      · simp [hG, hU, hV]
      · rw [if_neg hV]
        simp [hG, hU, hV]

end

theorem F32.epsilon_eq : (epsilon : F32) = F32.fin false (1 / 2 ^ 23) := by decide!

theorem F32.neg_epsilon_eq : (-epsilon : F32) = F32.fin true (1 / 2 ^ 23) := by decide!

theorem F32.nan_mul (x : F32) : F32.nan * x = F32.nan := by
  cases x <;> rfl

theorem F32.mul_nan (x : F32) : x * F32.nan = F32.nan := by
  cases x <;> rfl

theorem F32.nan_add (x : F32) : F32.nan + x = F32.nan := by
  cases x <;> rfl

theorem F32.add_nan (x : F32) : x + F32.nan = F32.nan := by
  cases x <;> rfl

theorem F32.div_nan (x : F32) : x / F32.nan = F32.nan := by
  cases x <;> rfl

theorem F32.not_lt_nan (x : F32) : ¬ x < F32.nan := by
  cases x <;> simp [F32.lt_def, F32.lt]

theorem F32.fin_zero_add_zero (s t : Bool) : F32.fin s 0 + F32.fin t 0 = F32.fin (s && t) 0 := by
  rw [F32.fin_add_zero s t 0 le_rfl F32.rnd_zero (F32.pow2_pos 128), if_pos rfl]

theorem F32.zero_mul_fin' (s t : Bool) (a : ℚ) : F32.fin s 0 * F32.fin t a = F32.fin (xor s t) 0 := by
  rw [F32.mul_def]
  simp only [F32.mul, zero_mul]
  exact F32.round_zero _

theorem F32.fin_mul_zero (s t : Bool) (a : ℚ) : F32.fin t a * F32.fin s 0 = F32.fin (xor t s) 0 := by
  rw [F32.mul_def]
  simp only [F32.mul, mul_zero]
  exact F32.round_zero _

theorem F32.zn_mul_left (x y : F32) (h : F32.IsZeroOrNaN x) : F32.IsZeroOrNaN (x * y) := by
  rcases h with rfl | ⟨s, rfl⟩
  · exact Or.inl (F32.nan_mul y)
  · cases y with
    | nan => exact Or.inl rfl
    | inf t => exact Or.inl (by simp [F32.mul_def, F32.mul])
    | fin t b => exact Or.inr ⟨_, F32.zero_mul_fin' s t b⟩

theorem F32.zn_mul_right (x y : F32) (h : F32.IsZeroOrNaN y) : F32.IsZeroOrNaN (x * y) := by
  rcases h with rfl | ⟨s, rfl⟩
  · exact Or.inl (F32.mul_nan x)
  · cases x with
    | nan => exact Or.inl rfl
    | inf t => exact Or.inl (by simp [F32.mul_def, F32.mul])
    | fin t b => exact Or.inr ⟨_, F32.fin_mul_zero s t b⟩

theorem F32.zn_add (x y : F32) (hx : F32.IsZeroOrNaN x) (hy : F32.IsZeroOrNaN y) :
    F32.IsZeroOrNaN (x + y) := by
  rcases hx with rfl | ⟨s, rfl⟩
  · exact Or.inl (F32.nan_add y)
  · rcases hy with rfl | ⟨t, rfl⟩
    · exact Or.inl (F32.add_nan _)
    · exact Or.inr ⟨_, F32.fin_zero_add_zero s t⟩

theorem F32.zn_neg (x : F32) (hx : F32.IsZeroOrNaN x) : F32.IsZeroOrNaN (-x) := by
  rcases hx with rfl | ⟨s, rfl⟩
  · exact Or.inl rfl
  · exact Or.inr ⟨!s, rfl⟩

theorem F32.zn_sub (x y : F32) (hx : F32.IsZeroOrNaN x) (hy : F32.IsZeroOrNaN y) :
    F32.IsZeroOrNaN (x - y) :=
  F32.zn_add x (-y) hx (F32.zn_neg y hy)

theorem F32.toRat_neg_fin (s : Bool) (a : ℚ) :
    F32.toRat (F32.fin s a) + F32.toRat (F32.fin (!s) a) = 0 := by
  cases s <;> simp [F32.toRat]

theorem F32.sub_self_zn (x : F32) : F32.IsZeroOrNaN (x - x) := by
  cases x with
  | nan => exact Or.inl rfl
  | inf s => exact Or.inl (by cases s <;> rfl)
  | fin s a =>
    refine Or.inr ⟨s && !s, ?_⟩
    show F32.add (F32.fin s a) (F32.neg (F32.fin s a)) = _
    simp only [F32.neg, F32.add, F32.toRat_neg_fin, F32.ofRat, if_true]

theorem F32.zn_not_eps_lt (t : F32) (h : F32.IsZeroOrNaN t) : ¬ (epsilon : F32) < t := by
  rcases h with rfl | ⟨s, rfl⟩
  · exact F32.not_lt_nan _
  · rw [F32.epsilon_eq, F32.lt_def]
    cases s <;> decide!

theorem F32.zero_in_guard (s : Bool) :
    (-epsilon : F32) < F32.fin s 0 ∧ F32.fin s 0 < (epsilon : F32) := by
  rw [F32.neg_epsilon_eq, F32.epsilon_eq, F32.lt_def, F32.lt_def]
  cases s <;> decide!

/-- A determinant that is a zero or not-a-number makes the ray test fail. -/
theorem rayIntersectsTriangle_zn (o d a b c : Vertex F32)
    (h : F32.IsZeroOrNaN (mtDet d a b c)) : rayIntersectsTriangle o d a b c = false := by
  rw [← Bool.not_eq_true, rayIntersectsTriangle_tests]
  rintro ⟨hG, _, _, ht⟩
  rcases h with h | ⟨s, h⟩
  · have : mtT o d a b c = F32.nan := by
      unfold mtT
      rw [h, F32.div_nan, F32.nan_mul]
    rw [this] at ht
    exact F32.not_lt_nan _ ht
  · rw [h] at hG
    exact hG (F32.zero_in_guard s)

theorem mtDet_zn_of_b_eq_a (d a c : Vertex F32) : F32.IsZeroOrNaN (mtDet d a a c) := by
  unfold mtDet Vertex.dotProduct
  simp only [Vertex.sub]
  exact F32.zn_add _ _ (F32.zn_add _ _ (F32.zn_mul_left _ _ (F32.sub_self_zn _))
    (F32.zn_mul_left _ _ (F32.sub_self_zn _))) (F32.zn_mul_left _ _ (F32.sub_self_zn _))

theorem mtDet_zn_of_c_eq_a (d a b : Vertex F32) : F32.IsZeroOrNaN (mtDet d a b a) := by
  unfold mtDet Vertex.dotProduct Vertex.crossProduct
  simp only [Vertex.sub]
  have hx := F32.sub_self_zn a.x
  have hy := F32.sub_self_zn a.y
  have hz := F32.sub_self_zn a.z
  exact F32.zn_add _ _ (F32.zn_add _ _
    (F32.zn_mul_right _ _ (F32.zn_sub _ _ (F32.zn_mul_right _ _ hz) (F32.zn_mul_right _ _ hy)))
    (F32.zn_mul_right _ _ (F32.zn_sub _ _ (F32.zn_mul_right _ _ hx) (F32.zn_mul_right _ _ hz))))
    (F32.zn_mul_right _ _ (F32.zn_sub _ _ (F32.zn_mul_right _ _ hy) (F32.zn_mul_right _ _ hx)))

theorem F32.one_mul_finite (x : F32) (hx : x.IsFinite) : (1 : F32) * x = x := by
  obtain ⟨s, a, rfl, h0, hr, hlt⟩ := (F32.isFinite_iff x).mp hx
  exact F32.one_mul_fin s a h0 hr hlt

theorem F32.fin_sub_zero (s t : Bool) (a : ℚ) (h0 : 0 ≤ a) (hr : F32.rnd a = a)
    (hlt : a < F32.pow2 128) :
    F32.fin s a - F32.fin t 0 = if a = 0 then F32.fin (s && !t) 0 else F32.fin s a :=
  F32.fin_add_zero s (!t) a h0 hr hlt

theorem F32.zero_sub_fin (s t : Bool) (a : ℚ) (h0 : 0 ≤ a) (hr : F32.rnd a = a)
    (hlt : a < F32.pow2 128) :
    F32.fin t 0 - F32.fin s a = if a = 0 then F32.fin (t && !s) 0 else F32.fin (!s) a :=
  F32.zero_add_fin (!s) t a h0 hr hlt

/-- A finite product: its sign and magnitude. -/
theorem F32.mul_finite (s t : Bool) (a b : ℚ) (h0 : 0 ≤ a * b)
    (h : (F32.fin s a * F32.fin t b).IsFinite) :
    F32.fin s a * F32.fin t b = F32.fin (xor s t) (F32.rnd (a * b)) ∧
    0 ≤ F32.rnd (a * b) ∧ F32.rnd (F32.rnd (a * b)) = F32.rnd (a * b) ∧
    F32.rnd (a * b) < F32.pow2 128 := by
  have e : F32.fin s a * F32.fin t b = F32.round (xor s t) (a * b) := rfl
  rw [e, F32.round_eq _ _ h0] at h ⊢
  by_cases hlt : F32.rnd (a * b) < F32.pow2 128
  · rw [if_pos hlt] at h ⊢
    exact ⟨rfl, h.1, h.2.1, hlt⟩
  · rw [if_neg hlt] at h
    exact absurd h (by simp [F32.IsFinite])

theorem F32.toRat_mul_eq (s1 t2 s2 t1 : Bool) (a1 b2 a2 b1 : ℚ)
    (h1 : 0 ≤ a1) (h2 : 0 ≤ b2) (h3 : 0 ≤ a2) (h4 : 0 ≤ b1)
    (h : F32.toRat (F32.fin s1 a1) * F32.toRat (F32.fin t2 b2)
      = F32.toRat (F32.fin s2 a2) * F32.toRat (F32.fin t1 b1)) :
    a1 * b2 = a2 * b1 ∧ (a1 * b2 ≠ 0 → xor s1 t2 = xor s2 t1) := by
  have p1 := mul_nonneg h1 h2
  have p2 := mul_nonneg h3 h4
  cases s1 <;> cases t2 <;> cases s2 <;> cases t1 <;>
    simp only [F32.toRat, if_true, if_false, Bool.false_eq_true, neg_mul, mul_neg, neg_neg] at h <;>
    refine ⟨by linarith, fun hne => ?_⟩ <;>
    first
      | rfl
      | (exfalso; apply hne; linarith)

/-- With the direction `(1, 0, 0)`, finite edges whose `y`, `z` parts are parallel give a
determinant that is a zero. -/
theorem mtDet_rayVector_parallel (a b c : Vertex F32)
    (h1x : (b.x - a.x).IsFinite) (h1y : (b.y - a.y).IsFinite) (h1z : (b.z - a.z).IsFinite)
    (h2x : (c.x - a.x).IsFinite) (h2y : (c.y - a.y).IsFinite) (h2z : (c.z - a.z).IsFinite)
    (hprod : ((b.y - a.y) * (c.z - a.z)).IsFinite)
    (hpar : (b.y - a.y).toRat * (c.z - a.z).toRat = (b.z - a.z).toRat * (c.y - a.y).toRat) :
    F32.IsZeroOrNaN (mtDet rayVector a b c) := by
  have hd : mtDet rayVector a b c =
      (b.x - a.x) * (0 * (c.z - a.z) - 0 * (c.y - a.y)) +
      (b.y - a.y) * (0 * (c.x - a.x) - 1 * (c.z - a.z)) +
      (b.z - a.z) * (1 * (c.y - a.y) - 0 * (c.x - a.x)) := rfl
  rw [hd, F32.one_mul_finite _ h2z, F32.one_mul_finite _ h2y]
  generalize b.x - a.x = e1x at h1x
  generalize b.y - a.y = e1y at h1y hprod hpar
  generalize b.z - a.z = e1z at h1z hpar
  generalize c.x - a.x = e2x at h2x
  generalize c.y - a.y = e2y at h2y hpar
  generalize c.z - a.z = e2z at h2z hprod hpar
  obtain ⟨s0, a0, rfl, _, _, _⟩ := (F32.isFinite_iff e1x).mp h1x
  obtain ⟨s1, a1, rfl, p1, _, _⟩ := (F32.isFinite_iff e1y).mp h1y
  obtain ⟨s2, a2, rfl, p2, _, _⟩ := (F32.isFinite_iff e1z).mp h1z
  obtain ⟨t0, b0, rfl, _, _, _⟩ := (F32.isFinite_iff e2x).mp h2x
  obtain ⟨t1, b1, rfl, q1, r1, l1⟩ := (F32.isFinite_iff e2y).mp h2y
  obtain ⟨t2, b2, rfl, q2, r2, l2⟩ := (F32.isFinite_iff e2z).mp h2z
  obtain ⟨hm, hsign⟩ := F32.toRat_mul_eq s1 t2 s2 t1 a1 b2 a2 b1 p1 q2 p2 q1 hpar
  obtain ⟨_, M0, Mr, Ml⟩ := F32.mul_finite s1 t2 a1 b2 (mul_nonneg p1 q2) hprod
  rw [F32.zero_mul_fin, F32.zero_mul_fin, F32.zero_mul_fin, F32.fin_sub_zero _ _ 0 le_rfl
    F32.rnd_zero (F32.pow2_pos 128), if_pos rfl, F32.fin_mul_zero,
    F32.zero_sub_fin t2 t0 b2 q2 r2 l2, F32.fin_sub_zero t1 t0 b1 q1 r1 l1]
  by_cases hz : a1 * b2 = 0
  · -- both products are zeros
    have hz2 : a2 * b1 = 0 := by rw [← hm]; exact hz
    have eA : ∀ σ, F32.fin s1 a1 * F32.fin σ b2 = F32.fin (xor s1 σ) 0 := fun σ => by
      show F32.round _ (a1 * b2) = _
      rw [hz]; exact F32.round_zero _
    have eB : ∀ σ, F32.fin s2 a2 * F32.fin σ b1 = F32.fin (xor s2 σ) 0 := fun σ => by
      show F32.round _ (a2 * b1) = _
      rw [hz2]; exact F32.round_zero _
    have hA : ∃ σ, F32.fin s1 a1 * (if b2 = 0 then F32.fin (t0 && !t2) 0 else F32.fin (!t2) b2)
        = F32.fin σ 0 := by
      by_cases hb : b2 = 0
      · rw [if_pos hb, F32.fin_mul_zero]; exact ⟨_, rfl⟩
      · rw [if_neg hb, eA]; exact ⟨_, rfl⟩
    have hB : ∃ σ, F32.fin s2 a2 * (if b1 = 0 then F32.fin (t1 && !t0) 0 else F32.fin t1 b1)
        = F32.fin σ 0 := by
      by_cases hb : b1 = 0
      · rw [if_pos hb, F32.fin_mul_zero]; exact ⟨_, rfl⟩
      · rw [if_neg hb, eB]; exact ⟨_, rfl⟩
    obtain ⟨σA, hA⟩ := hA
    obtain ⟨σB, hB⟩ := hB
    rw [hA, hB, F32.fin_zero_add_zero, F32.fin_zero_add_zero]
    exact Or.inr ⟨_, rfl⟩
  · have hb2 : b2 ≠ 0 := fun h => hz (by rw [h, mul_zero])
    have hb1 : b1 ≠ 0 := fun h => hz (by rw [hm, h, mul_zero])
    rw [if_neg hb2, if_neg hb1]
    have eA : F32.fin s1 a1 * F32.fin (!t2) b2 = F32.fin (xor s1 (!t2)) (F32.rnd (a1 * b2)) := by
      show F32.round _ (a1 * b2) = _
      rw [F32.round_eq _ _ (mul_nonneg p1 q2), if_pos Ml]
    have eB : F32.fin s2 a2 * F32.fin t1 b1 = F32.fin (xor s2 t1) (F32.rnd (a1 * b2)) := by
      show F32.round _ (a2 * b1) = _
      rw [← hm, F32.round_eq _ _ (mul_nonneg p1 q2), if_pos Ml]
    rw [eA, eB, F32.zero_add_fin _ _ _ M0 Mr Ml]
    have hs : xor s1 (!t2) = !(xor s2 t1) := by
      rw [← hsign hz]
      cases s1 <;> cases t2 <;> rfl
    by_cases hM : F32.rnd (a1 * b2) = 0
    · rw [if_pos hM, hM, F32.fin_zero_add_zero]
      exact Or.inr ⟨_, rfl⟩
    · rw [if_neg hM, hs]
      refine Or.inr ⟨!(xor s2 t1) && xor s2 t1, ?_⟩
      show F32.add _ _ = _
      have := F32.toRat_neg_fin (!(xor s2 t1)) (F32.rnd (a1 * b2))
      rw [Bool.not_not] at this
      simp only [F32.add, this, F32.ofRat, if_true]

/-! ## Inputs and tests of the ray function -/

theorem sliver_toRat : sliverA.toRat = ⟨-1, -1, 0, 1⟩ ∧ sliverB.toRat = ⟨16777216, 0, 0, 1⟩ ∧
    sliverC.toRat = ⟨-50331652, -4, 0, 1⟩ := by decide!

theorem behind_toRat : behindA.toRat = ⟨-4521, -5654, -2900, 1⟩ ∧
    behindB.toRat = ⟨-466, -4797, -2440, 1⟩ ∧ behindC.toRat = ⟨1579, 4614, 2605, 1⟩ ∧
    behindP.toRat = ⟨1580, 4614, 2605, 1⟩ ∧
    (rayVector : Vertex F32).toRat = ⟨1, 0, 0, 0⟩ := by decide!

theorem leg_toRat : legA.toRat = ⟨0, 0, 0, 1⟩ ∧ legB.toRat = ⟨0, 3, 0, 1⟩ ∧
    legC.toRat = ⟨0, 0, 3, 1⟩ ∧
    legP.toRat = ⟨-1, 6001381 / 2097152, 9282399 / 67108864, 1⟩ := by decide!

theorem F32.one_div_nan : (1 : F32) / F32.nan = F32.nan := rfl

theorem F32.one_div_inf (s : Bool) : (1 : F32) / F32.inf s = F32.fin s 0 := by
  cases s <;> rfl

/-- A value outside the guard `-epsilon < x && x < epsilon` that is finite has magnitude at
least `2^-23`. -/
theorem F32.outside_guard (x : F32)
    (h : ¬ ((-epsilon : F32) < x ∧ x < (epsilon : F32))) :
    1 / 2 ^ 23 ≤ |x.toRat| ∨ x = F32.nan ∨ ∃ s, x = F32.inf s := by
  cases x with
  | nan => exact Or.inr (Or.inl rfl)
  | inf s => exact Or.inr (Or.inr ⟨s, rfl⟩)
  | fin s m =>
    left
    rw [F32.neg_epsilon_eq, F32.epsilon_eq, F32.lt_def, F32.lt_def] at h
    simp only [F32.lt, decide_eq_true_eq] at h
    by_contra hlt
    apply h
    rw [not_le, abs_lt] at hlt
    refine ⟨?_, ?_⟩
    · have : F32.toRat (F32.fin true (1 / 2 ^ 23)) = -(1 / 2 ^ 23) := by simp [F32.toRat]
      rw [this]; exact hlt.1
    · have : F32.toRat (F32.fin false (1 / 2 ^ 23)) = 1 / 2 ^ 23 := by simp [F32.toRat]
      rw [this]; exact hlt.2

theorem mtT_eq (o d a b c : Vertex F32) :
    mtT o d a b c =
      1 / mtDet d a b c * (c.sub a).dotProduct ((o.sub a).crossProduct (b.sub a)) := rfl

/-- When the test returns true the determinant it computed is a finite value of magnitude
at least `2^-23`. -/
theorem rayIntersectsTriangle_det (o d a b c : Vertex F32)
    (h : rayIntersectsTriangle o d a b c = true) :
    (∃ s m, mtDet d a b c = F32.fin s m) ∧ 1 / 2 ^ 23 ≤ |(mtDet d a b c).toRat| := by
  obtain ⟨hG, _, _, hT⟩ := (rayIntersectsTriangle_tests o d a b c).mp h
  rw [mtT_eq] at hT
  rcases F32.outside_guard _ hG with h1 | h1 | ⟨s, h1⟩
  · refine ⟨?_, h1⟩
    cases hd : mtDet d a b c with
    | nan => rw [hd, F32.one_div_nan, F32.nan_mul] at hT; exact absurd hT (F32.not_lt_nan _)
    | inf s =>
      rw [hd, F32.one_div_inf] at hT
      exact absurd hT (F32.zn_not_eps_lt _ (F32.zn_mul_left _ _ (Or.inr ⟨s, rfl⟩)))
    | fin s m => exact ⟨s, m, rfl⟩
  · rw [h1, F32.one_div_nan, F32.nan_mul] at hT; exact absurd hT (F32.not_lt_nan _)
  · rw [h1, F32.one_div_inf] at hT
    exact absurd hT (F32.zn_not_eps_lt _ (F32.zn_mul_left _ _ (Or.inr ⟨s, rfl⟩)))

/-! ## The normal of collinear points -/

/-- The difference of two finite products of equal exact value is a zero. -/
theorem F32.parallel_sub (x1 y2 x2 y1 : F32) (h1 : x1.IsFinite) (h2 : y2.IsFinite)
    (h3 : x2.IsFinite) (h4 : y1.IsFinite) (hP : (x1 * y2).IsFinite)
    (hpar : x1.toRat * y2.toRat = x2.toRat * y1.toRat) :
    ∃ σ, x1 * y2 - x2 * y1 = F32.fin σ 0 := by
  obtain ⟨s1, a1, rfl, p1, _, _⟩ := (F32.isFinite_iff x1).mp h1
  obtain ⟨t2, b2, rfl, q2, _, _⟩ := (F32.isFinite_iff y2).mp h2
  obtain ⟨s2, a2, rfl, p2, _, _⟩ := (F32.isFinite_iff x2).mp h3
  obtain ⟨t1, b1, rfl, q1, _, _⟩ := (F32.isFinite_iff y1).mp h4
  obtain ⟨hm, hsign⟩ := F32.toRat_mul_eq s1 t2 s2 t1 a1 b2 a2 b1 p1 q2 p2 q1 hpar
  obtain ⟨eP, M0, _, Ml⟩ := F32.mul_finite s1 t2 a1 b2 (mul_nonneg p1 q2) hP
  have eQ : F32.fin s2 a2 * F32.fin t1 b1 = F32.fin (xor s2 t1) (F32.rnd (a1 * b2)) := by
    show round _ (a2 * b1) = _
    rw [← hm, F32.round_eq _ _ (mul_nonneg p1 q2), if_pos Ml]
  rw [eP, eQ]
  refine ⟨xor s1 t2 && !(xor s2 t1), ?_⟩
  rw [F32.sub_def]
  unfold F32.sub
  by_cases hz : a1 * b2 = 0
  · rw [hz, F32.rnd_zero]
    simp [F32.add, F32.neg, F32.toRat, F32.ofRat]
  · rw [hsign hz]
    simp only [F32.neg, F32.add, F32.toRat_neg_fin, Bool.not_not, F32.ofRat, if_true]

theorem F32.zero_mul_zero (s t : Bool) : F32.fin s 0 * F32.fin t 0 = F32.fin (xor s t) 0 :=
  F32.fin_mul_zero t s 0

theorem F32.sqrt_zero (s : Bool) : F32.sqrt (F32.fin s 0) = F32.fin s 0 := by
  simp [F32.sqrt]

theorem F32.zero_bne_zero (s : Bool) : (F32.fin s 0 != (0 : F32)) = false := by
  cases s <;> decide!

/-- Three zeros give the length zero, the guard `length != 0` fails and no division is
recorded. -/
theorem calculateNormalTraced_zero (a b c : Vertex F32) (s0 s1 s2 : Bool)
    (h0 : (b.y - a.y) * (c.z - a.z) - (b.z - a.z) * (c.y - a.y) = F32.fin s0 0)
    (h1 : (b.z - a.z) * (c.x - a.x) - (b.x - a.x) * (c.z - a.z) = F32.fin s1 0)
    (h2 : (b.x - a.x) * (c.y - a.y) - (b.y - a.y) * (c.x - a.x) = F32.fin s2 0) :
    calculateNormalTraced F32.sqrt a b c
      = ((F32.fin s0 0, F32.fin s1 0, F32.fin s2 0), []) := by
  unfold calculateNormalTraced
  simp only [h0, h1, h2, F32.zero_mul_zero, F32.fin_zero_add_zero, F32.sqrt_zero,
    F32.zero_bne_zero]
  rfl

/-! ## The loops of the point query -/

section

variable {F : Type} [Add F] [Sub F] [Mul F] [Div F] [Neg F] [Zero F] [One F] [NatCast F]
  [Pow F ℕ] [LT F] [DecidableRel (fun a b : F => a < b)] [Max F] [BEq F]

omit [Add F] [Sub F] [Mul F] [Div F] [Neg F] [Zero F] [One F] [NatCast F] [Pow F ℕ] [LT F]
  [DecidableRel (fun a b : F => a < b)] [Max F] [BEq F] in
theorem fanCorners_corners (m : Model F) (face : Face) (i : Nat) :
    fanCorners m face i =
      match cornerAt m face 0, cornerAt m face i, cornerAt m face (i + 1) with
      | some a, some b, some c => some (a, b, c)
      | _, _, _ => none := by
  unfold fanCorners cornerAt
  cases h0 : face.vertices[0]? with
  | none => simp
  | some c0 =>
    cases h1 : face.vertices[i]? with
    | none =>
      simp only [Option.bind_eq_bind, Option.some_bind, Option.none_bind]
      cases m.vertexAt c0.vertexIndex <;> rfl
    | some c1 =>
      cases h2 : face.vertices[i + 1]? with
      | none =>
        simp only [Option.bind_eq_bind, Option.some_bind, Option.none_bind]
        cases m.vertexAt c0.vertexIndex <;> cases m.vertexAt c1.vertexIndex <;> rfl
      | some c2 =>
        simp only [Option.bind_eq_bind, Option.some_bind, Option.none_bind]
        cases m.vertexAt c0.vertexIndex <;> cases m.vertexAt c1.vertexIndex <;>
          cases m.vertexAt c2.vertexIndex <;> rfl

omit [Add F] [Sub F] [Mul F] [Div F] [Neg F] [Zero F] [One F] [NatCast F] [Pow F ℕ] [LT F]
  [DecidableRel (fun a b : F => a < b)] [Max F] [BEq F] in
theorem fanCorners_total (m : Model F) (face : Face)
    (hv : ∀ c ∈ face.vertices, 0 < c.vertexIndex ∧ c.vertexIndex ≤ m.vertices.length)
    (j : Nat) (hj : j + 1 < face.vertices.length) :
    ∃ v, fanCorners m face j = some v := by
  have h0 : 0 < face.vertices.length := by omega
  have h1 : j < face.vertices.length := by omega
  have m0 := hv _ (List.getElem_mem h0)
  have m1 := hv _ (List.getElem_mem h1)
  have m2 := hv _ (List.getElem_mem hj)
  obtain ⟨v0, e0⟩ := vertexAt_isSome m _ m0.1 m0.2
  obtain ⟨v1, e1⟩ := vertexAt_isSome m _ m1.1 m1.2
  obtain ⟨v2, e2⟩ := vertexAt_isSome m _ m2.1 m2.2
  exact ⟨(v0, v1, v2), by
    simp [fanCorners, List.getElem?_eq_getElem h0, List.getElem?_eq_getElem h1,
      List.getElem?_eq_getElem hj, e0, e1, e2]⟩

omit [BEq F] in
/-- The inner loop of `isPointInside` returns whether one of the fan triangles it visits is
counted. -/
theorem faceIntersected_any (m : Model F) (p : Vertex F) (face : Face) (trips i : Nat)
    (h : ∀ j, i ≤ j → j < i + trips → ∃ v, fanCorners m face j = some v) :
    faceIntersected m p face trips i = some ((List.range' i trips).any (fanCounted m p face)) := by
  induction trips generalizing i with
  | zero => rfl
  | succ k ih =>
    obtain ⟨⟨v0, v1, v2⟩, hv⟩ := h i (le_refl i) (by omega)
    have ih1 := ih (i + 1) (fun j h1 h2 => h j (by omega) (by omega))
    have hc := fanCorners_corners m face i
    rw [hv] at hc
    have hf : fanCounted m p face i = (!decide (max (max v0.x v1.x) v2.x < p.x) &&
        rayIntersectsTriangle p rayVector v0 v1 v2) := by
      unfold fanCounted
      revert hc
      cases cornerAt m face 0 <;> cases cornerAt m face i <;>
        cases cornerAt m face (i + 1) <;> intro hc <;> simp at hc ⊢
      obtain ⟨rfl, rfl, rfl⟩ := hc
      rfl
    simp only [faceIntersected, hv, Option.bind_eq_bind, Option.some_bind, ih1,
      List.range'_succ, List.any_cons, hf]
    by_cases hs : max (max v0.x v1.x) v2.x < p.x
    · simp [hs]
    · cases ht : rayIntersectsTriangle p rayVector v0 v1 v2 <;> simp [hs]

omit [BEq F] in
theorem faceIntersected_faceCounted (m : Model F) (p : Vertex F) (face : Face)
    (h3 : 3 ≤ face.vertices.length)
    (hv : ∀ c ∈ face.vertices, 0 < c.vertexIndex ∧ c.vertexIndex ≤ m.vertices.length) :
    faceIntersected m p face (fanTrips face) 1 = some (faceCounted m p face) := by
  rw [fanTrips_eq face (by omega)]
  exact faceIntersected_any m p face _ 1
    (fun j _ h2 => fanCorners_total m face hv j (by omega))

omit [BEq F] in
/-- The outer loop of `isPointInside` adds the number of faces whose inner loop reports a
hit. -/
theorem countIntersections_countP (m : Model F) (p : Vertex F) (hit : Face → Bool)
    (faces : List Face)
    (h : ∀ face ∈ faces, faceIntersected m p face (fanTrips face) 1 = some (hit face))
    (acc : Int) (hacc : acc + faces.length < (2 : Int) ^ (31 : Nat)) :
    countIntersections m p faces acc = some (acc + faces.countP hit) := by
  induction faces generalizing acc with
  | nil => simp [countIntersections]
  | cons face rest ih =>
    simp only [List.length_cons, Nat.cast_add, Nat.cast_one] at hacc
    have hface := h face (List.mem_cons_self _ _)
    have hrest := fun f hf => h f (List.mem_cons_of_mem _ hf)
    simp only [countIntersections, hface, Option.bind_eq_bind, Option.some_bind]
    cases hb : hit face with
    | false =>
      simp only [Bool.false_eq_true, if_false]
      rw [ih hrest acc (by omega), List.countP_cons_of_neg hit rest (by simp [hb])]
    | true =>
      have h1 : acc + 1 < (2 : Int) ^ (31 : Nat) := by omega
      simp only [if_true]
      rw [if_pos h1, ih hrest (acc + 1) (by omega), List.countP_cons_of_pos hit rest hb]
      congr 1
      push_cast
      ring

theorem parity_cast (n : Nat) : (((n : Int) % 2 == 1) : Bool) = decide (n % 2 = 1) := by
  rcases Nat.mod_two_eq_zero_or_one n with h | h
  · have : (n : Int) % 2 = 0 := by omega
    simp [this, h]
  · have : (n : Int) % 2 = 1 := by omega
    simp [this, h]

omit [BEq F] in
/-- The result of `isPointInside` is the parity of the number of counted faces. -/
theorem isPointInside_parity (m : Model F) (p : Vertex F) (hv : ValidVertexIndices m)
    (hn : m.faces.length < 2 ^ (31 : Nat)) :
    isPointInside m p = some (decide (m.faces.countP (faceCounted m p) % 2 = 1)) := by
  unfold isPointInside
  rw [countIntersections_countP m p (faceCounted m p) m.faces
    (fun face hf => faceIntersected_faceCounted m p face (hv face hf).1 (hv face hf).2) 0
    (by
      have : ((m.faces.length : Nat) : Int) < (2 : Int) ^ (31 : Nat) := by exact_mod_cast hn
      omega)]
  simp only [zero_add, Option.map_some']
  rw [parity_cast]

omit [BEq F] in
/-- Without the max-X test the inner loop gives the same result when no skipped fan
triangle is accepted by `rayIntersectsTriangle`. -/
theorem faceIntersected_skip (m : Model F) (p : Vertex F) (face : Face) (trips i : Nat)
    (h : ∀ j, i ≤ j → j < i + trips → fanSkippedHit m p face j = false) :
    faceIntersected m p face trips i = faceIntersectedNoSkip m p face trips i := by
  induction trips generalizing i with
  | zero => rfl
  | succ k ih =>
    have ih1 := ih (i + 1) (fun j h1 h2 => h j (by omega) (by omega))
    have hi := h i (le_refl i) (by omega)
    simp only [faceIntersected, faceIntersectedNoSkip]
    have hc := fanCorners_corners m face i
    cases hv : fanCorners m face i with
    | none => rfl
    | some v =>
      obtain ⟨v0, v1, v2⟩ := v
      rw [hv] at hc
      have hf : fanSkippedHit m p face i = (decide (max (max v0.x v1.x) v2.x < p.x) &&
          rayIntersectsTriangle p rayVector v0 v1 v2) := by
        unfold fanSkippedHit
        revert hc
        cases cornerAt m face 0 <;> cases cornerAt m face i <;>
          cases cornerAt m face (i + 1) <;> intro hc <;> simp at hc ⊢
        obtain ⟨rfl, rfl, rfl⟩ := hc
        rfl
      rw [hf] at hi
      simp only [Option.bind_eq_bind, Option.some_bind, ih1]
      by_cases hs : max (max v0.x v1.x) v2.x < p.x
      · have : rayIntersectsTriangle p rayVector v0 v1 v2 = false := by simpa [hs] using hi
        simp [hs, this]
      · simp [hs]

omit [BEq F] in
theorem countIntersections_skip (m : Model F) (p : Vertex F) (faces : List Face)
    (h : ∀ face ∈ faces, faceIntersected m p face (fanTrips face) 1
      = faceIntersectedNoSkip m p face (fanTrips face) 1) (acc : Int) :
    countIntersections m p faces acc = countIntersectionsNoSkip m p faces acc := by
  induction faces generalizing acc with
  | nil => rfl
  | cons face rest ih =>
    have hrest := fun f hf => h f (List.mem_cons_of_mem _ hf)
    simp only [countIntersections, countIntersectionsNoSkip, h face (List.mem_cons_self _ _),
      ih hrest]

omit [Add F] [Sub F] [Mul F] [Div F] [Neg F] [Zero F] [One F] [NatCast F] [Pow F ℕ] [LT F]
  [DecidableRel (fun a b : F => a < b)] [Max F] [BEq F] in
theorem fanCorners_none_of_empty (m : Model F) (face : Face) (h : face.vertices.length = 0)
    (i : Nat) : fanCorners m face i = none := by
  have : face.vertices = [] := List.length_eq_zero.mp h
  simp [fanCorners, this]

end

/-! ## Meshes in binary32 coordinates -/

theorem xor_parity (a b : Nat) :
    decide ((a + b) % 2 = 1) = xor (decide (a % 2 = 1)) (decide (b % 2 = 1)) := by
  rcases Nat.mod_two_eq_zero_or_one a with ha | ha <;>
    rcases Nat.mod_two_eq_zero_or_one b with hb | hb <;>
    simp [Nat.add_mod, ha, hb]

theorem faceCounted_faces (m : Model F32) (fs : List Face) (p : Vertex F32) :
    faceCounted { m with faces := fs } p = faceCounted m p := rfl

theorem unitCube32_vertices : unitCube32.vertices.map Vertex.toRat =
    [⟨-(1 / 2), -(1 / 2), -(1 / 2), 1⟩, ⟨1 / 2, -(1 / 2), -(1 / 2), 1⟩,
     ⟨-(1 / 2), 1 / 2, -(1 / 2), 1⟩, ⟨1 / 2, 1 / 2, -(1 / 2), 1⟩,
     ⟨-(1 / 2), -(1 / 2), 1 / 2, 1⟩, ⟨1 / 2, -(1 / 2), 1 / 2, 1⟩,
     ⟨-(1 / 2), 1 / 2, 1 / 2, 1⟩, ⟨1 / 2, 1 / 2, 1 / 2, 1⟩] := by decide!

theorem tinyCube32_vertices : tinyCube32.vertices.map Vertex.toRat =
    [⟨-(1 / 8192), -(1 / 8192), -(1 / 8192), 1⟩, ⟨1 / 8192, -(1 / 8192), -(1 / 8192), 1⟩,
     ⟨-(1 / 8192), 1 / 8192, -(1 / 8192), 1⟩, ⟨1 / 8192, 1 / 8192, -(1 / 8192), 1⟩,
     ⟨-(1 / 8192), -(1 / 8192), 1 / 8192, 1⟩, ⟨1 / 8192, -(1 / 8192), 1 / 8192, 1⟩,
     ⟨-(1 / 8192), 1 / 8192, 1 / 8192, 1⟩, ⟨1 / 8192, 1 / 8192, 1 / 8192, 1⟩] := by decide!

theorem faceIntersected_succ_none (m : Model F32) (p : Vertex F32) (face : Face) (k i : Nat)
    (h : fanCorners m face i = none) : faceIntersected m p face (k + 1) i = none := by
  simp [faceIntersected, h]

theorem faceIntersectedNoSkip_succ_none (m : Model F32) (p : Vertex F32) (face : Face)
    (k i : Nat) (h : fanCorners m face i = none) :
    faceIntersectedNoSkip m p face (k + 1) i = none := by
  simp [faceIntersectedNoSkip, h]

/-! ## The area of the unit cube -/

section

variable {F : Type} [Add F] [Sub F] [Mul F] [Div F] [Neg F] [Zero F] [One F] [NatCast F]
  [Pow F ℕ] [LT F] [DecidableRel (fun a b : F => a < b)] [Max F] [BEq F]

omit [Neg F] [Zero F] [Pow F ℕ] [LT F] [DecidableRel (fun a b : F => a < b)] [Max F] [BEq F] in
/-- The area loop on a face with 4 corners adds the areas of its two fan triangles. -/
theorem quad_areaTriangles (sqrt : F → F) (m : Model F) (face : Face)
    (c0 c1 c2 c3 : FaceVertexIndex) (v0 v1 v2 v3 : Vertex F)
    (hf : face.vertices = [c0, c1, c2, c3])
    (h0 : m.vertexAt c0.vertexIndex = some v0) (h1 : m.vertexAt c1.vertexIndex = some v1)
    (h2 : m.vertexAt c2.vertexIndex = some v2) (h3 : m.vertexAt c3.vertexIndex = some v3)
    (total : F) :
    areaTriangles sqrt m face (fanTrips face) 1 total =
      some (total + triangleArea sqrt v0 v1 v2 + triangleArea sqrt v0 v2 v3) := by
  have ht : fanTrips face = 2 := by rw [fanTrips_eq face (by rw [hf]; simp), hf]; rfl
  have f1 : fanCorners m face 1 = some (v0, v1, v2) := by
    simp [fanCorners, hf, h0, h1, h2]
  have f2 : fanCorners m face 2 = some (v0, v2, v3) := by
    simp [fanCorners, hf, h0, h2, h3]
  rw [ht]
  simp only [areaTriangles, f1, f2, Option.bind_eq_bind, Option.some_bind]

omit [Sub F] [Mul F] [Div F] [Neg F] [Zero F] [One F] [NatCast F] [Pow F ℕ] [LT F]
  [DecidableRel (fun a b : F => a < b)] [Max F] [BEq F] in
theorem cubeFace_listing_four (o : F × F × F) (s : F) (j : Fin 6) (ps : List (F × F × F))
    (hc : IsCyclicListing ps (cubeFace o s j)) :
    ∃ q0 q1 q2 q3, ps = [q0, q1, q2, q3] := by
  have hlen : ps.length = 4 := by
    obtain ⟨k, hk | hk⟩ := hc <;> rw [hk] <;> fin_cases j <;> simp [cubeFace]
  match ps, hlen with
  | [q0, q1, q2, q3], _ => exact ⟨q0, q1, q2, q3, rfl⟩

end

set_option maxHeartbeats 4000000 in

/-- Each fan triangle of each face of the unit cube, in each cyclic listing, has the
computed area `1/2`. -/
theorem unitCubeFace_areaXYZ (j : Fin 6) (q0 q1 q2 q3 : F32 × F32 × F32)
    (h : IsCyclicListing [q0, q1, q2, q3] (cubeFace ((0 : F32), (0 : F32), (0 : F32)) 1 j)) :
    areaXYZ F32.sqrt q0 q1 q2 = F32.fin false (1 / 2) ∧
    areaXYZ F32.sqrt q0 q2 q3 = F32.fin false (1 / 2) := by
  fin_cases j <;> simp only [cubeFace] at h <;>
    rcases cyclicListing_cases h with e | e | e | e | e | e | e | e <;>
    simp only [List.cons.injEq, and_true] at e <;>
    obtain ⟨rfl, rfl, rfl, rfl⟩ := e <;>
    decide!

theorem F32.add_two_halves (n : Nat) (hn : n < 6) :
    (F32.fin false n + F32.fin false (1 / 2)) + F32.fin false (1 / 2)
      = F32.fin false ((n + 1 : Nat) : ℚ) := by
  interval_cases n <;> decide!

theorem unitCubeFace_area (m : Model F32) (j : Fin 6) (face : Face)
    (h : IsCubeFace m ((0 : F32), (0 : F32), (0 : F32)) 1 j face) (n : Nat) (hn : n < 6) :
    areaTriangles F32.sqrt m face (fanTrips face) 1 (F32.fin false n)
      = some (F32.fin false ((n + 1 : Nat) : ℚ)) := by
  obtain ⟨ps, hp, hc⟩ := h
  obtain ⟨q0, q1, q2, q3, rfl⟩ := cubeFace_listing_four _ _ j ps hc
  obtain ⟨c0, c1, c2, c3, v0, v1, v2, v3, hf, h0, h1, h2, h3, x0, x1, x2, x3⟩ :=
    facePositions_four hp
  obtain ⟨a1, a2⟩ := unitCubeFace_areaXYZ j q0 q1 q2 q3 hc
  have t1 : triangleArea F32.sqrt v0 v1 v2 = areaXYZ F32.sqrt v0.xyz v1.xyz v2.xyz := rfl
  have t2 : triangleArea F32.sqrt v0 v2 v3 = areaXYZ F32.sqrt v0.xyz v2.xyz v3.xyz := rfl
  rw [quad_areaTriangles F32.sqrt m face c0 c1 c2 c3 v0 v1 v2 v3 hf h0 h1 h2 h3,
    t1, t2, x0, x1, x2, x3, a1, a2, F32.add_two_halves n hn]

theorem unitCube_areaFaces (m : Model F32) (faces : List Face) (order : List (Fin 6))
    (h : List.Forall₂
      (fun face j => IsCubeFace m ((0 : F32), (0 : F32), (0 : F32)) 1 j face) faces order)
    (n : Nat) (hn : n + faces.length ≤ 6) :
    areaFaces F32.sqrt m faces (F32.fin false n)
      = some (F32.fin false ((n + faces.length : Nat) : ℚ)) := by
  induction h generalizing n with
  | nil => simp [areaFaces]
  | @cons face j faces order hface _ ih =>
    simp only [List.length_cons] at hn
    simp only [areaFaces, unitCubeFace_area m j face hface n (by omega), Option.bind_eq_bind,
      Option.some_bind, List.length_cons]
    rw [ih (n + 1) (by omega)]
    congr 3
    omega

theorem isCubeMesh_faces_length (m : Model F32) (o : F32 × F32 × F32) (s : F32)
    (h : IsCubeMesh m o s) : m.faces.length = 6 := by
  obtain ⟨_, order, hperm, hf⟩ := h
  rw [hf.length_eq, hperm.length_eq]
  rfl

theorem isCubeMesh_standardCube32 (o : F32 × F32 × F32) (s : F32) :
    IsCubeMesh (standardCube o s) o s := by
  refine ⟨?_, [4, 5, 2, 3, 0, 1], by decide, ?_⟩
  · simp [standardCube, cubeCorners, Vertex.xyz]
  · refine List.Forall₂.cons ⟨_, rfl, 3, Or.inr rfl⟩ (List.Forall₂.cons ⟨_, rfl, 0, Or.inl rfl⟩
      (List.Forall₂.cons ⟨_, rfl, 0, Or.inl rfl⟩ (List.Forall₂.cons ⟨_, rfl, 3, Or.inr rfl⟩
      (List.Forall₂.cons ⟨_, rfl, 3, Or.inr rfl⟩ (List.Forall₂.cons ⟨_, rfl, 0, Or.inl rfl⟩
      List.Forall₂.nil)))))

/-! ## Exact operations on small integers -/

theorem F32.pow2_eq (e : Int) : pow2 e = (2 : ℚ) ^ e := by
  unfold pow2
  split
  · rename_i h
    obtain ⟨n, rfl⟩ := Int.eq_ofNat_of_zero_le h
    simp
  · rename_i h
    obtain ⟨n, hn⟩ : ∃ n : ℕ, e = -(n : ℤ) := ⟨(-e).toNat, by omega⟩
    subst hn
    simp [zpow_neg]

theorem F32.ilog2Aux_spec (q : ℚ) (b : ℕ) (lo : ℤ) (h1 : (2 : ℚ) ^ lo ≤ q)
    (h2 : q < (2 : ℚ) ^ (lo + ((2 ^ b : ℕ) : ℤ))) :
    (2 : ℚ) ^ (ilog2Aux q b lo) ≤ q ∧ q < (2 : ℚ) ^ (ilog2Aux q b lo + 1) := by
  induction b generalizing lo with
  | zero =>
    simp only [ilog2Aux]
    exact ⟨h1, by simpa using h2⟩
  | succ b ih =>
    simp only [ilog2Aux, pow2_eq]
    split
    · rename_i h
      apply ih _ h
      have e : lo + ((2 ^ b : ℕ) : ℤ) + ((2 ^ b : ℕ) : ℤ) = lo + ((2 ^ (b + 1) : ℕ) : ℤ) := by
        push_cast
        ring
      rw [e]
      exact h2
    · rename_i h
      exact ih _ h1 (not_le.mp h)

/-- The exponent found by `ilog2` brackets the number. -/
theorem F32.ilog2_spec (q : ℚ) (h1 : (2 : ℚ) ^ (-1024 : ℤ) ≤ q) (h2 : q < (2 : ℚ) ^ (1024 : ℤ)) :
    (2 : ℚ) ^ (ilog2 q) ≤ q ∧ q < (2 : ℚ) ^ (ilog2 q + 1) := by
  unfold ilog2
  apply ilog2Aux_spec q 11 (-1024) h1
  have e : (-1024 : ℤ) + ((2 ^ 11 : ℕ) : ℤ) = 1024 := by norm_num
  rw [e]
  exact h2

theorem F32.roundHalfEven_int (k : ℤ) : roundHalfEven (k : ℚ) = k := by
  have hf : (k : ℚ).floor = k := by
    show ⌊(k : ℚ)⌋ = k
    exact Int.floor_intCast k
  unfold roundHalfEven
  simp only [hf, sub_self]
  norm_num

theorem F32.rnd_of_int (q : ℚ) (k : ℤ) (h : q / ulp q = k) : rnd q = q := by
  unfold rnd
  rw [h, roundHalfEven_int, ← h]
  exact div_mul_cancel₀ q (ne_of_gt (ulp_pos q))

/-- Natural numbers up to `2^24` are binary32 values. -/
theorem F32.rnd_nat (n : ℕ) (hn : n ≤ 2 ^ 24) : rnd (n : ℚ) = n := by
  rcases Nat.eq_zero_or_pos n with h0 | hpos
  · rw [h0, Nat.cast_zero, rnd_zero]
  have hq1 : (1 : ℚ) ≤ n := by exact_mod_cast hpos
  have hq2 : (n : ℚ) ≤ 2 ^ (24 : ℤ) := by
    calc (n : ℚ) ≤ (2 : ℚ) ^ (24 : ℕ) := by exact_mod_cast hn
      _ = 2 ^ (24 : ℤ) := by norm_num
  have two : (1 : ℚ) < 2 := by norm_num
  obtain ⟨l, u⟩ := ilog2_spec (n : ℚ)
    (le_trans (by
      rw [show (1 : ℚ) = 2 ^ (0 : ℤ) from (zpow_zero 2).symm] at *
      exact zpow_le_zpow_right₀ (le_of_lt two) (by norm_num)) hq1)
    (lt_of_le_of_lt hq2 (zpow_lt_zpow_right₀ two (by norm_num)))
  have he0 : 0 ≤ ilog2 (n : ℚ) := by
    have : (2 : ℚ) ^ (0 : ℤ) < 2 ^ (ilog2 (n : ℚ) + 1) := by
      rw [zpow_zero]; exact lt_of_le_of_lt hq1 u
    have := (zpow_lt_zpow_iff_right₀ two).mp this
    omega
  have he24 : ilog2 (n : ℚ) ≤ 24 := (zpow_le_zpow_iff_right₀ two).mp (le_trans l hq2)
  have hu : ulp (n : ℚ) = (2 : ℚ) ^ (ilog2 (n : ℚ) - 23) := by
    unfold ulp
    rw [pow2_eq, max_eq_left (by omega)]
  obtain ⟨e, he⟩ : ∃ e : ℕ, ilog2 (n : ℚ) = e := ⟨(ilog2 (n : ℚ)).toNat, by omega⟩
  rw [he] at l u hu he24
  have he24' : e ≤ 24 := by exact_mod_cast he24
  rcases Nat.lt_or_ge e 24 with hlt | hge
  · -- the spacing is at most 1
    apply rnd_of_int (n : ℚ) ((n * 2 ^ (23 - e) : ℕ) : ℤ)
    rw [hu]
    have : ((e : ℤ) - 23) = -((23 - e : ℕ) : ℤ) := by omega
    rw [this, zpow_neg, zpow_natCast]
    push_cast
    field_simp
  · have e24 : e = 24 := by omega
    subst e24
    have hn24 : (n : ℚ) = 2 ^ (24 : ℤ) := le_antisymm hq2 (by simpa using l)
    apply rnd_of_int (n : ℚ) (2 ^ 23)
    rw [hu, hn24]
    norm_num

theorem F32.pow2_128_gt : (2 : ℚ) ^ (24 : ℕ) < pow2 128 := by
  rw [pow2_eq]
  norm_num

theorem F32.isIntWithin_mono {x : F32} {b c : ℕ} (h : x.IsIntWithin b) (hbc : b ≤ c) :
    x.IsIntWithin c :=
  ⟨h.1, h.2.1, le_trans h.2.2 (by exact_mod_cast hbc)⟩

/-- An integer of magnitude at most `2^24`, with a sign, is a finite binary32 value. -/
theorem F32.fin_int (s : Bool) (z : ℚ) (hden : z.den = 1) (b : ℕ) (hb : |z| ≤ b)
    (hmax : b ≤ 2 ^ 24) :
    rnd |z| = |z| ∧ |z| < pow2 128 ∧ (fin s |z|).IsIntWithin b := by
  obtain ⟨k, rfl⟩ : ∃ k : ℤ, z = k := ⟨z.num, (Rat.coe_int_num_of_den_eq_one hden).symm⟩
  have hk : |(k : ℚ)| = ((k.natAbs : ℕ) : ℚ) := by
    rw [Nat.cast_natAbs, Int.cast_abs]
  have hle : k.natAbs ≤ 2 ^ 24 := by
    have : ((k.natAbs : ℕ) : ℚ) ≤ (b : ℚ) := by rw [← hk]; exact hb
    have : k.natAbs ≤ b := by exact_mod_cast this
    omega
  have hr : rnd |(k : ℚ)| = |(k : ℚ)| := by rw [hk]; exact rnd_nat _ hle
  have hl : |(k : ℚ)| < pow2 128 := by
    rw [hk]
    refine lt_of_le_of_lt ?_ pow2_128_gt
    exact_mod_cast hle
  refine ⟨hr, hl, ⟨abs_nonneg _, hr, hl⟩, ?_, ?_⟩
  · cases s
    · simp only [toRat, Bool.false_eq_true, if_false]
      rw [hk]; exact Rat.den_natCast _
    · simp only [toRat, if_true]
      rw [hk, ← Int.cast_natCast, ← Int.cast_neg]
      exact Rat.den_intCast _
  · cases s <;> simp only [toRat, Bool.false_eq_true, if_false, if_true, abs_neg, abs_abs] <;>
      exact hb

/-- The rational `q` placed in binary32 by `ofRat` when it is a small integer. -/
theorem F32.ofRat_int (q : ℚ) (zs : Bool) (hden : q.den = 1) (b : ℕ) (hb : |q| ≤ b)
    (hmax : b ≤ 2 ^ 24) :
    (ofRat q zs).IsIntWithin b ∧ (ofRat q zs).toRat = q := by
  unfold ofRat
  by_cases h0 : q = 0
  · rw [if_pos h0, h0]
    refine ⟨⟨⟨le_rfl, rnd_zero, pow2_pos 128⟩, ?_, ?_⟩, ?_⟩
    · cases zs <;> simp [toRat]
    · cases zs <;> simp [toRat]
    · cases zs <;> simp [toRat]
  · rw [if_neg h0]
    have habs : (if q < 0 then -q else q) = |q| := by
      split
      · rename_i h; rw [abs_of_neg h]
      · rename_i h; rw [abs_of_nonneg (not_lt.mp h)]
    obtain ⟨hr, hl, hfin⟩ := fin_int (decide (q < 0)) q hden b hb hmax
    rw [habs, round_rep _ _ (abs_nonneg q) hr hl]
    refine ⟨hfin, ?_⟩
    by_cases hq : q < 0
    · simp [toRat, hq, abs_of_neg hq]
    · simp [toRat, hq, abs_of_nonneg (not_lt.mp hq)]

theorem F32.den_add_int {p q : ℚ} (hp : p.den = 1) (hq : q.den = 1) : (p + q).den = 1 := by
  rw [Rat.den_eq_one_iff] at hp hq ⊢
  rw [← hp, ← hq, ← Int.cast_add, Rat.num_intCast]

theorem F32.den_mul_int {p q : ℚ} (hp : p.den = 1) (hq : q.den = 1) : (p * q).den = 1 := by
  rw [Rat.den_eq_one_iff] at hp hq ⊢
  rw [← hp, ← hq, ← Int.cast_mul, Rat.num_intCast]

/-- The sum of two small integers is computed exactly. -/
theorem F32.add_int {x y : F32} {b c : ℕ} (hx : x.IsIntWithin b) (hy : y.IsIntWithin c)
    (hmax : b + c ≤ 2 ^ 24) :
    (x + y).IsIntWithin (b + c) ∧ (x + y).toRat = x.toRat + y.toRat := by
  obtain ⟨fx, dx, bx⟩ := hx
  obtain ⟨fy, dy, by1⟩ := hy
  obtain ⟨s, a, rfl, _, _, _⟩ := (isFinite_iff x).mp fx
  obtain ⟨t, a', rfl, _, _, _⟩ := (isFinite_iff y).mp fy
  have hb : |toRat (fin s a) + toRat (fin t a')| ≤ ((b + c : ℕ) : ℚ) := by
    push_cast
    exact le_trans (abs_add _ _) (add_le_add bx by1)
  exact ofRat_int _ (s && t) (den_add_int dx dy) (b + c) hb hmax

/-- The product of two small integers is computed exactly. -/
theorem F32.mul_int {x y : F32} {b c : ℕ} (hx : x.IsIntWithin b) (hy : y.IsIntWithin c)
    (hmax : b * c ≤ 2 ^ 24) :
    (x * y).IsIntWithin (b * c) ∧ (x * y).toRat = x.toRat * y.toRat := by
  obtain ⟨fx, dx, bx⟩ := hx
  obtain ⟨fy, dy, by1⟩ := hy
  obtain ⟨s, a, rfl, a0, _, _⟩ := (isFinite_iff x).mp fx
  obtain ⟨t, a', rfl, a0', _, _⟩ := (isFinite_iff y).mp fy
  have hb : |toRat (fin s a) * toRat (fin t a')| ≤ ((b * c : ℕ) : ℚ) := by
    push_cast
    rw [abs_mul]
    exact mul_le_mul bx by1 (abs_nonneg _) (by positivity)
  have habs : a * a' = |toRat (fin s a) * toRat (fin t a')| := by
    rw [abs_mul]
    cases s <;> cases t <;>
      simp only [toRat, Bool.false_eq_true, if_false, if_true, abs_neg, abs_of_nonneg a0,
        abs_of_nonneg a0']
  obtain ⟨hr, hl, hfin⟩ := fin_int (xor s t) _ (den_mul_int dx dy) (b * c) hb hmax
  have e : fin s a * fin t a' = fin (xor s t) |toRat (fin s a) * toRat (fin t a')| := by
    show round _ (a * a') = _
    rw [habs, round_rep _ _ (abs_nonneg _) hr hl]
  rw [e]
  refine ⟨hfin, ?_⟩
  rw [← habs]
  cases s <;> cases t <;> simp [toRat]

theorem F32.neg_int {x : F32} {b : ℕ} (hx : x.IsIntWithin b) :
    (-x).IsIntWithin b ∧ (-x).toRat = -x.toRat := by
  obtain ⟨fx, dx, bx⟩ := hx
  obtain ⟨s, a, rfl, a0, ar, al⟩ := (isFinite_iff x).mp fx
  have e : -fin s a = fin (!s) a := rfl
  rw [e]
  have t : toRat (fin (!s) a) = -toRat (fin s a) := by
    cases s <;> simp [toRat]
  refine ⟨⟨⟨a0, ar, al⟩, ?_, ?_⟩, t⟩
  · rw [t, Rat.neg_den]; exact dx
  · rw [t, abs_neg]; exact bx

theorem F32.sub_int {x y : F32} {b c : ℕ} (hx : x.IsIntWithin b) (hy : y.IsIntWithin c)
    (hmax : b + c ≤ 2 ^ 24) :
    (x - y).IsIntWithin (b + c) ∧ (x - y).toRat = x.toRat - y.toRat := by
  obtain ⟨h1, h2⟩ := neg_int hy
  obtain ⟨h3, h4⟩ := add_int hx h1 hmax
  have e : x - y = x + -y := rfl
  rw [e, h4, h2]
  exact ⟨h3, by ring⟩

theorem F32.zero_int : (0 : F32).IsIntWithin 0 := by decide!

/-- Two finite values with the same rational value compare equal. -/
theorem F32.beq_of_toRat {x y : F32} (hx : x.IsFinite) (hy : y.IsFinite)
    (h : x.toRat = y.toRat) : (x == y) = true := by
  obtain ⟨s, a, rfl, _, _, _⟩ := (isFinite_iff x).mp hx
  obtain ⟨t, a', rfl, _, _, _⟩ := (isFinite_iff y).mp hy
  show feq _ _ = true
  simp only [feq, decide_eq_true_eq]
  exact h

/-! ## Matrices of small integers -/

theorem dot4_int {a0 a1 a2 a3 b0 b1 b2 b3 : F32} {a b : ℕ}
    (h0 : a0.IsIntWithin a) (h1 : a1.IsIntWithin a) (h2 : a2.IsIntWithin a)
    (h3 : a3.IsIntWithin a) (k0 : b0.IsIntWithin b) (k1 : b1.IsIntWithin b)
    (k2 : b2.IsIntWithin b) (k3 : b3.IsIntWithin b) (hmax : 4 * (a * b) ≤ 2 ^ 24) :
    (a0 * b0 + a1 * b1 + a2 * b2 + a3 * b3).IsIntWithin (4 * (a * b)) ∧
    (a0 * b0 + a1 * b1 + a2 * b2 + a3 * b3).toRat
      = a0.toRat * b0.toRat + a1.toRat * b1.toRat + a2.toRat * b2.toRat
        + a3.toRat * b3.toRat := by
  obtain ⟨p0, e0⟩ := F32.mul_int h0 k0 (by omega)
  obtain ⟨p1, e1⟩ := F32.mul_int h1 k1 (by omega)
  obtain ⟨p2, e2⟩ := F32.mul_int h2 k2 (by omega)
  obtain ⟨p3, e3⟩ := F32.mul_int h3 k3 (by omega)
  obtain ⟨q1, f1⟩ := F32.add_int p0 p1 (by omega)
  obtain ⟨q2, f2⟩ := F32.add_int q1 p2 (by omega)
  obtain ⟨q3, f3⟩ := F32.add_int q2 p3 (by omega)
  exact ⟨F32.isIntWithin_mono q3 (by omega), by rw [f3, f2, f1, e0, e1, e2, e3]⟩

theorem zero_dot4_int {a0 a1 a2 a3 b0 b1 b2 b3 : F32} {a b : ℕ}
    (h0 : a0.IsIntWithin a) (h1 : a1.IsIntWithin a) (h2 : a2.IsIntWithin a)
    (h3 : a3.IsIntWithin a) (k0 : b0.IsIntWithin b) (k1 : b1.IsIntWithin b)
    (k2 : b2.IsIntWithin b) (k3 : b3.IsIntWithin b) (hmax : 4 * (a * b) ≤ 2 ^ 24) :
    (0 + a0 * b0 + a1 * b1 + a2 * b2 + a3 * b3).IsIntWithin (4 * (a * b)) ∧
    (0 + a0 * b0 + a1 * b1 + a2 * b2 + a3 * b3).toRat
      = a0.toRat * b0.toRat + a1.toRat * b1.toRat + a2.toRat * b2.toRat
        + a3.toRat * b3.toRat := by
  obtain ⟨p0, e0⟩ := F32.mul_int h0 k0 (by omega)
  obtain ⟨p1, e1⟩ := F32.mul_int h1 k1 (by omega)
  obtain ⟨p2, e2⟩ := F32.mul_int h2 k2 (by omega)
  obtain ⟨p3, e3⟩ := F32.mul_int h3 k3 (by omega)
  obtain ⟨q0, f0⟩ := F32.add_int F32.zero_int p0 (by omega)
  obtain ⟨q1, f1⟩ := F32.add_int q0 p1 (by omega)
  obtain ⟨q2, f2⟩ := F32.add_int q1 p2 (by omega)
  obtain ⟨q3, f3⟩ := F32.add_int q2 p3 (by omega)
  have z : (0 : F32).toRat = 0 := by decide!
  exact ⟨F32.isIntWithin_mono q3 (by omega), by rw [f3, f2, f1, f0, e0, e1, e2, e3, z, zero_add]⟩

theorem Matrix4x4.mul_entry (A B : Matrix4x4 F32) (i j : Fin 4) :
    (A.mul B).m i j = 0 + A.m i 0 * B.m 0 j + A.m i 1 * B.m 1 j + A.m i 2 * B.m 2 j
      + A.m i 3 * B.m 3 j := rfl

/-- The product of two matrices of small integers is computed exactly. -/
theorem Matrix4x4.mul_exact (A B : Matrix4x4 F32) (a b : ℕ) (hA : A.IsIntWithin a)
    (hB : B.IsIntWithin b) (hmax : 4 * (a * b) ≤ 2 ^ 24) :
    (A.mul B).IsIntWithin (4 * (a * b)) ∧ (A.mul B).toRat = A.toRat * B.toRat := by
  have h := fun i j => zero_dot4_int (hA i 0) (hA i 1) (hA i 2) (hA i 3)
    (hB 0 j) (hB 1 j) (hB 2 j) (hB 3 j) hmax
  refine ⟨fun i j => by rw [Matrix4x4.mul_entry]; exact (h i j).1, ?_⟩
  funext i j
  show ((A.mul B).m i j).toRat = _
  rw [Matrix4x4.mul_entry, (h i j).2, Matrix.mul_apply, Fin.sum_univ_four]
  rfl

/-- The product of a matrix and a vertex of small integers is computed exactly. -/
theorem Matrix4x4.mulVertex_exact (A : Matrix4x4 F32) (v : Vertex F32) (a c : ℕ)
    (hA : A.IsIntWithin a) (hv : v.IsIntWithin c) (hmax : 4 * (a * c) ≤ 2 ^ 24) :
    (A.mulVertex v).IsIntWithin (4 * (a * c)) ∧
    (A.mulVertex v).toVec = A.toRat.mulVec v.toVec := by
  obtain ⟨vx, vy, vz, vw⟩ := hv
  have h := fun i => dot4_int (hA i 0) (hA i 1) (hA i 2) (hA i 3) vx vy vz vw hmax
  refine ⟨⟨(h 0).1, (h 1).1, (h 2).1, (h 3).1⟩, ?_⟩
  funext i
  rw [Matrix.mulVec, Matrix.dotProduct, Fin.sum_univ_four]
  fin_cases i
  · exact (h 0).2
  · exact (h 1).2
  · exact (h 2).2
  · exact (h 3).2

theorem Vertex.numEq_of_toVec {u v : Vertex F32} {b c : ℕ} (hu : u.IsIntWithin b)
    (hv : v.IsIntWithin c) (h : u.toVec = v.toVec) : u.NumEq v :=
  ⟨F32.beq_of_toRat hu.1.1 hv.1.1 (congrFun h 0),
   F32.beq_of_toRat hu.2.1.1 hv.2.1.1 (congrFun h 1),
   F32.beq_of_toRat hu.2.2.1.1 hv.2.2.1.1 (congrFun h 2),
   F32.beq_of_toRat hu.2.2.2.1 hv.2.2.2.1 (congrFun h 3)⟩

/-- For integer entries of magnitude at most 101 the product matrix applies the right
factor first. -/
theorem mul_mulVertex_int (A B : Matrix4x4 F32) (v : Vertex F32)
    (hA : A.IsIntWithin 101) (hB : B.IsIntWithin 101) (hv : v.IsIntWithin 101) :
    ((A.mul B).mulVertex v).NumEq (A.mulVertex (B.mulVertex v)) := by
  obtain ⟨hAB, eAB⟩ := Matrix4x4.mul_exact A B 101 101 hA hB (by norm_num)
  obtain ⟨h1, e1⟩ := Matrix4x4.mulVertex_exact (A.mul B) v _ 101 hAB hv (by norm_num)
  obtain ⟨hBv, eBv⟩ := Matrix4x4.mulVertex_exact B v 101 101 hB hv (by norm_num)
  obtain ⟨h2, e2⟩ := Matrix4x4.mulVertex_exact A (B.mulVertex v) 101 _ hA hBv (by norm_num)
  apply Vertex.numEq_of_toVec h1 h2
  rw [e1, e2, eAB, eBv, Matrix.mulVec_mulVec]

/-! ## Claim C8: composition of transforms in binary32 arithmetic -/

section

variable {F : Type} [Add F] [Sub F] [Mul F] [Div F] [Zero F] [One F] [NatCast F] [BEq F]

theorem fan_records (floatBytes : F → List Nat) (sqrt : F → F) (m : Model F)
    (ts : List (FaceVertexIndex × FaceVertexIndex × FaceVertexIndex))
    (h : ∀ t ∈ ts, ∃ n v0 v1 v2, resolveTriangle m t = some (v0, v1, v2) ∧
      triangleNormal sqrt m t (v0, v1, v2) = some n ∧
      emitTriangle floatBytes sqrt m t = some (triangleRecord floatBytes n v0 v1 v2)) :
    ∃ tris : List ((F × F × F) × Vertex F × Vertex F × Vertex F),
      List.Forall₂ (ResolvesTo sqrt m) ts tris ∧
      allSome (emitTriangle floatBytes sqrt m) ts
        = some (tris.map (fun r => triangleRecord floatBytes r.1 r.2.1 r.2.2.1 r.2.2.2)) ∧
      ∀ total, sumAreas sqrt m ts total
        = some (tris.foldl (fun acc r => acc + triangleArea sqrt r.2.1 r.2.2.1 r.2.2.2) total) := by
  induction ts with
  | nil => exact ⟨[], List.Forall₂.nil, rfl, fun _ => rfl⟩
  | cons t ts ih =>
    obtain ⟨n, v0, v1, v2, hr, hn, he⟩ := h t (List.mem_cons_self _ _)
    obtain ⟨tris, hF, hE, hA⟩ := ih (fun x hx => h x (List.mem_cons_of_mem _ hx))
    refine ⟨(n, v0, v1, v2) :: tris, List.Forall₂.cons ?_ hF, ?_, ?_⟩
    · have e0 : m.vertexAt t.1.vertexIndex = some v0 ∧ m.vertexAt t.2.1.vertexIndex = some v1 ∧
          m.vertexAt t.2.2.vertexIndex = some v2 := by
        unfold resolveTriangle at hr
        cases h0 : m.vertexAt t.1.vertexIndex with
        | none => simp [h0] at hr
        | some a =>
          cases h1 : m.vertexAt t.2.1.vertexIndex with
          | none => simp [h0, h1] at hr
          | some b =>
            cases h2 : m.vertexAt t.2.2.vertexIndex with
            | none => simp [h0, h1, h2] at hr
            | some c =>
              simp [h0, h1, h2] at hr
              obtain ⟨rfl, rfl, rfl⟩ := hr
              exact ⟨rfl, rfl, rfl⟩
      refine ⟨e0.1, e0.2.1, e0.2.2, fun hp => ?_, fun hp => ?_⟩
      · unfold triangleNormal at hn
        rw [if_pos hp] at hn
        cases hq : m.normalAt t.1.normalIndex with
        | none => simp [hq] at hn
        | some vn =>
          simp [hq] at hn
          exact ⟨vn, hq, hn.symm⟩
      · unfold triangleNormal at hn
        rw [if_neg hp] at hn
        exact (Option.some.inj hn).symm
    · simp [allSome, he, hE]
    · intro total
      simp only [sumAreas, hr, Option.bind_eq_bind, Option.some_bind, List.foldl_cons]
      exact hA _

/-! ## Claim C3: the fan decomposition -/

/-- Claim C3. For every mesh whose faces have at least 3 corners and valid indices: the
fan triangles of a face with corners `c0 .. c(n-1)` are the `n - 2` triangles
`(c0, c_i, c_(i+1))`, `i = 1 .. n - 2`, in increasing `i`; taking the faces in file order
and resolving each fan triangle to its normal and its three vertex positions,
`write<STL>` emits, after the header and the count, one record per fan triangle in that
order, made of the bytes of the normal, of `x`, `y`, `z` of the three positions in the
order `c0`, `c_i`, `c_(i+1)`, and of two zero bytes; and `calculateSurfaceArea` returns the
areas `0.5 * sqrt(n . n)`, `n = (v1 - v0) x (v2 - v0)`, of these triangles added to `0` in
that same order. -/
theorem C3_fan_decomposition (floatBytes : F → List Nat) (sqrt : F → F) (m : Model F)
    (hv : ValidMesh m) :
    (∀ face ∈ m.faces,
      (fanSpec face.vertices).length = face.vertices.length - 2 ∧
      ∀ i, 1 ≤ i → i ≤ face.vertices.length - 2 →
        ∃ c0 ci cj, face.vertices[0]? = some c0 ∧ face.vertices[i]? = some ci ∧
          face.vertices[i + 1]? = some cj ∧
          (fanSpec face.vertices)[i - 1]? = some (c0, ci, cj)) ∧
    ∃ tris : List ((F × F × F) × Vertex F × Vertex F × Vertex F),
      List.Forall₂ (ResolvesTo sqrt m) (m.faces.flatMap (fun face => fanSpec face.vertices))
        tris ∧
      writeSTL floatBytes sqrt m =
        some (List.replicate 80 0 ++ leBytes 4 (numTriangles m) ++
          tris.flatMap (fun r =>
            (floatBytes r.1.1 ++ floatBytes r.1.2.1 ++ floatBytes r.1.2.2)
              ++ (floatBytes r.2.1.x ++ floatBytes r.2.1.y ++ floatBytes r.2.1.z)
              ++ (floatBytes r.2.2.1.x ++ floatBytes r.2.2.1.y ++ floatBytes r.2.2.1.z)
              ++ (floatBytes r.2.2.2.x ++ floatBytes r.2.2.2.y ++ floatBytes r.2.2.2.z)
              ++ [0, 0])) ∧
      calculateSurfaceArea sqrt m =
        some (tris.foldl (fun total r => total + (1 / 2) * sqrt
          (((r.2.2.1.sub r.2.1).crossProduct (r.2.2.2.sub r.2.1)).dotProduct
            ((r.2.2.1.sub r.2.1).crossProduct (r.2.2.2.sub r.2.1)))) 0) := by
  have h1 : ∀ face ∈ m.faces, 1 ≤ face.vertices.length := fun f hf => by
    have := (hv f hf).1
    omega
  refine ⟨fun face hf => ⟨fanSpec_length _, fun i hi1 hi2 => ?_⟩, ?_⟩
  · have := (hv face hf).1
    exact fanSpec_getElem? face.vertices i hi1 (by omega)
  · obtain ⟨tris, hF, hE, hA⟩ := fan_records floatBytes sqrt m (meshTriangles m)
      (fun t ht => emitTriangle_valid floatBytes sqrt hv ht)
    refine ⟨tris, hF, ?_, ?_⟩
    · rw [writeSTL_eq floatBytes sqrt m h1, hE]
      simp only [Option.map_some', List.flatMap]
      rfl
    · unfold calculateSurfaceArea
      rw [areaFaces_eq sqrt m m.faces h1 0]
      exact hA 0

end

/-- Claim C3, instances. For the mesh `pentaQuad` (a pentagon, then a quad) the fan
triangles are `(1,2,3)`, `(1,3,4)`, `(1,4,5)`, `(6,7,8)`, `(6,8,9)` in this order and
`write<STL>` emits their five records in this order (each float shown by the integer part
of its magnitude). For the mesh `orderMesh` the areas `2^24`, `1`, `1` are added in file
order: the sum is `2^24` in binary32, where the opposite face order gives `2^24 + 2`. -/
theorem C3_fan_decomposition_witness :
    (∃ tris : List ((F32 × F32 × F32) × Vertex F32 × Vertex F32 × Vertex F32),
      List.Forall₂ (ResolvesTo F32.sqrt pentaQuad)
        [(⟨1, 0, 0⟩, ⟨2, 0, 0⟩, ⟨3, 0, 0⟩), (⟨1, 0, 0⟩, ⟨3, 0, 0⟩, ⟨4, 0, 0⟩),
         (⟨1, 0, 0⟩, ⟨4, 0, 0⟩, ⟨5, 0, 0⟩), (⟨6, 0, 0⟩, ⟨7, 0, 0⟩, ⟨8, 0, 0⟩),
         (⟨6, 0, 0⟩, ⟨8, 0, 0⟩, ⟨9, 0, 0⟩)] tris ∧
      writeSTL magnitudeBytes F32.sqrt pentaQuad =
        some (List.replicate 80 0 ++ leBytes 4 (numTriangles pentaQuad) ++
          tris.flatMap (fun r =>
            (magnitudeBytes r.1.1 ++ magnitudeBytes r.1.2.1 ++ magnitudeBytes r.1.2.2)
              ++ (magnitudeBytes r.2.1.x ++ magnitudeBytes r.2.1.y ++ magnitudeBytes r.2.1.z)
              ++ (magnitudeBytes r.2.2.1.x ++ magnitudeBytes r.2.2.1.y
                ++ magnitudeBytes r.2.2.1.z)
              ++ (magnitudeBytes r.2.2.2.x ++ magnitudeBytes r.2.2.2.y
                ++ magnitudeBytes r.2.2.2.z)
              ++ [0, 0])) ∧
      calculateSurfaceArea F32.sqrt pentaQuad =
        some (tris.foldl (fun total r => total + (1 / 2) * F32.sqrt
          (((r.2.2.1.sub r.2.1).crossProduct (r.2.2.2.sub r.2.1)).dotProduct
            ((r.2.2.1.sub r.2.1).crossProduct (r.2.2.2.sub r.2.1)))) 0)) ∧
    writeSTL magnitudeBytes F32.sqrt pentaQuad =
      some (List.replicate 80 0 ++ [5, 0, 0, 0] ++
        [0, 0, 1, 0, 0, 0, 4, 0, 0, 6, 2, 0, 0, 0] ++
        [0, 0, 1, 0, 0, 0, 6, 2, 0, 4, 4, 0, 0, 0] ++
        [0, 0, 1, 0, 0, 0, 4, 4, 0, 0, 4, 0, 0, 0] ++
        [0, 0, 1, 10, 0, 0, 12, 0, 0, 12, 2, 0, 0, 0] ++
        [0, 0, 1, 10, 0, 0, 12, 2, 0, 10, 2, 0, 0, 0]) ∧
    calculateSurfaceArea F32.sqrt pentaQuad = some 24 ∧
    calculateSurfaceArea F32.sqrt orderMesh = some (F32.fin false (2 ^ 24)) ∧
    calculateSurfaceArea F32.sqrt { orderMesh with faces := orderMesh.faces.reverse }
      = some (F32.fin false (2 ^ 24 + 2)) :=
  ⟨(C3_fan_decomposition magnitudeBytes F32.sqrt pentaQuad (by decide)).2,
    by decide!, by decide!, by decide!, by decide!⟩

/-! ## Rounding between grid points -/

theorem F32.roundHalfEven_cases (x : ℚ) :
    roundHalfEven x = x.floor ∨ (roundHalfEven x = x.floor + 1 ∧ 1 / 2 ≤ x - x.floor) := by
  unfold roundHalfEven
  simp only []
  by_cases h1 : x - x.floor < 1 / 2
  · left; rw [if_pos h1]
  · rw [if_neg h1]
    by_cases h2 : 1 / 2 < x - x.floor
    · right; rw [if_pos h2]; exact ⟨rfl, le_of_lt h2⟩
    · rw [if_neg h2]
      by_cases h3 : x.floor % 2 = 0
      · left; rw [if_pos h3]
      · right; rw [if_neg h3]; exact ⟨rfl, not_lt.mp h1⟩

theorem F32.floor_le_self (x : ℚ) : (x.floor : ℚ) ≤ x := by
  show ((⌊x⌋ : ℤ) : ℚ) ≤ x
  exact Int.floor_le x

theorem F32.self_lt_floor_add_one (x : ℚ) : x < (x.floor : ℚ) + 1 := by
  show x < ((⌊x⌋ : ℤ) : ℚ) + 1
  exact Int.lt_floor_add_one x

theorem F32.le_floor_of_le (x : ℚ) (m : ℤ) (h : (m : ℚ) ≤ x) : m ≤ x.floor := by
  show m ≤ ⌊x⌋
  exact Int.le_floor.mpr h

theorem F32.roundHalfEven_le_int (x : ℚ) (m : ℤ) (h : x ≤ m) : roundHalfEven x ≤ m := by
  have hf := floor_le_self x
  rcases roundHalfEven_cases x with e | ⟨e, hr⟩
  · rw [e]
    have : (x.floor : ℚ) ≤ m := le_trans hf h
    exact_mod_cast this
  · rw [e]
    have : (x.floor : ℚ) < m := by linarith
    have : x.floor < m := by exact_mod_cast this
    omega

theorem F32.int_le_roundHalfEven (x : ℚ) (m : ℤ) (h : (m : ℚ) ≤ x) : m ≤ roundHalfEven x := by
  have hf := le_floor_of_le x m h
  rcases roundHalfEven_cases x with e | ⟨e, _⟩
  · rw [e]; exact hf
  · rw [e]; omega

theorem F32.roundHalfEven_near (x : ℚ) : |(roundHalfEven x : ℚ) - x| ≤ 1 / 2 := by
  have h1 := floor_le_self x
  have h2 := self_lt_floor_add_one x
  have hc : roundHalfEven x = x.floor ∧ x - x.floor ≤ 1 / 2 ∨
      roundHalfEven x = x.floor + 1 ∧ 1 / 2 ≤ x - x.floor := by
    unfold roundHalfEven
    simp only []
    by_cases a : x - x.floor < 1 / 2
    · left; rw [if_pos a]; exact ⟨rfl, le_of_lt a⟩
    · rw [if_neg a]
      by_cases b : 1 / 2 < x - x.floor
      · right; rw [if_pos b]; exact ⟨rfl, le_of_lt b⟩
      · rw [if_neg b]
        by_cases c : x.floor % 2 = 0
        · left; rw [if_pos c]; exact ⟨rfl, not_lt.mp b⟩
        · right; rw [if_neg c]; exact ⟨rfl, not_lt.mp a⟩
  rw [abs_le]
  rcases hc with ⟨e, hr⟩ | ⟨e, hr⟩
  · rw [e]; constructor <;> linarith
  · rw [e]; push_cast; constructor <;> linarith

theorem F32.ulp_eq (q : ℚ) : ulp q = (2 : ℚ) ^ (max (ilog2 q) (-126) - 23) := by
  unfold ulp
  rw [pow2_eq]

theorem F32.two_zpow_pos (e : ℤ) : (0 : ℚ) < 2 ^ e := zpow_pos (by norm_num) e

theorem F32.two_zpow_split (e : ℤ) : (8388608 : ℚ) * 2 ^ (e - 23) = 2 ^ e := by
  have h : (8388608 : ℚ) = 2 ^ ((23 : ℕ) : ℤ) := by norm_num
  rw [h, ← zpow_add₀ (by norm_num : (2 : ℚ) ≠ 0)]
  congr 1
  push_cast
  ring

/-- The exponent found by `ilog2` does not decrease. -/
theorem F32.ilog2_mono (q g : ℚ) (hq : (2 : ℚ) ^ (-1024 : ℤ) ≤ q) (hqg : q ≤ g)
    (hg : g < (2 : ℚ) ^ (1024 : ℤ)) : ilog2 q ≤ ilog2 g := by
  have sq := ilog2_spec q hq (lt_of_le_of_lt hqg hg)
  have sg := ilog2_spec g (le_trans hq hqg) hg
  have : (2 : ℚ) ^ (ilog2 q) < 2 ^ (ilog2 g + 1) := lt_of_le_of_lt (le_trans sq.1 hqg) sg.2
  have := (zpow_lt_zpow_iff_right₀ (by norm_num : (1 : ℚ) < 2)).mp this
  omega

/-- A value on the grid is an integer multiple of the spacing at any smaller magnitude. -/
theorem F32.grid_multiple (q g : ℚ) (hq : (2 : ℚ) ^ (-1024 : ℤ) ≤ q) (hqg : q ≤ g)
    (hg : g < (2 : ℚ) ^ (1024 : ℤ)) (hrep : rnd g = g) :
    ∃ m : ℤ, g = m * ulp q := by
  have hmono := ilog2_mono q g hq hqg hg
  have hE : max (ilog2 q) (-126) - 23 ≤ max (ilog2 g) (-126) - 23 := by
    have := max_le_max hmono (le_refl (-126 : ℤ))
    omega
  obtain ⟨n, hn⟩ : ∃ n : ℕ, max (ilog2 g) (-126) - 23 = (max (ilog2 q) (-126) - 23) + n :=
    ⟨((max (ilog2 g) (-126) - 23) - (max (ilog2 q) (-126) - 23)).toNat, by omega⟩
  refine ⟨roundHalfEven (g / ulp g) * 2 ^ n, ?_⟩
  have hg' : g = roundHalfEven (g / ulp g) * ulp g := by
    have := hrep
    unfold rnd at this
    exact this.symm
  have hu : ulp g = 2 ^ n * ulp q := by
    rw [ulp_eq, ulp_eq, hn, zpow_add₀ (by norm_num : (2 : ℚ) ≠ 0), zpow_natCast]
    ring
  calc g = roundHalfEven (g / ulp g) * ulp g := hg'
    _ = roundHalfEven (g / ulp g) * (2 ^ n * ulp q) := by rw [hu]
    _ = _ := by push_cast; ring

/-- Rounding does not pass a grid point above. -/
theorem F32.rnd_le_grid (q g : ℚ) (hq : (2 : ℚ) ^ (-1024 : ℤ) ≤ q) (hqg : q ≤ g)
    (hg : g < (2 : ℚ) ^ (1024 : ℤ)) (hrep : rnd g = g) : rnd q ≤ g := by
  obtain ⟨m, hm⟩ := grid_multiple q g hq hqg hg hrep
  have hu := ulp_pos q
  have hle : q / ulp q ≤ m := by
    rw [div_le_iff₀ hu, ← hm]
    exact hqg
  have := roundHalfEven_le_int _ m hle
  unfold rnd
  rw [hm]
  have hc : (roundHalfEven (q / ulp q) : ℚ) ≤ m := by exact_mod_cast this
  exact mul_le_mul_of_nonneg_right hc (le_of_lt hu)

/-- The rounded value is at least the power of two that opens its binade. -/
theorem F32.binade_le_rnd (q : ℚ) (hq : (2 : ℚ) ^ (-1024 : ℤ) ≤ q) (hq2 : q < (2 : ℚ) ^ (1024 : ℤ))
    (he : -126 ≤ ilog2 q) : (2 : ℚ) ^ (ilog2 q) ≤ rnd q := by
  have sq := ilog2_spec q hq hq2
  have hu : ulp q = (2 : ℚ) ^ (ilog2 q - 23) := by
    rw [ulp_eq, max_eq_left he]
  have hpos := two_zpow_pos (ilog2 q - 23)
  have h23 : ((2 ^ 23 : ℤ) : ℚ) ≤ q / ulp q := by
    rw [hu, le_div_iff₀ hpos]
    push_cast
    rw [two_zpow_split]
    exact sq.1
  have := int_le_roundHalfEven _ _ h23
  have hc : ((2 ^ 23 : ℤ) : ℚ) ≤ (roundHalfEven (q / ulp q) : ℚ) := by exact_mod_cast this
  unfold rnd
  rw [hu] at hc ⊢
  calc (2 : ℚ) ^ (ilog2 q) = ((2 ^ 23 : ℤ) : ℚ) * 2 ^ (ilog2 q - 23) := by
        push_cast
        exact (two_zpow_split _).symm
    _ ≤ _ := mul_le_mul_of_nonneg_right hc (le_of_lt hpos)

/-- Rounding does not pass a grid point below. -/
theorem F32.grid_le_rnd (g q : ℚ) (hg : (2 : ℚ) ^ (-1024 : ℤ) ≤ g) (hgq : g ≤ q)
    (hq : q < (2 : ℚ) ^ (1024 : ℤ)) (hrep : rnd g = g) : g ≤ rnd q := by
  have hmono := ilog2_mono g q hg hgq hq
  have hu := ulp_pos q
  by_cases hsame : max (ilog2 g) (-126) = max (ilog2 q) (-126)
  · have hug : ulp g = ulp q := by rw [ulp_eq, ulp_eq, hsame]
    have hg' : g = roundHalfEven (g / ulp q) * ulp q := by
      have := hrep
      unfold rnd at this
      rw [hug] at this
      exact this.symm
    have hle : ((roundHalfEven (g / ulp q) : ℤ) : ℚ) ≤ q / ulp q := by
      rw [le_div_iff₀ hu, ← hg']
      exact hgq
    have := int_le_roundHalfEven _ _ hle
    have hc : (roundHalfEven (g / ulp q) : ℚ) ≤ (roundHalfEven (q / ulp q) : ℚ) := by
      exact_mod_cast this
    unfold rnd
    calc g = roundHalfEven (g / ulp q) * ulp q := hg'
      _ ≤ _ := mul_le_mul_of_nonneg_right hc (le_of_lt hu)
  · have hlt : ilog2 g < ilog2 q ∧ -126 < ilog2 q := by
      rcases le_total (ilog2 g) (-126) with a | a <;> rcases le_total (ilog2 q) (-126) with b | b
      · exact absurd (by rw [max_eq_right a, max_eq_right b]) hsame
      · rw [max_eq_right a, max_eq_left b] at hsame
        constructor <;> omega
      · rw [max_eq_left a, max_eq_right b] at hsame
        omega
      · rw [max_eq_left a, max_eq_left b] at hsame
        constructor <;> omega
    have sg := ilog2_spec g hg (lt_of_le_of_lt hgq hq)
    have hb := binade_le_rnd q (le_trans hg hgq) hq (by omega)
    have : (2 : ℚ) ^ (ilog2 g + 1) ≤ 2 ^ (ilog2 q) :=
      zpow_le_zpow_right₀ (by norm_num) (by omega)
    linarith [sg.2]

/-- The rounding error is at most `2^-24` of the value, above the subnormal range. -/
theorem F32.rnd_near (q : ℚ) (hq : (2 : ℚ) ^ (-126 : ℤ) ≤ q) (hq2 : q < (2 : ℚ) ^ (1024 : ℤ)) :
    |rnd q - q| ≤ q / 2 ^ 24 := by
  have h1024 : (2 : ℚ) ^ (-1024 : ℤ) ≤ q :=
    le_trans (zpow_le_zpow_right₀ (by norm_num) (by norm_num)) hq
  have sq := ilog2_spec q h1024 hq2
  have he : -126 ≤ ilog2 q := by
    have : (2 : ℚ) ^ (-126 : ℤ) < 2 ^ (ilog2 q + 1) := lt_of_le_of_lt hq sq.2
    have := (zpow_lt_zpow_iff_right₀ (by norm_num : (1 : ℚ) < 2)).mp this
    omega
  have hu : ulp q = (2 : ℚ) ^ (ilog2 q - 23) := by
    rw [ulp_eq, max_eq_left he]
  have hpos := ulp_pos q
  have hn := roundHalfEven_near (q / ulp q)
  have e1 : rnd q - q = ((roundHalfEven (q / ulp q) : ℚ) - q / ulp q) * ulp q := by
    unfold rnd
    field_simp
  rw [e1, abs_mul, abs_of_pos hpos]
  have h2 : ulp q / 2 ≤ q / 2 ^ 24 := by
    have e2 : ulp q / 2 = 2 ^ (ilog2 q) / 2 ^ 24 := by
      rw [hu, ← two_zpow_split (ilog2 q)]
      ring
    rw [e2]
    exact div_le_div_of_nonneg_right sq.1 (by norm_num)
  calc |(roundHalfEven (q / ulp q) : ℚ) - q / ulp q| * ulp q ≤ 1 / 2 * ulp q :=
        mul_le_mul_of_nonneg_right hn (le_of_lt hpos)
    _ = ulp q / 2 := by ring
    _ ≤ _ := h2

/-! ## Exact arithmetic on the integer grid -/

theorem Vertex.exact_toRat {v : Vertex F32} {bound : ℕ} (h : v.IsGrid bound) :
    v.Exact v.toRat bound := ⟨h, rfl, rfl, rfl⟩

theorem Vertex.sub_exact {p q : Vertex F32} {P Q : Vertex ℚ} {A B : ℕ}
    (hp : p.Exact P A) (hq : q.Exact Q B) (h : A + B ≤ 2 ^ 24) :
    (p.sub q).Exact (P.sub Q) (A + B) := by
  obtain ⟨⟨px, py, pz⟩, ex, ey, ez⟩ := hp
  obtain ⟨⟨qx, qy, qz⟩, fx, fy, fz⟩ := hq
  obtain ⟨a1, a2⟩ := F32.sub_int px qx h
  obtain ⟨b1, b2⟩ := F32.sub_int py qy h
  obtain ⟨c1, c2⟩ := F32.sub_int pz qz h
  refine ⟨⟨a1, b1, c1⟩, ?_, ?_, ?_⟩
  · show (p.x - q.x).toRat = P.x - Q.x
    rw [a2, ex, fx]
  · show (p.y - q.y).toRat = P.y - Q.y
    rw [b2, ey, fy]
  · show (p.z - q.z).toRat = P.z - Q.z
    rw [c2, ez, fz]

theorem F32.mul_sub_mul_int {x1 y1 x2 y2 : F32} {A B : ℕ} (hx1 : x1.IsIntWithin A)
    (hy1 : y1.IsIntWithin B) (hx2 : x2.IsIntWithin A) (hy2 : y2.IsIntWithin B)
    (h : A * B + A * B ≤ 2 ^ 24) :
    (x1 * y1 - x2 * y2).IsIntWithin (A * B + A * B) ∧
    (x1 * y1 - x2 * y2).toRat = x1.toRat * y1.toRat - x2.toRat * y2.toRat := by
  obtain ⟨a1, a2⟩ := mul_int hx1 hy1 (by omega)
  obtain ⟨b1, b2⟩ := mul_int hx2 hy2 (by omega)
  obtain ⟨c1, c2⟩ := sub_int a1 b1 h
  exact ⟨c1, by rw [c2, a2, b2]⟩

theorem Vertex.cross_exact {p q : Vertex F32} {P Q : Vertex ℚ} {A B : ℕ}
    (hp : p.Exact P A) (hq : q.Exact Q B) (h : A * B + A * B ≤ 2 ^ 24) :
    (p.crossProduct q).Exact (P.crossProduct Q) (A * B + A * B) := by
  obtain ⟨⟨px, py, pz⟩, ex, ey, ez⟩ := hp
  obtain ⟨⟨qx, qy, qz⟩, fx, fy, fz⟩ := hq
  obtain ⟨a1, a2⟩ := F32.mul_sub_mul_int py qz pz qy h
  obtain ⟨b1, b2⟩ := F32.mul_sub_mul_int pz qx px qz h
  obtain ⟨c1, c2⟩ := F32.mul_sub_mul_int px qy py qx h
  refine ⟨⟨a1, b1, c1⟩, ?_, ?_, ?_⟩
  · show (p.y * q.z - p.z * q.y).toRat = P.y * Q.z - P.z * Q.y
    rw [a2, ey, ez, fy, fz]
  · show (p.z * q.x - p.x * q.z).toRat = P.z * Q.x - P.x * Q.z
    rw [b2, ex, ez, fx, fz]
  · show (p.x * q.y - p.y * q.x).toRat = P.x * Q.y - P.y * Q.x
    rw [c2, ex, ey, fx, fy]

theorem Vertex.dot_exact {p q : Vertex F32} {P Q : Vertex ℚ} {A B : ℕ}
    (hp : p.Exact P A) (hq : q.Exact Q B) (h : A * B + A * B + A * B ≤ 2 ^ 24) :
    (p.dotProduct q).IsIntWithin (A * B + A * B + A * B) ∧
    (p.dotProduct q).toRat = P.dotProduct Q := by
  obtain ⟨⟨px, py, pz⟩, ex, ey, ez⟩ := hp
  obtain ⟨⟨qx, qy, qz⟩, fx, fy, fz⟩ := hq
  obtain ⟨a1, a2⟩ := F32.mul_int px qx (by omega)
  obtain ⟨b1, b2⟩ := F32.mul_int py qy (by omega)
  obtain ⟨c1, c2⟩ := F32.mul_int pz qz (by omega)
  obtain ⟨d1, d2⟩ := F32.add_int a1 b1 (by omega)
  obtain ⟨e1, e2⟩ := F32.add_int d1 c1 (by omega)
  refine ⟨e1, ?_⟩
  show (p.x * q.x + p.y * q.y + p.z * q.z).toRat = P.x * Q.x + P.y * Q.y + P.z * Q.z
  rw [e2, d2, a2, b2, c2, ex, ey, ez, fx, fy, fz]

/-- For integer coordinates of magnitude at most 32 the determinant and the three
numerators of the ray test are computed exactly. -/
theorem ray_quantities_exact (o d a b c : Vertex F32) (ho : o.IsGrid 32) (hd : d.IsGrid 32)
    (ha : a.IsGrid 32) (hb : b.IsGrid 32) (hc : c.IsGrid 32) :
    ((mtDet d a b c).IsIntWithin 786432 ∧
      (mtDet d a b c).toRat = mtDet d.toRat a.toRat b.toRat c.toRat) ∧
    (((o.sub a).dotProduct (d.crossProduct (c.sub a))).IsIntWithin 786432 ∧
      ((o.sub a).dotProduct (d.crossProduct (c.sub a))).toRat
        = (o.toRat.sub a.toRat).dotProduct (d.toRat.crossProduct (c.toRat.sub a.toRat))) ∧
    ((d.dotProduct ((o.sub a).crossProduct (b.sub a))).IsIntWithin 786432 ∧
      (d.dotProduct ((o.sub a).crossProduct (b.sub a))).toRat
        = d.toRat.dotProduct ((o.toRat.sub a.toRat).crossProduct (b.toRat.sub a.toRat))) ∧
    (((c.sub a).dotProduct ((o.sub a).crossProduct (b.sub a))).IsIntWithin 1572864 ∧
      ((c.sub a).dotProduct ((o.sub a).crossProduct (b.sub a))).toRat
        = (c.toRat.sub a.toRat).dotProduct
            ((o.toRat.sub a.toRat).crossProduct (b.toRat.sub a.toRat))) := by
  have xo := Vertex.exact_toRat ho
  have xd := Vertex.exact_toRat hd
  have xa := Vertex.exact_toRat ha
  have xb := Vertex.exact_toRat hb
  have xc := Vertex.exact_toRat hc
  have e1 := Vertex.sub_exact xb xa (by norm_num)
  have e2 := Vertex.sub_exact xc xa (by norm_num)
  have s := Vertex.sub_exact xo xa (by norm_num)
  have h := Vertex.cross_exact xd e2 (by norm_num)
  have q := Vertex.cross_exact s e1 (by norm_num)
  exact ⟨Vertex.dot_exact e1 h (by norm_num), Vertex.dot_exact s h (by norm_num),
    Vertex.dot_exact xd q (by norm_num), Vertex.dot_exact e2 q (by norm_num)⟩

/-! ## The quotients of the ray test on small integers -/

theorem F32.lo_bound : (2 : ℚ) ^ (-1024 : ℤ) ≤ 2 ^ (-126 : ℤ) :=
  zpow_le_zpow_right₀ (by norm_num) (by norm_num)

theorem F32.lo_small : (2 : ℚ) ^ (-126 : ℤ) ≤ 1 / 2 ^ 22 := by
  rw [show (1 : ℚ) / 2 ^ 22 = 2 ^ (-22 : ℤ) by norm_num]
  exact zpow_le_zpow_right₀ (by norm_num) (by norm_num)

theorem F32.hi_big : (2 : ℚ) ^ 23 < 2 ^ (1024 : ℤ) := by
  rw [show (2 : ℚ) ^ 23 = 2 ^ (23 : ℤ) by norm_num]
  exact zpow_lt_zpow_right₀ (by norm_num) (by norm_num)

theorem F32.hi_128 : (2 : ℚ) ^ 23 < pow2 128 := by
  rw [pow2_eq, show (2 : ℚ) ^ 23 = 2 ^ (23 : ℤ) by norm_num]
  exact zpow_lt_zpow_right₀ (by norm_num) (by norm_num)

/-- The rounded reciprocal of an integer between 1 and `2^20`. -/
theorem F32.inv_bounds (a : ℚ) (ha1 : 1 ≤ a) (ha2 : a ≤ 2 ^ 20) :
    1 / a * (1 - 1 / 2 ^ 24) ≤ rnd (1 / a) ∧ rnd (1 / a) ≤ 1 / a * (1 + 1 / 2 ^ 24) := by
  have hpos : (0 : ℚ) < a := by linarith
  have h1 : (1 : ℚ) / 2 ^ 20 ≤ 1 / a := one_div_le_one_div_of_le hpos ha2
  have h2 : 1 / a ≤ 1 := by
    rw [div_le_one hpos]; exact ha1
  have hn := rnd_near (1 / a) (le_trans lo_small (le_trans (by norm_num) h1))
    (lt_of_le_of_lt h2 (lt_trans (by norm_num) hi_big))
  rw [abs_le] at hn
  constructor <;> linarith [hn.1, hn.2]

/-- The rounded product of the rounded reciprocal of `a` with `b`, for integers
`1 ≤ a ≤ 2^20` and `1 ≤ b ≤ 2^21`. -/
theorem F32.quot_bounds (a b : ℚ) (ha1 : 1 ≤ a) (ha2 : a ≤ 2 ^ 20) (hb1 : 1 ≤ b)
    (hb2 : b ≤ 2 ^ 21) :
    b / a * (1 - 1 / 2 ^ 24) ^ 2 ≤ rnd (rnd (1 / a) * b) ∧
    rnd (rnd (1 / a) * b) ≤ b / a * (1 + 1 / 2 ^ 24) ^ 2 ∧
    1 / 2 ^ 22 ≤ rnd (1 / a) * b ∧ rnd (1 / a) * b < 2 ^ 23 := by
  have hpos : (0 : ℚ) < a := by linarith
  obtain ⟨i1, i2⟩ := inv_bounds a ha1 ha2
  have h1 : (1 : ℚ) / 2 ^ 20 ≤ 1 / a := one_div_le_one_div_of_le hpos ha2
  have h2 : 1 / a ≤ 1 := by
    rw [div_le_one hpos]; exact ha1
  have hI0 : (0 : ℚ) < rnd (1 / a) := by
    have : (0 : ℚ) < 1 / a * (1 - 1 / 2 ^ 24) := by positivity
    linarith
  have lo : 1 / 2 ^ 22 ≤ rnd (1 / a) * b := by
    have : 1 / 2 ^ 20 * (1 - 1 / 2 ^ 24) ≤ rnd (1 / a) := by nlinarith
    nlinarith
  have hi : rnd (1 / a) * b < 2 ^ 23 := by
    have : rnd (1 / a) ≤ 1 + 1 / 2 ^ 24 := by nlinarith
    nlinarith
  have hn := rnd_near (rnd (1 / a) * b) (le_trans lo_small lo) (lt_trans hi hi_big)
  rw [abs_le] at hn
  have hb0 : (0 : ℚ) < b := by linarith
  have e : b / a = 1 / a * b := by ring
  refine ⟨?_, ?_, lo, hi⟩
  · rw [e]
    have : 1 / a * (1 - 1 / 2 ^ 24) * b ≤ rnd (1 / a) * b :=
      mul_le_mul_of_nonneg_right i1 (le_of_lt hb0)
    nlinarith [hn.1]
  · rw [e]
    have : rnd (1 / a) * b ≤ 1 / a * (1 + 1 / 2 ^ 24) * b :=
      mul_le_mul_of_nonneg_right i2 (le_of_lt hb0)
    nlinarith [hn.2]

theorem F32.rnd_one : rnd 1 = 1 := by
  have := rnd_nat 1 (by norm_num)
  simpa using this

theorem F32.rnd_one_ulp : rnd (1 + 1 / 2 ^ 23) = 1 + 1 / 2 ^ 23 := by decide!

theorem F32.rnd_small_grid : rnd (1 / 2 ^ 22) = 1 / 2 ^ 22 := by decide!

/-- A positive quotient is not rounded to zero. -/
theorem F32.quot_pos (a b : ℚ) (ha1 : 1 ≤ a) (ha2 : a ≤ 2 ^ 20) (hb1 : 1 ≤ b)
    (hb2 : b ≤ 2 ^ 21) : 1 / 2 ^ 22 ≤ rnd (rnd (1 / a) * b) := by
  obtain ⟨_, _, lo, hi⟩ := quot_bounds a b ha1 ha2 hb1 hb2
  exact grid_le_rnd _ _ (le_trans lo_bound lo_small) lo (lt_trans hi hi_big) rnd_small_grid

/-- A quotient below 1 is not rounded above 1. -/
theorem F32.quot_le_one (a b : ℚ) (ha1 : 1 ≤ a) (ha2 : a ≤ 2 ^ 20) (hb1 : 1 ≤ b)
    (hba : b + 1 ≤ a) : rnd (rnd (1 / a) * b) ≤ 1 := by
  have hpos : (0 : ℚ) < a := by linarith
  obtain ⟨_, i2⟩ := inv_bounds a ha1 ha2
  obtain ⟨_, _, lo, _⟩ := quot_bounds a b ha1 ha2 hb1 (by linarith)
  have hb0 : (0 : ℚ) < b := by linarith
  have h1 : rnd (1 / a) * b ≤ 1 / a * (1 + 1 / 2 ^ 24) * b :=
    mul_le_mul_of_nonneg_right i2 (le_of_lt hb0)
  have h2 : 1 / a * (1 + 1 / 2 ^ 24) * b ≤ 1 := by
    rw [show 1 / a * (1 + 1 / 2 ^ 24) * b = (1 + 1 / 2 ^ 24) * b / a by ring,
      div_le_one hpos]
    nlinarith
  refine rnd_le_grid _ 1 (le_trans lo_bound (le_trans lo_small lo)) (le_trans h1 h2) ?_ rnd_one
  exact lt_trans (by norm_num) hi_big

/-- A quotient above 1 is rounded above 1. -/
theorem F32.quot_gt_one (a b : ℚ) (ha1 : 1 ≤ a) (ha2 : a ≤ 2 ^ 20) (hab : a + 1 ≤ b)
    (hb2 : b ≤ 2 ^ 21) : 1 + 1 / 2 ^ 23 ≤ rnd (rnd (1 / a) * b) := by
  have hpos : (0 : ℚ) < a := by linarith
  obtain ⟨i1, _⟩ := inv_bounds a ha1 ha2
  obtain ⟨_, _, _, hi⟩ := quot_bounds a b ha1 ha2 (by linarith) hb2
  have hb0 : (0 : ℚ) < b := by linarith
  have h1 : 1 / a * (1 - 1 / 2 ^ 24) * b ≤ rnd (1 / a) * b :=
    mul_le_mul_of_nonneg_right i1 (le_of_lt hb0)
  have h2 : 1 + 1 / 2 ^ 23 ≤ 1 / a * (1 - 1 / 2 ^ 24) * b := by
    rw [show 1 / a * (1 - 1 / 2 ^ 24) * b = (1 - 1 / 2 ^ 24) * b / a by ring,
      le_div_iff₀ hpos]
    nlinarith
  refine grid_le_rnd _ _ ?_ (le_trans h2 h1) (lt_trans hi hi_big) rnd_one_ulp
  exact le_trans lo_bound (le_trans lo_small (by norm_num))

/-! ## The computed quotients of the ray test -/

theorem F32.int_abs_ge_one (q : ℚ) (hden : q.den = 1) (h0 : q ≠ 0) : 1 ≤ |q| := by
  obtain ⟨k, rfl⟩ : ∃ k : ℤ, q = k := ⟨q.num, (Rat.coe_int_num_of_den_eq_one hden).symm⟩
  have hk : k ≠ 0 := by
    intro h; apply h0; rw [h]; simp
  have : (1 : ℤ) ≤ |k| := Int.one_le_abs hk
  have : ((1 : ℤ) : ℚ) ≤ ((|k| : ℤ) : ℚ) := by exact_mod_cast this
  simpa using this

/-- A finite integer value: its sign and its magnitude. -/
theorem F32.int_repr (x : F32) (B : ℕ) (hx : x.IsIntWithin B) :
    ∃ s a, x = fin s a ∧ 0 ≤ a ∧ a ≤ B ∧ (a = 0 ∨ 1 ≤ a) ∧
      x.toRat = (if s then -a else a) := by
  obtain ⟨hf, hd, hb⟩ := hx
  obtain ⟨s, a, rfl, a0, _, _⟩ := (isFinite_iff x).mp hf
  have ht : toRat (fin s a) = (if s then -a else a) := rfl
  have habs : |toRat (fin s a)| = a := by
    rw [ht]; split
    · rw [abs_neg, abs_of_nonneg a0]
    · exact abs_of_nonneg a0
  refine ⟨s, a, rfl, a0, by rw [← habs]; exact hb, ?_, ht⟩
  by_cases h0 : a = 0
  · exact Or.inl h0
  · right
    have hne : toRat (fin s a) ≠ 0 := by
      rw [ht]; split
      · exact neg_ne_zero.mpr h0
      · exact h0
    have := int_abs_ge_one _ hd hne
    rw [habs] at this
    exact this

/-- The reciprocal `1 / x` of a non-zero integer of magnitude at most `2^20`. -/
theorem F32.one_div_int (s : Bool) (a : ℚ) (ha1 : 1 ≤ a) (ha2 : a ≤ 2 ^ 20) :
    (1 : F32) / fin s a = fin s (rnd (1 / a)) := by
  have hne : a ≠ 0 := by linarith
  have hpos : (0 : ℚ) ≤ 1 / a := by positivity
  obtain ⟨_, i2⟩ := inv_bounds a ha1 ha2
  have hlt : rnd (1 / a) < pow2 128 := by
    have h2 : 1 / a ≤ 1 := by
      rw [div_le_one (by linarith)]; exact ha1
    have : rnd (1 / a) ≤ 1 * (1 + 1 / 2 ^ 24) := by nlinarith
    exact lt_trans (lt_of_le_of_lt this (by norm_num)) hi_128
  show div (fin false 1) (fin s a) = _
  simp only [div, hne, if_false, Bool.false_xor]
  rw [round_eq _ _ hpos, if_pos hlt]

/-- The product of that reciprocal with an integer of magnitude at most `2^21`. -/
theorem F32.quot_int (s t : Bool) (a b : ℚ) (ha1 : 1 ≤ a) (ha2 : a ≤ 2 ^ 20)
    (hb : b = 0 ∨ 1 ≤ b) (hb2 : b ≤ 2 ^ 21) :
    (1 : F32) / fin s a * fin t b = fin (xor s t) (rnd (rnd (1 / a) * b)) := by
  rw [one_div_int s a ha1 ha2]
  show round _ (rnd (1 / a) * b) = _
  rcases hb with hb | hb
  · rw [hb, mul_zero, rnd_zero]
    exact round_zero _
  · obtain ⟨_, h2, lo, hi⟩ := quot_bounds a b ha1 ha2 hb hb2
    have hI : (0 : ℚ) ≤ rnd (1 / a) := rnd_nonneg _ (by positivity)
    have hnn : (0 : ℚ) ≤ rnd (1 / a) * b := mul_nonneg hI (by linarith)
    have hn := rnd_near (rnd (1 / a) * b) (le_trans lo_small lo) (lt_trans hi hi_big)
    rw [abs_le] at hn
    have hlt : rnd (rnd (1 / a) * b) < pow2 128 := by
      have : rnd (rnd (1 / a) * b) ≤ 2 ^ 23 * 2 := by nlinarith [hn.2]
      refine lt_of_le_of_lt this ?_
      rw [pow2_eq, show (2 : ℚ) ^ 23 * 2 = 2 ^ (24 : ℤ) by norm_num]
      exact zpow_lt_zpow_right₀ (by norm_num) (by norm_num)
    rw [round_eq _ _ hnn, if_pos hlt]

theorem F32.fin_lt_zero (σ : Bool) (m : ℚ) (hm : 0 ≤ m) :
    fin σ m < (0 : F32) ↔ σ = true ∧ 0 < m := by
  rw [lt_def]
  show lt (fin σ m) (fin false 0) = true ↔ _
  simp only [lt, toRat, decide_eq_true_eq, Bool.false_eq_true, if_false]
  cases σ
  · simp only [Bool.false_eq_true, if_false, false_and, iff_false, not_lt]; exact hm
  · simp only [if_true, true_and, neg_lt_zero]

theorem F32.one_lt_fin (σ : Bool) (m : ℚ) (hm : 0 ≤ m) :
    (1 : F32) < fin σ m ↔ σ = false ∧ 1 < m := by
  rw [lt_def]
  show lt (fin false 1) (fin σ m) = true ↔ _
  simp only [lt, toRat, decide_eq_true_eq, Bool.false_eq_true, if_false]
  cases σ
  · simp
  · simp only [if_true, Bool.true_eq_false, false_and, iff_false, not_lt]; linarith

theorem F32.eps_lt_fin (σ : Bool) (m : ℚ) (hm : 0 ≤ m) :
    (epsilon : F32) < fin σ m ↔ σ = false ∧ 1 / 2 ^ 23 < m := by
  rw [epsilon_eq, lt_def]
  simp only [lt, toRat, decide_eq_true_eq, Bool.false_eq_true, if_false]
  cases σ
  · simp
  · simp only [if_true, Bool.true_eq_false, false_and, iff_false, not_lt]
    have : (0 : ℚ) < 1 / 2 ^ 23 := by positivity
    linarith

/-- The sum of two computed quotients that are not negative. -/
theorem F32.one_lt_add (σ1 σ2 : Bool) (m1 m2 : ℚ) (h1 : 0 ≤ m1) (h2 : 0 ≤ m2)
    (n1 : σ1 = true → m1 = 0) (n2 : σ2 = true → m2 = 0) (hlt : rnd (m1 + m2) < pow2 128) :
    (1 : F32) < fin σ1 m1 + fin σ2 m2 ↔ 1 < rnd (m1 + m2) := by
  have t1 : toRat (fin σ1 m1) = m1 := by
    cases σ1
    · rfl
    · simp [toRat, n1 rfl]
  have t2 : toRat (fin σ2 m2) = m2 := by
    cases σ2
    · rfl
    · simp [toRat, n2 rfl]
  have e : fin σ1 m1 + fin σ2 m2 = ofRat (m1 + m2) (σ1 && σ2) := by
    show add _ _ = _
    simp only [add, t1, t2]
  rw [e]
  unfold ofRat
  by_cases h0 : m1 + m2 = 0
  · rw [if_pos h0, h0, rnd_zero, one_lt_fin _ _ le_rfl]
    constructor
    · rintro ⟨_, h⟩; exact absurd h (by norm_num)
    · intro h; exact absurd h (by norm_num)
  · have hnn : 0 ≤ m1 + m2 := add_nonneg h1 h2
    have hneg : ¬ m1 + m2 < 0 := not_lt.mpr hnn
    rw [if_neg h0, if_neg hneg, round_eq _ _ hnn, if_pos hlt,
      one_lt_fin _ _ (rnd_nonneg _ hnn)]
    simp [hneg]

/-! ## Quotients of natural numbers and their sums -/

/-- A finite integer value: its sign and its magnitude, a natural number. -/
theorem F32.nat_repr (x : F32) (B : ℕ) (hx : x.IsIntWithin B) :
    ∃ (s : Bool) (k : ℕ), x = fin s k ∧ k ≤ B ∧ x.toRat = (if s then -(k : ℚ) else k) := by
  obtain ⟨s, a, rfl, a0, aB, _, ht⟩ := int_repr x B hx
  have hd := hx.2.1
  have habs : |toRat (fin s a)| = a := by
    rw [ht]; split
    · rw [abs_neg, abs_of_nonneg a0]
    · exact abs_of_nonneg a0
  obtain ⟨z, hz⟩ : ∃ z : ℤ, toRat (fin s a) = z :=
    ⟨(toRat (fin s a)).num, (Rat.coe_int_num_of_den_eq_one hd).symm⟩
  have ha : a = ((z.natAbs : ℕ) : ℚ) := by
    rw [← habs, hz, Nat.cast_natAbs, Int.cast_abs]
  refine ⟨s, z.natAbs, by rw [← ha], ?_, by rw [← ha]; exact ht⟩
  have : ((z.natAbs : ℕ) : ℚ) ≤ (B : ℚ) := by rw [← ha]; exact aB
  exact_mod_cast this

theorem F32.quot_zero (a : ℚ) : rnd (rnd (1 / a) * ((0 : ℕ) : ℚ)) = 0 := by
  rw [Nat.cast_zero, mul_zero, rnd_zero]

/-- The computed quotient `M = rnd (rnd (1 / a) * b)` of natural numbers `b ≤ 2^21` and
`1 ≤ a ≤ 2^20`: it is `0` for `b = 0`, at least `2^-22` for `b ≥ 1`, at most 1 for
`b < a`, at least `1 + 2^-23` for `b > a`, and within the factor `(1 ± 2^-24)^2` of
`b / a`. -/
theorem F32.quot_nat (a b : ℕ) (ha1 : 1 ≤ a) (ha2 : a ≤ 2 ^ 20) (hb2 : b ≤ 2 ^ 21) :
    0 ≤ rnd (rnd (1 / (a : ℚ)) * b) ∧
    (b = 0 → rnd (rnd (1 / (a : ℚ)) * b) = 0) ∧
    (1 ≤ b → 1 / 2 ^ 22 ≤ rnd (rnd (1 / (a : ℚ)) * b)) ∧
    (b < a → rnd (rnd (1 / (a : ℚ)) * b) ≤ 1) ∧
    (a < b → 1 + 1 / 2 ^ 23 ≤ rnd (rnd (1 / (a : ℚ)) * b)) ∧
    (b : ℚ) / a * (1 - 1 / 2 ^ 24) ^ 2 ≤ rnd (rnd (1 / (a : ℚ)) * b) ∧
    rnd (rnd (1 / (a : ℚ)) * b) ≤ (b : ℚ) / a * (1 + 1 / 2 ^ 24) ^ 2 := by
  have qa1 : (1 : ℚ) ≤ a := by exact_mod_cast ha1
  have qa2 : (a : ℚ) ≤ 2 ^ 20 := by exact_mod_cast ha2
  have qb2 : (b : ℚ) ≤ 2 ^ 21 := by exact_mod_cast hb2
  have hI : (0 : ℚ) ≤ rnd (1 / (a : ℚ)) := rnd_nonneg _ (by positivity)
  have h0 : 0 ≤ rnd (rnd (1 / (a : ℚ)) * b) :=
    rnd_nonneg _ (mul_nonneg hI (by positivity))
  rcases Nat.eq_zero_or_pos b with hb | hb
  · subst hb
    have z := quot_zero (a : ℚ)
    refine ⟨h0, fun _ => z, fun h => absurd h (by norm_num), fun _ => by rw [z]; norm_num,
      fun h => absurd h (by omega), by rw [z]; simp, by rw [z]; simp⟩
  · have qb1 : (1 : ℚ) ≤ b := by exact_mod_cast hb
    obtain ⟨l, u, _, _⟩ := quot_bounds (a : ℚ) b qa1 qa2 qb1 qb2
    refine ⟨h0, fun h => absurd h (by omega), fun _ => quot_pos _ _ qa1 qa2 qb1 qb2,
      fun h => ?_, fun h => ?_, l, u⟩
    · have : (b : ℚ) + 1 ≤ a := by exact_mod_cast h
      exact quot_le_one _ _ qa1 qa2 qb1 this
    · have : (a : ℚ) + 1 ≤ b := by exact_mod_cast h
      exact quot_gt_one _ _ qa1 qa2 this qb2

theorem F32.rnd_pow23 : rnd (2 ^ 23) = 2 ^ 23 := by
  have := rnd_nat (2 ^ 23) (by norm_num)
  simpa using this

/-- The rounded sum of two computed quotients with the same denominator. -/
theorem F32.quot_sum (a bu bv : ℕ) (ha1 : 1 ≤ a) (ha2 : a ≤ 2 ^ 20) (hu2 : bu ≤ 2 ^ 21)
    (hv2 : bv ≤ 2 ^ 21) :
    rnd (rnd (rnd (1 / (a : ℚ)) * bu) + rnd (rnd (1 / (a : ℚ)) * bv)) < pow2 128 ∧
    (bu + bv < a →
      rnd (rnd (rnd (1 / (a : ℚ)) * bu) + rnd (rnd (1 / (a : ℚ)) * bv)) ≤ 1) ∧
    (a < bu + bv →
      1 + 1 / 2 ^ 23 ≤ rnd (rnd (rnd (1 / (a : ℚ)) * bu) + rnd (rnd (1 / (a : ℚ)) * bv))) := by
  obtain ⟨u0, uz, up, _, _, ul, uu⟩ := quot_nat a bu ha1 ha2 hu2
  obtain ⟨v0, vz, vp, _, _, vl, vu⟩ := quot_nat a bv ha1 ha2 hv2
  have qa1 : (1 : ℚ) ≤ a := by exact_mod_cast ha1
  have qa2 : (a : ℚ) ≤ 2 ^ 20 := by exact_mod_cast ha2
  have qapos : (0 : ℚ) < a := by linarith
  have qu2 : (bu : ℚ) ≤ 2 ^ 21 := by exact_mod_cast hu2
  have qv2 : (bv : ℚ) ≤ 2 ^ 21 := by exact_mod_cast hv2
  generalize rnd (rnd (1 / (a : ℚ)) * bu) = Mu at *
  generalize rnd (rnd (1 / (a : ℚ)) * bv) = Mv at *
  have hsum0 : 0 ≤ Mu + Mv := add_nonneg u0 v0
  have hdu : (bu : ℚ) / a ≤ 2 ^ 21 := by
    rw [div_le_iff₀ qapos]; nlinarith
  have hdv : (bv : ℚ) / a ≤ 2 ^ 21 := by
    rw [div_le_iff₀ qapos]; nlinarith
  have hdu0 : (0 : ℚ) ≤ (bu : ℚ) / a := by positivity
  have hdv0 : (0 : ℚ) ≤ (bv : ℚ) / a := by positivity
  have hsum23 : Mu + Mv ≤ 2 ^ 23 := by nlinarith
  -- the sum is zero or at least 2^-22
  have hlow : Mu + Mv = 0 ∨ (2 : ℚ) ^ (-1024 : ℤ) ≤ Mu + Mv := by
    rcases Nat.eq_zero_or_pos bu with hu | hu
    · rcases Nat.eq_zero_or_pos bv with hv | hv
      · left; rw [uz hu, vz hv]; norm_num
      · right
        have := vp hv
        exact le_trans lo_bound (le_trans lo_small (by linarith))
    · right
      have := up hu
      exact le_trans lo_bound (le_trans lo_small (by linarith))
  refine ⟨?_, fun h => ?_, fun h => ?_⟩
  · rcases hlow with h | h
    · rw [h, rnd_zero]; exact pow2_pos 128
    · exact lt_of_le_of_lt (rnd_le_grid _ _ h hsum23 hi_big rnd_pow23) hi_128
  · rcases hlow with h0 | h0
    · rw [h0, rnd_zero]; norm_num
    · refine rnd_le_grid _ 1 h0 ?_ (lt_trans (by norm_num) hi_big) rnd_one
      have hb : (bu : ℚ) + bv + 1 ≤ a := by exact_mod_cast h
      have hq : (bu : ℚ) / a + bv / a ≤ 1 - 1 / a := by
        rw [← add_div, ← sub_nonneg]
        have : 1 - 1 / (a : ℚ) - (bu + bv) / a = (a - 1 - (bu + bv)) / a := by
          field_simp
        rw [this]
        apply div_nonneg _ (le_of_lt qapos)
        linarith
      have hia : (1 : ℚ) / 2 ^ 20 ≤ 1 / a := one_div_le_one_div_of_le qapos qa2
      nlinarith
  · have hb : (a : ℚ) + 1 ≤ bu + bv := by exact_mod_cast h
    have hq : 1 + 1 / a ≤ (bu : ℚ) / a + bv / a := by
      rw [← add_div, ← sub_nonneg]
      have : ((bu : ℚ) + bv) / a - (1 + 1 / a) = (bu + bv - a - 1) / a := by
        field_simp
        ring
      rw [this]
      apply div_nonneg _ (le_of_lt qapos)
      linarith
    have hia : (1 : ℚ) / 2 ^ 20 ≤ 1 / a := one_div_le_one_div_of_le qapos qa2
    have hge : 1 + 1 / 2 ^ 23 ≤ Mu + Mv := by nlinarith
    refine grid_le_rnd _ _ ?_ hge (lt_of_le_of_lt hsum23 hi_big) rnd_one_ulp
    exact le_trans lo_bound (le_trans lo_small (by norm_num))

/-! ## The tests of the ray function on quotients of integers -/

theorem F32.int_outside_guard (s : Bool) (a : ℚ) (ha : 1 ≤ a) :
    ¬ ((-epsilon : F32) < fin s a ∧ fin s a < (epsilon : F32)) := by
  rw [neg_epsilon_eq, epsilon_eq, lt_def, lt_def]
  simp only [lt, toRat, decide_eq_true_eq, Bool.false_eq_true, if_false, if_true]
  have : (1 : ℚ) / 2 ^ 23 < 1 := by norm_num
  cases s
  · simp only [Bool.false_eq_true, if_false]
    intro h; linarith [h.2]
  · simp only [if_true]
    intro h; linarith [h.1]

theorem F32.sign_quot (s t : Bool) (a b : ℕ) (ha : 1 ≤ a) :
    1 / (if s = true then -(a : ℚ) else a) * (if t = true then -(b : ℚ) else b)
      = if xor s t = true then -((b : ℚ) / a) else (b : ℚ) / a := by
  have : (a : ℚ) ≠ 0 := by
    have : (1 : ℚ) ≤ a := by exact_mod_cast ha
    linarith
  have h1 : 1 / -(a : ℚ) = -(1 / a) := by rw [one_div, one_div, inv_neg]
  cases s <;> cases t <;>
    simp only [Bool.false_eq_true, if_false, if_true, Bool.xor_false, Bool.xor_true,
      Bool.not_false, Bool.not_true, Bool.false_xor, Bool.true_xor, h1] <;>
    ring

theorem F32.signed_nonneg (σ : Bool) (a b : ℕ) (ha : 1 ≤ a)
    (h : 0 ≤ (if σ = true then -((b : ℚ) / a) else (b : ℚ) / a)) : σ = true → b = 0 := by
  intro hs
  rw [if_pos hs] at h
  have qa : (0 : ℚ) < a := by
    have : (1 : ℚ) ≤ a := by exact_mod_cast ha
    linarith
  have h1 : (b : ℚ) / a ≤ 0 := by linarith
  have h2 : (0 : ℚ) ≤ (b : ℚ) / a := by positivity
  have h3 : (b : ℚ) / a = 0 := le_antisymm h1 h2
  rcases div_eq_zero_iff.mp h3 with h | h
  · exact_mod_cast h
  · exact absurd h (ne_of_gt qa)

theorem F32.signed_eq (σ : Bool) (a b : ℕ) (h : σ = true → b = 0) :
    (if σ = true then -((b : ℚ) / a) else (b : ℚ) / a) = (b : ℚ) / a := by
  cases σ
  · simp
  · simp [h rfl]

/-- The three tests after the determinant guard, for computed quotients of integers with
a common non-zero denominator: they imply the same tests for the exact quotients (and `t` at least `2^-20`), and
the exact tests with `u + v < 1` imply them. -/
theorem F32.tests_nat (σu σv σz : Bool) (a bu bv bz : ℕ) (ha1 : 1 ≤ a) (ha2 : a ≤ 2 ^ 20)
    (hu2 : bu ≤ 2 ^ 21) (hv2 : bv ≤ 2 ^ 21) (hz2 : bz ≤ 2 ^ 21) :
    ((¬ (fin σu (rnd (rnd (1 / (a : ℚ)) * bu)) < (0 : F32) ∨
          (1 : F32) < fin σu (rnd (rnd (1 / (a : ℚ)) * bu))) ∧
      ¬ (fin σv (rnd (rnd (1 / (a : ℚ)) * bv)) < (0 : F32) ∨
          (1 : F32) < fin σu (rnd (rnd (1 / (a : ℚ)) * bu))
            + fin σv (rnd (rnd (1 / (a : ℚ)) * bv))) ∧
      (epsilon : F32) < fin σz (rnd (rnd (1 / (a : ℚ)) * bz))) →
      0 ≤ (if σu = true then -((bu : ℚ) / a) else (bu : ℚ) / a) ∧
      (if σu = true then -((bu : ℚ) / a) else (bu : ℚ) / a) ≤ 1 ∧
      0 ≤ (if σv = true then -((bv : ℚ) / a) else (bv : ℚ) / a) ∧
      (if σu = true then -((bu : ℚ) / a) else (bu : ℚ) / a)
        + (if σv = true then -((bv : ℚ) / a) else (bv : ℚ) / a) ≤ 1 ∧
      1 / 2 ^ 20 ≤ (if σz = true then -((bz : ℚ) / a) else (bz : ℚ) / a)) ∧
    (0 ≤ (if σu = true then -((bu : ℚ) / a) else (bu : ℚ) / a) →
      0 ≤ (if σv = true then -((bv : ℚ) / a) else (bv : ℚ) / a) →
      (if σu = true then -((bu : ℚ) / a) else (bu : ℚ) / a)
        + (if σv = true then -((bv : ℚ) / a) else (bv : ℚ) / a) < 1 →
      0 < (if σz = true then -((bz : ℚ) / a) else (bz : ℚ) / a) →
      (¬ (fin σu (rnd (rnd (1 / (a : ℚ)) * bu)) < (0 : F32) ∨
          (1 : F32) < fin σu (rnd (rnd (1 / (a : ℚ)) * bu))) ∧
      ¬ (fin σv (rnd (rnd (1 / (a : ℚ)) * bv)) < (0 : F32) ∨
          (1 : F32) < fin σu (rnd (rnd (1 / (a : ℚ)) * bu))
            + fin σv (rnd (rnd (1 / (a : ℚ)) * bv))) ∧
      (epsilon : F32) < fin σz (rnd (rnd (1 / (a : ℚ)) * bz)))) := by
  obtain ⟨u0, uz, up, ule, ugt, _, _⟩ := quot_nat a bu ha1 ha2 hu2
  obtain ⟨v0, vz, vp, _, _, _, _⟩ := quot_nat a bv ha1 ha2 hv2
  obtain ⟨z0, zz, zp, _, _, _, _⟩ := quot_nat a bz ha1 ha2 hz2
  obtain ⟨s128, sle, sgt⟩ := quot_sum a bu bv ha1 ha2 hu2 hv2
  have qa : (0 : ℚ) < a := by
    have : (1 : ℚ) ≤ a := by exact_mod_cast ha1
    linarith
  generalize rnd (rnd (1 / (a : ℚ)) * bu) = Mu at *
  generalize rnd (rnd (1 / (a : ℚ)) * bv) = Mv at *
  generalize rnd (rnd (1 / (a : ℚ)) * bz) = Mz at *
  have small : (0 : ℚ) < 1 / 2 ^ 22 := by positivity
  constructor
  · rintro ⟨hU, hV, hT⟩
    rw [not_or, fin_lt_zero _ _ u0, one_lt_fin _ _ u0] at hU
    rw [not_or, fin_lt_zero _ _ v0] at hV
    rw [eps_lt_fin _ _ z0] at hT
    have FU : σu = true → bu = 0 := by
      intro hs
      by_contra hb
      have := up (Nat.one_le_iff_ne_zero.mpr hb)
      exact hU.1 ⟨hs, lt_of_lt_of_le small this⟩
    have FV : σv = true → bv = 0 := by
      intro hs
      by_contra hb
      have := vp (Nat.one_le_iff_ne_zero.mpr hb)
      exact hV.1 ⟨hs, lt_of_lt_of_le small this⟩
    have hV2 := hV.2
    rw [one_lt_add σu σv Mu Mv u0 v0 (fun h => uz (FU h)) (fun h => vz (FV h)) s128] at hV2
    clear hV
    rw [signed_eq σu a bu FU, signed_eq σv a bv FV]
    have hbu : bu ≤ a := by
      by_contra h
      have hlt : a < bu := by omega
      have := ugt hlt
      have hs : σu = false := by
        cases σu
        · rfl
        · have := FU rfl; omega
      exact hU.2 ⟨hs, by linarith⟩
    have hsum : bu + bv ≤ a := by
      by_contra h
      have hlt : a < bu + bv := by omega
      have := sgt hlt
      exact hV2 (by linarith)
    have hbz : bz ≠ 0 := by
      intro h
      have := zz h
      rw [this] at hT
      have : (0 : ℚ) < 1 / 2 ^ 23 := by positivity
      linarith [hT.2]
    have hsz : (if σz = true then -((bz : ℚ) / a) else (bz : ℚ) / a) = (bz : ℚ) / a := by
      rw [hT.1]; simp
    rw [hsz]
    have qbu : (bu : ℚ) ≤ a := by exact_mod_cast hbu
    have qsum : (bu : ℚ) + bv ≤ a := by exact_mod_cast hsum
    have qbz : (1 : ℚ) ≤ bz := by
      have : 1 ≤ bz := Nat.pos_of_ne_zero hbz
      exact_mod_cast this
    have qa2 : (a : ℚ) ≤ 2 ^ 20 := by exact_mod_cast ha2
    refine ⟨by positivity, (div_le_one qa).mpr qbu, by positivity, ?_, ?_⟩
    · rw [← add_div]
      exact (div_le_one qa).mpr qsum
    · rw [div_le_div_iff₀ (by positivity) qa]
      nlinarith
  · intro hu hv hs ht
    have FU := signed_nonneg σu a bu ha1 hu
    have FV := signed_nonneg σv a bv ha1 hv
    rw [signed_eq σu a bu FU, signed_eq σv a bv FV, ← add_div, div_lt_one qa] at hs
    have hsum : bu + bv < a := by exact_mod_cast hs
    have hσz : σz = false := by
      cases σz
      · rfl
      · rw [if_pos rfl] at ht
        have : (0 : ℚ) ≤ (bz : ℚ) / a := by positivity
        linarith
    have hbz : 1 ≤ bz := by
      rw [hσz] at ht
      simp only [Bool.false_eq_true, if_false] at ht
      rcases Nat.eq_zero_or_pos bz with h | h
      · rw [h] at ht; simp at ht
      · exact h
    rw [not_or, fin_lt_zero _ _ u0, one_lt_fin _ _ u0, not_or, fin_lt_zero _ _ v0,
      one_lt_add σu σv Mu Mv u0 v0 (fun h => uz (FU h)) (fun h => vz (FV h)) s128,
      eps_lt_fin _ _ z0]
    refine ⟨⟨?_, ?_⟩, ⟨?_, ?_⟩, hσz, ?_⟩
    · rintro ⟨h1, h2⟩
      rw [uz (FU h1)] at h2
      exact lt_irrefl _ h2
    · rintro ⟨_, h2⟩
      have := ule (by omega)
      linarith
    · rintro ⟨h1, h2⟩
      rw [vz (FV h1)] at h2
      exact lt_irrefl _ h2
    · have := sle hsum
      exact not_lt.mpr this
    · have := zp hbz
      have : (1 : ℚ) / 2 ^ 23 < 1 / 2 ^ 22 := by norm_num
      linarith

/-! ## The ray test on the integer grid -/

theorem F32.nat_cast_cases (b : ℕ) : (b : ℚ) = 0 ∨ (1 : ℚ) ≤ b := by
  rcases Nat.eq_zero_or_pos b with h | h
  · left; exact_mod_cast h
  · right; exact_mod_cast h

/-- The ray test on the integer grid (every coordinate of the origin, the direction and
the corners an integer of magnitude at most 32): a reported hit satisfies the exact
tests with `t` at least `2^-20`, the exact tests with `u + v < 1` give a reported hit, and an exact determinant of
zero gives none. -/
theorem rayIntersectsTriangle_grid (o d a b c : Vertex F32) (ho : o.IsGrid 32)
    (hd : d.IsGrid 32) (ha : a.IsGrid 32) (hb : b.IsGrid 32) (hc : c.IsGrid 32) :
    (rayIntersectsTriangle o d a b c = true →
      mtDet d.toRat a.toRat b.toRat c.toRat ≠ 0 ∧
      0 ≤ mtU o.toRat d.toRat a.toRat b.toRat c.toRat ∧
      mtU o.toRat d.toRat a.toRat b.toRat c.toRat ≤ 1 ∧
      0 ≤ mtV o.toRat d.toRat a.toRat b.toRat c.toRat ∧
      mtU o.toRat d.toRat a.toRat b.toRat c.toRat
        + mtV o.toRat d.toRat a.toRat b.toRat c.toRat ≤ 1 ∧
      1 / 2 ^ 20 ≤ mtT o.toRat d.toRat a.toRat b.toRat c.toRat) ∧
    (mtDet d.toRat a.toRat b.toRat c.toRat ≠ 0 →
      0 ≤ mtU o.toRat d.toRat a.toRat b.toRat c.toRat →
      0 ≤ mtV o.toRat d.toRat a.toRat b.toRat c.toRat →
      mtU o.toRat d.toRat a.toRat b.toRat c.toRat
        + mtV o.toRat d.toRat a.toRat b.toRat c.toRat < 1 →
      0 < mtT o.toRat d.toRat a.toRat b.toRat c.toRat →
      rayIntersectsTriangle o d a b c = true) ∧
    (mtDet d.toRat a.toRat b.toRat c.toRat = 0 →
      rayIntersectsTriangle o d a b c = false) := by
  obtain ⟨⟨hDi, hDe⟩, ⟨hXi, hXe⟩, ⟨hYi, hYe⟩, ⟨hZi, hZe⟩⟩ :=
    ray_quantities_exact o d a b c ho hd ha hb hc
  obtain ⟨s, ka, hdet, hka, hDr⟩ := F32.nat_repr _ _ hDi
  obtain ⟨tu, bu, hX, hbu, hXr⟩ := F32.nat_repr _ _ hXi
  obtain ⟨tv, bv, hY, hbv, hYr⟩ := F32.nat_repr _ _ hYi
  obtain ⟨tz, bz, hZ, hbz, hZr⟩ := F32.nat_repr _ _ hZi
  rw [hDe] at hDr
  rw [hXe] at hXr
  rw [hYe] at hYr
  rw [hZe] at hZr
  have eU : mtU o.toRat d.toRat a.toRat b.toRat c.toRat
      = 1 / mtDet d.toRat a.toRat b.toRat c.toRat *
        (o.toRat.sub a.toRat).dotProduct (d.toRat.crossProduct (c.toRat.sub a.toRat)) := rfl
  have eV : mtV o.toRat d.toRat a.toRat b.toRat c.toRat
      = 1 / mtDet d.toRat a.toRat b.toRat c.toRat *
        d.toRat.dotProduct ((o.toRat.sub a.toRat).crossProduct (b.toRat.sub a.toRat)) := rfl
  have eT : mtT o.toRat d.toRat a.toRat b.toRat c.toRat
      = 1 / mtDet d.toRat a.toRat b.toRat c.toRat *
        (c.toRat.sub a.toRat).dotProduct
          ((o.toRat.sub a.toRat).crossProduct (b.toRat.sub a.toRat)) := rfl
  have fU : mtU o d a b c
      = 1 / mtDet d a b c * (o.sub a).dotProduct (d.crossProduct (c.sub a)) := rfl
  have fV : mtV o d a b c
      = 1 / mtDet d a b c * d.dotProduct ((o.sub a).crossProduct (b.sub a)) := rfl
  have fT : mtT o d a b c
      = 1 / mtDet d a b c * (c.sub a).dotProduct ((o.sub a).crossProduct (b.sub a)) := rfl
  rcases Nat.eq_zero_or_pos ka with hk | hk
  · subst hk
    have hD0 : mtDet d.toRat a.toRat b.toRat c.toRat = 0 := by
      rw [hDr]; cases s <;> simp
    have hfalse : rayIntersectsTriangle o d a b c = false :=
      rayIntersectsTriangle_zn o d a b c (Or.inr ⟨s, by rw [hdet]; simp⟩)
    refine ⟨fun h => ?_, fun h => absurd hD0 h, fun _ => hfalse⟩
    rw [hfalse] at h
    exact absurd h (by decide)
  · have ha1 : 1 ≤ ka := hk
    have ha2 : ka ≤ 2 ^ 20 := le_trans hka (by norm_num)
    have hu2 : bu ≤ 2 ^ 21 := le_trans hbu (by norm_num)
    have hv2 : bv ≤ 2 ^ 21 := le_trans hbv (by norm_num)
    have hz2 : bz ≤ 2 ^ 21 := le_trans hbz (by norm_num)
    have qa1 : (1 : ℚ) ≤ ka := by exact_mod_cast ha1
    have qa2 : (ka : ℚ) ≤ 2 ^ 20 := by exact_mod_cast ha2
    have qu2 : (bu : ℚ) ≤ 2 ^ 21 := by exact_mod_cast hu2
    have qv2 : (bv : ℚ) ≤ 2 ^ 21 := by exact_mod_cast hv2
    have qz2 : (bz : ℚ) ≤ 2 ^ 21 := by exact_mod_cast hz2
    have hD0 : mtDet d.toRat a.toRat b.toRat c.toRat ≠ 0 := by
      rw [hDr]
      cases s
      · simp only [Bool.false_eq_true, if_false]; linarith
      · simp only [if_true]; linarith
    have hD0' := hD0
    rw [hDr] at hD0'
    rw [eU, eV, eT, hDr, hXr, hYr, hZr, F32.sign_quot s tu ka bu ha1,
      F32.sign_quot s tv ka bv ha1, F32.sign_quot s tz ka bz ha1]
    have gU : mtU o d a b c
        = F32.fin (xor s tu) (F32.rnd (F32.rnd (1 / (ka : ℚ)) * bu)) := by
      rw [fU, hdet, hX]
      exact F32.quot_int s tu ka bu qa1 qa2 (F32.nat_cast_cases bu) qu2
    have gV : mtV o d a b c
        = F32.fin (xor s tv) (F32.rnd (F32.rnd (1 / (ka : ℚ)) * bv)) := by
      rw [fV, hdet, hY]
      exact F32.quot_int s tv ka bv qa1 qa2 (F32.nat_cast_cases bv) qv2
    have gT : mtT o d a b c
        = F32.fin (xor s tz) (F32.rnd (F32.rnd (1 / (ka : ℚ)) * bz)) := by
      rw [fT, hdet, hZ]
      exact F32.quot_int s tz ka bz qa1 qa2 (F32.nat_cast_cases bz) qz2
    have hG : ¬ ((-epsilon : F32) < mtDet d a b c ∧ mtDet d a b c < (epsilon : F32)) := by
      rw [hdet]
      exact F32.int_outside_guard s ka qa1
    obtain ⟨snd, cpl⟩ :=
      F32.tests_nat (xor s tu) (xor s tv) (xor s tz) ka bu bv bz ha1 ha2 hu2 hv2 hz2
    refine ⟨fun h => ?_, fun _ h1 h2 h3 h4 => ?_, fun h => absurd h hD0'⟩
    · rw [rayIntersectsTriangle_tests, gU, gV, gT] at h
      exact ⟨hD0', snd h.2⟩
    · rw [rayIntersectsTriangle_tests, gU, gV, gT]
      exact ⟨hG, cpl h1 h2 h3 h4⟩

/-! ## Geometry of the ray test on the integer grid -/

/-- In exact arithmetic: when the triangle is not degenerate and one point of the ray's
line is a point of the triangle's plane, a determinant of zero puts the whole ray in
the plane. -/
theorem rayInPlane_of_det_zero {F : Type} [LinearOrderedField F] (o d a b c : Vertex F)
    (t u v : F) (hc : ¬ Collinear a b c) (hm : MeetsAt o d a b c t u v)
    (hD : mtDet d a b c = 0) : RayInPlane o d a b c := by
  rw [collinear_iff_cross] at hc
  rw [mtDet_eq] at hD
  obtain ⟨hx, hy, hz⟩ := hm
  have hnn : ((b.y - a.y) * (c.z - a.z) - (b.z - a.z) * (c.y - a.y)) ^ 2
      + ((b.z - a.z) * (c.x - a.x) - (b.x - a.x) * (c.z - a.z)) ^ 2
      + ((b.x - a.x) * (c.y - a.y) - (b.y - a.y) * (c.x - a.x)) ^ 2 ≠ 0 := by
    intro h0
    apply hc
    have h1 := sq_nonneg ((b.y - a.y) * (c.z - a.z) - (b.z - a.z) * (c.y - a.y))
    have h2 := sq_nonneg ((b.z - a.z) * (c.x - a.x) - (b.x - a.x) * (c.z - a.z))
    have h3 := sq_nonneg ((b.x - a.x) * (c.y - a.y) - (b.y - a.y) * (c.x - a.x))
    refine ⟨?_, ?_, ?_⟩
    · exact pow_eq_zero_iff (two_ne_zero) |>.mp (by linarith)
    · exact pow_eq_zero_iff (two_ne_zero) |>.mp (by linarith)
    · exact pow_eq_zero_iff (two_ne_zero) |>.mp (by linarith)
  intro t' _
  generalize hnx : (b.y - a.y) * (c.z - a.z) - (b.z - a.z) * (c.y - a.y) = nx at hnn
  generalize hny : (b.z - a.z) * (c.x - a.x) - (b.x - a.x) * (c.z - a.z) = ny at hnn
  generalize hnz : (b.x - a.x) * (c.y - a.y) - (b.y - a.y) * (c.x - a.x) = nz at hnn
  generalize hP : (d.y * (c.z - a.z) - d.z * (c.y - a.y)) * nx
        + (d.z * (c.x - a.x) - d.x * (c.z - a.z)) * ny
        + (d.x * (c.y - a.y) - d.y * (c.x - a.x)) * nz = P
  generalize hQ : ((b.y - a.y) * d.z - (b.z - a.z) * d.y) * nx
        + ((b.z - a.z) * d.x - (b.x - a.x) * d.z) * ny
        + ((b.x - a.x) * d.y - (b.y - a.y) * d.x) * nz = Q
  generalize hN : nx ^ 2 + ny ^ 2 + nz ^ 2 = N at hnn
  have hα : N * (P / N) = P := mul_div_cancel₀ P hnn
  have hβ : N * (Q / N) = Q := mul_div_cancel₀ Q hnn
  have kx : d.x = P / N * (b.x - a.x) + Q / N * (c.x - a.x) := by
    apply mul_left_cancel₀ hnn
    rw [mul_add, ← mul_assoc, ← mul_assoc, hα, hβ, ← hN, ← hP, ← hQ, ← hnx, ← hny, ← hnz]
    linear_combination (-((b.y - a.y) * (c.z - a.z) - (b.z - a.z) * (c.y - a.y))) * hD
  have ky : d.y = P / N * (b.y - a.y) + Q / N * (c.y - a.y) := by
    apply mul_left_cancel₀ hnn
    rw [mul_add, ← mul_assoc, ← mul_assoc, hα, hβ, ← hN, ← hP, ← hQ, ← hnx, ← hny, ← hnz]
    linear_combination (-((b.z - a.z) * (c.x - a.x) - (b.x - a.x) * (c.z - a.z))) * hD
  have kz : d.z = P / N * (b.z - a.z) + Q / N * (c.z - a.z) := by
    apply mul_left_cancel₀ hnn
    rw [mul_add, ← mul_assoc, ← mul_assoc, hα, hβ, ← hN, ← hP, ← hQ, ← hnx, ← hny, ← hnz]
    linear_combination (-((b.x - a.x) * (c.y - a.y) - (b.y - a.y) * (c.x - a.x))) * hD
  refine ⟨u + (t' - t) * (P / N), v + (t' - t) * (Q / N), ?_, ?_, ?_⟩
  · linear_combination hx + (t' - t) * kx
  · linear_combination hy + (t' - t) * ky
  · linear_combination hz + (t' - t) * kz

theorem F32.lt_iff_toRat (x y : F32) (hx : x.IsFinite) (hy : y.IsFinite) :
    x < y ↔ x.toRat < y.toRat := by
  cases x with
  | nan => exact absurd hx (by simp [IsFinite])
  | inf s => exact absurd hx (by simp [IsFinite])
  | fin s a =>
    cases y with
    | nan => exact absurd hy (by simp [IsFinite])
    | inf t => exact absurd hy (by simp [IsFinite])
    | fin t b =>
      rw [lt_def]
      simp only [lt, decide_eq_true_eq]

theorem F32.max_lt_toRat (x y p : F32) (hx : x.IsFinite) (hy : y.IsFinite) (hp : p.IsFinite)
    (h : max x y < p) : (max x y).IsFinite ∧ x.toRat < p.toRat ∧ y.toRat < p.toRat := by
  have e : max x y = if x < y then y else x := rfl
  rw [e] at h ⊢
  by_cases hxy : x < y
  · rw [if_pos hxy] at h ⊢
    rw [lt_iff_toRat _ _ hy hp] at h
    rw [lt_iff_toRat _ _ hx hy] at hxy
    exact ⟨hy, lt_trans hxy h, h⟩
  · rw [if_neg hxy] at h ⊢
    rw [lt_iff_toRat _ _ hx hp] at h
    rw [lt_iff_toRat _ _ hx hy, not_lt] at hxy
    exact ⟨hx, h, lt_of_le_of_lt hxy h⟩

theorem rayVector_toRat : (rayVector : Vertex F32).toRat = ⟨1, 0, 0, 0⟩ := by decide!

theorem rayVector_isGrid : (rayVector : Vertex F32).IsGrid 32 := by decide!

/-- On the integer grid a reported hit is a point of the triangle on the ray, at a ray
parameter above `epsilon`. -/
theorem rayIntersectsTriangle_grid_hit (o d a b c : Vertex F32) (ho : o.IsGrid 32)
    (hd : d.IsGrid 32) (ha : a.IsGrid 32) (hb : b.IsGrid 32) (hc : c.IsGrid 32)
    (h : rayIntersectsTriangle o d a b c = true) :
    ∃ t u v : ℚ, 1 / 2 ^ 23 < t ∧ 0 ≤ u ∧ 0 ≤ v ∧ u + v ≤ 1 ∧
      MeetsAt o.toRat d.toRat a.toRat b.toRat c.toRat t u v := by
  obtain ⟨hD, hu0, _, hv0, huv, ht⟩ := (rayIntersectsTriangle_grid o d a b c ho hd ha hb hc).1 h
  refine ⟨_, _, _, ?_, hu0, hv0, huv, meetsAt_mt _ _ _ _ _ hD⟩
  have : (1 : ℚ) / 2 ^ 23 < 1 / 2 ^ 20 := by norm_num
  exact lt_of_lt_of_le this ht

/-- On the integer grid the test accepts every ray that is not in the plane of a
triangle that is not degenerate and that meets the triangle, at a positive parameter,
in a point off the edge `bc`. -/
theorem rayIntersectsTriangle_grid_enters (o d a b c : Vertex F32) (ho : o.IsGrid 32)
    (hd : d.IsGrid 32) (ha : a.IsGrid 32) (hb : b.IsGrid 32) (hc : c.IsGrid 32)
    (hnc : ¬ Collinear a.toRat b.toRat c.toRat)
    (hnp : ¬ RayInPlane o.toRat d.toRat a.toRat b.toRat c.toRat)
    (t u v : ℚ) (ht : 0 < t) (hu : 0 ≤ u) (hv : 0 ≤ v) (huv : u + v < 1)
    (hm : MeetsAt o.toRat d.toRat a.toRat b.toRat c.toRat t u v) :
    rayIntersectsTriangle o d a b c = true := by
  have hD : mtDet d.toRat a.toRat b.toRat c.toRat ≠ 0 := fun h0 =>
    hnp (rayInPlane_of_det_zero _ _ _ _ _ t u v hnc hm h0)
  obtain ⟨e1, e2, e3⟩ := mt_unique _ _ _ _ _ t u v hD hm
  refine (rayIntersectsTriangle_grid o d a b c ho hd ha hb hc).2.1 hD ?_ ?_ ?_ ?_
  · rw [e2]; exact hu
  · rw [e3]; exact hv
  · rw [e2, e3]; exact huv
  · rw [e1]; exact ht

/-- On the integer grid the test rejects every degenerate triangle. -/
theorem rayIntersectsTriangle_grid_collinear (o d a b c : Vertex F32) (ho : o.IsGrid 32)
    (hd : d.IsGrid 32) (ha : a.IsGrid 32) (hb : b.IsGrid 32) (hc : c.IsGrid 32)
    (h : Collinear a.toRat b.toRat c.toRat) : rayIntersectsTriangle o d a b c = false :=
  (rayIntersectsTriangle_grid o d a b c ho hd ha hb hc).2.2 (mtDet_collinear _ _ _ _ h)

/-- On the integer grid the test rejects, for the `+X` ray, every triangle whose largest
`x` is below the `x` of the origin. -/
theorem rayIntersectsTriangle_grid_behind (p a b c : Vertex F32) (hp : p.IsGrid 32)
    (ha : a.IsGrid 32) (hb : b.IsGrid 32) (hc : c.IsGrid 32)
    (h : max (max a.x b.x) c.x < p.x) : rayIntersectsTriangle p rayVector a b c = false := by
  cases hr : rayIntersectsTriangle p rayVector a b c with
  | false => rfl
  | true =>
    exfalso
    obtain ⟨t, u, v, ht, hu, hv, huv, hx, _, _⟩ :=
      rayIntersectsTriangle_grid_hit p rayVector a b c hp rayVector_isGrid ha hb hc hr
    rw [rayVector_toRat] at hx
    have hab : (max a.x b.x).IsFinite := by
      have e : max a.x b.x = if a.x < b.x then b.x else a.x := rfl
      rw [e]; split
      · exact hb.1.1
      · exact ha.1.1
    obtain ⟨_, h1, h2⟩ := F32.max_lt_toRat _ _ _ hab hc.1.1 hp.1.1 h
    have e : max a.x b.x = if a.x < b.x then b.x else a.x := rfl
    have h3 : a.x.toRat < p.x.toRat ∧ b.x.toRat < p.x.toRat := by
      by_cases hxy : a.x < b.x
      · rw [e, if_pos hxy] at h1
        rw [F32.lt_iff_toRat _ _ ha.1.1 hb.1.1] at hxy
        exact ⟨lt_trans hxy h1, h1⟩
      · rw [e, if_neg hxy] at h1
        rw [F32.lt_iff_toRat _ _ ha.1.1 hb.1.1, not_lt] at hxy
        exact ⟨h1, lt_of_le_of_lt hxy h1⟩
    have X : (p.toRat).x = p.x.toRat := rfl
    have A : (a.toRat).x = a.x.toRat := rfl
    have B : (b.toRat).x = b.x.toRat := rfl
    have C : (c.toRat).x = c.x.toRat := rfl
    rw [X, A, B, C] at hx
    simp only [mul_one] at hx
    nlinarith [mul_nonneg hu (le_of_lt (sub_pos.mpr h3.2)),
      mul_nonneg hv (le_of_lt (sub_pos.mpr h2)),
      mul_nonneg (sub_nonneg.mpr huv) (le_of_lt (sub_pos.mpr h3.1))]

/-! ## The max-X skip on the integer grid -/

theorem cornerAt_mem {F : Type} (m : Model F) (face : Face) (k : Nat) (a : Vertex F)
    (h : cornerAt m face k = some a) : a ∈ m.vertices := by
  unfold cornerAt at h
  cases hc : face.vertices[k]? with
  | none => rw [hc] at h; exact absurd h (by simp)
  | some c =>
    rw [hc] at h
    simp only [Option.some_bind, Model.vertexAt] at h
    obtain ⟨hlt, he⟩ := List.getElem?_eq_some_iff.mp h
    rw [← he]
    exact List.getElem_mem hlt

/-- The loops of `isPointInside` with and without the max-X test agree when no skipped fan
triangle is accepted by `rayIntersectsTriangle`. -/
theorem isPointInside_skip (m : Model F32) (p : Vertex F32)
    (h : ∀ face ∈ m.faces, ∀ i ∈ List.range' 1 (face.vertices.length - 2),
      fanSkippedHit m p face i = false) :
    isPointInside m p = isPointInsideNoSkip m p := by
  unfold isPointInside isPointInsideNoSkip
  rw [countIntersections_skip m p m.faces]
  intro face hf
  by_cases h0 : face.vertices.length = 0
  · have ht : fanTrips face = (2 ^ 64 - 3) + 1 := by
      unfold fanTrips sizeSub
      rw [h0]
      rfl
    rw [ht, faceIntersected_succ_none m p face _ 1 (fanCorners_none_of_empty m face h0 1),
      faceIntersectedNoSkip_succ_none m p face _ 1 (fanCorners_none_of_empty m face h0 1)]
  · rw [fanTrips_eq face (by omega)]
    refine faceIntersected_skip m p face _ 1 (fun j h1 h2 => h face hf j ?_)
    rw [List.mem_range'_1]
    exact ⟨h1, h2⟩

/-- On the integer grid no skipped fan triangle is accepted. -/
theorem fanSkippedHit_grid (m : Model F32) (p : Vertex F32) (hm : m.IsGrid 32)
    (hp : p.IsGrid 32) (face : Face) (i : Nat) : fanSkippedHit m p face i = false := by
  unfold fanSkippedHit
  cases h0 : cornerAt m face 0 with
  | none => rfl
  | some a =>
    cases h1 : cornerAt m face i with
    | none => rfl
    | some b =>
      cases h2 : cornerAt m face (i + 1) with
      | none => rfl
      | some c =>
        show (decide (max (max a.x b.x) c.x < p.x) && rayIntersectsTriangle p rayVector a b c)
          = false
        by_cases hlt : max (max a.x b.x) c.x < p.x
        · rw [rayIntersectsTriangle_grid_behind p a b c hp (hm a (cornerAt_mem m face 0 a h0))
            (hm b (cornerAt_mem m face i b h1)) (hm c (cornerAt_mem m face (i + 1) c h2)) hlt]
          simp
        · simp [hlt]

/-! ## Triangles and rays on the integer grid -/

theorem gridTri_toRat : gridTriA.toRat = ⟨0, 0, 0, 1⟩ ∧ gridTriB.toRat = ⟨0, 4, 0, 1⟩ ∧
    gridTriC.toRat = ⟨0, 0, 4, 1⟩ ∧ gridTriP.toRat = ⟨-1, 1, 1, 1⟩ ∧
    gridTriQ.toRat = ⟨1, 1, 1, 1⟩ := by decide!

theorem gridLine_toRat : gridLineA.toRat = ⟨0, 0, 0, 1⟩ ∧ gridLineB.toRat = ⟨1, 1, 1, 1⟩ ∧
    gridLineC.toRat = ⟨3, 3, 3, 1⟩ := by decide!

theorem gridTri_not_collinear : ¬ Collinear gridTriA.toRat gridTriB.toRat gridTriC.toRat := by
  rw [gridTri_toRat.1, gridTri_toRat.2.1, gridTri_toRat.2.2.1, collinear_iff_cross]
  norm_num

theorem gridTri_not_in_plane :
    ¬ RayInPlane gridTriP.toRat (rayVector : Vertex F32).toRat gridTriA.toRat gridTriB.toRat
      gridTriC.toRat := by
  rw [gridTri_toRat.1, gridTri_toRat.2.1, gridTri_toRat.2.2.1, gridTri_toRat.2.2.2.1,
    rayVector_toRat]
  intro h
  obtain ⟨u, v, hx, _, _⟩ := h 0 le_rfl
  norm_num at hx

theorem gridTri_meets :
    ∃ t u v : ℚ, 0 < t ∧ 0 ≤ u ∧ 0 ≤ v ∧ u + v < 1 ∧
      MeetsAt gridTriP.toRat (rayVector : Vertex F32).toRat gridTriA.toRat gridTriB.toRat
        gridTriC.toRat t u v := by
  rw [gridTri_toRat.1, gridTri_toRat.2.1, gridTri_toRat.2.2.1, gridTri_toRat.2.2.2.1,
    rayVector_toRat]
  refine ⟨1, 1 / 4, 1 / 4, by norm_num, by norm_num, by norm_num, by norm_num, ?_⟩
  unfold MeetsAt
  norm_num

theorem gridTri_behind :
    ∀ t u v : ℚ, 0 < t → 0 ≤ u → 0 ≤ v → u + v ≤ 1 →
      ¬ MeetsAt gridTriQ.toRat (rayVector : Vertex F32).toRat gridTriA.toRat gridTriB.toRat
        gridTriC.toRat t u v := by
  rw [gridTri_toRat.1, gridTri_toRat.2.1, gridTri_toRat.2.2.1, gridTri_toRat.2.2.2.2,
    rayVector_toRat]
  rintro t u v ht _ _ _ ⟨hx, _, _⟩
  norm_num at hx
  linarith

theorem gridLine_collinear : Collinear gridLineA.toRat gridLineB.toRat gridLineC.toRat := by
  rw [gridLine_toRat.1, gridLine_toRat.2.1, gridLine_toRat.2.2]
  exact ⟨1, 1, 1, 1, 3, by norm_num, by norm_num, by norm_num, by norm_num, by norm_num,
    by norm_num⟩

/-! ## Claims C17, C19, C20: the ray test in binary32 arithmetic -/

/-- Claim C19 (amended). In binary32 arithmetic `rayIntersectsTriangle` returns false, for
every ray origin, when the second or the third corner equals the first (for every
direction, and whatever the values, infinities and not-a-number included); when the
direction is `(1, 0, 0)`, the computed edges `b - a` and `c - a` are finite, the computed
product `(b.y - a.y) * (c.z - a.z)` is finite, and the `y`, `z` parts of the computed
edges are parallel; and when every coordinate of the origin, the direction and the
corners is an integer of magnitude at most 32 and the corners are collinear or
coincident. -/
theorem C19_degenerate_triangle (o d a b c : Vertex F32)
    (h : b = a ∨ c = a ∨
      (d = rayVector ∧
        ((b.x - a.x).IsFinite ∧ (b.y - a.y).IsFinite ∧ (b.z - a.z).IsFinite) ∧
        ((c.x - a.x).IsFinite ∧ (c.y - a.y).IsFinite ∧ (c.z - a.z).IsFinite) ∧
        ((b.y - a.y) * (c.z - a.z)).IsFinite ∧
        (b.y - a.y).toRat * (c.z - a.z).toRat = (b.z - a.z).toRat * (c.y - a.y).toRat) ∨
      (o.IsGrid 32 ∧ d.IsGrid 32 ∧ a.IsGrid 32 ∧ b.IsGrid 32 ∧ c.IsGrid 32 ∧
        Collinear a.toRat b.toRat c.toRat)) :
    rayIntersectsTriangle o d a b c = false := by
  rcases h with h | h | ⟨hd, ⟨h1x, h1y, h1z⟩, ⟨h2x, h2y, h2z⟩, hp, hpar⟩ |
    ⟨ho, hd, ha, hb, hc, hcol⟩
  · rw [h]; exact rayIntersectsTriangle_zn _ _ _ _ _ (mtDet_zn_of_b_eq_a d a c)
  · rw [h]; exact rayIntersectsTriangle_zn _ _ _ _ _ (mtDet_zn_of_c_eq_a d a b)
  · rw [hd]
    exact rayIntersectsTriangle_zn _ _ _ _ _
      (mtDet_rayVector_parallel a b c h1x h1y h1z h2x h2y h2z hp hpar)
  · exact rayIntersectsTriangle_grid_collinear o d a b c ho hd ha hb hc hcol

/-- Claim C19, instances: a triangle whose second corner repeats the first, under a
slanted ray; three collinear points under the `+X` ray; and three collinear points in
integer coordinates under a slanted ray. -/
theorem C19_degenerate_triangle_witness :
    rayIntersectsTriangle (⟨-1, 0, 0, 1⟩ : Vertex F32) ⟨1, 2, 3, 0⟩
      ⟨1, 2, 3, 1⟩ ⟨1, 2, 3, 1⟩ ⟨5, 7, 4, 1⟩ = false ∧
    rayIntersectsTriangle (⟨-1, 1, 1, 1⟩ : Vertex F32) rayVector
      ⟨0, 0, 0, 1⟩ ⟨1, 1, 1, 1⟩ ⟨3, 3, 3, 1⟩ = false ∧
    rayIntersectsTriangle (⟨-1, 1, 1, 1⟩ : Vertex F32) ⟨1, 2, 3, 0⟩
      gridLineA gridLineB gridLineC = false :=
  ⟨C19_degenerate_triangle _ _ _ _ _ (Or.inl rfl),
   C19_degenerate_triangle _ _ _ _ _
    (Or.inr (Or.inr (Or.inl ⟨rfl, by decide!, by decide!, by decide!, by decide!⟩))),
   C19_degenerate_triangle _ _ _ _ _
    (Or.inr (Or.inr (Or.inr ⟨by decide!, by decide!, by decide!, by decide!, by decide!,
      gridLine_collinear⟩)))⟩

/-- Claim C19 fails in binary32 arithmetic: the points `sliverA`, `sliverB`, `sliverC` are
binary32 values and exactly collinear, yet `rayIntersectsTriangle` returns true for the
ray from `(-2, -1, -1)` with direction `(0, 0, 1)` (the computed determinant is `-4`). -/
theorem C19_counterexample :
    sliverA.IsFinite ∧ sliverB.IsFinite ∧ sliverC.IsFinite ∧
    Collinear sliverA.toRat sliverB.toRat sliverC.toRat ∧
    mtDet (⟨0, 0, 1, 0⟩ : Vertex F32) sliverA sliverB sliverC = F32.fin true 4 ∧
    rayIntersectsTriangle (⟨-2, -1, -1, 1⟩ : Vertex F32) ⟨0, 0, 1, 0⟩
      sliverA sliverB sliverC = true := by
  refine ⟨by decide!, by decide!, by decide!, ?_, by decide!, by decide!⟩
  rw [sliver_toRat.1, sliver_toRat.2.1, sliver_toRat.2.2]
  exact ⟨16777217, 1, 0, 1, -3, by norm_num, by norm_num, by norm_num, by norm_num,
    by norm_num, by norm_num⟩

/-- Every division of `calculateNormal` has a divisor that passed the test
`length != 0`. -/
theorem calculateNormalTraced_guard (a b c : Vertex F32) :
    ∀ p ∈ (calculateNormalTraced F32.sqrt a b c).2, (p.2 != 0) = true := by
  intro p hp
  unfold calculateNormalTraced at hp
  simp only [] at hp
  split at hp
  · rename_i hg
    simp only [List.mem_cons, List.mem_singleton, List.not_mem_nil, or_false] at hp
    rcases hp with rfl | rfl | rfl <;> exact hg
  · simp at hp

/-- Finite parallel computed edges with finite products give no division and three
zeros. -/
theorem calculateNormalTraced_parallel (a b c : Vertex F32)
    (hb : (b.x - a.x).IsFinite ∧ (b.y - a.y).IsFinite ∧ (b.z - a.z).IsFinite)
    (hc : (c.x - a.x).IsFinite ∧ (c.y - a.y).IsFinite ∧ (c.z - a.z).IsFinite)
    (hp : ((b.y - a.y) * (c.z - a.z)).IsFinite ∧ ((b.z - a.z) * (c.x - a.x)).IsFinite ∧
      ((b.x - a.x) * (c.y - a.y)).IsFinite)
    (he : (b.y - a.y).toRat * (c.z - a.z).toRat = (b.z - a.z).toRat * (c.y - a.y).toRat ∧
      (b.z - a.z).toRat * (c.x - a.x).toRat = (b.x - a.x).toRat * (c.z - a.z).toRat ∧
      (b.x - a.x).toRat * (c.y - a.y).toRat = (b.y - a.y).toRat * (c.x - a.x).toRat) :
    (calculateNormalTraced F32.sqrt a b c).2 = [] ∧
    ∃ s0 s1 s2, calculateNormal F32.sqrt a b c
      = (F32.fin s0 0, F32.fin s1 0, F32.fin s2 0) := by
  obtain ⟨bx, by1, bz⟩ := hb
  obtain ⟨cx, cy, cz⟩ := hc
  obtain ⟨p0, p1, p2⟩ := hp
  obtain ⟨e0, e1, e2⟩ := he
  obtain ⟨s0, h0⟩ := F32.parallel_sub _ _ _ _ by1 cz bz cy p0 e0
  obtain ⟨s1, h1⟩ := F32.parallel_sub _ _ _ _ bz cx bx cz p1 e1
  obtain ⟨s2, h2⟩ := F32.parallel_sub _ _ _ _ bx cy by1 cx p2 e2
  have h := calculateNormalTraced_zero a b c s0 s1 s2 h0 h1 h2
  refine ⟨by rw [h], s0, s1, s2, ?_⟩
  unfold calculateNormal
  rw [h]

/-- Collinear points with integer coordinates of magnitude at most 2048 give no division
and three zeros: the edges and their products are computed exactly. -/
theorem calculateNormalTraced_grid (a b c : Vertex F32) (ha : a.IsGrid 2048)
    (hb : b.IsGrid 2048) (hc : c.IsGrid 2048) (h : Collinear a.toRat b.toRat c.toRat) :
    (calculateNormalTraced F32.sqrt a b c).2 = [] ∧
    ∃ s0 s1 s2, calculateNormal F32.sqrt a b c
      = (F32.fin s0 0, F32.fin s1 0, F32.fin s2 0) := by
  obtain ⟨ax, ay, az⟩ := ha
  obtain ⟨bx, by1, bz⟩ := hb
  obtain ⟨cx, cy, cz⟩ := hc
  obtain ⟨ubx, ebx⟩ := F32.sub_int bx ax (by norm_num)
  obtain ⟨uby, eby⟩ := F32.sub_int by1 ay (by norm_num)
  obtain ⟨ubz, ebz⟩ := F32.sub_int bz az (by norm_num)
  obtain ⟨ucx, ecx⟩ := F32.sub_int cx ax (by norm_num)
  obtain ⟨ucy, ecy⟩ := F32.sub_int cy ay (by norm_num)
  obtain ⟨ucz, ecz⟩ := F32.sub_int cz az (by norm_num)
  obtain ⟨h1, h2, h3⟩ := (collinear_iff_cross _ _ _).mp h
  have X : ∀ v : Vertex F32, v.toRat.x = v.x.toRat := fun _ => rfl
  have Y : ∀ v : Vertex F32, v.toRat.y = v.y.toRat := fun _ => rfl
  have Z : ∀ v : Vertex F32, v.toRat.z = v.z.toRat := fun _ => rfl
  simp only [X, Y, Z] at h1 h2 h3
  refine calculateNormalTraced_parallel a b c ⟨ubx.1, uby.1, ubz.1⟩ ⟨ucx.1, ucy.1, ucz.1⟩
    ⟨(F32.mul_int uby ucz (by norm_num)).1.1, (F32.mul_int ubz ucx (by norm_num)).1.1,
      (F32.mul_int ubx ucy (by norm_num)).1.1⟩ ⟨?_, ?_, ?_⟩
  · rw [eby, ecz, ebz, ecy]; linarith
  · rw [ebz, ecx, ebx, ecz]; linarith
  · rw [ebx, ecy, eby, ecx]; linarith

/-! ## Claim C18: the normal of collinear points in binary32 arithmetic -/

/-- Claim C18 (amended). In binary32 arithmetic, for all points `a`, `b`, `c`: every
division `calculateNormal` performs has a divisor that passed the test `length != 0`;
when the computed edges `b - a`, `c - a` are finite and parallel and the computed products
`(b.y - a.y) * (c.z - a.z)`, `(b.z - a.z) * (c.x - a.x)`, `(b.x - a.x) * (c.y - a.y)` are
finite, `calculateNormal` performs no division and returns three zeros; and so it does for
every three collinear (or coincident) points whose coordinates are integers of magnitude
at most 2048. -/
theorem C18_collinear_normal (a b c : Vertex F32) :
    (∀ p ∈ (calculateNormalTraced F32.sqrt a b c).2, (p.2 != 0) = true) ∧
    (((b.x - a.x).IsFinite ∧ (b.y - a.y).IsFinite ∧ (b.z - a.z).IsFinite) →
     ((c.x - a.x).IsFinite ∧ (c.y - a.y).IsFinite ∧ (c.z - a.z).IsFinite) →
     (((b.y - a.y) * (c.z - a.z)).IsFinite ∧ ((b.z - a.z) * (c.x - a.x)).IsFinite ∧
       ((b.x - a.x) * (c.y - a.y)).IsFinite) →
     ((b.y - a.y).toRat * (c.z - a.z).toRat = (b.z - a.z).toRat * (c.y - a.y).toRat ∧
       (b.z - a.z).toRat * (c.x - a.x).toRat = (b.x - a.x).toRat * (c.z - a.z).toRat ∧
       (b.x - a.x).toRat * (c.y - a.y).toRat = (b.y - a.y).toRat * (c.x - a.x).toRat) →
     (calculateNormalTraced F32.sqrt a b c).2 = [] ∧
     ∃ s0 s1 s2, calculateNormal F32.sqrt a b c
       = (F32.fin s0 0, F32.fin s1 0, F32.fin s2 0)) ∧
    (a.IsGrid 2048 → b.IsGrid 2048 → c.IsGrid 2048 →
      Collinear a.toRat b.toRat c.toRat →
      (calculateNormalTraced F32.sqrt a b c).2 = [] ∧
      ∃ s0 s1 s2, calculateNormal F32.sqrt a b c
        = (F32.fin s0 0, F32.fin s1 0, F32.fin s2 0)) :=
  ⟨calculateNormalTraced_guard a b c, calculateNormalTraced_parallel a b c,
    calculateNormalTraced_grid a b c⟩

/-- Claim C18, instances: three collinear points `(0,0,0)`, `(1,2,3)`, `(3,6,9)` give no
division and three zeros; for the corners of a right triangle the three divisions have the
divisor 1; and the collinear points `(0,0,0)`, `(1,1,1)`, `(3,3,3)` give no division and
three zeros. -/
theorem C18_collinear_normal_witness :
    ((calculateNormalTraced F32.sqrt (⟨0, 0, 0, 1⟩ : Vertex F32) ⟨1, 2, 3, 1⟩
        ⟨3, 6, 9, 1⟩).2 = [] ∧
      ∃ s0 s1 s2, calculateNormal F32.sqrt (⟨0, 0, 0, 1⟩ : Vertex F32) ⟨1, 2, 3, 1⟩
        ⟨3, 6, 9, 1⟩ = (F32.fin s0 0, F32.fin s1 0, F32.fin s2 0)) ∧
    (∀ p ∈ (calculateNormalTraced F32.sqrt (⟨0, 0, 0, 1⟩ : Vertex F32) ⟨1, 0, 0, 1⟩
        ⟨0, 1, 0, 1⟩).2, (p.2 != 0) = true) ∧
    (calculateNormalTraced F32.sqrt (⟨0, 0, 0, 1⟩ : Vertex F32) ⟨1, 0, 0, 1⟩
        ⟨0, 1, 0, 1⟩).2.length = 3 ∧
    ((calculateNormalTraced F32.sqrt gridLineA gridLineB gridLineC).2 = [] ∧
      ∃ s0 s1 s2, calculateNormal F32.sqrt gridLineA gridLineB gridLineC
        = (F32.fin s0 0, F32.fin s1 0, F32.fin s2 0)) :=
  ⟨(C18_collinear_normal ⟨0, 0, 0, 1⟩ ⟨1, 2, 3, 1⟩ ⟨3, 6, 9, 1⟩).2.1
      (by decide!) (by decide!) (by decide!) (by decide!),
    (C18_collinear_normal ⟨0, 0, 0, 1⟩ ⟨1, 0, 0, 1⟩ ⟨0, 1, 0, 1⟩).1, by decide!,
    (C18_collinear_normal gridLineA gridLineB gridLineC).2.2 (by decide!) (by decide!)
      (by decide!) gridLine_collinear⟩

/-- Claim C18 fails in binary32 arithmetic: the points `sliverA`, `sliverB`, `sliverC` are
binary32 values and exactly collinear, yet `calculateNormal` performs its three divisions
(by the length 4) and returns `(0, -0, 1)`, not the zero vector. -/
theorem C18_counterexample :
    sliverA.IsFinite ∧ sliverB.IsFinite ∧ sliverC.IsFinite ∧
    Collinear sliverA.toRat sliverB.toRat sliverC.toRat ∧
    calculateNormalTraced F32.sqrt sliverA sliverB sliverC
      = ((F32.fin false 0, F32.fin true 0, F32.fin false 1),
         [(F32.fin false 0, F32.fin false 4), (F32.fin true 0, F32.fin false 4),
          (F32.fin false 4, F32.fin false 4)]) ∧
    calculateNormal F32.sqrt sliverA sliverB sliverC
      = (F32.fin false 0, F32.fin true 0, F32.fin false 1) := by
  refine ⟨by decide!, by decide!, by decide!, ?_, by decide!, by decide!⟩
  rw [sliver_toRat.1, sliver_toRat.2.1, sliver_toRat.2.2]
  exact ⟨16777217, 1, 0, 1, -3, by norm_num, by norm_num, by norm_num, by norm_num,
    by norm_num, by norm_num⟩

/-! ## Counting faces -/

theorem exists_min_of_mem {α : Type} (τ : α → ℚ) :
    ∀ (l : List α) (x : α), x ∈ l → ∃ y ∈ l, ∀ z ∈ l, τ y ≤ τ z
  | [], x, h => absurd h (List.not_mem_nil x)
  | [a], _, _ => ⟨a, List.mem_singleton.mpr rfl, fun z hz => by
      rw [List.mem_singleton.mp hz]⟩
  | a :: b :: rest, _, _ => by
      obtain ⟨y, hy, hmin⟩ := exists_min_of_mem τ (b :: rest) b (List.mem_cons_self _ _)
      by_cases h : τ a ≤ τ y
      · refine ⟨a, List.mem_cons_self _ _, fun z hz => ?_⟩
        rcases List.mem_cons.mp hz with rfl | hz
        · exact le_rfl
        · exact le_trans h (hmin z hz)
      · refine ⟨y, List.mem_cons_of_mem _ hy, fun z hz => ?_⟩
        rcases List.mem_cons.mp hz with rfl | hz
        · exact le_of_lt (not_le.mp h)
        · exact hmin z hz

theorem countP_eq_one_of_unique {α : Type} (P : α → Bool) :
    ∀ (l : List α) (x : α), l.Nodup → x ∈ l → P x = true →
      (∀ y ∈ l, P y = true → y = x) → l.countP P = 1
  | [], x, _, h, _, _ => absurd h (List.not_mem_nil x)
  | a :: rest, x, hn, hx, hP, hu => by
      obtain ⟨ha, hrest⟩ := List.nodup_cons.mp hn
      rcases List.mem_cons.mp hx with rfl | hx
      · rw [List.countP_cons_of_pos _ _ hP]
        have : rest.countP P = 0 := by
          rw [List.countP_eq_zero]
          intro y hy hPy
          have := hu y (List.mem_cons_of_mem _ hy) hPy
          rw [this] at hy
          exact ha hy
        rw [this]
      · have hax : P a ≠ true := by
          intro hPa
          have := hu a (List.mem_cons_self _ _) hPa
          rw [this] at ha
          exact ha hx
        rw [List.countP_cons_of_neg _ _ hax]
        exact countP_eq_one_of_unique P rest x hrest hx hP
          (fun y hy => hu y (List.mem_cons_of_mem _ hy))

theorem countP_eq_two_of_pair {α : Type} (P : α → Bool) :
    ∀ (l : List α) (x y : α), l.Nodup → x ∈ l → y ∈ l → x ≠ y → P x = true → P y = true →
      (∀ z ∈ l, P z = true → z = x ∨ z = y) → l.countP P = 2
  | [], x, _, _, h, _, _, _, _, _ => absurd h (List.not_mem_nil x)
  | a :: rest, x, y, hn, hx, hy, hxy, hPx, hPy, hu => by
      obtain ⟨ha, hrest⟩ := List.nodup_cons.mp hn
      by_cases hPa : P a = true
      · rw [List.countP_cons_of_pos _ _ hPa]
        rcases hu a (List.mem_cons_self _ _) hPa with e | e
        · -- a = x, so y is in the rest and is the only one there
          have hy' : y ∈ rest := by
            rcases List.mem_cons.mp hy with h | h
            · exact absurd (e.symm.trans h.symm).symm (fun h' => hxy h'.symm)
            · exact h
          rw [countP_eq_one_of_unique P rest y hrest hy' hPy (fun z hz hPz => by
            rcases hu z (List.mem_cons_of_mem _ hz) hPz with h | h
            · rw [h, ← e] at hz; exact absurd hz ha
            · exact h)]
        · have hx' : x ∈ rest := by
            rcases List.mem_cons.mp hx with h | h
            · exact absurd (h.trans e) hxy
            · exact h
          rw [countP_eq_one_of_unique P rest x hrest hx' hPx (fun z hz hPz => by
            rcases hu z (List.mem_cons_of_mem _ hz) hPz with h | h
            · exact h
            · rw [h, ← e] at hz; exact absurd hz ha)]
      · rw [List.countP_cons_of_neg _ _ hPa]
        have hx' : x ∈ rest := by
          rcases List.mem_cons.mp hx with h | h
          · rw [h] at hPx; exact absurd hPx hPa
          · exact h
        have hy' : y ∈ rest := by
          rcases List.mem_cons.mp hy with h | h
          · rw [h] at hPy; exact absurd hPy hPa
          · exact h
        exact countP_eq_two_of_pair P rest x y hrest hx' hy' hxy hPx hPy
          (fun z hz => hu z (List.mem_cons_of_mem _ hz))

/-! ## Crossings of a line with a convex body -/

theorem slope_pos_le {c n t s : ℚ} (hn : 0 < n) (h1 : c + t * n ≤ 0) (h2 : c + s * n = 0) :
    t ≤ s := by
  by_contra h
  push_neg at h
  nlinarith

theorem slope_neg_le {c n t s : ℚ} (hn : n < 0) (h1 : c + t * n ≤ 0) (h2 : c + s * n = 0) :
    s ≤ t := by
  by_contra h
  push_neg at h
  nlinarith

theorem slope_pos_inside {c n t s : ℚ} (hn : 0 < n) (h1 : t ≤ s) (h2 : c + s * n = 0) :
    c + t * n ≤ 0 := by nlinarith

theorem slope_neg_inside {c n t s : ℚ} (hn : n < 0) (h1 : s ≤ t) (h2 : c + s * n = 0) :
    c + t * n ≤ 0 := by nlinarith

theorem crossing_param {c n : ℚ} (hn : n ≠ 0) : c + -c / n * n = 0 := by
  rw [div_mul_cancel₀ _ hn]; ring

/-- A line `t ↦ c f + t * n f` per face `f`, the body being where all are at most 0. For a
start inside the body, in general position, exactly one face is crossed at a positive
parameter within the body. -/
theorem crossing_interior {α : Type} (fs : List α) (c n : α → ℚ) (counted : α → Bool)
    (hnd : fs.Nodup) (hpos : ∃ f ∈ fs, 0 < n f) (hin : ∀ f ∈ fs, c f < 0)
    (hG : ∀ t, 0 < t → (∀ g ∈ fs, c g + t * n g ≤ 0) → ∀ f ∈ fs, c f + t * n f = 0 →
      n f ≠ 0 ∧ ∀ g ∈ fs, g ≠ f → c g + t * n g ≠ 0)
    (hc : ∀ f ∈ fs, (counted f = true ↔
      ∃ t, 0 < t ∧ (∀ g ∈ fs, c g + t * n g ≤ 0) ∧ c f + t * n f = 0)) :
    fs.countP counted = 1 := by
  obtain ⟨f0, hf0, hn0⟩ := hpos
  have hf0E : f0 ∈ fs.filter (fun f => decide (0 < n f)) :=
    List.mem_filter.mpr ⟨hf0, by simpa using hn0⟩
  obtain ⟨fx, hfxE, hmin⟩ := exists_min_of_mem (fun f => -c f / n f) _ f0 hf0E
  obtain ⟨hfx, hnx⟩ := List.mem_filter.mp hfxE
  have hnx : 0 < n fx := by simpa using hnx
  have hcx : c fx + -c fx / n fx * n fx = 0 := crossing_param (ne_of_gt hnx)
  have htx : 0 < -c fx / n fx := div_pos (neg_pos.mpr (hin fx hfx)) hnx
  generalize -c fx / n fx = tx at hcx htx hmin
  have hP : ∀ g ∈ fs, c g + tx * n g ≤ 0 := by
    intro g hg
    by_cases hng : 0 < n g
    · have hgE : g ∈ fs.filter (fun f => decide (0 < n f)) :=
        List.mem_filter.mpr ⟨hg, by simpa using hng⟩
      exact slope_pos_inside hng (hmin g hgE) (crossing_param (ne_of_gt hng))
    · have h1 := hin g hg
      have h2 : tx * n g ≤ 0 := mul_nonpos_of_nonneg_of_nonpos (le_of_lt htx) (not_lt.mp hng)
      linarith
  refine countP_eq_one_of_unique counted fs fx hnd hfx ((hc fx hfx).mpr ⟨tx, htx, hP, hcx⟩) ?_
  intro y hy hcy
  obtain ⟨t, ht, hPt, hy0⟩ := (hc y hy).mp hcy
  have hny : 0 < n y := by
    by_contra h
    have h1 := hin y hy
    have h2 : t * n y ≤ 0 := mul_nonpos_of_nonneg_of_nonpos (le_of_lt ht) (not_lt.mp h)
    linarith
  have e1 : t ≤ tx := slope_pos_le hnx (hPt fx hfx) hcx
  have e2 : tx ≤ t := slope_pos_le hny (hP y hy) hy0
  have e : t = tx := le_antisymm e1 e2
  rw [e] at hy0
  by_contra hne
  exact (hG tx htx hP fx hfx hcx).2 y hy hne hy0

/-- For a start outside the body, in general position, no face or exactly two faces are
crossed at a positive parameter within the body. -/
theorem crossing_exterior {α : Type} (fs : List α) (c n : α → ℚ) (counted : α → Bool)
    (hnd : fs.Nodup) (hpos : ∃ f ∈ fs, 0 < n f) (hout : ∃ f ∈ fs, 0 < c f)
    (hG : ∀ t, 0 < t → (∀ g ∈ fs, c g + t * n g ≤ 0) → ∀ f ∈ fs, c f + t * n f = 0 →
      n f ≠ 0 ∧ ∀ g ∈ fs, g ≠ f → c g + t * n g ≠ 0)
    (hc : ∀ f ∈ fs, (counted f = true ↔
      ∃ t, 0 < t ∧ (∀ g ∈ fs, c g + t * n g ≤ 0) ∧ c f + t * n f = 0)) :
    fs.countP counted = 0 ∨ fs.countP counted = 2 := by
  by_cases hex : ∃ f ∈ fs, counted f = true
  · right
    obtain ⟨f, hf, hcf⟩ := hex
    obtain ⟨t, ht, hPt, _⟩ := (hc f hf).mp hcf
    obtain ⟨f0, hf0, hn0⟩ := hpos
    obtain ⟨g0, hg0, hc0⟩ := hout
    have hng0 : n g0 < 0 := by
      by_contra h
      have h1 := hPt g0 hg0
      have h2 : 0 ≤ t * n g0 := mul_nonneg (le_of_lt ht) (not_lt.mp h)
      linarith
    have hf0E : f0 ∈ fs.filter (fun f => decide (0 < n f)) :=
      List.mem_filter.mpr ⟨hf0, by simpa using hn0⟩
    have hg0E : g0 ∈ fs.filter (fun f => decide (n f < 0)) :=
      List.mem_filter.mpr ⟨hg0, by simpa using hng0⟩
    obtain ⟨fx, hfxE, hmin⟩ := exists_min_of_mem (fun f => -c f / n f) _ f0 hf0E
    obtain ⟨fe, hfeE, hmax⟩ := exists_min_of_mem (fun f => -(-c f / n f)) _ g0 hg0E
    obtain ⟨hfx, hnx⟩ := List.mem_filter.mp hfxE
    obtain ⟨hfe, hne⟩ := List.mem_filter.mp hfeE
    have hnx : 0 < n fx := by simpa using hnx
    have hne : n fe < 0 := by simpa using hne
    have hcx : c fx + -c fx / n fx * n fx = 0 := crossing_param (ne_of_gt hnx)
    have hce : c fe + -c fe / n fe * n fe = 0 := crossing_param (ne_of_lt hne)
    have hmax' : ∀ z ∈ fs.filter (fun f => decide (n f < 0)), -c z / n z ≤ -c fe / n fe :=
      fun z hz => neg_le_neg_iff.mp (hmax z hz)
    have h0e : -c g0 / n g0 ≤ -c fe / n fe := hmax' g0 hg0E
    have hg0pos : 0 < -c g0 / n g0 := div_pos_of_neg_of_neg (neg_neg_of_pos hc0) hng0
    generalize -c fx / n fx = tx at hcx hmin
    generalize -c fe / n fe = te at hce hmax' h0e
    have htx : t ≤ tx := slope_pos_le hnx (hPt fx hfx) hcx
    have hte : te ≤ t := slope_neg_le hne (hPt fe hfe) hce
    have htx0 : 0 < tx := lt_of_lt_of_le ht htx
    have hte0 : 0 < te := lt_of_lt_of_le hg0pos h0e
    have hPx : ∀ g ∈ fs, c g + tx * n g ≤ 0 := by
      intro g hg
      rcases lt_trichotomy (n g) 0 with hn | hn | hn
      · have e := crossing_param (c := c g) (ne_of_lt hn)
        have h1 : -c g / n g ≤ t := slope_neg_le hn (hPt g hg) e
        exact slope_neg_inside hn (le_trans h1 htx) e
      · have := hPt g hg
        rw [hn, mul_zero] at this ⊢
        exact this
      · have hgE : g ∈ fs.filter (fun f => decide (0 < n f)) :=
          List.mem_filter.mpr ⟨hg, by simpa using hn⟩
        exact slope_pos_inside hn (hmin g hgE) (crossing_param (ne_of_gt hn))
    have hPe : ∀ g ∈ fs, c g + te * n g ≤ 0 := by
      intro g hg
      rcases lt_trichotomy (n g) 0 with hn | hn | hn
      · have hgE : g ∈ fs.filter (fun f => decide (n f < 0)) :=
          List.mem_filter.mpr ⟨hg, by simpa using hn⟩
        exact slope_neg_inside hn (hmax' g hgE) (crossing_param (ne_of_lt hn))
      · have := hPt g hg
        rw [hn, mul_zero] at this ⊢
        exact this
      · have e := crossing_param (c := c g) (ne_of_gt hn)
        have h1 : t ≤ -c g / n g := slope_pos_le hn (hPt g hg) e
        exact slope_pos_inside hn (le_trans hte h1) e
    have hxe : fx ≠ fe := by
      intro h
      rw [h] at hnx
      exact absurd hnx (not_lt.mpr (le_of_lt hne))
    refine countP_eq_two_of_pair counted fs fx fe hnd hfx hfe hxe
      ((hc fx hfx).mpr ⟨tx, htx0, hPx, hcx⟩) ((hc fe hfe).mpr ⟨te, hte0, hPe, hce⟩) ?_
    intro z hz hcz
    obtain ⟨s, hs, hPs, hz0⟩ := (hc z hz).mp hcz
    have hnz := (hG s hs hPs z hz hz0).1
    rcases lt_or_gt_of_ne hnz with hn | hn
    · right
      have e1 : te ≤ s := slope_neg_le hne (hPs fe hfe) hce
      have e2 : s ≤ te := slope_neg_le hn (hPe z hz) hz0
      have e : s = te := le_antisymm e2 e1
      rw [e] at hz0
      by_contra hne'
      exact (hG te hte0 hPe fe hfe hce).2 z hz hne' hz0
    · left
      have e1 : s ≤ tx := slope_pos_le hnx (hPs fx hfx) hcx
      have e2 : tx ≤ s := slope_pos_le hn (hPx z hz) hz0
      have e : s = tx := le_antisymm e1 e2
      rw [e] at hz0
      by_contra hne'
      exact (hG tx htx0 hPx fx hfx hcx).2 z hz hne' hz0
  · left
    rw [List.countP_eq_zero]
    intro f hf hcf
    exact hex ⟨f, hf, hcf⟩

/-! ## Closed convex meshes -/

theorem HalfSpace.eval_rayPoint (h : HalfSpace) (p : Vertex ℚ) (t : ℚ) :
    h.eval (rayPoint p t) = h.eval p + t * h.nx := by
  unfold HalfSpace.eval rayPoint
  ring

theorem HalfSpace.eval_pointAt (h : HalfSpace) (x a b c : Vertex ℚ) (u v : ℚ)
    (hx : PointAt x a b c u v) :
    h.eval x = (1 - u - v) * h.eval a + u * h.eval b + v * h.eval c := by
  obtain ⟨h1, h2, h3⟩ := hx
  unfold HalfSpace.eval
  rw [h1, h2, h3]
  ring

theorem meetsAt_rayPoint (p a b c : Vertex ℚ) (t u v : ℚ) :
    MeetsAt p ⟨1, 0, 0, 0⟩ a b c t u v ↔ PointAt (rayPoint p t) a b c u v := by
  unfold MeetsAt PointAt rayPoint
  simp only [mul_one, mul_zero, add_zero]

theorem faceCounted_iff (m : Model F32) (p : Vertex F32) (f : Face) :
    faceCounted m p f = true ↔
      ∃ i ∈ List.range' 1 (f.vertices.length - 2), ∃ a b c,
        cornerAt m f 0 = some a ∧ cornerAt m f i = some b ∧ cornerAt m f (i + 1) = some c ∧
        ¬ max (max a.x b.x) c.x < p.x ∧ rayIntersectsTriangle p rayVector a b c = true := by
  unfold faceCounted
  rw [List.any_eq_true]
  constructor
  · rintro ⟨i, hi, h⟩
    refine ⟨i, hi, ?_⟩
    unfold fanCounted at h
    cases h0 : cornerAt m f 0 with
    | none => rw [h0] at h; exact absurd h (by simp)
    | some a =>
      cases h1 : cornerAt m f i with
      | none => rw [h0, h1] at h; exact absurd h (by simp)
      | some b =>
        cases h2 : cornerAt m f (i + 1) with
        | none => rw [h0, h1, h2] at h; exact absurd h (by simp)
        | some c =>
          rw [h0, h1, h2] at h
          simp only [Bool.and_eq_true, Bool.not_eq_true', decide_eq_false_iff_not] at h
          exact ⟨a, b, c, rfl, rfl, rfl, h.1, h.2⟩
  · rintro ⟨i, hi, a, b, c, h0, h1, h2, hs, hr⟩
    refine ⟨i, hi, ?_⟩
    unfold fanCounted
    rw [h0, h1, h2]
    simp only [Bool.and_eq_true, Bool.not_eq_true', decide_eq_false_iff_not]
    exact ⟨hs, hr⟩

/-- On the integer grid a counted face of a convex mesh has a point of the ray, at a
positive parameter, that lies on its plane and in the body. -/
theorem faceCounted_crossing (m : Model F32) (p : Vertex F32) (plane : Face → HalfSpace)
    (hm : m.IsGrid 32) (hp : p.IsGrid 32) (hc : IsConvexMesh m plane) (f : Face)
    (hf : f ∈ m.faces) (h : faceCounted m p f = true) :
    ∃ t : ℚ, 0 < t ∧ (∀ g ∈ m.faces, (plane g).eval (rayPoint p.toRat t) ≤ (plane g).k) ∧
      (plane f).eval (rayPoint p.toRat t) = (plane f).k := by
  obtain ⟨i, _, a, b, c, h0, h1, h2, hskip, hr⟩ := (faceCounted_iff m p f).mp h
  clear hskip
  obtain ⟨t, u, v, ht, hu, hv, huv, hmeet⟩ :=
    rayIntersectsTriangle_grid_hit p rayVector a b c hp rayVector_isGrid
      (hm a (cornerAt_mem m f 0 a h0)) (hm b (cornerAt_mem m f i b h1))
      (hm c (cornerAt_mem m f (i + 1) c h2)) hr
  rw [rayVector_toRat, meetsAt_rayPoint] at hmeet
  obtain ⟨_, _, hcorner, _⟩ := hc
  obtain ⟨ea, ia⟩ := hcorner f hf 0 a h0
  obtain ⟨eb, ib⟩ := hcorner f hf i b h1
  obtain ⟨ec, ic⟩ := hcorner f hf (i + 1) c h2
  have hpos : (0 : ℚ) < 1 / 2 ^ 23 := by positivity
  refine ⟨t, lt_trans hpos ht, fun g hg => ?_, ?_⟩
  · rw [HalfSpace.eval_pointAt (plane g) _ _ _ _ u v hmeet]
    have h1 := ia g hg
    have h2 := ib g hg
    have h3 := ic g hg
    nlinarith [mul_nonneg hu (sub_nonneg.mpr h2), mul_nonneg hv (sub_nonneg.mpr h3),
      mul_nonneg (sub_nonneg.mpr huv) (sub_nonneg.mpr h1)]
  · rw [HalfSpace.eval_pointAt (plane f) _ _ _ _ u v hmeet, ea, eb, ec]
    ring

/-- On the integer grid a face of a convex mesh is counted when a point of the ray, at a
positive parameter, lies on its plane and strictly inside all other half-spaces, the
plane not being parallel to the ray. -/
theorem faceCounted_of_crossing (m : Model F32) (p : Vertex F32) (plane : Face → HalfSpace)
    (hm : m.IsGrid 32) (hp : p.IsGrid 32) (hc : IsConvexMesh m plane) (f : Face)
    (hf : f ∈ m.faces) (t : ℚ) (ht : 0 < t) (hn : (plane f).nx ≠ 0)
    (hon : (plane f).eval (rayPoint p.toRat t) = (plane f).k)
    (hin : ∀ g ∈ m.faces, g ≠ f → (plane g).eval (rayPoint p.toRat t) < (plane g).k) :
    faceCounted m p f = true := by
  obtain ⟨_, _, hcorner, hcover⟩ := hc
  obtain ⟨i, hi, a, b, c, h0, h1, h2, hnc, u, v, hu, hv, huv, hpt⟩ :=
    hcover f hf hn (rayPoint p.toRat t) hon hin
  have ga := hm a (cornerAt_mem m f 0 a h0)
  have gb := hm b (cornerAt_mem m f i b h1)
  have gc := hm c (cornerAt_mem m f (i + 1) c h2)
  have ea := (hcorner f hf 0 a h0).1
  have eb := (hcorner f hf i b h1).1
  have ec := (hcorner f hf (i + 1) c h2).1
  have hnp : ¬ RayInPlane p.toRat (rayVector : Vertex F32).toRat a.toRat b.toRat c.toRat := by
    intro hplane
    rw [rayVector_toRat] at hplane
    obtain ⟨u0, v0, m0⟩ := hplane 0 le_rfl
    obtain ⟨u1, v1, m1⟩ := hplane 1 zero_le_one
    rw [meetsAt_rayPoint] at m0 m1
    have e0 := HalfSpace.eval_pointAt (plane f) _ _ _ _ u0 v0 m0
    have e1 := HalfSpace.eval_pointAt (plane f) _ _ _ _ u1 v1 m1
    rw [HalfSpace.eval_rayPoint, ea, eb, ec] at e0 e1
    apply hn
    linarith
  have hr : rayIntersectsTriangle p rayVector a b c = true := by
    refine rayIntersectsTriangle_grid_enters p rayVector a b c hp rayVector_isGrid ga gb gc
      hnc hnp t u v ht hu hv huv ?_
    rw [rayVector_toRat, meetsAt_rayPoint]
    exact hpt
  refine (faceCounted_iff m p f).mpr ⟨i, hi, a, b, c, h0, h1, h2, fun hs => ?_, hr⟩
  rw [rayIntersectsTriangle_grid_behind p a b c hp ga gb gc hs] at hr
  exact absurd hr (by decide)

/-- On the integer grid, for a convex mesh and a ray in general position, a face is
counted exactly when the ray crosses it: a point of the ray at a positive parameter lies
on the plane of the face and in the body. -/
theorem faceCounted_iff_crossing (m : Model F32) (p : Vertex F32) (plane : Face → HalfSpace)
    (hm : m.IsGrid 32) (hp : p.IsGrid 32) (hc : IsConvexMesh m plane)
    (hg : RayInGeneralPosition m plane p.toRat) (f : Face) (hf : f ∈ m.faces) :
    faceCounted m p f = true ↔
      ∃ t : ℚ, 0 < t ∧
        (∀ g ∈ m.faces, ((plane g).eval p.toRat - (plane g).k) + t * (plane g).nx ≤ 0) ∧
        ((plane f).eval p.toRat - (plane f).k) + t * (plane f).nx = 0 := by
  constructor
  · intro h
    obtain ⟨t, ht, hP, hon⟩ := faceCounted_crossing m p plane hm hp hc f hf h
    refine ⟨t, ht, fun g hg' => ?_, ?_⟩
    · have := hP g hg'
      rw [HalfSpace.eval_rayPoint] at this
      linarith
    · rw [HalfSpace.eval_rayPoint] at hon
      linarith
  · rintro ⟨t, ht, hP, hon⟩
    have hP' : ∀ g ∈ m.faces, (plane g).eval (rayPoint p.toRat t) ≤ (plane g).k := by
      intro g hg'
      have := hP g hg'
      rw [HalfSpace.eval_rayPoint]
      linarith
    have hon' : (plane f).eval (rayPoint p.toRat t) = (plane f).k := by
      rw [HalfSpace.eval_rayPoint]
      linarith
    obtain ⟨hn, hne⟩ := hg t ht hP' f hf hon'
    exact faceCounted_of_crossing m p plane hm hp hc f hf t ht hn hon'
      (fun g hg' hgf => lt_of_le_of_ne (hP' g hg') (hne g hg' hgf))

theorem generalPosition_abstract (m : Model F32) (plane : Face → HalfSpace) (p : Vertex ℚ)
    (hg : RayInGeneralPosition m plane p) :
    ∀ t, 0 < t →
      (∀ g ∈ m.faces, ((plane g).eval p - (plane g).k) + t * (plane g).nx ≤ 0) →
      ∀ f ∈ m.faces, ((plane f).eval p - (plane f).k) + t * (plane f).nx = 0 →
        (plane f).nx ≠ 0 ∧
        ∀ g ∈ m.faces, g ≠ f → ((plane g).eval p - (plane g).k) + t * (plane g).nx ≠ 0 := by
  intro t ht hP f hf hon
  have hP' : ∀ g ∈ m.faces, (plane g).eval (rayPoint p t) ≤ (plane g).k := by
    intro g hg'
    have := hP g hg'
    rw [HalfSpace.eval_rayPoint]
    linarith
  have hon' : (plane f).eval (rayPoint p t) = (plane f).k := by
    rw [HalfSpace.eval_rayPoint]
    linarith
  obtain ⟨hn, hne⟩ := hg t ht hP' f hf hon'
  refine ⟨hn, fun g hg' hgf h0 => hne g hg' hgf ?_⟩
  rw [HalfSpace.eval_rayPoint]
  linarith

/-- On the integer grid, for a closed convex mesh and a point strictly inside it whose
`+X` ray is in general position, `isPointInside` returns true. -/
theorem isPointInside_convex_interior (m : Model F32) (p : Vertex F32)
    (plane : Face → HalfSpace) (hm : m.IsGrid 32) (hp : p.IsGrid 32)
    (hv : ValidVertexIndices m) (hn : m.faces.length < 2 ^ (31 : Nat))
    (hc : IsConvexMesh m plane) (hg : RayInGeneralPosition m plane p.toRat)
    (hin : ∀ f ∈ m.faces, (plane f).eval p.toRat < (plane f).k) :
    isPointInside m p = some true := by
  have hcount := crossing_interior m.faces
    (fun f => (plane f).eval p.toRat - (plane f).k) (fun f => (plane f).nx)
    (faceCounted m p) hc.1 hc.2.1 (fun f hf => sub_neg.mpr (hin f hf))
    (generalPosition_abstract m plane p.toRat hg)
    (fun f hf => faceCounted_iff_crossing m p plane hm hp hc hg f hf)
  rw [isPointInside_parity m p hv hn, hcount]
  rfl

/-- On the integer grid, for a closed convex mesh and a point strictly outside it whose
`+X` ray is in general position, `isPointInside` returns false. -/
theorem isPointInside_convex_exterior (m : Model F32) (p : Vertex F32)
    (plane : Face → HalfSpace) (hm : m.IsGrid 32) (hp : p.IsGrid 32)
    (hv : ValidVertexIndices m) (hn : m.faces.length < 2 ^ (31 : Nat))
    (hc : IsConvexMesh m plane) (hg : RayInGeneralPosition m plane p.toRat)
    (hout : ∃ f ∈ m.faces, (plane f).k < (plane f).eval p.toRat) :
    isPointInside m p = some false := by
  obtain ⟨f0, hf0, h0⟩ := hout
  have hcount := crossing_exterior m.faces
    (fun f => (plane f).eval p.toRat - (plane f).k) (fun f => (plane f).nx)
    (faceCounted m p) hc.1 hc.2.1 ⟨f0, hf0, sub_pos.mpr h0⟩
    (generalPosition_abstract m plane p.toRat hg)
    (fun f hf => faceCounted_iff_crossing m p plane hm hp hc hg f hf)
  rw [isPointInside_parity m p hv hn]
  rcases hcount with h | h <;> rw [h] <;> rfl

/-! ## Cube meshes in rational coordinates -/

theorem vertexAt_toRat (m : Model F32) (idx : Int) :
    m.toRat.vertexAt idx = (m.vertexAt idx).map Vertex.toRat := by
  unfold Model.vertexAt Model.toRat
  simp only [List.getElem?_map]

theorem cornerAt_toRat (m : Model F32) (f : Face) (k : Nat) :
    cornerAt m.toRat f k = (cornerAt m f k).map Vertex.toRat := by
  unfold cornerAt
  cases f.vertices[k]? with
  | none => rfl
  | some c => simp only [Option.some_bind, vertexAt_toRat]

/-- A face of a cube mesh: its four corners and their positions. -/
theorem cubeFace_corners (m : Model ℚ) (o : ℚ × ℚ × ℚ) (s : ℚ) (j : Fin 6) (f : Face)
    (h : IsCubeFace m o s j f) :
    ∃ v0 v1 v2 v3 : Vertex ℚ, f.vertices.length = 4 ∧
      facePositions m f = some [v0.xyz, v1.xyz, v2.xyz, v3.xyz] ∧
      cornerAt m f 0 = some v0 ∧ cornerAt m f 1 = some v1 ∧
      cornerAt m f 2 = some v2 ∧ cornerAt m f 3 = some v3 ∧
      IsCyclicListing [v0.xyz, v1.xyz, v2.xyz, v3.xyz] (cubeFace o s j) := by
  obtain ⟨ps, hp, hc⟩ := h
  have hlen : ps.length = 4 := by
    obtain ⟨k, hk | hk⟩ := hc <;> rw [hk] <;> fin_cases j <;> simp [cubeFace]
  obtain ⟨q0, q1, q2, q3, rfl⟩ : ∃ q0 q1 q2 q3, ps = [q0, q1, q2, q3] := by
    match ps, hlen with
    | [q0, q1, q2, q3], _ => exact ⟨q0, q1, q2, q3, rfl⟩
  obtain ⟨c0, c1, c2, c3, v0, v1, v2, v3, hf, h0, h1, h2, h3, x0, x1, x2, x3⟩ :=
    facePositions_four hp
  refine ⟨v0, v1, v2, v3, by rw [hf]; rfl, by rw [x0, x1, x2, x3]; exact hp, ?_, ?_, ?_, ?_,
    by rw [x0, x1, x2, x3]; exact hc⟩
  · simp [cornerAt, hf, h0]
  · simp [cornerAt, hf, h1]
  · simp [cornerAt, hf, h2]
  · simp [cornerAt, hf, h3]

theorem cyclicListing_mem {α : Type} {l ref : List α} (h : IsCyclicListing l ref) (x : α)
    (hx : x ∈ l) : x ∈ ref := by
  obtain ⟨k, hk | hk⟩ := h
  · rw [hk, List.mem_rotate] at hx; exact hx
  · rw [hk, List.mem_rotate, List.mem_reverse] at hx; exact hx

/-- Every corner of a face of a cube mesh is one of the four corners of that side of the
cube. -/
theorem cubeFace_corner_mem (m : Model F32) (o : ℚ × ℚ × ℚ) (s : ℚ) (j : Fin 6) (f : Face)
    (h : IsCubeFace m.toRat o s j f) (k : Nat) (a : Vertex F32)
    (ha : cornerAt m f k = some a) : a.toRat.xyz ∈ cubeFace o s j := by
  obtain ⟨v0, v1, v2, v3, hlen, _, h0, h1, h2, h3, hc⟩ := cubeFace_corners m.toRat o s j f h
  have hk : cornerAt m.toRat f k = some a.toRat := by rw [cornerAt_toRat, ha]; rfl
  have hk4 : k < 4 := by
    by_contra hge
    have : f.vertices[k]? = none := by
      rw [List.getElem?_eq_none_iff]; omega
    unfold cornerAt at ha
    rw [this] at ha
    exact absurd ha (by simp)
  apply cyclicListing_mem hc
  have : k = 0 ∨ k = 1 ∨ k = 2 ∨ k = 3 := by omega
  rcases this with rfl | rfl | rfl | rfl
  · rw [h0] at hk; rw [← Option.some.inj hk]; simp
  · rw [h1] at hk; rw [← Option.some.inj hk]; simp
  · rw [h2] at hk; rw [← Option.some.inj hk]; simp
  · rw [h3] at hk; rw [← Option.some.inj hk]; simp

set_option maxHeartbeats 4000000 in

/-- A corner of the side `j` of the cube lies on the plane of that side. -/
theorem cubeFace_mem_plane (o : ℚ × ℚ × ℚ) (s : ℚ) (j : Fin 6) (v : Vertex ℚ)
    (h : v.xyz ∈ cubeFace o s j) :
    (cubeHalfSpace o s j).eval v = (cubeHalfSpace o s j).k := by
  obtain ⟨ox, oy, oz⟩ := o
  fin_cases j <;>
    simp only [cubeFace, List.mem_cons, List.mem_singleton, List.not_mem_nil, or_false] at h <;>
    rcases h with h | h | h | h <;>
    obtain ⟨hx, hy, hz⟩ := xyz_eq h <;>
    simp only [cubeHalfSpace, HalfSpace.eval, hx, hy, hz] <;> ring

set_option maxHeartbeats 4000000 in

/-- A corner of the cube lies in every half-space of the cube. -/
theorem cubeFace_mem_body (o : ℚ × ℚ × ℚ) (s : ℚ) (hs : 0 < s) (j : Fin 6) (v : Vertex ℚ)
    (h : v.xyz ∈ cubeFace o s j) (i : Fin 6) :
    (cubeHalfSpace o s i).eval v ≤ (cubeHalfSpace o s i).k := by
  obtain ⟨ox, oy, oz⟩ := o
  fin_cases j <;>
    simp only [cubeFace, List.mem_cons, List.mem_singleton, List.not_mem_nil, or_false] at h <;>
    rcases h with h | h | h | h <;>
    obtain ⟨hx, hy, hz⟩ := xyz_eq h <;>
    fin_cases i <;>
    simp only [cubeHalfSpace, HalfSpace.eval, hx, hy, hz] <;> linarith

/-! ## The planes of a cube mesh -/

theorem cyclicListing_all {α : Type} {l ref : List α} (h : IsCyclicListing l ref)
    (P : α → Bool) : l.all P = ref.all P := by
  have hmem : ∀ x, x ∈ l ↔ x ∈ ref := by
    intro x
    obtain ⟨k, hk | hk⟩ := h
    · rw [hk, List.mem_rotate]
    · rw [hk, List.mem_rotate, List.mem_reverse]
  rw [Bool.eq_iff_iff, List.all_eq_true, List.all_eq_true]
  exact ⟨fun hl x hx => hl x ((hmem x).mpr hx), fun hr x hx => hr x ((hmem x).mp hx)⟩

set_option maxHeartbeats 4000000 in

/-- The plane read off the corners of a face of a cube mesh is the plane of the side of
the cube the face lists. -/
theorem cubeFacePlane_eq (m : Model ℚ) (o : ℚ × ℚ × ℚ) (s : ℚ) (hs : 0 < s) (j : Fin 6)
    (f : Face) (h : IsCubeFace m o s j f) : cubeFacePlane m o s f = cubeHalfSpace o s j := by
  obtain ⟨ps, hp, hc⟩ := h
  unfold cubeFacePlane
  rw [hp]
  simp only [cyclicListing_all hc]
  obtain ⟨ox, oy, oz⟩ := o
  have hne : s ≠ 0 := ne_of_gt hs
  fin_cases j <;>
    simp [cubeFace, hne]

theorem cubeHalfSpace_injective (o : ℚ × ℚ × ℚ) (s : ℚ) (i j : Fin 6)
    (h : cubeHalfSpace o s i = cubeHalfSpace o s j) : i = j := by
  have h1 := congrArg HalfSpace.nx h
  have h2 := congrArg HalfSpace.ny h
  have h3 := congrArg HalfSpace.nz h
  fin_cases i <;> fin_cases j <;>
    first
    | rfl
    | (exfalso; simp [cubeHalfSpace] at h1 h2 h3 <;> norm_num at h1 h2 h3)

/-! ## The fan triangles of a cube face -/

theorem strict_ratio (y0 y1 y : ℚ) (h : (y0 < y ∧ y < y1) ∨ (y1 < y ∧ y < y0)) :
    y1 - y0 ≠ 0 ∧ 0 < (y - y0) / (y1 - y0) ∧ (y - y0) / (y1 - y0) < 1 := by
  rcases h with ⟨h1, h2⟩ | ⟨h1, h2⟩
  · have hd : 0 < y1 - y0 := by linarith
    refine ⟨ne_of_gt hd, div_pos (by linarith) hd, ?_⟩
    rw [div_lt_one hd]; linarith
  · have hd : y1 - y0 < 0 := by linarith
    refine ⟨ne_of_lt hd, div_pos_of_neg_of_neg (by linarith) hd, ?_⟩
    rw [div_lt_one_of_neg hd]; linarith

/-- A point strictly inside a rectangle in a plane `x = cx` lies in one of the two fan
triangles of the rectangle, off the outer edge; the corners run along `y` first. -/
theorem square_cover_A (x v0 v1 v2 v3 : Vertex ℚ) (cx y0 y1 z0 z1 : ℚ)
    (h0 : v0.xyz = (cx, y0, z0)) (h1 : v1.xyz = (cx, y1, z0))
    (h2 : v2.xyz = (cx, y1, z1)) (h3 : v3.xyz = (cx, y0, z1))
    (hx : x.x = cx) (hy : (y0 < x.y ∧ x.y < y1) ∨ (y1 < x.y ∧ x.y < y0))
    (hz : (z0 < x.z ∧ x.z < z1) ∨ (z1 < x.z ∧ x.z < z0)) :
    (¬ Collinear v0 v1 v2 ∧
      ∃ u v : ℚ, 0 ≤ u ∧ 0 ≤ v ∧ u + v < 1 ∧ PointAt x v0 v1 v2 u v) ∨
    (¬ Collinear v0 v2 v3 ∧
      ∃ u v : ℚ, 0 ≤ u ∧ 0 ≤ v ∧ u + v < 1 ∧ PointAt x v0 v2 v3 u v) := by
  obtain ⟨e0x, e0y, e0z⟩ := xyz_eq h0
  obtain ⟨e1x, e1y, e1z⟩ := xyz_eq h1
  obtain ⟨e2x, e2y, e2z⟩ := xyz_eq h2
  obtain ⟨e3x, e3y, e3z⟩ := xyz_eq h3
  obtain ⟨ny, a0, a1⟩ := strict_ratio y0 y1 x.y hy
  obtain ⟨nz, b0, b1⟩ := strict_ratio z0 z1 x.z hz
  have ea : (x.y - y0) / (y1 - y0) * (y1 - y0) = x.y - y0 := div_mul_cancel₀ _ ny
  have eb : (x.z - z0) / (z1 - z0) * (z1 - z0) = x.z - z0 := div_mul_cancel₀ _ nz
  generalize (x.y - y0) / (y1 - y0) = α at a0 a1 ea
  generalize (x.z - z0) / (z1 - z0) = β at b0 b1 eb
  have hprod : (y1 - y0) * (z1 - z0) ≠ 0 := mul_ne_zero ny nz
  rcases le_total β α with hab | hab
  · left
    refine ⟨?_, α - β, β, by linarith, le_of_lt b0, by linarith, ?_⟩
    · rw [collinear_iff_cross, e0y, e0z, e1y, e1z, e2y, e2z]
      rintro ⟨h, _, _⟩
      apply hprod
      linarith
    · unfold PointAt
      rw [e0x, e0y, e0z, e1x, e1y, e1z, e2x, e2y, e2z, hx]
      refine ⟨by ring, by linarith, by linarith⟩
  · right
    refine ⟨?_, α, β - α, le_of_lt a0, by linarith, by linarith, ?_⟩
    · rw [collinear_iff_cross, e0y, e0z, e2y, e2z, e3y, e3z]
      rintro ⟨h, _, _⟩
      apply hprod
      linarith
    · unfold PointAt
      rw [e0x, e0y, e0z, e2x, e2y, e2z, e3x, e3y, e3z, hx]
      refine ⟨by ring, by linarith, by linarith⟩

/-- The same for a rectangle whose corners run along `z` first. -/
theorem square_cover_B (x v0 v1 v2 v3 : Vertex ℚ) (cx y0 y1 z0 z1 : ℚ)
    (h0 : v0.xyz = (cx, y0, z0)) (h1 : v1.xyz = (cx, y0, z1))
    (h2 : v2.xyz = (cx, y1, z1)) (h3 : v3.xyz = (cx, y1, z0))
    (hx : x.x = cx) (hy : (y0 < x.y ∧ x.y < y1) ∨ (y1 < x.y ∧ x.y < y0))
    (hz : (z0 < x.z ∧ x.z < z1) ∨ (z1 < x.z ∧ x.z < z0)) :
    (¬ Collinear v0 v1 v2 ∧
      ∃ u v : ℚ, 0 ≤ u ∧ 0 ≤ v ∧ u + v < 1 ∧ PointAt x v0 v1 v2 u v) ∨
    (¬ Collinear v0 v2 v3 ∧
      ∃ u v : ℚ, 0 ≤ u ∧ 0 ≤ v ∧ u + v < 1 ∧ PointAt x v0 v2 v3 u v) := by
  obtain ⟨e0x, e0y, e0z⟩ := xyz_eq h0
  obtain ⟨e1x, e1y, e1z⟩ := xyz_eq h1
  obtain ⟨e2x, e2y, e2z⟩ := xyz_eq h2
  obtain ⟨e3x, e3y, e3z⟩ := xyz_eq h3
  obtain ⟨ny, a0, a1⟩ := strict_ratio y0 y1 x.y hy
  obtain ⟨nz, b0, b1⟩ := strict_ratio z0 z1 x.z hz
  have ea : (x.y - y0) / (y1 - y0) * (y1 - y0) = x.y - y0 := div_mul_cancel₀ _ ny
  have eb : (x.z - z0) / (z1 - z0) * (z1 - z0) = x.z - z0 := div_mul_cancel₀ _ nz
  generalize (x.y - y0) / (y1 - y0) = α at a0 a1 ea
  generalize (x.z - z0) / (z1 - z0) = β at b0 b1 eb
  have hprod : (y1 - y0) * (z1 - z0) ≠ 0 := mul_ne_zero ny nz
  rcases le_total α β with hab | hab
  · left
    refine ⟨?_, β - α, α, by linarith, le_of_lt a0, by linarith, ?_⟩
    · rw [collinear_iff_cross, e0y, e0z, e1y, e1z, e2y, e2z]
      rintro ⟨h, _, _⟩
      apply hprod
      linarith
    · unfold PointAt
      rw [e0x, e0y, e0z, e1x, e1y, e1z, e2x, e2y, e2z, hx]
      refine ⟨by ring, by linarith, by linarith⟩
  · right
    refine ⟨?_, β, α - β, le_of_lt b0, by linarith, by linarith, ?_⟩
    · rw [collinear_iff_cross, e0y, e0z, e2y, e2z, e3y, e3z]
      rintro ⟨h, _, _⟩
      apply hprod
      linarith
    · unfold PointAt
      rw [e0x, e0y, e0z, e2x, e2y, e2z, e3x, e3y, e3z, hx]
      refine ⟨by ring, by linarith, by linarith⟩

set_option maxHeartbeats 4000000 in

/-- A point strictly inside one of the two sides of the cube across the `X` axis lies in
one of the two fan triangles of a face that lists the corners of the side in cyclic
order. -/
theorem cubeFace_cover (o : ℚ × ℚ × ℚ) (s : ℚ) (x v0 v1 v2 v3 : Vertex ℚ) (j : Fin 6)
    (hj : j = 0 ∨ j = 1)
    (h : IsCyclicListing [v0.xyz, v1.xyz, v2.xyz, v3.xyz] (cubeFace o s j))
    (hx : (cubeHalfSpace o s j).eval x = (cubeHalfSpace o s j).k)
    (hy : o.2.1 < x.y ∧ x.y < o.2.1 + s) (hz : o.2.2 < x.z ∧ x.z < o.2.2 + s) :
    (¬ Collinear v0 v1 v2 ∧
      ∃ u v : ℚ, 0 ≤ u ∧ 0 ≤ v ∧ u + v < 1 ∧ PointAt x v0 v1 v2 u v) ∨
    (¬ Collinear v0 v2 v3 ∧
      ∃ u v : ℚ, 0 ≤ u ∧ 0 ≤ v ∧ u + v < 1 ∧ PointAt x v0 v2 v3 u v) := by
  obtain ⟨ox, oy, oz⟩ := o
  rcases hj with rfl | rfl
  · have hx0 : x.x = ox := by
      simp only [cubeHalfSpace, HalfSpace.eval] at hx
      linarith
    simp only [cubeFace] at h
    rcases cyclicListing_cases h with e | e | e | e | e | e | e | e <;>
      simp only [List.cons.injEq, and_true] at e <;>
      obtain ⟨x0, x1, x2, x3⟩ := e <;>
      first
      | exact square_cover_A x v0 v1 v2 v3 _ _ _ _ _ x0 x1 x2 x3 hx0
          (by first | exact Or.inl hy | exact Or.inr hy)
          (by first | exact Or.inl hz | exact Or.inr hz)
      | exact square_cover_B x v0 v1 v2 v3 _ _ _ _ _ x0 x1 x2 x3 hx0
          (by first | exact Or.inl hy | exact Or.inr hy)
          (by first | exact Or.inl hz | exact Or.inr hz)
  · have hx0 : x.x = ox + s := by
      simp only [cubeHalfSpace, HalfSpace.eval] at hx
      linarith
    simp only [cubeFace] at h
    rcases cyclicListing_cases h with e | e | e | e | e | e | e | e <;>
      simp only [List.cons.injEq, and_true] at e <;>
      obtain ⟨x0, x1, x2, x3⟩ := e <;>
      first
      | exact square_cover_A x v0 v1 v2 v3 _ _ _ _ _ x0 x1 x2 x3 hx0
          (by first | exact Or.inl hy | exact Or.inr hy)
          (by first | exact Or.inl hz | exact Or.inr hz)
      | exact square_cover_B x v0 v1 v2 v3 _ _ _ _ _ x0 x1 x2 x3 hx0
          (by first | exact Or.inl hy | exact Or.inr hy)
          (by first | exact Or.inl hz | exact Or.inr hz)

/-! ## Cube meshes are closed convex meshes -/

theorem forall₂_mem_left {α β : Type} {R : α → β → Prop} {l1 : List α} {l2 : List β}
    (h : List.Forall₂ R l1 l2) (a : α) (ha : a ∈ l1) : ∃ b ∈ l2, R a b := by
  induction h with
  | nil => exact absurd ha (List.not_mem_nil a)
  | @cons x y l1 l2 hxy _ ih =>
    rcases List.mem_cons.mp ha with rfl | ha
    · exact ⟨y, List.mem_cons_self _ _, hxy⟩
    · obtain ⟨b, hb, hr⟩ := ih ha
      exact ⟨b, List.mem_cons_of_mem _ hb, hr⟩

theorem forall₂_mem_right {α β : Type} {R : α → β → Prop} {l1 : List α} {l2 : List β}
    (h : List.Forall₂ R l1 l2) (b : β) (hb : b ∈ l2) : ∃ a ∈ l1, R a b := by
  induction h with
  | nil => exact absurd hb (List.not_mem_nil b)
  | @cons x y l1 l2 hxy _ ih =>
    rcases List.mem_cons.mp hb with rfl | hb
    · exact ⟨x, List.mem_cons_self _ _, hxy⟩
    · obtain ⟨a, ha, hr⟩ := ih hb
      exact ⟨a, List.mem_cons_of_mem _ ha, hr⟩

/-- Faces paired one to one with distinct labels, each face having one label only: two
faces with the same label are the same face. -/
theorem forall₂_label_inj {α β : Type} {R : α → β → Prop} {l1 : List α} {l2 : List β}
    (h : List.Forall₂ R l1 l2) (hnd : l2.Nodup)
    (hfun : ∀ a b b', R a b → R a b' → b = b') :
    ∀ a ∈ l1, ∀ a' ∈ l1, ∀ b, R a b → R a' b → a = a' := by
  induction h with
  | nil => intro a ha; exact absurd ha (List.not_mem_nil a)
  | @cons x y l1 l2 hxy hrest ih =>
    obtain ⟨hy, hnd'⟩ := List.nodup_cons.mp hnd
    intro a ha a' ha' b hab ha'b
    rcases List.mem_cons.mp ha with e | h1
    · rcases List.mem_cons.mp ha' with e' | h1'
      · rw [e, e']
      · exfalso
        obtain ⟨b', hb', hr'⟩ := forall₂_mem_left hrest a' h1'
        rw [e] at hab
        have e1 : b = y := hfun _ _ _ hab hxy
        have e2 : b' = b := hfun _ _ _ hr' ha'b
        rw [e2, e1] at hb'
        exact hy hb'
    · rcases List.mem_cons.mp ha' with e' | h1'
      · exfalso
        obtain ⟨b', hb', hr'⟩ := forall₂_mem_left hrest a h1
        rw [e'] at ha'b
        have e1 : b = y := hfun _ _ _ ha'b hxy
        have e2 : b' = b := hfun _ _ _ hr' hab
        rw [e2, e1] at hb'
        exact hy hb'
      · exact ih hnd' a h1 a' h1' b hab ha'b

theorem forall₂_nodup {α β : Type} {R : α → β → Prop} {l1 : List α} {l2 : List β}
    (h : List.Forall₂ R l1 l2) (hnd : l2.Nodup)
    (hfun : ∀ a b b', R a b → R a b' → b = b') : l1.Nodup := by
  induction h with
  | nil => exact List.nodup_nil
  | @cons x y l1 l2 hxy hrest ih =>
    obtain ⟨hy, hnd'⟩ := List.nodup_cons.mp hnd
    refine List.nodup_cons.mpr ⟨fun hx => ?_, ih hnd'⟩
    obtain ⟨b', hb', hr'⟩ := forall₂_mem_left hrest x hx
    have e : b' = y := hfun _ _ _ hr' hxy
    rw [e] at hb'
    exact hy hb'

theorem isCubeFace_label (m : Model ℚ) (o : ℚ × ℚ × ℚ) (s : ℚ) (hs : 0 < s) (f : Face)
    (i j : Fin 6) (hi : IsCubeFace m o s i f) (hj : IsCubeFace m o s j f) : i = j := by
  apply cubeHalfSpace_injective o s
  rw [← cubeFacePlane_eq m o s hs i f hi, ← cubeFacePlane_eq m o s hs j f hj]

theorem finRange6_nodup : (List.finRange 6).Nodup := List.nodup_finRange 6

/-- The 6 quad faces of an axis-aligned cube with a positive side form a closed convex
mesh, whatever the order of the faces and the starting corner and direction of each. -/
theorem cubeShell_convex (m : Model F32) (o : ℚ × ℚ × ℚ) (s : ℚ) (hs : 0 < s)
    (fs : List Face) (order : List (Fin 6)) (hperm : order.Perm (List.finRange 6))
    (hf : List.Forall₂ (fun face j => IsCubeFace m.toRat o s j face) fs order) :
    IsConvexMesh { m with faces := fs } (cubeFacePlane m.toRat o s) := by
  have hnd : order.Nodup := hperm.nodup_iff.mpr finRange6_nodup
  have hall : ∀ j : Fin 6, j ∈ order := fun j => hperm.mem_iff.mpr (List.mem_finRange j)
  have hfun : ∀ (a : Face) (b b' : Fin 6), IsCubeFace m.toRat o s b a →
      IsCubeFace m.toRat o s b' a → b = b' := fun a b b' => isCubeFace_label m.toRat o s hs a b b'
  have hface : ∀ j : Fin 6, ∃ g ∈ fs, IsCubeFace m.toRat o s j g :=
    fun j => forall₂_mem_right hf j (hall j)
  refine ⟨forall₂_nodup hf hnd hfun, ?_, ?_, ?_⟩
  · obtain ⟨g, hg, hc⟩ := hface 1
    refine ⟨g, hg, ?_⟩
    rw [cubeFacePlane_eq m.toRat o s hs 1 g hc]
    show (0 : ℚ) < 1
    norm_num
  · intro f hf' k a ha
    obtain ⟨j, _, hj⟩ := forall₂_mem_left hf f hf'
    have hmem := cubeFace_corner_mem m o s j f hj k a ha
    refine ⟨?_, fun g hg => ?_⟩
    · rw [cubeFacePlane_eq m.toRat o s hs j f hj]
      exact cubeFace_mem_plane o s j a.toRat hmem
    · obtain ⟨i, _, hi⟩ := forall₂_mem_left hf g hg
      rw [cubeFacePlane_eq m.toRat o s hs i g hi]
      exact cubeFace_mem_body o s hs j a.toRat hmem i
  · intro f hf' hnx x hon hin
    obtain ⟨j, _, hj⟩ := forall₂_mem_left hf f hf'
    rw [cubeFacePlane_eq m.toRat o s hs j f hj] at hnx hon
    have hj01 : j = 0 ∨ j = 1 := by
      fin_cases j
      · exact Or.inl rfl
      · exact Or.inr rfl
      all_goals exact absurd rfl hnx
    have hstrict : ∀ i : Fin 6, i ≠ j → (cubeHalfSpace o s i).eval x < (cubeHalfSpace o s i).k := by
      intro i hij
      obtain ⟨g, hg, hi⟩ := hface i
      have hgf : g ≠ f := by
        intro e
        rw [e] at hi
        exact hij (hfun f i j hi hj)
      have := hin g hg hgf
      rw [cubeFacePlane_eq m.toRat o s hs i g hi] at this
      exact this
    have h2 := hstrict 2 (by rcases hj01 with e | e <;> rw [e] <;> decide)
    have h3 := hstrict 3 (by rcases hj01 with e | e <;> rw [e] <;> decide)
    have h4 := hstrict 4 (by rcases hj01 with e | e <;> rw [e] <;> decide)
    have h5 := hstrict 5 (by rcases hj01 with e | e <;> rw [e] <;> decide)
    simp only [cubeHalfSpace, HalfSpace.eval] at h2 h3 h4 h5
    have hy : o.2.1 < x.y ∧ x.y < o.2.1 + s := ⟨by linarith, by linarith⟩
    have hz : o.2.2 < x.z ∧ x.z < o.2.2 + s := ⟨by linarith, by linarith⟩
    obtain ⟨v0, v1, v2, v3, hlen, _, c0, c1, c2, c3, hc⟩ :=
      cubeFace_corners m.toRat o s j f hj
    rw [cornerAt_toRat, Option.map_eq_some'] at c0 c1 c2 c3
    obtain ⟨a0, e0, rfl⟩ := c0
    obtain ⟨a1, e1, rfl⟩ := c1
    obtain ⟨a2, e2, rfl⟩ := c2
    obtain ⟨a3, e3, rfl⟩ := c3
    rcases cubeFace_cover o s x _ _ _ _ j hj01 hc hon hy hz with ⟨hnc, huv⟩ | ⟨hnc, huv⟩
    · refine ⟨1, ?_, a0, a1, a2, e0, e1, e2, hnc, huv⟩
      rw [List.mem_range'_1, hlen]
      omega
    · refine ⟨2, ?_, a0, a2, a3, e0, e2, e3, hnc, huv⟩
      rw [List.mem_range'_1, hlen]
      omega

/-- A point strictly inside the cube is strictly inside every half-space of the cube
mesh. -/
theorem cubeShell_interior (m : Model F32) (o : ℚ × ℚ × ℚ) (s : ℚ) (hs : 0 < s)
    (fs : List Face) (order : List (Fin 6))
    (hf : List.Forall₂ (fun face j => IsCubeFace m.toRat o s j face) fs order)
    (p : Vertex ℚ) (hx : o.1 < p.x ∧ p.x < o.1 + s) (hy : o.2.1 < p.y ∧ p.y < o.2.1 + s)
    (hz : o.2.2 < p.z ∧ p.z < o.2.2 + s) :
    ∀ f ∈ fs, (cubeFacePlane m.toRat o s f).eval p < (cubeFacePlane m.toRat o s f).k := by
  intro f hf'
  obtain ⟨j, _, hj⟩ := forall₂_mem_left hf f hf'
  rw [cubeFacePlane_eq m.toRat o s hs j f hj]
  fin_cases j <;> simp only [cubeHalfSpace, HalfSpace.eval] <;> linarith

/-- A point strictly outside the cube is strictly outside one half-space of the cube
mesh. -/
theorem cubeShell_exterior (m : Model F32) (o : ℚ × ℚ × ℚ) (s : ℚ) (hs : 0 < s)
    (fs : List Face) (order : List (Fin 6)) (hperm : order.Perm (List.finRange 6))
    (hf : List.Forall₂ (fun face j => IsCubeFace m.toRat o s j face) fs order)
    (p : Vertex ℚ)
    (hout : p.x < o.1 ∨ o.1 + s < p.x ∨ p.y < o.2.1 ∨ o.2.1 + s < p.y ∨ p.z < o.2.2 ∨
      o.2.2 + s < p.z) :
    ∃ f ∈ fs, (cubeFacePlane m.toRat o s f).k < (cubeFacePlane m.toRat o s f).eval p := by
  have hface : ∀ j : Fin 6, ∃ g ∈ fs, IsCubeFace m.toRat o s j g :=
    fun j => forall₂_mem_right hf j (hperm.mem_iff.mpr (List.mem_finRange j))
  have key : ∀ j : Fin 6, (cubeHalfSpace o s j).k < (cubeHalfSpace o s j).eval p →
      ∃ f ∈ fs, (cubeFacePlane m.toRat o s f).k < (cubeFacePlane m.toRat o s f).eval p := by
    intro j hj
    obtain ⟨g, hg, hc⟩ := hface j
    exact ⟨g, hg, by rw [cubeFacePlane_eq m.toRat o s hs j g hc]; exact hj⟩
  rcases hout with h | h | h | h | h | h
  · exact key 0 (by simp only [cubeHalfSpace, HalfSpace.eval]; linarith)
  · exact key 1 (by simp only [cubeHalfSpace, HalfSpace.eval]; linarith)
  · exact key 2 (by simp only [cubeHalfSpace, HalfSpace.eval]; linarith)
  · exact key 3 (by simp only [cubeHalfSpace, HalfSpace.eval]; linarith)
  · exact key 4 (by simp only [cubeHalfSpace, HalfSpace.eval]; linarith)
  · exact key 5 (by simp only [cubeHalfSpace, HalfSpace.eval]; linarith)

/-- The `+X` ray from a point whose `y` and `z` are not those of a side of the cube is
in general position to the cube mesh: it runs along no side and through no edge. -/
theorem cubeShell_general (m : Model F32) (o : ℚ × ℚ × ℚ) (s : ℚ) (hs : 0 < s)
    (fs : List Face) (order : List (Fin 6)) (hperm : order.Perm (List.finRange 6))
    (hf : List.Forall₂ (fun face j => IsCubeFace m.toRat o s j face) fs order)
    (p : Vertex ℚ) (hy : p.y ≠ o.2.1 ∧ p.y ≠ o.2.1 + s) (hz : p.z ≠ o.2.2 ∧ p.z ≠ o.2.2 + s) :
    RayInGeneralPosition { m with faces := fs } (cubeFacePlane m.toRat o s) p := by
  have hnd : order.Nodup := hperm.nodup_iff.mpr finRange6_nodup
  have hfun : ∀ (a : Face) (b b' : Fin 6), IsCubeFace m.toRat o s b a →
      IsCubeFace m.toRat o s b' a → b = b' := fun a b b' => isCubeFace_label m.toRat o s hs a b b'
  have hy1 : ¬ -p.y = -o.2.1 := fun h => hy.1 (neg_injective h)
  have hz1 : ¬ -p.z = -o.2.2 := fun h => hz.1 (neg_injective h)
  intro t ht _ f hf' hon
  obtain ⟨j, _, hj⟩ := forall₂_mem_left hf f hf'
  rw [cubeFacePlane_eq m.toRat o s hs j f hj] at hon ⊢
  have hother : ∀ g ∈ fs, g ≠ f → ∀ i : Fin 6, IsCubeFace m.toRat o s i g → i ≠ j := by
    intro g hg hgf i hi e
    rw [e] at hi
    exact hgf (forall₂_label_inj hf hnd hfun g hg f hf' j hi hj)
  have hyz : ∀ i : Fin 6, i ≠ 0 → i ≠ 1 →
      (cubeHalfSpace o s i).eval (rayPoint p t) ≠ (cubeHalfSpace o s i).k := by
    intro i h0 h1
    fin_cases i
    · exact absurd rfl h0
    · exact absurd rfl h1
    · simp only [cubeHalfSpace, HalfSpace.eval, rayPoint]; intro h; apply hy1; linarith
    · simp only [cubeHalfSpace, HalfSpace.eval, rayPoint]; intro h; apply hy.2; linarith
    · simp only [cubeHalfSpace, HalfSpace.eval, rayPoint]; intro h; apply hz1; linarith
    · simp only [cubeHalfSpace, HalfSpace.eval, rayPoint]; intro h; apply hz.2; linarith
  have hj01 : j = 0 ∨ j = 1 := by
    by_contra h
    push_neg at h
    exact hyz j h.1 h.2 hon
  refine ⟨?_, fun g hg hgf => ?_⟩
  · rcases hj01 with rfl | rfl
    · show (-1 : ℚ) ≠ 0
      norm_num
    · show (1 : ℚ) ≠ 0
      norm_num
  · obtain ⟨i, _, hi⟩ := forall₂_mem_left hf g hg
    have hij := hother g hg hgf i hi
    rw [cubeFacePlane_eq m.toRat o s hs i g hi]
    by_cases h0 : i = 0
    · subst h0
      rcases hj01 with rfl | rfl
      · exact absurd rfl hij
      · simp only [cubeHalfSpace, HalfSpace.eval, rayPoint] at hon ⊢
        intro h; linarith
    · by_cases h1 : i = 1
      · subst h1
        rcases hj01 with rfl | rfl
        · simp only [cubeHalfSpace, HalfSpace.eval, rayPoint] at hon ⊢
          intro h; linarith
        · exact absurd rfl hij
      · exact hyz i h0 h1

/-! ## Cubes on the integer grid -/

/-- The faces of a mesh of two shells, sorted by shell. -/
theorem forall₂_split {α β : Type} {R : α → Bool × β → Prop} {l : List α}
    {order : List (Bool × β)} (h : List.Forall₂ R l order) :
    ∃ (fs1 fs2 : List α) (ord1 ord2 : List β), l.Perm (fs1 ++ fs2) ∧
      List.Forall₂ (fun f j => R f (false, j)) fs1 ord1 ∧
      List.Forall₂ (fun f j => R f (true, j)) fs2 ord2 ∧
      order.Perm (ord1.map (fun j => (false, j)) ++ ord2.map (fun j => (true, j))) := by
  induction h with
  | nil => exact ⟨[], [], [], [], List.Perm.refl _, List.Forall₂.nil, List.Forall₂.nil,
      List.Perm.refl _⟩
  | @cons f bj l order hr _ ih =>
    obtain ⟨fs1, fs2, ord1, ord2, hp, h1, h2, ho⟩ := ih
    obtain ⟨b, j⟩ := bj
    cases b with
    | false =>
      exact ⟨f :: fs1, fs2, j :: ord1, ord2, List.Perm.cons f hp, List.Forall₂.cons hr h1, h2,
        List.Perm.cons _ ho⟩
    | true =>
      refine ⟨fs1, f :: fs2, ord1, j :: ord2, ?_, h1, List.Forall₂.cons hr h2, ?_⟩
      · exact (List.Perm.cons f hp).trans List.perm_middle.symm
      · exact (List.Perm.cons _ ho).trans List.perm_middle.symm

theorem twoCube_orders (ord1 ord2 : List (Fin 6))
    (h : (ord1.map (fun j => ((false, j) : Bool × Fin 6))
      ++ ord2.map (fun j => ((true, j) : Bool × Fin 6))).Perm twoCubeFaces) :
    ord1.Perm (List.finRange 6) ∧ ord2.Perm (List.finRange 6) := by
  unfold twoCubeFaces at h
  have h1 := (h.filter (fun bj => !bj.1)).map Prod.snd
  have h2 := (h.filter (fun bj => bj.1)).map Prod.snd
  simp only [List.filter_append, List.filter_map, List.map_append, List.map_map] at h1 h2
  constructor
  · simpa [Function.comp_def] using h1
  · simpa [Function.comp_def] using h2

/-- The result of `isPointInside` on a mesh whose faces are those of two shells is the
exclusive-or of its results on the shells. -/
theorem isPointInside_shells (m : Model F32) (p : Vertex F32) (fs1 fs2 : List Face)
    (hv : ValidVertexIndices m) (hn : m.faces.length < 2 ^ (31 : Nat))
    (hsplit : m.faces.Perm (fs1 ++ fs2)) :
    ∃ r1 r2, isPointInside { m with faces := fs1 } p = some r1 ∧
      isPointInside { m with faces := fs2 } p = some r2 ∧
      isPointInside m p = some (xor r1 r2) := by
  have hlen : fs1.length + fs2.length = m.faces.length := by
    rw [hsplit.length_eq, List.length_append]
  have hv1 : ValidVertexIndices { m with faces := fs1 } := fun face hf =>
    hv face (hsplit.symm.subset (List.mem_append_left _ hf))
  have hv2 : ValidVertexIndices { m with faces := fs2 } := fun face hf =>
    hv face (hsplit.symm.subset (List.mem_append_right _ hf))
  have h1 := isPointInside_parity { m with faces := fs1 } p hv1
    (by show fs1.length < _; omega)
  have h2 := isPointInside_parity { m with faces := fs2 } p hv2
    (by show fs2.length < _; omega)
  have h := isPointInside_parity m p hv hn
  rw [faceCounted_faces] at h1 h2
  have hc : m.faces.countP (faceCounted m p)
      = fs1.countP (faceCounted m p) + fs2.countP (faceCounted m p) := by
    rw [hsplit.countP_eq, List.countP_append]
  have key : isPointInside m p = some (xor (decide (fs1.countP (faceCounted m p) % 2 = 1))
      (decide (fs2.countP (faceCounted m p) % 2 = 1))) := by
    rw [h, hc, xor_parity]
  exact ⟨_, _, h1, h2, key⟩

/-- One shell of cube faces, on the integer grid: a point strictly inside the cube is
reported inside by the faces of the shell, and a point strictly outside, whose `y` and
`z` are not those of a side, is reported outside. -/
theorem isPointInside_cubeShell (m : Model F32) (p : Vertex F32) (o : ℚ × ℚ × ℚ) (s : ℚ)
    (hs : 0 < s) (hm : m.IsGrid 32) (hp : p.IsGrid 32) (fs : List Face)
    (hv : ValidVertexIndices { m with faces := fs }) (order : List (Fin 6))
    (hperm : order.Perm (List.finRange 6))
    (hf : List.Forall₂ (fun face j => IsCubeFace m.toRat o s j face) fs order) :
    ((o.1 < p.toRat.x ∧ p.toRat.x < o.1 + s) → (o.2.1 < p.toRat.y ∧ p.toRat.y < o.2.1 + s) →
      (o.2.2 < p.toRat.z ∧ p.toRat.z < o.2.2 + s) →
      isPointInside { m with faces := fs } p = some true) ∧
    ((p.toRat.y ≠ o.2.1 ∧ p.toRat.y ≠ o.2.1 + s) → (p.toRat.z ≠ o.2.2 ∧ p.toRat.z ≠ o.2.2 + s) →
      (p.toRat.x < o.1 ∨ o.1 + s < p.toRat.x ∨ p.toRat.y < o.2.1 ∨ o.2.1 + s < p.toRat.y ∨
        p.toRat.z < o.2.2 ∨ o.2.2 + s < p.toRat.z) →
      isPointInside { m with faces := fs } p = some false) := by
  have hlen : fs.length = 6 := by
    rw [hf.length_eq, hperm.length_eq]; rfl
  have hn : ({ m with faces := fs } : Model F32).faces.length < 2 ^ (31 : Nat) := by
    show fs.length < _
    rw [hlen]; norm_num
  have hconv := cubeShell_convex m o s hs fs order hperm hf
  constructor
  · intro hx hy hz
    exact isPointInside_convex_interior { m with faces := fs } p (cubeFacePlane m.toRat o s)
      hm hp hv hn hconv
      (cubeShell_general m o s hs fs order hperm hf p.toRat
        ⟨ne_of_gt hy.1, ne_of_lt hy.2⟩ ⟨ne_of_gt hz.1, ne_of_lt hz.2⟩)
      (cubeShell_interior m o s hs fs order hf p.toRat hx hy hz)
  · intro hy hz hout
    exact isPointInside_convex_exterior { m with faces := fs } p (cubeFacePlane m.toRat o s)
      hm hp hv hn hconv (cubeShell_general m o s hs fs order hperm hf p.toRat hy hz)
      (cubeShell_exterior m o s hs fs order hperm hf p.toRat hout)

/-- A cube mesh on the integer grid: `isPointInside` returns true for a point strictly
inside the cube and false for a point strictly outside whose `y` and `z` are not those
of a side of the cube. -/
theorem isPointInside_cube_grid (m : Model F32) (p : Vertex F32) (o : ℚ × ℚ × ℚ) (s : ℚ)
    (hs : 0 < s) (hm : m.IsGrid 32) (hp : p.IsGrid 32) (hv : ValidVertexIndices m)
    (hc : IsCubeMesh m.toRat o s) :
    ((o.1 < p.toRat.x ∧ p.toRat.x < o.1 + s) → (o.2.1 < p.toRat.y ∧ p.toRat.y < o.2.1 + s) →
      (o.2.2 < p.toRat.z ∧ p.toRat.z < o.2.2 + s) → isPointInside m p = some true) ∧
    ((p.toRat.y ≠ o.2.1 ∧ p.toRat.y ≠ o.2.1 + s) → (p.toRat.z ≠ o.2.2 ∧ p.toRat.z ≠ o.2.2 + s) →
      (p.toRat.x < o.1 ∨ o.1 + s < p.toRat.x ∨ p.toRat.y < o.2.1 ∨ o.2.1 + s < p.toRat.y ∨
        p.toRat.z < o.2.2 ∨ o.2.2 + s < p.toRat.z) →
      isPointInside m p = some false) := by
  obtain ⟨_, order, hperm, hf⟩ := hc
  exact isPointInside_cubeShell m p o s hs hm hp m.faces hv order hperm hf

/-- A mesh of two cubes on the integer grid: `isPointInside` returns false for every
point strictly inside both cubes. -/
theorem isPointInside_twoCubes_grid (m : Model F32) (p : Vertex F32) (o1 : ℚ × ℚ × ℚ)
    (s1 : ℚ) (o2 : ℚ × ℚ × ℚ) (s2 : ℚ) (hs1 : 0 < s1) (hs2 : 0 < s2) (hm : m.IsGrid 32)
    (hp : p.IsGrid 32) (hv : ValidVertexIndices m) (hc : IsTwoCubeMesh m.toRat o1 s1 o2 s2)
    (hx1 : o1.1 < p.toRat.x ∧ p.toRat.x < o1.1 + s1)
    (hy1 : o1.2.1 < p.toRat.y ∧ p.toRat.y < o1.2.1 + s1)
    (hz1 : o1.2.2 < p.toRat.z ∧ p.toRat.z < o1.2.2 + s1)
    (hx2 : o2.1 < p.toRat.x ∧ p.toRat.x < o2.1 + s2)
    (hy2 : o2.2.1 < p.toRat.y ∧ p.toRat.y < o2.2.1 + s2)
    (hz2 : o2.2.2 < p.toRat.z ∧ p.toRat.z < o2.2.2 + s2) :
    isPointInside m p = some false := by
  obtain ⟨_, order, hperm, hf⟩ := hc
  obtain ⟨fs1, fs2, ord1, ord2, hsplit, hf1, hf2, hord⟩ := forall₂_split hf
  obtain ⟨hp1, hp2⟩ := twoCube_orders ord1 ord2 (hord.symm.trans hperm)
  have hsplit' : m.faces.Perm (fs1 ++ fs2) := hsplit
  have hlen : m.faces.length = 12 := by
    have h1 : m.faces.length = order.length := hf.length_eq
    rw [h1, hperm.length_eq]; rfl
  have hv1 : ValidVertexIndices { m with faces := fs1 } := fun face hf' =>
    hv face (hsplit'.symm.subset (List.mem_append_left _ hf'))
  have hv2 : ValidVertexIndices { m with faces := fs2 } := fun face hf' =>
    hv face (hsplit'.symm.subset (List.mem_append_right _ hf'))
  have r1 := (isPointInside_cubeShell m p o1 s1 hs1 hm hp fs1 hv1 ord1 hp1 hf1).1 hx1 hy1 hz1
  have r2 := (isPointInside_cubeShell m p o2 s2 hs2 hm hp fs2 hv2 ord2 hp2 hf2).1 hx2 hy2 hz2
  obtain ⟨a, b, e1, e2, e⟩ := isPointInside_shells m p fs1 fs2 hv (by rw [hlen]; norm_num) hsplit'
  rw [r1] at e1
  rw [r2] at e2
  rw [e, ← Option.some.inj e1, ← Option.some.inj e2]
  rfl

/-! ## Cubes with integer corners -/

theorem gridCube_toRat : gridCube.toRat = standardCube ((-2 : ℚ), (-2 : ℚ), (-2 : ℚ)) 4 := by
  have hv : gridCube.vertices.map Vertex.toRat
      = (standardCube ((-2 : ℚ), (-2 : ℚ), (-2 : ℚ)) 4).vertices := by decide!
  unfold Model.toRat
  rw [hv]
  rfl

theorem gridShells_toRat : gridShells.toRat
    = nestedCubes ((-2 : ℚ), (-2 : ℚ), (-2 : ℚ)) 4 ((-1 : ℚ), (-1 : ℚ), (-1 : ℚ)) 2 := by
  have hv : gridShells.vertices.map Vertex.toRat
      = (nestedCubes ((-2 : ℚ), (-2 : ℚ), (-2 : ℚ)) 4
          ((-1 : ℚ), (-1 : ℚ), (-1 : ℚ)) 2).vertices := by
    decide!
  unfold Model.toRat
  rw [hv]
  rfl

theorem gridCube_isCubeMesh : IsCubeMesh gridCube.toRat ((-2 : ℚ), (-2 : ℚ), (-2 : ℚ)) 4 := by
  rw [gridCube_toRat]
  exact isCubeMesh_standardCube _ _

theorem gridShells_isTwoCubeMesh :
    IsTwoCubeMesh gridShells.toRat ((-2 : ℚ), (-2 : ℚ), (-2 : ℚ)) 4
      ((-1 : ℚ), (-1 : ℚ), (-1 : ℚ)) 2 := by
  rw [gridShells_toRat]
  exact isTwoCubeMesh_nestedCubes _ _ _ _

theorem gridPoints_toRat : (⟨0, 0, 0, 1⟩ : Vertex F32).toRat = ⟨0, 0, 0, 1⟩ ∧
    (⟨-3, 1, 0, 1⟩ : Vertex F32).toRat = ⟨-3, 1, 0, 1⟩ ∧
    (⟨1, 1, -1, 1⟩ : Vertex F32).toRat = ⟨1, 1, -1, 1⟩ := by decide!

/-- The cube with corners `(±2, ±2, ±2)` is a closed convex mesh. -/
theorem gridCube_convex :
    IsConvexMesh gridCube (cubeFacePlane gridCube.toRat ((-2 : ℚ), (-2 : ℚ), (-2 : ℚ)) 4) := by
  obtain ⟨_, order, hperm, hf⟩ := gridCube_isCubeMesh
  exact cubeShell_convex gridCube _ 4 (by norm_num) gridCube.faces order hperm hf

/-- The `+X` ray from `(1, 1, -1)` is in general position to the cube with corners
`(±2, ±2, ±2)`, and the point is strictly inside. -/
theorem gridCube_inside :
    RayInGeneralPosition gridCube
      (cubeFacePlane gridCube.toRat ((-2 : ℚ), (-2 : ℚ), (-2 : ℚ)) 4)
      (⟨1, 1, -1, 1⟩ : Vertex F32).toRat ∧
    ∀ f ∈ gridCube.faces,
      (cubeFacePlane gridCube.toRat ((-2 : ℚ), (-2 : ℚ), (-2 : ℚ)) 4 f).eval
          (⟨1, 1, -1, 1⟩ : Vertex F32).toRat
        < (cubeFacePlane gridCube.toRat ((-2 : ℚ), (-2 : ℚ), (-2 : ℚ)) 4 f).k := by
  obtain ⟨_, order, hperm, hf⟩ := gridCube_isCubeMesh
  rw [gridPoints_toRat.2.2]
  constructor
  · exact cubeShell_general gridCube _ 4 (by norm_num) gridCube.faces order hperm hf _
      ⟨by norm_num, by norm_num⟩ ⟨by norm_num, by norm_num⟩
  · exact cubeShell_interior gridCube _ 4 (by norm_num) gridCube.faces order hf _
      ⟨by norm_num, by norm_num⟩ ⟨by norm_num, by norm_num⟩ ⟨by norm_num, by norm_num⟩

/-- The `+X` ray from `(-3, 1, 0)` is in general position to the cube with corners
`(±2, ±2, ±2)`, and the point is strictly outside. -/
theorem gridCube_outside :
    RayInGeneralPosition gridCube
      (cubeFacePlane gridCube.toRat ((-2 : ℚ), (-2 : ℚ), (-2 : ℚ)) 4)
      (⟨-3, 1, 0, 1⟩ : Vertex F32).toRat ∧
    ∃ f ∈ gridCube.faces,
      (cubeFacePlane gridCube.toRat ((-2 : ℚ), (-2 : ℚ), (-2 : ℚ)) 4 f).k
        < (cubeFacePlane gridCube.toRat ((-2 : ℚ), (-2 : ℚ), (-2 : ℚ)) 4 f).eval
            (⟨-3, 1, 0, 1⟩ : Vertex F32).toRat := by
  obtain ⟨_, order, hperm, hf⟩ := gridCube_isCubeMesh
  rw [gridPoints_toRat.2.1]
  constructor
  · exact cubeShell_general gridCube _ 4 (by norm_num) gridCube.faces order hperm hf _
      ⟨by norm_num, by norm_num⟩ ⟨by norm_num, by norm_num⟩
  · exact cubeShell_exterior gridCube _ 4 (by norm_num) gridCube.faces order hperm hf _
      (Or.inl (by norm_num))

/-! ## Claims C10, C11: the point query in binary32 arithmetic -/

theorem F32.isIntWithin_of_abs {x : F32} {b c : ℕ} (h : x.IsIntWithin b)
    (hc : |x.toRat| ≤ (c : ℚ)) : x.IsIntWithin c := ⟨h.1, h.2.1, hc⟩

/-- A finite value with a positive exact value is that value with the sign `+`. -/
theorem F32.eq_fin_of_pos (x : F32) (hf : x.IsFinite) (hpos : 0 < x.toRat) :
    x = fin false x.toRat := by
  obtain ⟨s, a, rfl, a0, _, _⟩ := (isFinite_iff x).mp hf
  cases s
  · rfl
  · exfalso
    simp only [toRat, if_true] at hpos
    linarith

/-- The area loop adds two halves of `k^2` to a multiple of `k^2` without rounding. -/
theorem F32.add_two_half_squares (n k : Nat) (hn : n < 6) (h1 : 1 ≤ k) (h2 : k ≤ 64) :
    (F32.fin false (((n * k ^ 2 : Nat) : ℚ)) + F32.fin false (((k ^ 2 : Nat) : ℚ) / 2))
        + F32.fin false (((k ^ 2 : Nat) : ℚ) / 2)
      = F32.fin false ((((n + 1) * k ^ 2 : Nat) : ℚ)) := by
  interval_cases n <;> interval_cases k <;> decide!

/-- The area of a triangle with integer coordinates of magnitude at most 32 whose exact
cross product of edges has the squared length `k^4`, its components within bounds that
keep the squares exact: the computed area is `k^2 / 2`. -/
theorem triangleArea_grid (a b c : Vertex F32) (ha : a.IsGrid 32) (hb : b.IsGrid 32)
    (hc : c.IsGrid 32) (Bx By Bz k : ℕ) (h1 : 1 ≤ k) (h2 : k ≤ 64)
    (hx : |((b.toRat.sub a.toRat).crossProduct (c.toRat.sub a.toRat)).x| ≤ (Bx : ℚ))
    (hy : |((b.toRat.sub a.toRat).crossProduct (c.toRat.sub a.toRat)).y| ≤ (By : ℚ))
    (hz : |((b.toRat.sub a.toRat).crossProduct (c.toRat.sub a.toRat)).z| ≤ (Bz : ℚ))
    (hB : Bx * Bx + By * By + Bz * Bz ≤ 2 ^ 24)
    (hsum : ((b.toRat.sub a.toRat).crossProduct (c.toRat.sub a.toRat)).x ^ 2
      + ((b.toRat.sub a.toRat).crossProduct (c.toRat.sub a.toRat)).y ^ 2
      + ((b.toRat.sub a.toRat).crossProduct (c.toRat.sub a.toRat)).z ^ 2 = (k : ℚ) ^ 4) :
    triangleArea F32.sqrt a b c = F32.fin false (((k ^ 2 : Nat) : ℚ) / 2) := by
  have xa := Vertex.exact_toRat ha
  have xb := Vertex.exact_toRat hb
  have xc := Vertex.exact_toRat hc
  have e1 := Vertex.sub_exact xb xa (by norm_num)
  have e2 := Vertex.sub_exact xc xa (by norm_num)
  obtain ⟨⟨nx, ny, nz⟩, tx, ty, tz⟩ := Vertex.cross_exact e1 e2 (by norm_num)
  generalize (b.toRat.sub a.toRat).crossProduct (c.toRat.sub a.toRat) = N at *
  have nx' := F32.isIntWithin_of_abs nx (by rw [tx]; exact hx)
  have ny' := F32.isIntWithin_of_abs ny (by rw [ty]; exact hy)
  have nz' := F32.isIntWithin_of_abs nz (by rw [tz]; exact hz)
  have bx : Bx * Bx ≤ 2 ^ 24 := by omega
  have by1 : By * By ≤ 2 ^ 24 := by omega
  have bz : Bz * Bz ≤ 2 ^ 24 := by omega
  obtain ⟨a1, a2⟩ := F32.mul_int nx' nx' bx
  obtain ⟨b1, b2⟩ := F32.mul_int ny' ny' by1
  obtain ⟨c1, c2⟩ := F32.mul_int nz' nz' bz
  obtain ⟨d1, d2⟩ := F32.add_int a1 b1 (by omega)
  obtain ⟨f1, f2⟩ := F32.add_int d1 c1 (by omega)
  have hk : (0 : ℚ) < (k : ℚ) ^ 4 := by
    have : (1 : ℚ) ≤ k := by exact_mod_cast h1
    positivity
  have hval : (((b.sub a).crossProduct (c.sub a)).x * ((b.sub a).crossProduct (c.sub a)).x
      + ((b.sub a).crossProduct (c.sub a)).y * ((b.sub a).crossProduct (c.sub a)).y
      + ((b.sub a).crossProduct (c.sub a)).z * ((b.sub a).crossProduct (c.sub a)).z).toRat
      = (k : ℚ) ^ 4 := by
    rw [f2, d2, a2, b2, c2, tx, ty, tz, ← hsum]
    ring
  have hS := F32.eq_fin_of_pos _ f1.1 (by rw [hval]; exact hk)
  rw [hval] at hS
  unfold triangleArea Vertex.dotProduct
  simp only []
  rw [hS]
  clear hS hval f1 f2 d1 d2 a1 a2 b1 b2 c1 c2 nx' ny' nz' nx ny nz tx ty tz hsum hx hy hz hk
  interval_cases k <;> decide!

theorem triangleArea_grid_x (a b c : Vertex F32) (ha : a.IsGrid 32) (hb : b.IsGrid 32)
    (hc : c.IsGrid 32) (k : ℕ) (h1 : 1 ≤ k) (h2 : k ≤ 64)
    (hx : ((b.toRat.sub a.toRat).crossProduct (c.toRat.sub a.toRat)).x = (k : ℚ) ^ 2 ∨
      ((b.toRat.sub a.toRat).crossProduct (c.toRat.sub a.toRat)).x = -(k : ℚ) ^ 2)
    (hy : ((b.toRat.sub a.toRat).crossProduct (c.toRat.sub a.toRat)).y = 0)
    (hz : ((b.toRat.sub a.toRat).crossProduct (c.toRat.sub a.toRat)).z = 0) :
    triangleArea F32.sqrt a b c = F32.fin false (((k ^ 2 : Nat) : ℚ) / 2) := by
  have hk : k ^ 2 * (k ^ 2) ≤ 2 ^ 24 := by
    have : k ^ 2 ≤ 64 ^ 2 := Nat.pow_le_pow_left h2 2
    calc k ^ 2 * (k ^ 2) ≤ 64 ^ 2 * 64 ^ 2 := Nat.mul_le_mul this this
      _ = 2 ^ 24 := by norm_num
  refine triangleArea_grid a b c ha hb hc (k ^ 2) (0) (0) k h1 h2
    (by
      rw [Nat.cast_pow]
      rcases hx with h | h <;> rw [h]
      · exact le_of_eq (abs_of_nonneg (by positivity))
      · rw [abs_neg]; exact le_of_eq (abs_of_nonneg (by positivity)))
    (by rw [hy]; simp)
    (by rw [hz]; simp)
    (by simpa using hk) ?_
  rw [hy, hz]
  rcases hx with h | h <;> rw [h] <;> ring

theorem triangleArea_grid_y (a b c : Vertex F32) (ha : a.IsGrid 32) (hb : b.IsGrid 32)
    (hc : c.IsGrid 32) (k : ℕ) (h1 : 1 ≤ k) (h2 : k ≤ 64)
    (hx : ((b.toRat.sub a.toRat).crossProduct (c.toRat.sub a.toRat)).x = 0)
    (hy : ((b.toRat.sub a.toRat).crossProduct (c.toRat.sub a.toRat)).y = (k : ℚ) ^ 2 ∨
      ((b.toRat.sub a.toRat).crossProduct (c.toRat.sub a.toRat)).y = -(k : ℚ) ^ 2)
    (hz : ((b.toRat.sub a.toRat).crossProduct (c.toRat.sub a.toRat)).z = 0) :
    triangleArea F32.sqrt a b c = F32.fin false (((k ^ 2 : Nat) : ℚ) / 2) := by
  have hk : k ^ 2 * (k ^ 2) ≤ 2 ^ 24 := by
    have : k ^ 2 ≤ 64 ^ 2 := Nat.pow_le_pow_left h2 2
    calc k ^ 2 * (k ^ 2) ≤ 64 ^ 2 * 64 ^ 2 := Nat.mul_le_mul this this
      _ = 2 ^ 24 := by norm_num
  refine triangleArea_grid a b c ha hb hc (0) (k ^ 2) (0) k h1 h2
    (by rw [hx]; simp)
    (by
      rw [Nat.cast_pow]
      rcases hy with h | h <;> rw [h]
      · exact le_of_eq (abs_of_nonneg (by positivity))
      · rw [abs_neg]; exact le_of_eq (abs_of_nonneg (by positivity)))
    (by rw [hz]; simp)
    (by simpa using hk) ?_
  rw [hx, hz]
  rcases hy with h | h <;> rw [h] <;> ring

theorem triangleArea_grid_z (a b c : Vertex F32) (ha : a.IsGrid 32) (hb : b.IsGrid 32)
    (hc : c.IsGrid 32) (k : ℕ) (h1 : 1 ≤ k) (h2 : k ≤ 64)
    (hx : ((b.toRat.sub a.toRat).crossProduct (c.toRat.sub a.toRat)).x = 0)
    (hy : ((b.toRat.sub a.toRat).crossProduct (c.toRat.sub a.toRat)).y = 0)
    (hz : ((b.toRat.sub a.toRat).crossProduct (c.toRat.sub a.toRat)).z = (k : ℚ) ^ 2 ∨
      ((b.toRat.sub a.toRat).crossProduct (c.toRat.sub a.toRat)).z = -(k : ℚ) ^ 2) :
    triangleArea F32.sqrt a b c = F32.fin false (((k ^ 2 : Nat) : ℚ) / 2) := by
  have hk : k ^ 2 * (k ^ 2) ≤ 2 ^ 24 := by
    have : k ^ 2 ≤ 64 ^ 2 := Nat.pow_le_pow_left h2 2
    calc k ^ 2 * (k ^ 2) ≤ 64 ^ 2 * 64 ^ 2 := Nat.mul_le_mul this this
      _ = 2 ^ 24 := by norm_num
  refine triangleArea_grid a b c ha hb hc (0) (0) (k ^ 2) k h1 h2
    (by rw [hx]; simp)
    (by rw [hy]; simp)
    (by
      rw [Nat.cast_pow]
      rcases hz with h | h <;> rw [h]
      · exact le_of_eq (abs_of_nonneg (by positivity))
      · rw [abs_neg]; exact le_of_eq (abs_of_nonneg (by positivity)))
    (by simpa using hk) ?_
  rw [hx, hy]
  rcases hz with h | h <;> rw [h] <;> ring

set_option maxHeartbeats 4000000 in

/-- Each fan triangle of each face of a cube with integer corners of magnitude at most 32,
in each cyclic listing, has the computed area `k^2 / 2`, `k` the side. -/
theorem cubeFace_area_grid (o : ℚ × ℚ × ℚ) (k : ℕ) (h1 : 1 ≤ k) (h2 : k ≤ 64)
    (a0 a1 a2 a3 : Vertex F32) (g0 : a0.IsGrid 32) (g1 : a1.IsGrid 32) (g2 : a2.IsGrid 32)
    (g3 : a3.IsGrid 32) (j : Fin 6)
    (h : IsCyclicListing [a0.toRat.xyz, a1.toRat.xyz, a2.toRat.xyz, a3.toRat.xyz]
      (cubeFace o (k : ℚ) j)) :
    triangleArea F32.sqrt a0 a1 a2 = F32.fin false (((k ^ 2 : Nat) : ℚ) / 2) ∧
    triangleArea F32.sqrt a0 a2 a3 = F32.fin false (((k ^ 2 : Nat) : ℚ) / 2) := by
  obtain ⟨ox, oy, oz⟩ := o
  fin_cases j <;> simp only [cubeFace] at h <;>
    rcases cyclicListing_cases h with e | e | e | e | e | e | e | e <;>
    simp only [List.cons.injEq, and_true] at e <;>
    obtain ⟨x0, x1, x2, x3⟩ := e <;>
    obtain ⟨e0x, e0y, e0z⟩ := xyz_eq x0 <;>
    obtain ⟨e1x, e1y, e1z⟩ := xyz_eq x1 <;>
    obtain ⟨e2x, e2y, e2z⟩ := xyz_eq x2 <;>
    obtain ⟨e3x, e3y, e3z⟩ := xyz_eq x3 <;>
    constructor <;>
    first
    | exact triangleArea_grid_x _ _ _ (by assumption) (by assumption) (by assumption) k h1 h2
        (by
          simp only [Vertex.sub, Vertex.crossProduct, e0x, e0y, e0z, e1x, e1y, e1z, e2x, e2y,
            e2z, e3x, e3y, e3z]
          first
          | (left; ring1)
          | (right; ring1))
        (by
          simp only [Vertex.sub, Vertex.crossProduct, e0x, e0y, e0z, e1x, e1y, e1z, e2x, e2y,
            e2z, e3x, e3y, e3z]
          ring1)
        (by
          simp only [Vertex.sub, Vertex.crossProduct, e0x, e0y, e0z, e1x, e1y, e1z, e2x, e2y,
            e2z, e3x, e3y, e3z]
          ring1)
    | exact triangleArea_grid_y _ _ _ (by assumption) (by assumption) (by assumption) k h1 h2
        (by
          simp only [Vertex.sub, Vertex.crossProduct, e0x, e0y, e0z, e1x, e1y, e1z, e2x, e2y,
            e2z, e3x, e3y, e3z]
          ring1)
        (by
          simp only [Vertex.sub, Vertex.crossProduct, e0x, e0y, e0z, e1x, e1y, e1z, e2x, e2y,
            e2z, e3x, e3y, e3z]
          first
          | (left; ring1)
          | (right; ring1))
        (by
          simp only [Vertex.sub, Vertex.crossProduct, e0x, e0y, e0z, e1x, e1y, e1z, e2x, e2y,
            e2z, e3x, e3y, e3z]
          ring1)
    | exact triangleArea_grid_z _ _ _ (by assumption) (by assumption) (by assumption) k h1 h2
        (by
          simp only [Vertex.sub, Vertex.crossProduct, e0x, e0y, e0z, e1x, e1y, e1z, e2x, e2y,
            e2z, e3x, e3y, e3z]
          ring1)
        (by
          simp only [Vertex.sub, Vertex.crossProduct, e0x, e0y, e0z, e1x, e1y, e1z, e2x, e2y,
            e2z, e3x, e3y, e3z]
          ring1)
        (by
          simp only [Vertex.sub, Vertex.crossProduct, e0x, e0y, e0z, e1x, e1y, e1z, e2x, e2y,
            e2z, e3x, e3y, e3z]
          first
          | (left; ring1)
          | (right; ring1))

theorem vertexAt_mem {F : Type} (m : Model F) (idx : Int) (a : Vertex F)
    (h : m.vertexAt idx = some a) : a ∈ m.vertices := by
  unfold Model.vertexAt at h
  obtain ⟨hlt, he⟩ := List.getElem?_eq_some_iff.mp h
  rw [← he]
  exact List.getElem_mem hlt

/-- The area loop on a face of a cube with integer corners adds `k^2`, `k` the side. -/
theorem cubeFace_areaTriangles_grid (m : Model F32) (hm : m.IsGrid 32) (o : ℚ × ℚ × ℚ)
    (k : ℕ) (h1 : 1 ≤ k) (h2 : k ≤ 64) (j : Fin 6) (face : Face)
    (h : IsCubeFace m.toRat o (k : ℚ) j face) (n : Nat) (hn : n < 6) :
    areaTriangles F32.sqrt m face (fanTrips face) 1 (F32.fin false (((n * k ^ 2 : Nat) : ℚ)))
      = some (F32.fin false ((((n + 1) * k ^ 2 : Nat) : ℚ))) := by
  obtain ⟨ps, hp, hc⟩ := h
  obtain ⟨q0, q1, q2, q3, rfl⟩ := cubeFace_listing_four _ _ j ps hc
  obtain ⟨c0, c1, c2, c3, v0, v1, v2, v3, hf, h0, h1', h2', h3, x0, x1, x2, x3⟩ :=
    facePositions_four hp
  rw [vertexAt_toRat, Option.map_eq_some'] at h0 h1' h2' h3
  obtain ⟨a0, m0, rfl⟩ := h0
  obtain ⟨a1, m1, rfl⟩ := h1'
  obtain ⟨a2, m2, rfl⟩ := h2'
  obtain ⟨a3, m3, rfl⟩ := h3
  rw [← x0, ← x1, ← x2, ← x3] at hc
  obtain ⟨t1, t2⟩ := cubeFace_area_grid o k h1 h2 a0 a1 a2 a3 (hm a0 (vertexAt_mem m _ a0 m0))
    (hm a1 (vertexAt_mem m _ a1 m1)) (hm a2 (vertexAt_mem m _ a2 m2))
    (hm a3 (vertexAt_mem m _ a3 m3)) j hc
  rw [quad_areaTriangles F32.sqrt m face c0 c1 c2 c3 a0 a1 a2 a3 hf m0 m1 m2 m3, t1, t2,
    F32.add_two_half_squares n k hn h1 h2]

theorem cube_areaFaces_grid (m : Model F32) (hm : m.IsGrid 32) (o : ℚ × ℚ × ℚ)
    (k : ℕ) (h1 : 1 ≤ k) (h2 : k ≤ 64) (faces : List Face) (order : List (Fin 6))
    (h : List.Forall₂ (fun face j => IsCubeFace m.toRat o (k : ℚ) j face) faces order)
    (n : Nat) (hn : n + faces.length ≤ 6) :
    areaFaces F32.sqrt m faces (F32.fin false (((n * k ^ 2 : Nat) : ℚ)))
      = some (F32.fin false ((((n + faces.length) * k ^ 2 : Nat) : ℚ))) := by
  induction h generalizing n with
  | nil => simp [areaFaces]
  | @cons face j faces order hface _ ih =>
    simp only [List.length_cons] at hn
    simp only [areaFaces, cubeFace_areaTriangles_grid m hm o k h1 h2 j face hface n (by omega),
      Option.bind_eq_bind, Option.some_bind, List.length_cons]
    rw [ih (n + 1) (by omega)]
    have e : n + 1 + faces.length = n + (faces.length + 1) := by omega
    rw [e]

/-- The side of a cube with integer corners of magnitude at most 32 is a natural number
between 1 and 64. -/
theorem cube_side_grid (m : Model F32) (hm : m.IsGrid 32) (o : ℚ × ℚ × ℚ) (s : ℚ)
    (hs : 0 < s) (hc : IsCubeMesh m.toRat o s) : ∃ k : ℕ, 1 ≤ k ∧ k ≤ 64 ∧ s = k := by
  obtain ⟨hperm, _⟩ := hc
  have hmem : ∀ q ∈ cubeCorners o s, ∃ v ∈ m.vertices, v.toRat.xyz = q := by
    intro q hq
    have := hperm.mem_iff.mpr hq
    simp only [Model.toRat, List.map_map, List.mem_map, Function.comp_apply] at this
    exact this
  obtain ⟨v0, hv0, e0⟩ := hmem (o.1, o.2.1, o.2.2) (by simp [cubeCorners])
  obtain ⟨v1, hv1, e1⟩ := hmem (o.1 + s, o.2.1, o.2.2) (by simp [cubeCorners])
  obtain ⟨x0, _, _⟩ := xyz_eq e0
  obtain ⟨x1, _, _⟩ := xyz_eq e1
  obtain ⟨d1, d2⟩ := F32.sub_int (hm v1 hv1).1 (hm v0 hv0).1 (by norm_num)
  have X : ∀ v : Vertex F32, v.toRat.x = v.x.toRat := fun _ => rfl
  rw [X] at x0 x1
  rw [x0, x1] at d2
  have d3 : (v1.x - v0.x).toRat = s := by rw [d2]; ring
  obtain ⟨sg, k, _, hk, hr⟩ := F32.nat_repr _ _ d1
  rw [d3] at hr
  cases sg
  · simp only [Bool.false_eq_true, if_false] at hr
    refine ⟨k, ?_, hk, hr⟩
    rcases Nat.eq_zero_or_pos k with h | h
    · rw [h, Nat.cast_zero] at hr; linarith
    · exact h
  · simp only [if_true] at hr
    have : (0 : ℚ) ≤ k := Nat.cast_nonneg k
    linarith

/-- For every cube mesh with integer corner coordinates of magnitude at most 32 the
computed surface area is exactly `6 * s^2`. -/
theorem calculateSurfaceArea_cube_grid (m : Model F32) (hm : m.IsGrid 32) (o : ℚ × ℚ × ℚ)
    (s : ℚ) (hs : 0 < s) (hc : IsCubeMesh m.toRat o s) :
    ∃ x, calculateSurfaceArea F32.sqrt m = some x ∧ x.IsFinite ∧ x.toRat = 6 * s ^ 2 := by
  obtain ⟨k, h1, h2, rfl⟩ := cube_side_grid m hm o s hs hc
  obtain ⟨_, order, hperm, hf⟩ := hc
  have hlen : m.faces.length = 6 := by
    have e : m.faces.length = order.length := hf.length_eq
    rw [e, hperm.length_eq]; rfl
  have h0 : (0 : F32) = F32.fin false (((0 * k ^ 2 : Nat) : ℚ)) := by
    rw [Nat.zero_mul, Nat.cast_zero]; rfl
  have hb : (0 + m.faces.length) * k ^ 2 ≤ 2 ^ 24 := by
    rw [hlen]
    have : k ^ 2 ≤ 64 ^ 2 := Nat.pow_le_pow_left h2 2
    omega
  refine ⟨F32.fin false ((((0 + m.faces.length) * k ^ 2 : Nat) : ℚ)), ?_, ?_, ?_⟩
  · unfold calculateSurfaceArea
    rw [h0]
    exact cube_areaFaces_grid m hm o k h1 h2 m.faces order hf 0 (by omega)
  · exact ⟨Nat.cast_nonneg _, F32.rnd_nat _ hb,
      lt_of_le_of_lt (by exact_mod_cast hb) F32.pow2_128_gt⟩
  · show ((((0 + m.faces.length) * k ^ 2 : Nat)) : ℚ) = _
    rw [hlen]
    push_cast
    ring

/-! ## Claim C9: the surface area of a cube in binary32 arithmetic -/

end FAConverter
